import Mathlib

/-!
# millipascal backend core: HIR checker, register allocator, MIR checker

A shallow embedding of `frontend/hirchecker`, `backend/regalloc` and
`backend/mirchecker`, with theorems about them.

Conventions of the embedding.

* Go pointers to operands and instructions are `Option`s (`none` is `nil`);
  dereferencing `nil`, indexing out of range and the explicit `panic` calls of
  the source are the `Except.error` results, tagged by `Panic`.
* Go `int`/`int64` values are `Int`; loop indices (`for i := range ...`) are `Nat`.
* Go maps are association lists without duplicate keys (`GoMap`).  The only
  place where the iteration order of a map can be observed is
  `state.FurthestUse`; it iterates in the order chosen by an explicit
  parameter `ord`, and the general theorems hold for every `ord`.
* Basic blocks live in a per-procedure arena (`Proc.Blocks`); a block pointer
  is an index into it.
* The value-type representation `τ` is a parameter: the HIR checker and the
  allocator only compare and copy types, the MIR checker also reads the
  procedure signature of a type (`Env.ProcOf`).
-/

set_option autoImplicit false

namespace Millipascal

/-! ## Data model -/

/-- The enumeration of `frontend/enums/Type/Type.go`. -/
inductive Ty where
  | Invalid | I8 | I16 | I32 | I64 | Bool | Ptr | MultiRet | Proc | Syscall
  deriving DecidableEq, Repr

/-- Modelled from the spec: the operand-class enumerations (`operandType`,
`HIRClass`, `MIRClass`) are not among the sources.  One enumeration unites
them, as the spec's data model describes: the abstract HIR classes
(temporary, local, global, literal) and the concrete MIR classes (register,
spill, local, caller-interproc, callee-interproc, immediate) plus the
`invalid` sentinel. -/
inductive Class where
  | Invalid | Temp | Local | Global | Lit | Register | Spill
  | CallerInterproc | CalleeInterproc
  deriving DecidableEq, Repr

/-- The opcodes named by the three packages (`instrType` is not among the
sources). -/
inductive InstrType where
  | Add | Sub | Div | Mult | Rem
  | Eq | Diff | Less | More | LessEq | MoreEq
  | Or | And | Not | UnaryMinus | UnaryPlus
  | Convert | Offset | LoadPtr | StorePtr | Store | Load | Copy | Call
  | LoadSpill | StoreSpill
  deriving DecidableEq, Repr

/-- The terminator kinds read by `checkJump` (`flowType` is not among the
sources); `Exit` stands for every kind that `checkJump` does not name. -/
inductive FlowType where
  | Jmp | If | Return | Exit
  deriving DecidableEq, Repr

/-- Formal argument types and formal return types of a procedure, as read
through `proc.Args` and `proc.Rets` at a call site. -/
structure Signature (τ : Type) where
  Args : List τ
  Rets : List τ
  deriving DecidableEq, Repr

/-- The part of `ir.Symbol` the checkers read: its type and, for a procedure
symbol, the procedure's signature (`Symbol.Proc`, `none` when `nil`). -/
structure Symbol (τ : Type) where
  Name : Nat
  type : τ
  Proc : Option (Signature τ)
  deriving DecidableEq, Repr

/-- An operand: class (`T` in `ast.Operand`, `HirC`/`Mirc` in `ir.Operand`),
number, value type and optional symbol. -/
structure Operand (τ : Type) where
  cls : Class
  Num : Int
  type : τ
  Symbol : Option (Symbol τ)
  deriving DecidableEq, Repr

/-- An instruction; the operand lists hold pointers, so entries may be `nil`.
A Go slice without elements is either `nil` or an allocated empty slice:
`emptyDest` tells, for a `Destination` without elements, that it is an empty
slice which is not `nil`; it is not read when `Destination` has elements. -/
structure Instr (τ : Type) where
  T : InstrType
  type : τ
  Operands : List (Option (Operand τ))
  Destination : List (Option (Operand τ))
  emptyDest : Bool := false
  deriving DecidableEq, Repr

/-- The test `instr.Destination == nil`. -/
def Instr.destIsNil {τ : Type} (instr : Instr τ) : Bool :=
  instr.Destination.isEmpty && !instr.emptyDest

/-- The terminator of a block (`bb.Out`): kind, successors and, in HIR, the
returned operands `V`. -/
structure Flow (τ : Type) where
  T : FlowType
  True : Option Nat
  False : Option Nat
  V : List (Option (Operand τ))
  deriving DecidableEq, Repr

/-- A basic block; `Checked` is the HIR checker's flag, `Visited` the MIR
checker's. -/
structure BasicBlock (τ : Type) where
  Label : Nat
  Code : List (Option (Instr τ))
  Out : Flow τ
  Checked : Bool
  Visited : Bool
  deriving DecidableEq, Repr

/-- A procedure: formal arguments, formal returns, the entry block `Code`
(an index into the arena `Blocks`) and the spill-region size. -/
structure Proc (τ : Type) where
  Name : Nat
  Args : List (Symbol τ)
  Rets : List τ
  Code : Option Nat
  Blocks : List (BasicBlock τ)
  SpillRegionSize : Int
  deriving DecidableEq, Repr

/-- The symbol kinds read by `Check` and `Allocate` (`symbolType` is not
among the sources); `Var` stands for every non-procedure kind. -/
inductive SymbolType where
  | Proc | Var
  deriving DecidableEq, Repr

/-- A global symbol of a module: its kind and its procedure pointer. -/
structure Global (τ : Type) where
  T : SymbolType
  Proc : Option (Proc τ)
  deriving DecidableEq, Repr

/-- A module: its global symbols, in the order `range M.Globals` visits them. -/
structure Module (τ : Type) where
  Globals : List (Global τ)
  deriving DecidableEq, Repr

/-- The ways the Go code aborts instead of returning. -/
inductive Panic where
  | nilDeref
  | indexOutOfRange
  | makesliceLenOutOfRange
  | freeingUnfoundValue
  | freeingUnusedRegister
  | freeingUnusedAddr
  | spillingUnusedRegister
  | somethingWentWrong
  | isNeededValueNotFound
  | sumthinWentWong
  | outOfFuel
  deriving DecidableEq, Repr

/-! ## Go slices and maps -/

/-- Read `l[i]` for a Go `int` index: `none` when out of range. -/
def idx? {α : Type} (l : List α) (i : Int) : Option α :=
  if i < 0 then none else l[i.toNat]?

/-- A Go map with `Int` keys: an association list without duplicate keys. -/
abbrev GoMap (β : Type) := List (Int × β)

namespace GoMap

variable {β : Type}

/-- The lookup `v, ok := m[k]`. -/
def get? : GoMap β → Int → Option β
  | [], _ => none
  | (k', v) :: m, k => if k' = k then some v else get? m k

/-- The assignment `m[k] = v`. -/
def set : GoMap β → Int → β → GoMap β
  | [], k, v => [(k, v)]
  | (k', v') :: m, k, v => if k' = k then (k, v) :: m else (k', v') :: set m k v

/-- The builtin `delete(m, k)`. -/
def delete : GoMap β → Int → GoMap β
  | [], _ => []
  | (k', v') :: m, k => if k' = k then delete m k else (k', v') :: delete m k

end GoMap

/-- Read `l[i]` and dereference the pointer found there. -/
def opAt {α : Type} (l : List (Option α)) (i : Nat) : Except Panic α :=
  match l[i]? with
  | none => .error .indexOutOfRange
  | some none => .error .nilDeref
  | some (some op) => .ok op

/-! ## Diagnostics and the missing predicate tables -/

/-- The diagnostics of the two checkers (`eu.NewInternalSemanticError`), by
message; the diagnostics of an instruction carry the instruction they render. -/
inductive CompilerError (τ : Type) where
  | malformedInstr (instr : Instr τ)
  | malformedEqualTypes (instr : Instr τ)
  | malformedTypeOrClass (instr : Instr τ)
  | invalidClass (instr : Instr τ)
  | errorLoadingGarbage (instr : Instr τ)
  | procNotFound (instr : Instr τ)
  | procInvalidNumOfArgs (instr : Instr τ)
  | procInvalidNumOfRets (instr : Instr τ)
  | procBadArg (instr : Instr τ)
  | procBadRet (instr : Instr τ)
  | nilInstr
  | invalidNumberOfReturns
  | invalidReturn
  | returnStackEmpty
  | returnTypeMismatch
  deriving DecidableEq, Repr

/-- What a checker function hands back: it aborts, or it returns `nil`
(`none`) or a diagnostic together with the state it leaves behind. -/
abbrev Checked (τ σ : Type) := Except Panic (Option (CompilerError τ) × σ)

/-- The predicates the checkers import from packages that are not among the
sources (`HIRClass`, `MIRClass`, the `Type` packages), taken as parameters:
the class predicates, the type predicates, and `ProcOf t`, the procedure
signature `t.Proc` of a MIR type (`none` when `nil`). -/
structure Env (τ : Type) where
  IsOperable : Class → Bool
  IsResult : Class → Bool
  IsImmediate : Class → Bool
  IsRegister : Class → Bool
  IsAddressable : Class → Bool
  IsAny : τ → Bool
  IsNumber : τ → Bool
  IsBool : τ → Bool
  IsNonPtr : τ → Bool
  IsPtr : τ → Bool
  IsBasic : τ → Bool
  IsBasicOrProc : τ → Bool
  ProcOf : τ → Option (Signature τ)

/-- A `Checker`: a class predicate and a type predicate. -/
structure Checker (τ : Type) where
  Class : Class → Bool
  type : τ → Bool

/-- `Checker.Check`. -/
def Checker.Check {τ : Type} (c : Checker τ) (op : Operand τ) : Bool :=
  c.type op.type && c.Class op.cls

/-- `Checker.Check` called on a pointer: a `nil` operand is dereferenced. -/
def Checker.CheckPtr {τ : Type} (c : Checker τ) : Option (Operand τ) → Except Panic Bool
  | none => .error .nilDeref
  | some op => .ok (c.Check op)

/-! ## The HIR checker (`frontend/hirchecker`) -/

namespace hirchecker

variable {τ : Type} [DecidableEq τ]

/-- The checker state: the current procedure (with its blocks and their
`Checked` flags) and the current block.  The module pointer `m` is never read. -/
structure state (τ : Type) where
  proc : Proc τ
  bb : Option Nat
  deriving DecidableEq, Repr

def any_oper (E : Env τ) : Checker τ := { Class := E.IsOperable, type := E.IsAny }
def any_res (E : Env τ) : Checker τ := { Class := E.IsResult, type := E.IsAny }
def num_oper (E : Env τ) : Checker τ := { Class := E.IsOperable, type := E.IsNumber }
def num_res (E : Env τ) : Checker τ := { Class := E.IsResult, type := E.IsNumber }
def bool_oper (E : Env τ) : Checker τ := { Class := E.IsOperable, type := E.IsBool }
def bool_res (E : Env τ) : Checker τ := { Class := E.IsResult, type := E.IsBool }
def nonPtr_oper (E : Env τ) : Checker τ := { Class := E.IsOperable, type := E.IsNonPtr }
def nonPtr_res (E : Env τ) : Checker τ := { Class := E.IsResult, type := E.IsNonPtr }
def ptr_oper (E : Env τ) : Checker τ := { Class := E.IsOperable, type := E.IsPtr }
def ptr_res (E : Env τ) : Checker τ := { Class := E.IsResult, type := E.IsPtr }

/-- `checkEqual`: every type of the list equals the first. -/
def checkEqual (instr : Instr τ) : List τ → Option (CompilerError τ)
  | [] => none
  | first :: rest => if rest.all (fun t => decide (first = t)) then none
                     else some (.malformedEqualTypes instr)

/-- `checkForm`: operand count, no `nil` operand, and a destination slice that
is not `nil`. -/
def checkForm (instr : Instr τ) (numOperands : Nat) (hasDest : Bool) :
    Option (CompilerError τ) :=
  if instr.Operands.length ≠ numOperands then some (.malformedInstr instr)
  else if instr.Operands.any (fun op => op.isNone) then some (.malformedInstr instr)
  else if hasDest ∧ instr.destIsNil = true then some (.malformedInstr instr)
  else none

/-- `checkBinary`: the three pointers are read first; `&&` evaluates
`checkB.Check(b)` only when `checkA.Check(a)` holds, and `checkC.Check(dest)`
only when both hold. -/
def checkBinary (instr : Instr τ) (checkA checkB checkC : Checker τ) :
    Except Panic (Option (CompilerError τ)) :=
  match instr.Operands[0]? with
  | none => .error .indexOutOfRange
  | some a =>
    match instr.Operands[1]? with
    | none => .error .indexOutOfRange
    | some b =>
      match instr.Destination[0]? with
      | none => .error .indexOutOfRange
      | some dest =>
        match checkA.CheckPtr a with
        | .error e => .error e
        | .ok false => .ok (some (.malformedTypeOrClass instr))
        | .ok true =>
          match checkB.CheckPtr b with
          | .error e => .error e
          | .ok false => .ok (some (.malformedTypeOrClass instr))
          | .ok true =>
            match checkC.CheckPtr dest with
            | .error e => .error e
            | .ok false => .ok (some (.malformedTypeOrClass instr))
            | .ok true => .ok none

/-- `checkUnary`: the two pointers are read first; `&&` evaluates
`checkC.Check(dest)` only when `checkA.Check(a)` holds. -/
def checkUnary (instr : Instr τ) (checkA checkC : Checker τ) :
    Except Panic (Option (CompilerError τ)) :=
  match instr.Operands[0]? with
  | none => .error .indexOutOfRange
  | some a =>
    match instr.Destination[0]? with
    | none => .error .indexOutOfRange
    | some dest =>
      match checkA.CheckPtr a with
      | .error e => .error e
      | .ok false => .ok (some (.malformedTypeOrClass instr))
      | .ok true =>
        match checkC.CheckPtr dest with
        | .error e => .error e
        | .ok false => .ok (some (.malformedTypeOrClass instr))
        | .ok true => .ok none

/-- The shape shared by `checkArith` and `checkLogical`: form `(2, true)`,
`T = a = b = dest`, then three predicates. -/
def checkBinaryAll (instr : Instr τ) (checkA checkB checkC : Checker τ) :
    Except Panic (Option (CompilerError τ)) :=
  match checkForm instr 2 true with
  | some err => .ok (some err)
  | none =>
    match opAt instr.Operands 0 with
    | .error e => .error e
    | .ok a =>
      match opAt instr.Operands 1 with
      | .error e => .error e
      | .ok b =>
        match opAt instr.Destination 0 with
        | .error e => .error e
        | .ok dest =>
          match checkEqual instr [instr.type, a.type, b.type, dest.type] with
          | some err => .ok (some err)
          | none => checkBinary instr checkA checkB checkC

/-- `checkArith`. -/
def checkArith (E : Env τ) (instr : Instr τ) : Except Panic (Option (CompilerError τ)) :=
  checkBinaryAll instr (num_oper E) (num_oper E) (num_res E)

/-- `checkLogical`. -/
def checkLogical (E : Env τ) (instr : Instr τ) : Except Panic (Option (CompilerError τ)) :=
  checkBinaryAll instr (bool_oper E) (bool_oper E) (bool_res E)

/-- `checkComp`: `T = a = b`, then `(any, any, bool-result)`. -/
def checkComp (E : Env τ) (instr : Instr τ) : Except Panic (Option (CompilerError τ)) :=
  match checkForm instr 2 true with
  | some err => .ok (some err)
  | none =>
    match opAt instr.Operands 0 with
    | .error e => .error e
    | .ok a =>
      match opAt instr.Operands 1 with
      | .error e => .error e
      | .ok b =>
        match checkEqual instr [instr.type, a.type, b.type] with
        | some err => .ok (some err)
        | none => checkBinary instr (any_oper E) (any_oper E) (bool_res E)

/-- The shape shared by `checkUnaryArith`, `checkNot`, `checkLoad` and
`checkStore`: form `(1, true)`, `T = a = dest`, then two predicates. -/
def checkUnaryAll (instr : Instr τ) (checkA checkC : Checker τ) :
    Except Panic (Option (CompilerError τ)) :=
  match checkForm instr 1 true with
  | some err => .ok (some err)
  | none =>
    match opAt instr.Operands 0 with
    | .error e => .error e
    | .ok a =>
      match opAt instr.Destination 0 with
      | .error e => .error e
      | .ok dest =>
        match checkEqual instr [instr.type, a.type, dest.type] with
        | some err => .ok (some err)
        | none => checkUnary instr checkA checkC

/-- `checkUnaryArith`. -/
def checkUnaryArith (E : Env τ) (instr : Instr τ) : Except Panic (Option (CompilerError τ)) :=
  checkUnaryAll instr (num_oper E) (num_res E)

/-- `checkNot`. -/
def checkNot (E : Env τ) (instr : Instr τ) : Except Panic (Option (CompilerError τ)) :=
  checkUnaryAll instr (bool_oper E) (bool_res E)

/-- `checkLoad`. -/
def checkLoad (E : Env τ) (instr : Instr τ) : Except Panic (Option (CompilerError τ)) :=
  checkUnaryAll instr (any_oper E) (any_res E)

/-- `checkStore`. -/
def checkStore (E : Env τ) (instr : Instr τ) : Except Panic (Option (CompilerError τ)) :=
  checkUnaryAll instr (any_oper E) (any_res E)

/-- The shape shared by `checkConvert` and `checkLoadPtr`: form `(1, true)`,
`T = dest`, then two predicates. -/
def checkUnaryDest (instr : Instr τ) (checkA checkC : Checker τ) :
    Except Panic (Option (CompilerError τ)) :=
  match checkForm instr 1 true with
  | some err => .ok (some err)
  | none =>
    match opAt instr.Destination 0 with
    | .error e => .error e
    | .ok dest =>
      match checkEqual instr [instr.type, dest.type] with
      | some err => .ok (some err)
      | none => checkUnary instr checkA checkC

/-- `checkConvert`. -/
def checkConvert (E : Env τ) (instr : Instr τ) : Except Panic (Option (CompilerError τ)) :=
  checkUnaryDest instr (nonPtr_oper E) (nonPtr_res E)

/-- `checkLoadPtr`. -/
def checkLoadPtr (E : Env τ) (instr : Instr τ) : Except Panic (Option (CompilerError τ)) :=
  checkUnaryDest instr (ptr_oper E) (any_res E)

/-- `checkOffset`: `T = b`, then `(ptr, num, ptr-result)`. -/
def checkOffset (E : Env τ) (instr : Instr τ) : Except Panic (Option (CompilerError τ)) :=
  match checkForm instr 2 true with
  | some err => .ok (some err)
  | none =>
    match opAt instr.Operands 1 with
    | .error e => .error e
    | .ok b =>
      match checkEqual instr [instr.type, b.type] with
      | some err => .ok (some err)
      | none => checkBinary instr (ptr_oper E) (num_oper E) (ptr_res E)

/-- `checkStorePtr`: `T = a`, then `(any, ptr-operable)`. -/
def checkStorePtr (E : Env τ) (instr : Instr τ) : Except Panic (Option (CompilerError τ)) :=
  match checkForm instr 1 true with
  | some err => .ok (some err)
  | none =>
    match opAt instr.Operands 0 with
    | .error e => .error e
    | .ok a =>
      match checkEqual instr [instr.type, a.type] with
      | some err => .ok (some err)
      | none => checkUnary instr (any_oper E) (ptr_oper E)

/-- The loop of `checkCall` over the formal arguments; the second list is
what remains of `realArgs`. -/
def checkCallArgs (instr : Instr τ) : List τ → List (Option (Operand τ)) →
    Except Panic (Option (CompilerError τ))
  | [], _ => .ok none
  | _ :: _, [] => .error .indexOutOfRange
  | _ :: _, none :: _ => .error .nilDeref
  | formal_arg :: formals, some real_arg :: reals =>
    if formal_arg ≠ real_arg.type then .ok (some (.procBadArg instr))
    else checkCallArgs instr formals reals

/-- The loop of `checkCall` over the formal returns; the second list is what
remains of `instr.Destination`. -/
def checkCallRets (instr : Instr τ) : List τ → List (Option (Operand τ)) →
    Except Panic (Option (CompilerError τ))
  | [], _ => .ok none
  | _ :: _, [] => .error .indexOutOfRange
  | _ :: _, none :: _ => .error .nilDeref
  | formal_ret :: formals, some real_ret :: reals =>
    if real_ret.type ≠ formal_ret then .ok (some (.procBadRet instr))
    else checkCallRets instr formals reals

/-- `checkCall`. -/
def checkCall (instr : Instr τ) : Except Panic (Option (CompilerError τ)) :=
  match instr.Operands with
  | [] => .ok (some (.malformedInstr instr))
  | none :: _ => .error .nilDeref
  | some procOp :: realArgs =>
    match procOp.Symbol with
    | none => .ok (some (.procNotFound instr))
    | some sy =>
      match sy.Proc with
      | none => .error .nilDeref
      | some proc =>
        if realArgs.length ≠ proc.Args.length then .ok (some (.procInvalidNumOfArgs instr))
        else if instr.Destination.length ≠ proc.Rets.length then
          .ok (some (.procInvalidNumOfRets instr))
        else
          match checkCallArgs instr proc.Args realArgs with
          | .error e => .error e
          | .ok (some err) => .ok (some err)
          | .ok none => checkCallRets instr proc.Rets instr.Destination

/-- `checkInstr`; the `nil` instruction is dereferenced by `instr.T`, and the
opcodes outside the `switch` reach its final `panic`. -/
def checkInstr (E : Env τ) : Option (Instr τ) → Except Panic (Option (CompilerError τ))
  | none => .error .nilDeref
  | some instr =>
    match instr.T with
    | .Add | .Sub | .Div | .Mult | .Rem => checkArith E instr
    | .Eq | .Diff | .Less | .More | .LessEq | .MoreEq => checkComp E instr
    | .Or | .And => checkLogical E instr
    | .Not => checkNot E instr
    | .UnaryMinus | .UnaryPlus => checkUnaryArith E instr
    | .Convert => checkConvert E instr
    | .Offset => checkOffset E instr
    | .LoadPtr => checkLoadPtr E instr
    | .StorePtr => checkStorePtr E instr
    | .Store => checkStore E instr
    | .Load => checkLoad E instr
    | .Call => checkCall instr
    | .Copy | .LoadSpill | .StoreSpill => .error .sumthinWentWong

/-- The loop of `checkRet` over the formal returns; the second list is what
remains of `rets`. -/
def checkRetLoop : List τ → List (Option (Operand τ)) → Except Panic (Option (CompilerError τ))
  | [], _ => .ok none
  | _ :: _, [] => .error .indexOutOfRange
  | _ :: _, none :: _ => .error .nilDeref
  | wanted_ret :: wanted, some curr_ret :: rets =>
    if wanted_ret ≠ curr_ret.type then .ok (some .invalidReturn)
    else checkRetLoop wanted rets

/-- `checkRet`. -/
def checkRet (s : state τ) (rets : List (Option (Operand τ))) :
    Except Panic (Option (CompilerError τ)) :=
  if s.proc.Rets.length ≠ rets.length then .ok (some .invalidNumberOfReturns)
  else checkRetLoop s.proc.Rets rets

/-- The loop of `checkCode` over the instructions of a block. -/
def checkInstrs (E : Env τ) : List (Option (Instr τ)) → Except Panic (Option (CompilerError τ))
  | [] => .ok none
  | instr :: rest =>
    match checkInstr E instr with
    | .error e => .error e
    | .ok (some err) => .ok (some err)
    | .ok none => checkInstrs E rest

/-- The assignment `bb.Checked = true` on block `b` of the procedure. -/
def setChecked (p : Proc τ) (b : Nat) : Proc τ :=
  match p.Blocks[b]? with
  | none => p
  | some blk => { p with Blocks := p.Blocks.set b { blk with Checked := true } }

/-- `checkJump`, with the recursive calls to `checkCode` passed in as `code`. -/
def checkJump (code : state τ → Option Nat → Checked τ (state τ)) (s : state τ) :
    Checked τ (state τ) :=
  match s.bb with
  | none => .error .nilDeref
  | some b =>
    match s.proc.Blocks[b]? with
    | none => .error .nilDeref
    | some bb =>
      match bb.Out.T with
      | .Jmp => code s bb.Out.True
      | .If =>
        match code s bb.Out.True with
        | .error e => .error e
        | .ok (some err, s1) => .ok (some err, s1)
        | .ok (none, s1) => code s1 bb.Out.False
      | .Return =>
        match checkRet s bb.Out.V with
        | .error e => .error e
        | .ok r => .ok (r, s)
      | .Exit => .ok (none, s)

/-- `checkCode`; the recursion through `checkJump` is bounded by `fuel`, and
`Panic.outOfFuel` reports an exhausted bound. -/
def checkCode (E : Env τ) : Nat → state τ → Option Nat → Checked τ (state τ)
  | 0, _, _ => .error .outOfFuel
  | fuel + 1, s, bbPtr =>
    match bbPtr with
    | none => .error .nilDeref
    | some b =>
      match s.proc.Blocks[b]? with
      | none => .error .nilDeref
      | some bb =>
        if bb.Checked then .ok (none, s)
        else
          let s1 : state τ := { s with bb := some b }
          match checkInstrs E bb.Code with
          | .error e => .error e
          | .ok (some err) => .ok (some err, s1)
          | .ok none =>
            checkJump (checkCode E fuel) { s1 with proc := setChecked s1.proc b }

/-- The loop of `Check` over the globals: `done` are the globals already
visited (in reverse), with the flags their check left behind.  Returns the
verdict and the module as the check leaves it. -/
def CheckLoop (E : Env τ) : List (Global τ) → List (Global τ) →
    Checked τ (Module τ)
  | [], done => .ok (none, { Globals := done.reverse })
  | sy :: rest, done =>
    if sy.T = .Proc then
      match sy.Proc with
      | none => .error .nilDeref
      | some p =>
        match checkCode E (p.Blocks.length + 1) { proc := p, bb := none } p.Code with
        | .error e => .error e
        | .ok (some err, s) =>
          .ok (some err, { Globals := done.reverse ++ { sy with Proc := some s.proc } :: rest })
        | .ok (none, s) => CheckLoop E rest ({ sy with Proc := some s.proc } :: done)
    else CheckLoop E rest (sy :: done)

/-- `Check`: the verdict, and the module with the `Checked` flags the run
left on its blocks. -/
def Check (E : Env τ) (M : Module τ) : Checked τ (Module τ) :=
  CheckLoop E M.Globals []

end hirchecker

/-! ## The MIR checker (`backend/mirchecker`) -/

namespace mirchecker

variable {τ : Type} [DecidableEq τ]

/-- A `region`: a slice of operand pointers. -/
abbrev region (τ : Type) := List (Option (Operand τ))

/-- `newRegion(size)`: `make(region, size)`. -/
def newRegion (size : Int) : Except Panic (region τ) :=
  if size < 0 then .error .makesliceLenOutOfRange
  else .ok (List.replicate size.toNat none)

/-- `region.Store`: when `i` is past the end, append
`newRegion(i - (len+1))`; then assign `r[i]`. -/
def region.Store (r : region τ) (i : Int) (op : Option (Operand τ)) :
    Except Panic (region τ) :=
  let grown : Except Panic (region τ) :=
    if (r.length : Int) ≤ i then
      match newRegion (i - ((r.length : Int) + 1)) with
      | .error e => .error e
      | .ok ext => .ok (r ++ ext)
    else .ok r
  match grown with
  | .error e => .error e
  | .ok r1 =>
    if i < 0 ∨ (r1.length : Int) ≤ i then .error .indexOutOfRange
    else .ok (r1.set i.toNat op)

/-- `region.Load`. -/
def region.Load (r : region τ) (i : Int) : Except Panic (Option (Operand τ)) :=
  if (r.length : Int) ≤ i then .ok none
  else if i < 0 then .error .indexOutOfRange
  else .ok (r.getD i.toNat none)

/-- `region.Clear`. -/
def region.Clear (r : region τ) (i : Int) : Except Panic (region τ) :=
  if (r.length : Int) ≤ i then .ok r
  else if i < 0 then .error .indexOutOfRange
  else .ok (r.set i.toNat none)

/-- The checker state: current procedure (`nil` until `Check` sets it),
current block, and the three regions.  The module pointer `m` is never read. -/
structure state (τ : Type) where
  proc : Option (Proc τ)
  bb : Option Nat
  CalleeInterproc : region τ
  CallerInterproc : region τ
  Spill : region τ
  deriving DecidableEq, Repr

/-- `newState`: three regions of eight empty slots. -/
def newState : state τ :=
  { proc := none, bb := none,
    CalleeInterproc := List.replicate 8 none,
    CallerInterproc := List.replicate 8 none,
    Spill := List.replicate 8 none }

/-- `newCallerOperand`. -/
def newCallerOperand (arg : Symbol τ) (i : Int) : Operand τ :=
  { cls := .CallerInterproc, Num := i, Symbol := some arg, type := arg.type }

/-- `newLocalOperand`; the `nil` symbol is dereferenced by `arg.Type`. -/
def newLocalOperand (arg : Option (Symbol τ)) : Except Panic (Operand τ) :=
  match arg with
  | none => .error .nilDeref
  | some sy => .ok { cls := .Local, Num := -1, Symbol := some sy, type := sy.type }

/-- The loop of `InitArgs` over `s.proc.Args`; `i` is the index of the head. -/
def InitArgsLoop : List (Symbol τ) → Nat → region τ → Except Panic (region τ)
  | [], _, r => .ok r
  | arg :: rest, i, r =>
    match r.Store (i : Int) (some (newCallerOperand arg (i : Int))) with
    | .error e => .error e
    | .ok r1 => InitArgsLoop rest (i + 1) r1

/-- `state.InitArgs`. -/
def state.InitArgs (s : state τ) : Except Panic (state τ) :=
  match s.proc with
  | none => .error .nilDeref
  | some p =>
    match InitArgsLoop p.Args 0 s.CallerInterproc with
    | .error e => .error e
    | .ok r => .ok { s with CallerInterproc := r }

/-- Modelled from the spec: `Proc.ResetVisited` is not among the sources; the
`visited` flag of the procedure's blocks is reset at the start of a traversal. -/
def ResetVisited (p : Proc τ) : Proc τ :=
  { p with Blocks := p.Blocks.map (fun bb => { bb with Visited := false }) }

/-- The loop of `checkRet` over `s.proc.Rets`; `i` is the index of the head. -/
def checkRetLoop : List τ → Nat → state τ → Checked τ (state τ)
  | [], _, s => .ok (none, s)
  | ret :: rest, i, s =>
    match s.CallerInterproc.Load (i : Int) with
    | .error e => .error e
    | .ok none => .ok (some .returnStackEmpty, s)
    | .ok (some op) =>
      if ret ≠ op.type then .ok (some .returnTypeMismatch, s)
      else
        match s.CallerInterproc.Clear (i : Int) with
        | .error e => .error e
        | .ok r => checkRetLoop rest (i + 1) { s with CallerInterproc := r }

/-- `checkRet`. -/
def checkRet (s : state τ) : Checked τ (state τ) :=
  match s.proc with
  | none => .error .nilDeref
  | some p => checkRetLoop p.Rets 0 s

def basicOrProc_imme (E : Env τ) : Checker τ := { Class := E.IsImmediate, type := E.IsBasicOrProc }
def basicOrProc_reg (E : Env τ) : Checker τ := { Class := E.IsRegister, type := E.IsBasicOrProc }
def basicOrProc_addr (E : Env τ) : Checker τ := { Class := E.IsAddressable, type := E.IsBasicOrProc }
def basic_imme (E : Env τ) : Checker τ := { Class := E.IsImmediate, type := E.IsBasic }
def basic_reg (E : Env τ) : Checker τ := { Class := E.IsRegister, type := E.IsBasic }
def basic_addr (E : Env τ) : Checker τ := { Class := E.IsAddressable, type := E.IsBasic }
def num_imme (E : Env τ) : Checker τ := { Class := E.IsImmediate, type := E.IsNumber }
def num_reg (E : Env τ) : Checker τ := { Class := E.IsRegister, type := E.IsNumber }
def bool_imme (E : Env τ) : Checker τ := { Class := E.IsImmediate, type := E.IsBool }
def bool_reg (E : Env τ) : Checker τ := { Class := E.IsRegister, type := E.IsBool }
def ptr_imme (E : Env τ) : Checker τ := { Class := E.IsImmediate, type := E.IsPtr }
def ptr_reg (E : Env τ) : Checker τ := { Class := E.IsRegister, type := E.IsPtr }

/-- Modelled from the spec: `Type.Equals` of the MIR checker's type package
is not among the sources; the spec reads it as type equality.
`checkEqual`: every type of the list equals the first. -/
def checkEqual (instr : Instr τ) : List τ → Option (CompilerError τ)
  | [] => none
  | first :: rest => if rest.all (fun t => decide (first = t)) then none
                     else some (.malformedEqualTypes instr)

/-- `checkForm`: both counts, and no `nil` operand or destination. -/
def checkForm (instr : Instr τ) (numOperands numDest : Nat) : Option (CompilerError τ) :=
  if instr.Operands.length ≠ numOperands ∨ instr.Destination.length ≠ numDest then
    some (.malformedInstr instr)
  else if instr.Operands.any (fun op => op.isNone) then some (.malformedInstr instr)
  else if instr.Destination.any (fun op => op.isNone) then some (.malformedInstr instr)
  else none

/-- One loop of `checkInvalidClass`; each operand is dereferenced. -/
def anyInvalidClass : List (Option (Operand τ)) → Except Panic Bool
  | [] => .ok false
  | none :: _ => .error .nilDeref
  | some op :: rest => if op.cls = .Invalid then .ok true else anyInvalidClass rest

/-- `checkInvalidClass`. -/
def checkInvalidClass (instr : Instr τ) : Except Panic (Option (CompilerError τ)) :=
  match anyInvalidClass instr.Operands with
  | .error e => .error e
  | .ok true => .ok (some (.invalidClass instr))
  | .ok false =>
    match anyInvalidClass instr.Destination with
    | .error e => .error e
    | .ok true => .ok (some (.invalidClass instr))
    | .ok false => .ok none

/-- `checkBinary`: the three pointers are read first; `&&` evaluates
`checkB.Check(b)` only when `checkA.Check(a)` holds, and `checkC.Check(dest)`
only when both hold. -/
def checkBinary (instr : Instr τ) (checkA checkB checkC : Checker τ) :
    Except Panic (Option (CompilerError τ)) :=
  match instr.Operands[0]? with
  | none => .error .indexOutOfRange
  | some a =>
    match instr.Operands[1]? with
    | none => .error .indexOutOfRange
    | some b =>
      match instr.Destination[0]? with
      | none => .error .indexOutOfRange
      | some dest =>
        match checkA.CheckPtr a with
        | .error e => .error e
        | .ok false => .ok (some (.malformedTypeOrClass instr))
        | .ok true =>
          match checkB.CheckPtr b with
          | .error e => .error e
          | .ok false => .ok (some (.malformedTypeOrClass instr))
          | .ok true =>
            match checkC.CheckPtr dest with
            | .error e => .error e
            | .ok false => .ok (some (.malformedTypeOrClass instr))
            | .ok true => .ok none

/-- `checkUnary`: the two pointers are read first; `&&` evaluates
`checkC.Check(dest)` only when `checkA.Check(a)` holds. -/
def checkUnary (instr : Instr τ) (checkA checkC : Checker τ) :
    Except Panic (Option (CompilerError τ)) :=
  match instr.Operands[0]? with
  | none => .error .indexOutOfRange
  | some a =>
    match instr.Destination[0]? with
    | none => .error .indexOutOfRange
    | some dest =>
      match checkA.CheckPtr a with
      | .error e => .error e
      | .ok false => .ok (some (.malformedTypeOrClass instr))
      | .ok true =>
        match checkC.CheckPtr dest with
        | .error e => .error e
        | .ok false => .ok (some (.malformedTypeOrClass instr))
        | .ok true => .ok none

/-- The shape shared by `checkArith` and `checkLogical`: form `(2, 1)`,
`T = a = b = dest`, then three predicates. -/
def checkBinaryAll (instr : Instr τ) (checkA checkB checkC : Checker τ) :
    Except Panic (Option (CompilerError τ)) :=
  match checkForm instr 2 1 with
  | some err => .ok (some err)
  | none =>
    match opAt instr.Operands 0 with
    | .error e => .error e
    | .ok a =>
      match opAt instr.Operands 1 with
      | .error e => .error e
      | .ok b =>
        match opAt instr.Destination 0 with
        | .error e => .error e
        | .ok dest =>
          match checkEqual instr [instr.type, a.type, b.type, dest.type] with
          | some err => .ok (some err)
          | none => checkBinary instr checkA checkB checkC

/-- `checkArith`. -/
def checkArith (E : Env τ) (instr : Instr τ) : Except Panic (Option (CompilerError τ)) :=
  checkBinaryAll instr (num_imme E) (num_imme E) (num_reg E)

/-- `checkLogical`. -/
def checkLogical (E : Env τ) (instr : Instr τ) : Except Panic (Option (CompilerError τ)) :=
  checkBinaryAll instr (bool_imme E) (bool_imme E) (bool_reg E)

/-- `checkComp`. -/
def checkComp (E : Env τ) (instr : Instr τ) : Except Panic (Option (CompilerError τ)) :=
  match checkForm instr 2 1 with
  | some err => .ok (some err)
  | none =>
    match opAt instr.Operands 0 with
    | .error e => .error e
    | .ok a =>
      match opAt instr.Operands 1 with
      | .error e => .error e
      | .ok b =>
        match checkEqual instr [instr.type, a.type, b.type] with
        | some err => .ok (some err)
        | none => checkBinary instr (basic_imme E) (basic_imme E) (bool_reg E)

/-- The shape shared by `checkUnaryArith`, `checkNot`, `checkCopy` and the
first part of `checkLoad` and `checkStore`: form `(1, 1)`, `T = a = dest`,
then two predicates. -/
def checkUnaryAll (instr : Instr τ) (checkA checkC : Checker τ) :
    Except Panic (Option (CompilerError τ)) :=
  match checkForm instr 1 1 with
  | some err => .ok (some err)
  | none =>
    match opAt instr.Operands 0 with
    | .error e => .error e
    | .ok a =>
      match opAt instr.Destination 0 with
      | .error e => .error e
      | .ok dest =>
        match checkEqual instr [instr.type, a.type, dest.type] with
        | some err => .ok (some err)
        | none => checkUnary instr checkA checkC

/-- `checkUnaryArith`. -/
def checkUnaryArith (E : Env τ) (instr : Instr τ) : Except Panic (Option (CompilerError τ)) :=
  checkUnaryAll instr (num_imme E) (num_reg E)

/-- `checkNot`. -/
def checkNot (E : Env τ) (instr : Instr τ) : Except Panic (Option (CompilerError τ)) :=
  checkUnaryAll instr (bool_imme E) (bool_reg E)

/-- `checkCopy`. -/
def checkCopy (E : Env τ) (instr : Instr τ) : Except Panic (Option (CompilerError τ)) :=
  checkUnaryAll instr (basicOrProc_imme E) (basicOrProc_reg E)

/-- The shape shared by `checkConvert` and `checkLoadPtr`: form `(1, 1)`,
`T = dest`, then two predicates. -/
def checkUnaryDest (instr : Instr τ) (checkA checkC : Checker τ) :
    Except Panic (Option (CompilerError τ)) :=
  match checkForm instr 1 1 with
  | some err => .ok (some err)
  | none =>
    match opAt instr.Destination 0 with
    | .error e => .error e
    | .ok dest =>
      match checkEqual instr [instr.type, dest.type] with
      | some err => .ok (some err)
      | none => checkUnary instr checkA checkC

/-- `checkConvert`. -/
def checkConvert (E : Env τ) (instr : Instr τ) : Except Panic (Option (CompilerError τ)) :=
  checkUnaryDest instr (basic_imme E) (basic_reg E)

/-- `checkLoadPtr`. -/
def checkLoadPtr (E : Env τ) (instr : Instr τ) : Except Panic (Option (CompilerError τ)) :=
  checkUnaryDest instr (ptr_imme E) (basicOrProc_reg E)

/-- `checkStorePtr`: form `(2, 0)`, `T = a`, then the two predicates on the
two operands. -/
def checkStorePtr (E : Env τ) (instr : Instr τ) : Except Panic (Option (CompilerError τ)) :=
  match checkForm instr 2 0 with
  | some err => .ok (some err)
  | none =>
    match opAt instr.Operands 0 with
    | .error e => .error e
    | .ok a =>
      match opAt instr.Operands 1 with
      | .error e => .error e
      | .ok dest =>
        match checkEqual instr [instr.type, a.type] with
        | some err => .ok (some err)
        | none =>
          if (basicOrProc_reg E).Check a && (ptr_imme E).Check dest then .ok none
          else .ok (some (.malformedTypeOrClass instr))

/-- `checkLoadState`. -/
def checkLoadState (s : state τ) (instr : Instr τ) : Except Panic (Option (CompilerError τ)) :=
  match opAt instr.Operands 0 with
  | .error e => .error e
  | .ok loadOp =>
    match opAt instr.Destination 0 with
    | .error e => .error e
    | .ok dest =>
      let source : Except Panic (Option (Operand τ)) :=
        match loadOp.cls with
        | .Spill => s.Spill.Load loadOp.Num
        | .CalleeInterproc => s.CalleeInterproc.Load loadOp.Num
        | .CallerInterproc => s.CallerInterproc.Load loadOp.Num
        | .Local =>
          match newLocalOperand loadOp.Symbol with
          | .error e => .error e
          | .ok op => .ok (some op)
        | _ => .ok none
      match source with
      | .error e => .error e
      | .ok none => .ok (some (.errorLoadingGarbage instr))
      | .ok (some src) => .ok (checkEqual instr [dest.type, src.type])

/-- `checkStoreState`. -/
def checkStoreState (s : state τ) (instr : Instr τ) : Checked τ (state τ) :=
  match opAt instr.Operands 0 with
  | .error e => .error e
  | .ok source =>
    match opAt instr.Destination 0 with
    | .error e => .error e
    | .ok dest =>
      match dest.cls with
      | .Spill =>
        match s.Spill.Store dest.Num (some source) with
        | .error e => .error e
        | .ok r => .ok (none, { s with Spill := r })
      | .CalleeInterproc =>
        match s.CalleeInterproc.Store dest.Num (some source) with
        | .error e => .error e
        | .ok r => .ok (none, { s with CalleeInterproc := r })
      | .CallerInterproc =>
        match s.CallerInterproc.Store dest.Num (some source) with
        | .error e => .error e
        | .ok r => .ok (none, { s with CallerInterproc := r })
      | _ => .ok (none, s)

/-- `checkLoad`. -/
def checkLoad (E : Env τ) (s : state τ) (instr : Instr τ) :
    Except Panic (Option (CompilerError τ)) :=
  match checkUnaryAll instr (basicOrProc_addr E) (basicOrProc_reg E) with
  | .error e => .error e
  | .ok (some err) => .ok (some err)
  | .ok none => checkLoadState s instr

/-- `checkStore`. -/
def checkStore (E : Env τ) (s : state τ) (instr : Instr τ) : Checked τ (state τ) :=
  match checkUnaryAll instr (basicOrProc_imme E) (basicOrProc_addr E) with
  | .error e => .error e
  | .ok (some err) => .ok (some err, s)
  | .ok none => checkStoreState s instr

/-- The first loop of `checkCall`, over the callee's formal arguments; `i` is
the index of the head. -/
def checkCallArgs (instr : Instr τ) : List τ → Nat → state τ → Checked τ (state τ)
  | [], _, s => .ok (none, s)
  | formal_arg :: rest, i, s =>
    match s.CalleeInterproc.Load (i : Int) with
    | .error e => .error e
    | .ok none => .ok (some (.errorLoadingGarbage instr), s)
    | .ok (some real_arg) =>
      if formal_arg ≠ real_arg.type then .ok (some (.procBadArg instr), s)
      else
        match s.CalleeInterproc.Clear (i : Int) with
        | .error e => .error e
        | .ok r => checkCallArgs instr rest (i + 1) { s with CalleeInterproc := r }

/-- The second loop of `checkCall`, over the callee's formal returns. -/
def checkCallRets : List τ → Nat → state τ → Except Panic (state τ)
  | [], _, s => .ok s
  | formal_ret :: rest, i, s =>
    let op : Operand τ :=
      { cls := .CallerInterproc, Num := (i : Int), type := formal_ret, Symbol := none }
    match s.CalleeInterproc.Store (i : Int) (some op) with
    | .error e => .error e
    | .ok r => checkCallRets rest (i + 1) { s with CalleeInterproc := r }

/-- `checkCall`; the callee is `procOp.Type.Proc`. -/
def checkCall (E : Env τ) (s : state τ) (instr : Instr τ) : Checked τ (state τ) :=
  match checkForm instr 1 0 with
  | some err => .ok (some err, s)
  | none =>
    match opAt instr.Operands 0 with
    | .error e => .error e
    | .ok procOp =>
      match procOp.Symbol with
      | none => .ok (some (.procNotFound instr), s)
      | some _ =>
        match E.ProcOf procOp.type with
        | none => .error .nilDeref
        | some proc =>
          match checkCallArgs instr proc.Args 0 s with
          | .error e => .error e
          | .ok (some err, s1) => .ok (some err, s1)
          | .ok (none, s1) =>
            match checkCallRets proc.Rets 0 s1 with
            | .error e => .error e
            | .ok s2 => .ok (none, s2)

/-- Lift a check that leaves the state alone. -/
def pureCheck (s : state τ) (r : Except Panic (Option (CompilerError τ))) :
    Checked τ (state τ) :=
  match r with
  | .error e => .error e
  | .ok v => .ok (v, s)

/-- `checkInstr`; for a `nil` instruction `nilInstr` reads `s.proc.Name` and
`s.bb.Label`, so it aborts when `s.proc` or `s.bb` is `nil`; the opcodes
outside the `switch` reach its final `panic`. -/
def checkInstr (E : Env τ) (s : state τ) : Option (Instr τ) → Checked τ (state τ)
  | none =>
    match s.proc, s.bb with
    | some _, some _ => .ok (some .nilInstr, s)
    | _, _ => .error .nilDeref
  | some instr =>
    match checkInvalidClass instr with
    | .error e => .error e
    | .ok (some err) => .ok (some err, s)
    | .ok none =>
      match instr.T with
      | .Add | .Sub | .Div | .Mult | .Rem => pureCheck s (checkArith E instr)
      | .Eq | .Diff | .Less | .More | .LessEq | .MoreEq => pureCheck s (checkComp E instr)
      | .Or | .And => pureCheck s (checkLogical E instr)
      | .Not => pureCheck s (checkNot E instr)
      | .UnaryMinus | .UnaryPlus => pureCheck s (checkUnaryArith E instr)
      | .Convert => pureCheck s (checkConvert E instr)
      | .LoadPtr => pureCheck s (checkLoadPtr E instr)
      | .StorePtr => pureCheck s (checkStorePtr E instr)
      | .Store => checkStore E s instr
      | .Load => pureCheck s (checkLoad E s instr)
      | .Copy => pureCheck s (checkCopy E instr)
      | .Call => checkCall E s instr
      | .Offset | .LoadSpill | .StoreSpill => .error .sumthinWentWong

/-- The loop of `checkCode` over the instructions of a block. -/
def checkInstrs (E : Env τ) : List (Option (Instr τ)) → state τ → Checked τ (state τ)
  | [], s => .ok (none, s)
  | instr :: rest, s =>
    match checkInstr E s instr with
    | .error e => .error e
    | .ok (some err, s1) => .ok (some err, s1)
    | .ok (none, s1) => checkInstrs E rest s1

/-- The assignment `bb.Visited = true` on block `b` of the procedure. -/
def setVisited (p : Proc τ) (b : Nat) : Proc τ :=
  match p.Blocks[b]? with
  | none => p
  | some blk => { p with Blocks := p.Blocks.set b { blk with Visited := true } }

/-- `checkJump`, with the recursive calls to `checkCode` passed in as `code`. -/
def checkJump (code : state τ → Option Nat → Checked τ (state τ)) (s : state τ) :
    Checked τ (state τ) :=
  match s.proc, s.bb with
  | some p, some b =>
    match p.Blocks[b]? with
    | none => .error .nilDeref
    | some bb =>
      match bb.Out.T with
      | .Jmp => code s bb.Out.True
      | .If =>
        match code s bb.Out.True with
        | .error e => .error e
        | .ok (some err, s1) => .ok (some err, s1)
        | .ok (none, s1) => code s1 bb.Out.False
      | .Return => checkRet s
      | .Exit => .ok (none, s)
  | _, _ => .error .nilDeref

/-- `checkCode`; the recursion through `checkJump` is bounded by `fuel`, and
`Panic.outOfFuel` reports an exhausted bound. -/
def checkCode (E : Env τ) : Nat → state τ → Option Nat → Checked τ (state τ)
  | 0, _, _ => .error .outOfFuel
  | fuel + 1, s, bbPtr =>
    match s.proc, bbPtr with
    | some p, some b =>
      match p.Blocks[b]? with
      | none => .error .nilDeref
      | some bb =>
        if bb.Visited then .ok (none, s)
        else
          match checkInstrs E bb.Code { s with bb := some b } with
          | .error e => .error e
          | .ok (some err, s1) => .ok (some err, s1)
          | .ok (none, s1) =>
            checkJump (checkCode E fuel) { s1 with proc := s1.proc.map (fun q => setVisited q b) }
    | _, _ => .error .nilDeref

/-- The loop of `Check` over the globals, carrying the one checker state;
`done` are the globals already visited (in reverse). -/
def CheckLoop (E : Env τ) : List (Global τ) → List (Global τ) → state τ →
    Checked τ (Module τ × state τ)
  | [], done, s => .ok (none, { Globals := done.reverse }, s)
  | sy :: rest, done, s =>
    if sy.T = .Proc then
      match sy.Proc with
      | none => .error .nilDeref
      | some p =>
        match ({ s with proc := some (ResetVisited p) } : state τ).InitArgs with
        | .error e => .error e
        | .ok s1 =>
          match checkCode E (p.Blocks.length + 1) s1 p.Code with
          | .error e => .error e
          | .ok (some err, s2) =>
            .ok (some err, { Globals := done.reverse ++ { sy with Proc := s2.proc } :: rest }, s2)
          | .ok (none, s2) => CheckLoop E rest ({ sy with Proc := s2.proc } :: done) s2
    else CheckLoop E rest (sy :: done) s

/-- `Check`: the verdict, with the module and the checker state the run
leaves behind. -/
def Check (E : Env τ) (M : Module τ) : Checked τ (Module τ × state τ) :=
  CheckLoop E M.Globals [] newState

end mirchecker

/-! ## The register allocator (`backend/regalloc`) -/

namespace regalloc

/-- The free-list `stack`: a slice and the index of its top element. -/
structure stack where
  items : List Int
  top : Int
  deriving DecidableEq, Repr

/-- `newStack(size)`: items `size-1, ..., 0`, top `size-1`. -/
def newStack (size : Int) : Except Panic stack :=
  if size < 0 then .error .makesliceLenOutOfRange
  else .ok { items := (List.range size.toNat).map (fun (i : Nat) => size - (i : Int) - 1),
             top := size - 1 }

/-- `stack.HasItems`. -/
def stack.HasItems (s : stack) : Bool := decide (0 ≤ s.top)

/-- `stack.Push`: bump `top`, grow the slice by two when full, store. -/
def stack.Push (s : stack) (i : Int) : Except Panic stack :=
  let top := s.top + 1
  let items := if (s.items.length : Int) ≤ top then s.items ++ [0, 0] else s.items
  if top < 0 ∨ (items.length : Int) ≤ top then .error .indexOutOfRange
  else .ok { items := items.set top.toNat i, top := top }

/-- `stack.Pop`: on an empty stack return `items[0]` and leave `top` alone. -/
def stack.Pop (s : stack) : Except Panic (Int × stack) :=
  if s.top < 0 then
    match s.items[0]? with
    | none => .error .indexOutOfRange
    | some item => .ok (item, s)
  else
    match idx? s.items s.top with
    | none => .error .indexOutOfRange
    | some item => .ok (item, { s with top := s.top - 1 })

/-- `stack.Size`: returns `top`. -/
def stack.Size (s : stack) : Int := s.top

/-- Where a live value resides and the cached index of its next use. -/
structure useInfo where
  IsReg : Bool
  Num : Int
  NextUse : Int
  deriving DecidableEq, Repr

/-- A spill or reload instruction waiting to be spliced in after position
`index`. -/
structure deferredInstr (τ : Type) where
  index : Int
  instr : Instr τ
  deriving DecidableEq, Repr

/-- The allocator state of one block. -/
structure state (τ : Type) where
  AvailableRegs : stack
  UsedRegs : GoMap Int
  AvailableAddr : stack
  UsedAddr : GoMap Int
  LiveValues : GoMap useInfo
  queuedInstr : List (deferredInstr τ)
  deriving DecidableEq, Repr

variable {τ : Type} [Inhabited τ]

/-- `newState(numRegs)`. -/
def newState (numRegs : Int) : Except Panic (state τ) :=
  match newStack numRegs with
  | .error e => .error e
  | .ok regs =>
    match newStack 16 with
    | .error e => .error e
    | .ok addrs =>
      .ok { AvailableRegs := regs, UsedRegs := [], AvailableAddr := addrs,
            UsedAddr := [], LiveValues := [], queuedInstr := [] }

/-- `state.HasFreeRegs`. -/
def state.HasFreeRegs (s : state τ) : Bool := s.AvailableRegs.HasItems

/-- `state.FreeReg`. -/
def state.FreeReg (s : state τ) (r : Int) : Except Panic (state τ) :=
  match s.UsedRegs.get? r with
  | some _ =>
    match s.AvailableRegs.Push r with
    | .error e => .error e
    | .ok st => .ok { s with UsedRegs := s.UsedRegs.delete r, AvailableRegs := st }
  | none => .error .freeingUnusedRegister

/-- `state.FreeAddr`. -/
def state.FreeAddr (s : state τ) (a : Int) : Except Panic (state τ) :=
  match s.UsedAddr.get? a with
  | some _ =>
    match s.AvailableAddr.Push a with
    | .error e => .error e
    | .ok st => .ok { s with UsedAddr := s.UsedAddr.delete a, AvailableAddr := st }
  | none => .error .freeingUnusedAddr

/-- `state.Free`. -/
def state.Free (s : state τ) (v : Int) : Except Panic (state τ) :=
  match s.LiveValues.get? v with
  | none => .error .freeingUnfoundValue
  | some loc =>
    let s1 := { s with LiveValues := s.LiveValues.delete v }
    if loc.IsReg then s1.FreeReg loc.Num else s1.FreeAddr loc.Num

/-- `state.AllocReg`. -/
def state.AllocReg (s : state τ) (v : Int) : Except Panic (Int × state τ) :=
  match s.AvailableRegs.Pop with
  | .error e => .error e
  | .ok (r, st) =>
    .ok (r, { s with AvailableRegs := st,
                     UsedRegs := s.UsedRegs.set r v,
                     LiveValues := s.LiveValues.set v { IsReg := true, Num := r, NextUse := -1 } })

/-- The loop of `state.FurthestUse` over the entries in iteration order,
carrying `biggestIndex` and `bestReg`. -/
def FurthestUseLoop : List (Int × useInfo) → Int → Int → Int
  | [], _, bestReg => bestReg
  | (_, info) :: rest, biggestIndex, bestReg =>
    if info.IsReg = true ∧ biggestIndex < info.NextUse then
      FurthestUseLoop rest info.NextUse info.Num
    else FurthestUseLoop rest biggestIndex bestReg

/-- `state.FurthestUse`; `ord` gives the order in which the map `LiveValues`
is iterated. -/
def state.FurthestUse (ord : GoMap useInfo → GoMap useInfo) (s : state τ) : Int :=
  FurthestUseLoop (ord s.LiveValues) 0 (-1)

/-- `state.Spill`. -/
def state.Spill (s : state τ) (r : Int) : Except Panic (Int × state τ) :=
  match s.UsedRegs.get? r with
  | none => .error .spillingUnusedRegister
  | some v =>
    match s.FreeReg r with
    | .error e => .error e
    | .ok s1 =>
      match s1.AvailableAddr.Pop with
      | .error e => .error e
      | .ok (a, st) =>
        .ok (a, { s1 with AvailableAddr := st,
                          LiveValues := s1.LiveValues.set v
                            { IsReg := false, Num := a, NextUse := -1 } })

/-- `newRegOp`. -/
def newRegOp (r : Int) (t : τ) : Operand τ :=
  { cls := .Register, Num := r, type := t, Symbol := none }

/-- `newSpillOperand`. -/
def newSpillOperand (sNum : Int) (t : τ) : Operand τ :=
  { cls := .Spill, Num := sNum, type := t, Symbol := none }

/-- `queueInstr`. -/
def queueInstr (s : state τ) (index : Int) (instr : Instr τ) : state τ :=
  { s with queuedInstr := s.queuedInstr ++ [{ index := index, instr := instr }] }

/-- The test `op.T == OT.Temp && op.Num == int(v)` over the operands of one
instruction (inner loop of `isNeeded`). -/
def usesTemp : List (Option (Operand τ)) → Int → Except Panic Bool
  | [], _ => .ok false
  | none :: _, _ => .error .nilDeref
  | some op :: rest, v =>
    if op.cls = .Temp ∧ op.Num = v then .ok true else usesTemp rest v

/-- The outer loop of `isNeeded` over `bb.Code[index+1:]`; `i` is the absolute
index of the head of the list.  Returns the index of the first instruction
using `v`. -/
def scanUses : List (Option (Instr τ)) → Int → Nat → Except Panic (Option Nat)
  | [], _, _ => .ok none
  | none :: _, _, _ => .error .nilDeref
  | some instr :: rest, v, i =>
    match usesTemp instr.Operands v with
    | .error e => .error e
    | .ok true => .ok (some i)
    | .ok false => scanUses rest v (i + 1)

/-- `isNeeded`. -/
def isNeeded (s : state τ) (bb : List (Option (Instr τ))) (v : Int) (index : Nat) :
    Except Panic (Bool × state τ) :=
  if bb.length ≤ index + 1 then .ok (false, s)
  else
    match s.LiveValues.get? v with
    | none => .error .isNeededValueNotFound
    | some info =>
      if info.NextUse ≠ -1 ∧ (index : Int) < info.NextUse then .ok (true, s)
      else
        match scanUses (bb.drop (index + 1)) v (index + 1) with
        | .error e => .error e
        | .ok (some i) =>
          .ok (true, { s with LiveValues := s.LiveValues.set v { info with NextUse := (i : Int) } })
        | .ok none => .ok (false, s)

/-- The loop of `calcNextUse` over the keys of `LiveValues`. -/
def calcNextUseLoop (bb : List (Option (Instr τ))) (index : Nat) :
    List Int → state τ → Except Panic (state τ)
  | [], s => .ok s
  | v :: rest, s =>
    match isNeeded s bb v index with
    | .error e => .error e
    | .ok (_, s1) => calcNextUseLoop bb index rest s1

/-- `calcNextUse`. -/
def calcNextUse (s : state τ) (bb : List (Option (Instr τ))) (index : Nat) :
    Except Panic (state τ) :=
  calcNextUseLoop bb index (s.LiveValues.map Prod.fst) s

/-- `freeIfNotNeeded`. -/
def freeIfNotNeeded (s : state τ) (bb : List (Option (Instr τ))) (v : Int) (index : Nat) :
    Except Panic (state τ) :=
  match isNeeded s bb v index with
  | .error e => .error e
  | .ok (true, s1) => .ok s1
  | .ok (false, s1) => s1.Free v

/-- `spillRegister`. -/
def spillRegister (ord : GoMap useInfo → GoMap useInfo) (s : state τ)
    (bb : List (Option (Instr τ))) (op : Operand τ) (index : Nat) :
    Except Panic (Operand τ × state τ) :=
  match calcNextUse s bb index with
  | .error e => .error e
  | .ok s1 =>
    let r := s1.FurthestUse ord
    match s1.Spill r with
    | .error e => .error e
    | .ok (sNum, s2) =>
      let spillOp := newSpillOperand sNum op.type
      let regOp := newRegOp r op.type
      let store : Instr τ :=
        { T := .StoreSpill, type := default, Operands := [some regOp],
          Destination := [some spillOp] }
      let s3 := queueInstr s2 ((index : Int) - 1) store
      match s3.AllocReg op.Num with
      | .error e => .error e
      | .ok (r2, s4) =>
        if r ≠ r2 then .error .somethingWentWrong
        else .ok (newRegOp r op.type, s4)

/-- `allocTemp`. -/
def allocTemp (ord : GoMap useInfo → GoMap useInfo) (s : state τ)
    (bb : List (Option (Instr τ))) (op : Operand τ) (index : Nat) :
    Except Panic (Operand τ × state τ) :=
  if s.HasFreeRegs then
    match s.AllocReg op.Num with
    | .error e => .error e
    | .ok (r, s1) => .ok (newRegOp r op.type, s1)
  else spillRegister ord s bb op index

/-- `loadSpill`. -/
def loadSpill (ord : GoMap useInfo → GoMap useInfo) (s : state τ)
    (bb : List (Option (Instr τ))) (op : Operand τ) (index : Nat) (a : Int) :
    Except Panic (Operand τ × state τ) :=
  match allocTemp ord s bb op index with
  | .error e => .error e
  | .ok (rOp, s1) =>
    let spillOp := newSpillOperand a op.type
    let load : Instr τ :=
      { T := .LoadSpill, type := op.type, Operands := [some spillOp],
        Destination := [some rOp] }
    .ok (rOp, queueInstr s1 ((index : Int) - 1) load)

/-- `ensure`. -/
def ensure (ord : GoMap useInfo → GoMap useInfo) (s : state τ)
    (bb : List (Option (Instr τ))) (op : Operand τ) (index : Nat) :
    Except Panic (Operand τ × state τ) :=
  match s.LiveValues.get? op.Num with
  | none => allocTemp ord s bb op index
  | some loc =>
    if loc.IsReg then .ok (newRegOp loc.Num op.type, s)
    else loadSpill ord s bb op index loc.Num

/-- The assignment `instr.Operands[opIndex] = op` on instruction `i` of the
block (the instruction is shared with the block through its pointer). -/
def setOperand (bb : List (Option (Instr τ))) (i opIndex : Nat) (op : Operand τ) :
    List (Option (Instr τ)) :=
  match bb[i]? with
  | some (some instr) =>
    bb.set i (some { instr with Operands := instr.Operands.set opIndex (some op) })
  | _ => bb

/-- The assignment `instr.Destination[destIndex] = op` on instruction `i` of
the block. -/
def setDestination (bb : List (Option (Instr τ))) (i destIndex : Nat) (op : Operand τ) :
    List (Option (Instr τ)) :=
  match bb[i]? with
  | some (some instr) =>
    bb.set i (some { instr with Destination := instr.Destination.set destIndex (some op) })
  | _ => bb

/-- The loop `for opIndex, op := range instr.Operands` of `allocBlock` for
instruction `i`; the list is what remains of the ranged slice, `opIndex` the
position of its head. -/
def allocOperands (ord : GoMap useInfo → GoMap useInfo) (i : Nat) :
    List (Option (Operand τ)) → Nat → state τ → List (Option (Instr τ)) →
    Except Panic (state τ × List (Option (Instr τ)))
  | [], _, s, bb => .ok (s, bb)
  | none :: _, _, _, _ => .error .nilDeref
  | some op :: rest, opIndex, s, bb =>
    if op.cls = .Temp then
      match ensure ord s bb op i with
      | .error e => .error e
      | .ok (newOp, s1) =>
        let bb1 := setOperand bb i opIndex newOp
        match freeIfNotNeeded s1 bb1 op.Num i with
        | .error e => .error e
        | .ok s2 => allocOperands ord i rest (opIndex + 1) s2 bb1
    else allocOperands ord i rest (opIndex + 1) s bb

/-- The loop `for destIndex, op := range instr.Destination` of `allocBlock`
for instruction `i`. -/
def allocDestinations (ord : GoMap useInfo → GoMap useInfo) (i : Nat) :
    List (Option (Operand τ)) → Nat → state τ → List (Option (Instr τ)) →
    Except Panic (state τ × List (Option (Instr τ)))
  | [], _, s, bb => .ok (s, bb)
  | none :: _, _, _, _ => .error .nilDeref
  | some op :: rest, destIndex, s, bb =>
    if op.cls = .Temp then
      match allocTemp ord s bb op i with
      | .error e => .error e
      | .ok (newOp, s1) =>
        allocDestinations ord i rest (destIndex + 1) s1 (setDestination bb i destIndex newOp)
    else allocDestinations ord i rest (destIndex + 1) s bb

/-- The body of the outer loop of `allocBlock` for instruction `i`. -/
def allocInstr (ord : GoMap useInfo → GoMap useInfo) (i : Nat) (s : state τ)
    (bb : List (Option (Instr τ))) : Except Panic (state τ × List (Option (Instr τ))) :=
  match bb[i]? with
  | some (some instr) =>
    match allocOperands ord i instr.Operands 0 s bb with
    | .error e => .error e
    | .ok (s1, bb1) => allocDestinations ord i instr.Destination 0 s1 bb1
  | _ => .error .nilDeref

/-- The outer loop `for i, instr := range bb.Code` of `allocBlock`: `n`
instructions remain, the next one is instruction `i`. -/
def allocLoop (ord : GoMap useInfo → GoMap useInfo) :
    Nat → Nat → state τ → List (Option (Instr τ)) →
    Except Panic (state τ × List (Option (Instr τ)))
  | 0, _, s, bb => .ok (s, bb)
  | n + 1, i, s, bb =>
    match allocInstr ord i s bb with
    | .error e => .error e
    | .ok (s1, bb1) => allocLoop ord n (i + 1) s1 bb1

/-- `allocBlock`: returns the final state and the rewritten code of the block. -/
def allocBlock (ord : GoMap useInfo → GoMap useInfo) (s : state τ)
    (bb : List (Option (Instr τ))) : Except Panic (state τ × List (Option (Instr τ))) :=
  allocLoop ord bb.length 0 s bb

/-- `insertInstr`: `append(Code[:index+1], Code[index:]...)` followed by
`Code[index+1] = instr`; the slicing needs `0 ≤ index` and, for the final
store to be in range, `index < len(Code)`. -/
def insertInstr (code : List (Option (Instr τ))) (index : Int) (instr : Instr τ) :
    Except Panic (List (Option (Instr τ))) :=
  if index < 0 ∨ (code.length : Int) ≤ index then .error .indexOutOfRange
  else .ok (code.take (index.toNat + 1) ++ some instr :: code.drop (index.toNat + 1))

/-- The loop of `insertQueuedInstrs`; `i` is the position in the queue of the
head of the list. -/
def insertQueuedLoop : List (deferredInstr τ) → Nat → List (Option (Instr τ)) →
    Except Panic (List (Option (Instr τ)))
  | [], _, code => .ok code
  | di :: rest, i, code =>
    match insertInstr code (di.index + (i : Int)) di.instr with
    | .error e => .error e
    | .ok code1 => insertQueuedLoop rest (i + 1) code1

/-- `insertQueuedInstrs`. -/
def insertQueuedInstrs (s : state τ) (code : List (Option (Instr τ))) :
    Except Panic (List (Option (Instr τ))) :=
  insertQueuedLoop s.queuedInstr 0 code

/-- The successors `FlattenGraph` follows out of a block. -/
def successors (bb : BasicBlock τ) : List Nat :=
  match bb.Out.T with
  | .Jmp => bb.Out.True.toList
  | .If => bb.Out.True.toList ++ bb.Out.False.toList
  | _ => []

/-- The traversal of `FlattenGraph`: `work` is the stack of blocks still to
visit, `seen` the blocks already listed (in reverse). -/
def FlattenLoop (blocks : List (BasicBlock τ)) : Nat → List Nat → List Nat → List Nat
  | 0, _, seen => seen.reverse
  | _ + 1, [], seen => seen.reverse
  | fuel + 1, b :: work, seen =>
    if b ∈ seen then FlattenLoop blocks fuel work seen
    else
      match blocks[b]? with
      | none => FlattenLoop blocks fuel work seen
      | some bb => FlattenLoop blocks fuel (successors bb ++ work) (b :: seen)

/-- Modelled from the spec: `ast.FlattenGraph` is not among the sources; it
lists the blocks of the control-flow graph rooted at the entry block, each
once (here in depth-first order, the true successor first). -/
def FlattenGraph (p : Proc τ) : List Nat :=
  FlattenLoop p.Blocks (3 * p.Blocks.length + 1) p.Code.toList []

/-- The loop of `allocProc` over the worklist. -/
def allocProcLoop (ord : GoMap useInfo → GoMap useInfo) (numRegs : Int) :
    List Nat → Proc τ → Except Panic (Proc τ)
  | [], p => .ok p
  | b :: rest, p =>
    match p.Blocks[b]? with
    | none => .error .nilDeref
    | some curr =>
      match (newState numRegs : Except Panic (state τ)) with
      | .error e => .error e
      | .ok s =>
        match allocBlock ord s curr.Code with
        | .error e => .error e
        | .ok (s1, code1) =>
          let top := s1.AvailableAddr.Size
          let size := if p.SpillRegionSize < top then top else p.SpillRegionSize
          match insertQueuedInstrs s1 code1 with
          | .error e => .error e
          | .ok code2 =>
            allocProcLoop ord numRegs rest
              { p with SpillRegionSize := size,
                       Blocks := p.Blocks.set b { curr with Code := code2 } }

/-- `allocProc`. -/
def allocProc (ord : GoMap useInfo → GoMap useInfo) (p : Proc τ) (numRegs : Int) :
    Except Panic (Proc τ) :=
  allocProcLoop ord numRegs (FlattenGraph p) { p with SpillRegionSize := 0 }

/-- The loop of `Allocate` over the globals; `done` are the globals already
visited (in reverse). -/
def AllocateLoop (ord : GoMap useInfo → GoMap useInfo) (numRegs : Int) :
    List (Global τ) → List (Global τ) → Except Panic (Module τ)
  | [], done => .ok { Globals := done.reverse }
  | sy :: rest, done =>
    if sy.T = .Proc then
      match sy.Proc with
      | none => .error .nilDeref
      | some p =>
        match allocProc ord p numRegs with
        | .error e => .error e
        | .ok p1 => AllocateLoop ord numRegs rest ({ sy with Proc := some p1 } :: done)
    else AllocateLoop ord numRegs rest (sy :: done)

/-- `Allocate`: the module with every procedure allocated in place. -/
def Allocate (ord : GoMap useInfo → GoMap useInfo) (M : Module τ) (numRegs : Int) :
    Except Panic (Module τ) :=
  AllocateLoop ord numRegs M.Globals []

end regalloc

/-! ## The pipeline (`pipelines.go`) -/

namespace pipelines

variable {τ : Type} [DecidableEq τ] [Inhabited τ]

/-- The passes `Mir` runs on the HIR program that `linearization.Generate`
hands it (through `Hir`): the HIR check, the allocation with `NumRegisters`
registers, the MIR check.  Returns the verdict and the MIR module. -/
def Mir (E : Env τ) (ord : GoMap regalloc.useInfo → GoMap regalloc.useInfo)
    (p : Module τ) (NumRegisters : Int) : Checked τ (Module τ) :=
  match hirchecker.Check E p with
  | .error e => .error e
  | .ok (some err, p1) => .ok (some err, p1)
  | .ok (none, p1) =>
    match regalloc.Allocate ord p1 NumRegisters with
    | .error e => .error e
    | .ok mirP =>
      match mirchecker.Check E mirP with
      | .error e => .error e
      | .ok (r, mirP1, _) => .ok (r, mirP1)

end pipelines

/-! ## Concrete inputs

The scenarios below use the type enumeration `Ty` of `Type.go`, whose zero
value is `Invalid`. -/

instance : Inhabited Ty := ⟨Ty.Invalid⟩

/-- Modelled from the spec: the predicate tables of the class and type
packages are not among the sources.  `any` holds of every type, `number` of
the integer widths, `nonPtr` of numbers and `bool`, `basic` of numbers, `bool`
and `ptr`; every value source is `operable`, temporaries and locals are
`result`; registers and literals are immediate, locals, spill slots and
interproc slots are addressable.  A type has no procedure signature. -/
def specEnv : Env Ty where
  IsOperable := fun c => c = .Temp || c = .Local || c = .Global || c = .Lit
  IsResult := fun c => c = .Temp || c = .Local
  IsImmediate := fun c => c = .Register || c = .Lit
  IsRegister := fun c => c = .Register
  IsAddressable := fun c =>
    c = .Local || c = .Spill || c = .CallerInterproc || c = .CalleeInterproc
  IsAny := fun _ => true
  IsNumber := fun t => t = .I8 || t = .I16 || t = .I32 || t = .I64
  IsBool := fun t => t = .Bool
  IsNonPtr := fun t => t = .I8 || t = .I16 || t = .I32 || t = .I64 || t = .Bool
  IsPtr := fun t => t = .Ptr
  IsBasic := fun t => t = .I8 || t = .I16 || t = .I32 || t = .I64 || t = .Bool || t = .Ptr
  IsBasicOrProc := fun t =>
    t = .I8 || t = .I16 || t = .I32 || t = .I64 || t = .Bool || t = .Ptr || t = .Proc
  ProcOf := fun _ => none

/-- The local variable number `n`, of type `i64`. -/
def localOp (n : Nat) : Operand Ty :=
  { cls := .Local, Num := 0, type := .I64, Symbol := some { Name := n, type := .I64, Proc := none } }

/-- The temporary `t`, of type `i64`. -/
def tempOp (t : Int) : Operand Ty :=
  { cls := .Temp, Num := t, type := .I64, Symbol := none }

/-- The HIR instruction `load x -> t` at type `i64`: it defines temporary `t`. -/
def defTemp (x : Nat) (t : Int) : Option (Instr Ty) :=
  some { T := .Load, type := .I64, Operands := [some (localOp x)],
         Destination := [some (tempOp t)] }

/-- The HIR instruction `store t -> x` at type `i64`: it uses temporary `t`. -/
def useTemp (t : Int) (x : Nat) : Option (Instr Ty) :=
  some { T := .Store, type := .I64, Operands := [some (tempOp t)],
         Destination := [some (localOp x)] }

/-- A block that ends in a return. -/
def retBlock (code : List (Option (Instr Ty))) : BasicBlock Ty :=
  { Label := 0, Code := code,
    Out := { T := .Return, True := none, False := none, V := [] },
    Checked := false, Visited := false }

/-- A procedure without arguments or returns made of one block. -/
def oneBlockProc (code : List (Option (Instr Ty))) : Proc Ty :=
  { Name := 0, Args := [], Rets := [], Code := some 0, Blocks := [retBlock code],
    SpillRegionSize := 0 }

/-- A module holding one procedure. -/
def oneProcModule (p : Proc Ty) : Module Ty :=
  { Globals := [{ T := .Proc, Proc := some p }] }

/-- Scenario S2: a block that defines `t0`, `t1`, `t2` and then uses them in
that order. -/
def s2Code : List (Option (Instr Ty)) :=
  [defTemp 0 0, defTemp 1 1, defTemp 2 2, useTemp 0 0, useTemp 1 1, useTemp 2 2]

/-- `add i32 a b -> d` with `b` typed `i64`. -/
def badAdd : Instr Ty :=
  { T := .Add, type := .I32,
    Operands := [some { cls := .Temp, Num := 0, type := .I32, Symbol := none },
                 some { cls := .Temp, Num := 1, type := .I64, Symbol := none }],
    Destination := [some { cls := .Temp, Num := 2, type := .I32, Symbol := none }] }

/-- A procedure of two blocks: an empty entry block that jumps to a block
holding `badAdd`; `c0` and `c1` are the `Checked` flags of the two blocks. -/
def twoBlockProc (c0 c1 : Bool) : Proc Ty :=
  { Name := 0, Args := [], Rets := [], Code := some 0,
    Blocks :=
      [{ Label := 0, Code := [],
         Out := { T := .Jmp, True := some 1, False := none, V := [] },
         Checked := c0, Visited := false },
       { Label := 1, Code := [some badAdd],
         Out := { T := .Return, True := none, False := none, V := [] },
         Checked := c1, Visited := false }],
    SpillRegionSize := 0 }

/-- A procedure `A(x : i64)` without returns and with an empty body. -/
def procOneArg : Proc Ty :=
  { Name := 0, Args := [{ Name := 7, type := .I64, Proc := none }], Rets := [],
    Code := some 0, Blocks := [retBlock []], SpillRegionSize := 0 }

/-- A procedure `B() -> i64` with an empty body: nothing is staged in
`caller-interproc[0]` before it returns. -/
def procRetOnly : Proc Ty :=
  { Name := 1, Args := [], Rets := [.I64], Code := some 0, Blocks := [retBlock []],
    SpillRegionSize := 0 }

/-- A module holding two procedures, in this order. -/
def twoProcModule (a b : Proc Ty) : Module Ty :=
  { Globals := [{ T := .Proc, Proc := some a }, { T := .Proc, Proc := some b }] }

/-- The register `r`, of type `i64`. -/
def regOp (r : Int) : Operand Ty :=
  { cls := .Register, Num := r, type := .I64, Symbol := none }

/-- The spill slot `a`, of type `i64`. -/
def spillOp (a : Int) : Operand Ty :=
  { cls := .Spill, Num := a, type := .I64, Symbol := none }

/-- The MIR instruction `store r0 -> spill[a]`. -/
def storeSlot (a : Int) : Instr Ty :=
  { T := .Store, type := .I64, Operands := [some (regOp 0)], Destination := [some (spillOp a)] }

/-- The MIR instruction `load spill[a] -> r0`. -/
def loadSlot (a : Int) : Instr Ty :=
  { T := .Load, type := .I64, Operands := [some (spillOp a)], Destination := [some (regOp 0)] }

/-- A procedure whose body stores into `spill[3]`. -/
def procStores : Proc Ty :=
  { Name := 0, Args := [], Rets := [], Code := some 0,
    Blocks := [retBlock [some (storeSlot 3)]], SpillRegionSize := 0 }

/-- A procedure whose body loads from `spill[3]` without storing to it. -/
def procLoads : Proc Ty :=
  { Name := 1, Args := [], Rets := [], Code := some 0,
    Blocks := [retBlock [some (loadSlot 3)]], SpillRegionSize := 0 }

/-- Scenario S3: the signature of `f(i32, i32) -> i32`. -/
def sigF : Signature Ty := { Args := [.I32, .I32], Rets := [.I32] }

/-- The predicate tables of `specEnv`, with `sigF` as the signature of the
procedure type. -/
def callEnv : Env Ty :=
  { specEnv with ProcOf := fun t => if t = .Proc then some sigF else none }

/-- The symbol of `f`. -/
def symF : Symbol Ty := { Name := 1, type := .Proc, Proc := some sigF }

/-- The procedure operand naming `f`. -/
def procOpF : Operand Ty := { cls := .Global, Num := 0, type := .Proc, Symbol := some symF }

/-- The MIR instruction `call f`. -/
def callF : Instr Ty := { T := .Call, type := .Proc, Operands := [some procOpF], Destination := [] }

/-- A register holding an `i32`. -/
def regI32 : Operand Ty := { cls := .Register, Num := 0, type := .I32, Symbol := none }

/-- The checker state in which two `i32` operands were stored into
`callee-interproc[0]` and `[1]`. -/
def stateBeforeCall : mirchecker.state Ty :=
  { proc := none, bb := none,
    CalleeInterproc := [some regI32, some regI32, none, none, none, none, none, none],
    CallerInterproc := List.replicate 8 none,
    Spill := List.replicate 8 none }

/-- The checker state of a procedure `g() -> i64` that staged an `i64` in
`caller-interproc[0]`. -/
def stateBeforeRet : mirchecker.state Ty :=
  { proc := some procRetOnly, bb := some 0,
    CalleeInterproc := List.replicate 8 none,
    CallerInterproc := [some (regOp 0), none, none, none, none, none, none, none],
    Spill := List.replicate 8 none }

/-- The allocator state `newState(1)` of a fresh block with one register. -/
def oneRegState : regalloc.state Ty :=
  { AvailableRegs := { items := [0], top := 0 }, UsedRegs := [],
    AvailableAddr :=
      { items := [15, 14, 13, 12, 11, 10, 9, 8, 7, 6, 5, 4, 3, 2, 1, 0], top := 15 },
    UsedAddr := [], LiveValues := [], queuedInstr := [] }

/-- The final state and the rewritten code of `allocBlock` on the block of
scenario S2 with one register. -/
def s2Allocated : regalloc.state Ty × List (Option (Instr Ty)) :=
  match regalloc.allocBlock id oneRegState s2Code with
  | .ok r => r
  | .error _ => (oneRegState, [])

/-- A block in which `t0` is defined, spilled at the definition of `t1`
(one register), and then used twice after the last use of `t1`. -/
def c4Code : List (Option (Instr Ty)) :=
  [defTemp 0 0, defTemp 1 1, useTemp 1 1, useTemp 0 0, useTemp 0 2]

/-- The allocator state and the code when `allocBlock`, with one register,
has processed the first three instructions of `c4Code`. -/
def c4AtThree : regalloc.state Ty × List (Option (Instr Ty)) :=
  match regalloc.allocLoop id 3 0 oneRegState c4Code with
  | .ok r => r
  | .error _ => (oneRegState, [])

/-- The final state and the rewritten code of `allocBlock` on `c4Code` with
one register. -/
def c4Allocated : regalloc.state Ty × List (Option (Instr Ty)) :=
  match regalloc.allocBlock id oneRegState c4Code with
  | .ok r => r
  | .error _ => (oneRegState, [])

/-- The instruction stream of `c4Code` after `insertQueuedInstrs`. -/
def c4Final : List (Option (Instr Ty)) :=
  match regalloc.insertQueuedInstrs c4Allocated.1 c4Allocated.2 with
  | .ok code => code
  | .error _ => []

/-- `eq i64 a b -> d` with `d` typed `i64`. -/
def badEq : Instr Ty :=
  { T := .Eq, type := .I64,
    Operands := [some (tempOp 0), some (tempOp 1)],
    Destination := [some (tempOp 2)] }

/-- A symbol that resolves to a procedure without arguments or returns. -/
def symNoArgs : Symbol Ty := { Name := 3, type := .I64, Proc := some { Args := [], Rets := [] } }

/-- The HIR instruction `call x`, whose operand 0 is typed `i64`. -/
def callNonProc : Instr Ty :=
  { T := .Call, type := .I64,
    Operands := [some { cls := .Global, Num := 0, type := .I64, Symbol := some symNoArgs }],
    Destination := [] }

/-- An operand of class `invalid`. -/
def invalidOp : Operand Ty := { cls := .Invalid, Num := 0, type := .I64, Symbol := none }

/-- The MIR instruction `add r0 -> r0`: one operand short. -/
def shortAdd : Instr Ty :=
  { T := .Add, type := .I64, Operands := [some (regOp 0)], Destination := [some (regOp 0)] }

/-- The MIR instruction `add <invalid> -> r0`: one operand short, and the
operand it has is of class `invalid`. -/
def invalidShortAdd : Instr Ty :=
  { T := .Add, type := .I64, Operands := [some invalidOp], Destination := [some (regOp 0)] }

/-- The MIR instruction `add r0 r0 -> <invalid>`. -/
def invalidDestAdd : Instr Ty :=
  { T := .Add, type := .I64, Operands := [some (regOp 0), some (regOp 0)],
    Destination := [some invalidOp] }

/-- The MIR instruction `add <nil> r0 -> r0`. -/
def nilAdd : Instr Ty :=
  { T := .Add, type := .I64, Operands := [none, some (regOp 0)],
    Destination := [some (regOp 0)] }

/-- A block with no instructions that ends in a conditional branch to the
blocks `t` and `f`. -/
def ifBlock (t f : Nat) : BasicBlock Ty :=
  { Label := 0, Code := [],
    Out := { T := .If, True := some t, False := some f, V := [] },
    Checked := false, Visited := false }

/-- A procedure that branches to a block storing into `spill[3]` (true
successor) and to a block loading from `spill[3]` (false successor). -/
def procBranch : Proc Ty :=
  { Name := 0, Args := [], Rets := [], Code := some 0,
    Blocks := [ifBlock 1 2, retBlock [some (storeSlot 3)], retBlock [some (loadSlot 3)]],
    SpillRegionSize := 0 }

/-- The MIR checker state at the end of block 0 of `procBranch`. -/
def stateAtBranch : mirchecker.state Ty :=
  { (mirchecker.newState : mirchecker.state Ty) with
    proc := some (mirchecker.setVisited (mirchecker.ResetVisited procBranch) 0),
    bb := some 0 }

/-- An allocator state whose queue holds two instructions recorded at index 0
and one recorded at index 2. -/
def queuedState : regalloc.state Ty :=
  { oneRegState with
    queuedInstr := [{ index := 0, instr := storeSlot 0 }, { index := 0, instr := loadSlot 0 },
                    { index := 2, instr := storeSlot 1 }] }

/-- The allocator state `newState(2)` of a fresh block with two registers. -/
def twoRegState : regalloc.state Ty :=
  { AvailableRegs := { items := [1, 0], top := 1 }, UsedRegs := [],
    AvailableAddr :=
      { items := [15, 14, 13, 12, 11, 10, 9, 8, 7, 6, 5, 4, 3, 2, 1, 0], top := 15 },
    UsedAddr := [], LiveValues := [], queuedInstr := [] }

/-- A block that defines `t0`, never read, then `t1` and `t2`, read in that
order. -/
def c20Code : List (Option (Instr Ty)) :=
  [defTemp 0 0, defTemp 1 1, defTemp 2 2, useTemp 1 1, useTemp 2 2]

/-- The allocator state and the code when `allocBlock`, with two registers,
has processed the first two instructions of `c20Code`. -/
def c20AtTwo : regalloc.state Ty × List (Option (Instr Ty)) :=
  match regalloc.allocLoop id 2 0 twoRegState c20Code with
  | .ok r => r
  | .error _ => (twoRegState, [])

/-- The HIR instruction `add i64 ta tb -> x`: it uses the temporaries `a`
and `b`. -/
def addTemps (a b : Int) (x : Nat) : Option (Instr Ty) :=
  some { T := .Add, type := .I64, Operands := [some (tempOp a), some (tempOp b)],
         Destination := [some (localOp x)] }

/-- A block that defines `t0`, `t1` and `t2`, adds `t1` and `t2`, and then
adds `t1` and `t0`. -/
def c25Code : List (Option (Instr Ty)) :=
  [defTemp 0 0, defTemp 1 1, defTemp 2 2, addTemps 1 2 3, addTemps 1 0 4]

/-- The allocator state and the code when `allocBlock`, with two registers,
has processed the first two instructions of `c25Code`. -/
def c25AtTwo : regalloc.state Ty × List (Option (Instr Ty)) :=
  match regalloc.allocLoop id 2 0 twoRegState c25Code with
  | .ok r => r
  | .error _ => (twoRegState, [])

/-- The allocator state and the code when `allocBlock`, with two registers,
has processed the first three instructions of `c25Code`. -/
def c25AtThree : regalloc.state Ty × List (Option (Instr Ty)) :=
  match regalloc.allocLoop id 3 0 twoRegState c25Code with
  | .ok r => r
  | .error _ => (twoRegState, [])

/-- The final state and the rewritten code of `allocBlock` on `c25Code` with
two registers. -/
def c25Allocated : regalloc.state Ty × List (Option (Instr Ty)) :=
  match regalloc.allocBlock id twoRegState c25Code with
  | .ok r => r
  | .error _ => (twoRegState, [])

/-- The instruction stream of `c25Code` after `insertQueuedInstrs`. -/
def c25Final : List (Option (Instr Ty)) :=
  match regalloc.insertQueuedInstrs c25Allocated.1 c25Allocated.2 with
  | .ok code => code
  | .error _ => []

/-- A block that defines `t0`, never read, and then `t1`. -/
def c26Code : List (Option (Instr Ty)) := [defTemp 0 0, defTemp 1 1]

/-- The allocator state and the code when `allocBlock`, with one register,
has processed the first instruction of `c26Code`. -/
def c26AtOne : regalloc.state Ty × List (Option (Instr Ty)) :=
  match regalloc.allocLoop id 1 0 oneRegState c26Code with
  | .ok r => r
  | .error _ => (oneRegState, [])

/-- The temporary `t`, of type `i32`. -/
def tempOp32 (t : Int) : Operand Ty :=
  { cls := .Temp, Num := t, type := .I32, Symbol := none }

/-- The local variable number `n`, of type `i32`. -/
def localOp32 (n : Nat) : Operand Ty :=
  { cls := .Local, Num := 0, type := .I32, Symbol := some { Name := n, type := .I32, Proc := none } }

/-- The HIR instruction `load x -> t` at type `i32`. -/
def defTemp32 (x : Nat) (t : Int) : Option (Instr Ty) :=
  some { T := .Load, type := .I32, Operands := [some (localOp32 x)],
         Destination := [some (tempOp32 t)] }

/-- The HIR instruction `store t -> x` at type `i32`. -/
def useTemp32 (t : Int) (x : Nat) : Option (Instr Ty) :=
  some { T := .Store, type := .I32, Operands := [some (tempOp32 t)],
         Destination := [some (localOp32 x)] }

/-- A block in which `t0 : i64` is evicted, with one register, at the
definition of `t1 : i32`, and reloaded after the last use of `t1`. -/
def c27Code : List (Option (Instr Ty)) :=
  [defTemp 0 0, defTemp32 1 1, useTemp32 1 1, useTemp 0 0]

/-- The allocator state and the code when `allocBlock`, with one register,
has processed the first instruction of `c27Code`. -/
def c27AtOne : regalloc.state Ty × List (Option (Instr Ty)) :=
  match regalloc.allocLoop id 1 0 oneRegState c27Code with
  | .ok r => r
  | .error _ => (oneRegState, [])

/-- The operand and the state `spillRegister` returns for `t1 : i32` at
instruction 1 of `c27Code`. -/
def c27Spilled : Operand Ty × regalloc.state Ty :=
  match regalloc.spillRegister id c27AtOne.1 c27AtOne.2 (tempOp32 1) 1 with
  | .ok r => r
  | .error _ => (tempOp32 1, oneRegState)

/-- The final state and the rewritten code of `allocBlock` on `c27Code` with
one register. -/
def c27Allocated : regalloc.state Ty × List (Option (Instr Ty)) :=
  match regalloc.allocBlock id oneRegState c27Code with
  | .ok r => r
  | .error _ => (oneRegState, [])

/-- A block that defines `t0`, ..., `t17` and then reads them in that
order. -/
def c28Code : List (Option (Instr Ty)) :=
  (List.range 18).map (fun (k : Nat) => defTemp k (k : Int))
    ++ (List.range 18).map (fun (k : Nat) => useTemp (k : Int) k)

/-- The allocator state and the code when `allocBlock`, with one register,
has processed the eighteen definitions of `c28Code`. -/
def c28AtEighteen : regalloc.state Ty × List (Option (Instr Ty)) :=
  match regalloc.allocLoop id 18 0 oneRegState c28Code with
  | .ok r => r
  | .error _ => (oneRegState, [])

/-- A procedure of one empty block that jumps to itself. -/
def selfLoopProc : Proc Ty :=
  { Name := 0, Args := [], Rets := [], Code := some 0,
    Blocks := [{ Label := 0, Code := [],
                 Out := { T := .Jmp, True := some 0, False := none, V := [] },
                 Checked := false, Visited := false }],
    SpillRegionSize := 0 }

/-- A procedure of three empty blocks: block 0 branches to blocks 1 and 2,
block 1 jumps back to block 0, block 2 returns. -/
def cycleProc : Proc Ty :=
  { Name := 0, Args := [], Rets := [], Code := some 0,
    Blocks := [ifBlock 1 2,
               { Label := 1, Code := [],
                 Out := { T := .Jmp, True := some 0, False := none, V := [] },
                 Checked := false, Visited := false },
               retBlock []],
    SpillRegionSize := 0 }

/-- A block of three instructions in which `t0` is used, then defined, then
used again: `t0` is the destination of one instruction only. -/
def c29Code : List (Option (Instr Ty)) :=
  [useTemp 0 0, defTemp 1 0, useTemp 0 2]

/-- The allocator state and the code when `allocBlock`, with two registers,
has handled the first two instructions of `c29Code`. -/
def c29AtTwo : regalloc.state Ty × List (Option (Instr Ty)) :=
  match regalloc.allocLoop id 2 0 twoRegState c29Code with
  | .ok r => r
  | .error _ => (twoRegState, [])

/-- The allocator state and the code when `allocBlock`, with one register,
has handled the first two instructions of `c4Code`. -/
def c4AtTwo : regalloc.state Ty × List (Option (Instr Ty)) :=
  match regalloc.allocLoop id 2 0 oneRegState c4Code with
  | .ok r => r
  | .error _ => (oneRegState, [])

/-- The HIR instruction `add t0 t1` whose `Destination` is an empty slice
that is not `nil`. -/
def addEmptyDest : Instr Ty :=
  { T := .Add, type := .I64, Operands := [some (tempOp 0), some (tempOp 1)],
    Destination := [], emptyDest := true }

/-- The HIR instruction `add t0 t1` whose `Destination` is `nil`. -/
def addNilDest : Instr Ty :=
  { T := .Add, type := .I64, Operands := [some (tempOp 0), some (tempOp 1)],
    Destination := [] }

/-- The HIR comparison `eq t0 t1 -> <nil>`: both operands pass their
predicates. -/
def eqNilDest : Instr Ty :=
  { T := .Eq, type := .I64, Operands := [some (tempOp 0), some (tempOp 1)],
    Destination := [none] }

/-- The HIR comparison `eq r0 t1 -> <nil>`: the first operand, a register,
fails the HIR class predicate. -/
def eqNilDestBadOperand : Instr Ty :=
  { T := .Eq, type := .I64, Operands := [some (regOp 0), some (tempOp 1)],
    Destination := [none] }

/-! ## Auxiliary definitions for the proofs -/

namespace mirchecker

variable {τ : Type}

/-- The region with the `n` slots from `i` on emptied. -/
def clearFrom (r : region τ) : Nat → Nat → region τ
  | _, 0 => r
  | i, n + 1 => clearFrom (r.set i none) (i + 1) n

/-- The operand `checkCall` stores for the formal return `t` at slot `i`. -/
def retOperand (i : Nat) (t : τ) : Operand τ :=
  { cls := .CallerInterproc, Num := (i : Int), type := t, Symbol := none }

/-- The region after the second loop of `checkCall` stored the operands of
the formal returns `rets` from slot `i` on. -/
def storeRets (r : region τ) : Nat → List τ → region τ
  | _, [] => r
  | i, t :: rest => storeRets (r.set i (some (retOperand i t))) (i + 1) rest

end mirchecker

namespace regalloc

variable {τ : Type}

/-- Every entry of the stack up to `top` is a register number below `R`. -/
def stackInRange (R : Int) (st : stack) : Prop :=
  ∀ j : Nat, (j : Int) ≤ st.top → ∃ x, st.items[j]? = some x ∧ 0 ≤ x ∧ x < R

/-- Every register operand of the instruction has a number in `[0, R)`. -/
def GoodInstr (R : Int) (instr : Instr τ) : Prop :=
  ∀ o, some o ∈ instr.Operands ++ instr.Destination → o.cls = .Register →
    0 ≤ o.Num ∧ o.Num < R

/-- The register-budget invariant of the allocator state: the free stack, the
keys of `UsedRegs`, the registers recorded in `LiveValues` and the register
operands of the queued instructions all lie in `[0, R)`. -/
structure RegInv (R : Int) (s : state τ) : Prop where
  avail : stackInRange R s.AvailableRegs
  used : ∀ k v, s.UsedRegs.get? k = some v → 0 ≤ k ∧ k < R
  live : ∀ v info, s.LiveValues.get? v = some info → info.IsReg = true →
    0 ≤ info.Num ∧ info.Num < R
  queued : ∀ di ∈ s.queuedInstr, GoodInstr R di.instr

/-- How `allocBlock` relates an operand to what it leaves in its place: an
operand that is not a temporary stays as it is, a temporary becomes a
register operand of the same type whose number satisfies `Good`. -/
def OpRel (Good : Int → Prop) (o o' : Option (Operand τ)) : Prop :=
  ∃ op, o = some op ∧
    ((op.cls ≠ .Temp ∧ o' = some op)
      ∨ (op.cls = .Temp ∧ ∃ r, o' = some (newRegOp r op.type) ∧ Good r))

/-- How `allocBlock` relates an instruction to its rewritten form. -/
def InstrRel (Good : Int → Prop) (i i' : Instr τ) : Prop :=
  i'.T = i.T ∧ i'.type = i.type
    ∧ List.Forall₂ (OpRel Good) i.Operands i'.Operands
    ∧ List.Forall₂ (OpRel Good) i.Destination i'.Destination

end regalloc

namespace regalloc

variable {τ : Type}

/-- The stream the splicing is to produce: `m` original instructions are
already emitted, `code` are the remaining ones; each deferred instruction is
emitted after the original instruction with its recorded index. -/
def spliceSpec : List (deferredInstr τ) → Nat → List (Option (Instr τ)) →
    List (Option (Instr τ))
  | [], _, code => code
  | d :: rest, m, code =>
    let k := (d.index + 1 - (m : Int)).toNat
    code.take k ++ some d.instr :: spliceSpec rest (m + k) (code.drop k)

/-- The load-spill instruction `loadSpill` builds for slot `a`, register `r`
and type `t`. -/
def loadSpillInstr (a r : Int) (t : τ) : Instr τ :=
  { T := .LoadSpill, type := t, Operands := [some (newSpillOperand a t)],
    Destination := [some (newRegOp r t)] }

end regalloc

namespace mirchecker

/-- The operand and destination counts `checkForm` is called with for each
opcode `checkInstr` dispatches on (`none` for the others). -/
def arity : InstrType → Option (Nat × Nat)
  | .Add | .Sub | .Div | .Mult | .Rem => some (2, 1)
  | .Eq | .Diff | .Less | .More | .LessEq | .MoreEq => some (2, 1)
  | .Or | .And => some (2, 1)
  | .Not | .UnaryMinus | .UnaryPlus | .Convert | .LoadPtr => some (1, 1)
  | .StorePtr => some (2, 0)
  | .Store | .Load | .Copy => some (1, 1)
  | .Call => some (1, 0)
  | .Offset | .LoadSpill | .StoreSpill => none

end mirchecker

namespace regalloc

variable {τ : Type}

/-- The block C19 describes, written from its words: the original
instructions from position `j` on, in their order, each one followed by the
deferred instructions of `q` whose recorded index is its position, in queue
order. -/
def mergedFrom (q : List (deferredInstr τ)) : Nat → List (Option (Instr τ)) →
    List (Option (Instr τ))
  | _, [] => []
  | j, x :: rest =>
    x :: ((q.filter (fun d => d.index = (j : Int))).map (fun d => some d.instr)
      ++ mergedFrom q (j + 1) rest)

end regalloc

namespace regalloc

/-- The results of `n` successive `Pop` calls, and the stack they leave. -/
def popN : Nat → stack → Except Panic (List Int × stack)
  | 0, st => .ok ([], st)
  | n + 1, st =>
    match st.Pop with
    | .error e => .error e
    | .ok (x, st1) =>
      match popN n st1 with
      | .error e => .error e
      | .ok (xs, st2) => .ok (x :: xs, st2)

end regalloc

namespace regalloc

variable {τ : Type}

/-- Whether the operand is the temporary `v`. -/
def isTempOperand (v : Int) : Option (Operand τ) → Bool
  | some op => decide (op.cls = .Temp ∧ op.Num = v)
  | none => false

/-- Whether instruction `j` of the block has `v` among its temporary
operands. -/
def usedAt (bb : List (Option (Instr τ))) (j : Nat) (v : Int) : Bool :=
  match bb[j]? with
  | some (some instr) => instr.Operands.any (isTempOperand v)
  | _ => false

/-- Whether the block holds no `nil` instruction and no `nil` operand. -/
def nilFree (bb : List (Option (Instr τ))) : Bool :=
  bb.all (fun o =>
    match o with
    | none => false
    | some instr => instr.Operands.all (fun p => p.isSome))

end regalloc

namespace hirchecker

variable {τ : Type} [DecidableEq τ]

/-- `checkJump` with a ghost log threaded through: the log lists, in order,
the blocks whose instructions `checkCode` has run. -/
def checkJumpLog (code : state τ → List Nat → Option Nat → Checked τ (state τ × List Nat))
    (s : state τ) (log : List Nat) : Checked τ (state τ × List Nat) :=
  match s.bb with
  | none => .error .nilDeref
  | some b =>
    match s.proc.Blocks[b]? with
    | none => .error .nilDeref
    | some bb =>
      match bb.Out.T with
      | .Jmp => code s log bb.Out.True
      | .If =>
        match code s log bb.Out.True with
        | .error e => .error e
        | .ok (some err, s1, log1) => .ok (some err, s1, log1)
        | .ok (none, s1, log1) => code s1 log1 bb.Out.False
      | .Return =>
        match checkRet s bb.Out.V with
        | .error e => .error e
        | .ok r => .ok (r, s, log)
      | .Exit => .ok (none, s, log)

/-- `checkCode` with the ghost log: block `b` is appended to the log when the
loop over its instructions is entered. -/
def checkCodeLog (E : Env τ) : Nat → state τ → List Nat → Option Nat →
    Checked τ (state τ × List Nat)
  | 0, _, _, _ => .error .outOfFuel
  | fuel + 1, s, log, bbPtr =>
    match bbPtr with
    | none => .error .nilDeref
    | some b =>
      match s.proc.Blocks[b]? with
      | none => .error .nilDeref
      | some bb =>
        if bb.Checked then .ok (none, s, log)
        else
          let s1 : state τ := { s with bb := some b }
          match checkInstrs E bb.Code with
          | .error e => .error e
          | .ok (some err) => .ok (some err, s1, log ++ [b])
          | .ok none =>
            checkJumpLog (checkCodeLog E fuel) { s1 with proc := setChecked s1.proc b }
              (log ++ [b])

end hirchecker

namespace mirchecker

variable {τ : Type} [DecidableEq τ]

/-- `checkJump` with a ghost log threaded through: the log lists, in order,
the blocks whose instructions `checkCode` has run. -/
def checkJumpLog (code : state τ → List Nat → Option Nat → Checked τ (state τ × List Nat))
    (s : state τ) (log : List Nat) : Checked τ (state τ × List Nat) :=
  match s.proc, s.bb with
  | some p, some b =>
    match p.Blocks[b]? with
    | none => .error .nilDeref
    | some bb =>
      match bb.Out.T with
      | .Jmp => code s log bb.Out.True
      | .If =>
        match code s log bb.Out.True with
        | .error e => .error e
        | .ok (some err, s1, log1) => .ok (some err, s1, log1)
        | .ok (none, s1, log1) => code s1 log1 bb.Out.False
      | .Return =>
        match checkRet s with
        | .error e => .error e
        | .ok (r, s1) => .ok (r, s1, log)
      | .Exit => .ok (none, s, log)
  | _, _ => .error .nilDeref

/-- `checkCode` with the ghost log: block `b` is appended to the log when the
loop over its instructions is entered. -/
def checkCodeLog (E : Env τ) : Nat → state τ → List Nat → Option Nat →
    Checked τ (state τ × List Nat)
  | 0, _, _, _ => .error .outOfFuel
  | fuel + 1, s, log, bbPtr =>
    match s.proc, bbPtr with
    | some p, some b =>
      match p.Blocks[b]? with
      | none => .error .nilDeref
      | some bb =>
        if bb.Visited then .ok (none, s, log)
        else
          match checkInstrs E bb.Code { s with bb := some b } with
          | .error e => .error e
          | .ok (some err, s1) => .ok (some err, s1, log ++ [b])
          | .ok (none, s1) =>
            checkJumpLog (checkCodeLog E fuel)
              { s1 with proc := s1.proc.map (fun q => setVisited q b) } (log ++ [b])
    | _, _ => .error .nilDeref

end mirchecker

namespace hirchecker

variable {τ : Type}

/-- Block `k` of the procedure exists and carries the `Checked` flag. -/
def flagged (p : Proc τ) (k : Nat) : Prop :=
  ∃ bb, p.Blocks[k]? = some bb ∧ bb.Checked = true

/-- The number of blocks of the procedure whose `Checked` flag is unset. -/
def unchecked (p : Proc τ) : Nat := p.Blocks.countP (fun bb => !bb.Checked)

/-- What a run of `checkCodeLog` from the state `s` and the log `log`
guarantees of its result: the number of unflagged blocks did not grow, no flag
was reset, and the log grew by a duplicate-free list of blocks that were
unflagged in `s` and, if the run returned `nil`, are flagged at the end. -/
def LogSpec (s : state τ) (log : List Nat)
    (res : Option (CompilerError τ) × state τ × List Nat) : Prop :=
  unchecked res.2.1.proc ≤ unchecked s.proc
  ∧ (∀ k, flagged s.proc k → flagged res.2.1.proc k)
  ∧ ∃ new, res.2.2 = log ++ new ∧ new.Nodup
      ∧ (∀ k ∈ new, ¬ flagged s.proc k)
      ∧ (res.1 = none → ∀ k ∈ new, flagged res.2.1.proc k)

end hirchecker

namespace mirchecker

variable {τ : Type}

/-- The blocks of the current procedure (none while `s.proc` is `nil`). -/
def blocksOf (s : state τ) : List (BasicBlock τ) :=
  match s.proc with
  | some p => p.Blocks
  | none => []

/-- Block `k` of the current procedure exists and carries the `Visited`
flag. -/
def flagged (s : state τ) (k : Nat) : Prop :=
  ∃ bb, (blocksOf s)[k]? = some bb ∧ bb.Visited = true

/-- The number of blocks of the current procedure whose `Visited` flag is
unset. -/
def unvisited (s : state τ) : Nat := (blocksOf s).countP (fun bb => !bb.Visited)

/-- What a run of `checkCodeLog` from the state `s` and the log `log`
guarantees of its result: the number of unflagged blocks did not grow, no flag
was reset, and the log grew by a duplicate-free list of blocks that were
unflagged in `s` and, if the run returned `nil`, are flagged at the end. -/
def LogSpec (s : state τ) (log : List Nat)
    (res : Option (CompilerError τ) × state τ × List Nat) : Prop :=
  unvisited res.2.1 ≤ unvisited s
  ∧ (∀ k, flagged s k → flagged res.2.1 k)
  ∧ ∃ new, res.2.2 = log ++ new ∧ new.Nodup
      ∧ (∀ k ∈ new, ¬ flagged s k)
      ∧ (res.1 = none → ∀ k ∈ new, flagged res.2.1 k)

end mirchecker

namespace GoMap

variable {β : Type}

/-- The keys of the map. -/
def keys (m : GoMap β) : List Int := m.map Prod.fst

end GoMap

namespace regalloc

variable {τ : Type}

/-- The registers on the free stack: `items[0 .. top]`. -/
def stack.elems (st : stack) : List Int := st.items.take (st.top + 1).toNat

/-- The first part of C29: the registers on the available stack and the keys
of `UsedRegs` are disjoint and without duplicates, and together they are the
numbers `0, ..., R-1`. -/
def RegsPartitioned (R : Int) (s : state τ) : Prop :=
  (s.AvailableRegs.elems ++ s.UsedRegs.keys).Nodup
    ∧ ∀ r : Int, r ∈ s.AvailableRegs.elems ++ s.UsedRegs.keys ↔ 0 ≤ r ∧ r < R

/-- The second part of C29: `UsedRegs[r] = v` exactly when `LiveValues[v]`
records `v` as residing in register `r`. -/
def UsedAgreesLive (s : state τ) : Prop :=
  ∀ r v : Int, s.UsedRegs.get? r = some v ↔
    ∃ info, s.LiveValues.get? v = some info ∧ info.IsReg = true ∧ info.Num = r

/-- No two live values reside in the same register. -/
def NoSharedReg (s : state τ) : Prop :=
  ∀ (v v' : Int) (info info' : useInfo), s.LiveValues.get? v = some info →
    s.LiveValues.get? v' = some info' → info.IsReg = true → info'.IsReg = true →
    info.Num = info'.Num → v = v'

/-- The temporaries among the operands, in their order. -/
def temps (ops : List (Option (Operand τ))) : List Int :=
  ops.filterMap (fun o =>
    match o with
    | some op => if op.cls = .Temp then some op.Num else none
    | none => none)

/-- Whether the instruction has the temporary `v` among its destinations. -/
def definesTemp (v : Int) : Option (Instr τ) → Bool
  | some instr => instr.Destination.any (isTempOperand v)
  | none => false

/-- The hypothesis of C29, following its words: each temporary is the
destination of at most one instruction of the block. -/
def singleDef (bb : List (Option (Instr τ))) : Bool :=
  bb.all (fun o =>
    match o with
    | none => true
    | some instr =>
      (temps instr.Destination).all (fun v => decide (bb.countP (definesTemp v) ≤ 1)))

/-- Whether no temporary among the destinations is in `seen` or is an
earlier destination of the list. -/
def destsFresh : List (Option (Operand τ)) → List Int → Bool
  | [], _ => true
  | none :: rest, seen => destsFresh rest seen
  | some op :: rest, seen =>
    if op.cls = .Temp then
      !(decide (op.Num ∈ seen)) && destsFresh rest (op.Num :: seen)
    else destsFresh rest seen

/-- Whether, in the instructions of the list, every temporary destination is
the first occurrence of its temporary: it is not in `seen`, not a temporary
of an earlier instruction, not an operand of its own instruction and not an
earlier destination of it. -/
def freshFrom : List (Option (Instr τ)) → List Int → Bool
  | [], _ => true
  | none :: rest, seen => freshFrom rest seen
  | some instr :: rest, seen =>
    destsFresh instr.Destination (temps instr.Operands ++ seen)
      && freshFrom rest (temps instr.Destination ++ (temps instr.Operands ++ seen))

/-- Whether every occurrence of a temporary as a destination is the first
occurrence of that temporary in the block, the operands of an instruction
coming before its destinations. -/
def definedAtFirst (bb : List (Option (Instr τ))) : Bool := freshFrom bb []

/-- The free stack is within its slice: `-1 ≤ top < len(items)`. -/
def stack.WF (st : stack) : Prop := -1 ≤ st.top ∧ st.top + 1 ≤ (st.items.length : Int)

/-- The register `LiveValues` records for the value, if it records one. -/
def regOf (s : state τ) (v : Int) : Option Int :=
  match s.LiveValues.get? v with
  | some info => if info.IsReg then some info.Num else none
  | none => none

/-- The invariant of the allocator state behind C29: the free stack is
within its slice and without duplicates, it holds the registers below `R`
that are no key of `UsedRegs`, the keys of `UsedRegs` are distinct and below
`R`, and `UsedRegs` is the inverse of the residence recorded in
`LiveValues`. -/
structure AllocInv (R : Int) (s : state τ) : Prop where
  wf : s.AvailableRegs.WF
  nodup : s.AvailableRegs.elems.Nodup
  avail : ∀ r : Int, r ∈ s.AvailableRegs.elems ↔ (0 ≤ r ∧ r < R ∧ s.UsedRegs.get? r = none)
  keysNodup : s.UsedRegs.keys.Nodup
  range : ∀ r v : Int, s.UsedRegs.get? r = some v → 0 ≤ r ∧ r < R
  agree : ∀ r v : Int, s.UsedRegs.get? r = some v ↔ regOf s v = some r

/-- Every key of `LiveValues` is in `seen`. -/
def LiveIn (seen : List Int) (s : state τ) : Prop :=
  ∀ w : Int, s.LiveValues.get? w ≠ none → w ∈ seen

/-- The two states have the same free stack and the same `UsedRegs`, and
every value has the same register in both. -/
def SameLoc (s s1 : state τ) : Prop :=
  s1.AvailableRegs = s.AvailableRegs ∧ s1.UsedRegs = s.UsedRegs
    ∧ (∀ w : Int, regOf s1 w = regOf s w)
    ∧ ∀ w : Int, s1.LiveValues.get? w ≠ none → s.LiveValues.get? w ≠ none

end regalloc

/-! ## Theorems -/


/-! ### Regions -/

namespace mirchecker

variable {τ : Type}

theorem Load_nat (r : region τ) (i : Nat) : r.Load (i : Int) = .ok (r[i]?.getD none) := by
  unfold region.Load
  by_cases h : r.length ≤ i
  · have h' : (r.length : Int) ≤ (i : Int) := by omega
    simp [h', List.getElem?_eq_none h]
  · have h' : ¬ (r.length : Int) ≤ (i : Int) := by omega
    have h2 : ¬ ((i : Int) < 0) := by omega
    simp [h', h2]

theorem Clear_nat (r : region τ) (i : Nat) : r.Clear (i : Int) = .ok (r.set i none) := by
  unfold region.Clear
  by_cases h : r.length ≤ i
  · have h' : (r.length : Int) ≤ (i : Int) := by omega
    simp [h', List.set_eq_of_length_le h]
  · have h' : ¬ (r.length : Int) ≤ (i : Int) := by omega
    have h2 : ¬ ((i : Int) < 0) := by omega
    simp [h', h2]

theorem Store_nat (r : region τ) (i : Nat) (op : Option (Operand τ)) (h : i < r.length) :
    r.Store (i : Int) op = .ok (r.set i op) := by
  unfold region.Store
  have h' : ¬ (r.length : Int) ≤ (i : Int) := by omega
  have h2 : ¬ ((i : Int) < 0) := by omega
  simp [h', h2]

theorem getD_set (r : region τ) (i j : Nat) (op : Option (Operand τ)) (hi : i < r.length) :
    (r.set i op)[j]?.getD none = if i = j then op else r[j]?.getD none := by
  by_cases h : i = j
  · subst h
    simp [List.getElem?_set, hi]
  · simp [List.getElem?_set, h]

theorem getD_set_none (r : region τ) (i j : Nat) :
    (r.set i none)[j]?.getD none = if i = j then none else r[j]?.getD none := by
  by_cases hl : i < r.length
  · exact getD_set r i j none hl
  · rw [List.set_eq_of_length_le (by omega)]
    by_cases h : i = j
    · subst h
      simp [List.getElem?_eq_none (show r.length ≤ i by omega)]
    · simp [h]

theorem clearFrom_length (r : region τ) (i n : Nat) : (clearFrom r i n).length = r.length := by
  induction n generalizing r i with
  | zero => rfl
  | succ n ih => simp [clearFrom, ih]

theorem clearFrom_getD (r : region τ) (i n j : Nat) :
    (clearFrom r i n)[j]?.getD none = if i ≤ j ∧ j < i + n then none else r[j]?.getD none := by
  induction n generalizing r i with
  | zero =>
    have : ¬ (i ≤ j ∧ j < i) := by omega
    simp [clearFrom, this]
  | succ n ih =>
    simp only [clearFrom, ih, getD_set_none]
    by_cases h1 : i + 1 ≤ j ∧ j < i + 1 + n
    · have : i ≤ j ∧ j < i + (n + 1) := by omega
      simp [h1, this]
    · simp only [h1, if_false]
      by_cases h2 : i = j
      · have : i ≤ j ∧ j < i + (n + 1) := by omega
        simp [this, h2]
      · have : ¬ (i ≤ j ∧ j < i + (n + 1)) := by omega
        simp [this, h2]

/-! ### `checkRet` -/

theorem checkRetLoop_ok [DecidableEq τ] (rets : List τ) (i : Nat) (s s' : state τ) :
    checkRetLoop rets i s = .ok (none, s') ↔
      (∀ k (hk : k < rets.length), ∃ op, s.CallerInterproc[i + k]?.getD none = some op
          ∧ op.type = rets[k])
      ∧ s' = { s with CallerInterproc := clearFrom s.CallerInterproc i rets.length } := by
  induction rets generalizing i s with
  | nil => simp [checkRetLoop, clearFrom, eq_comm]
  | cons ret rest ih =>
    unfold checkRetLoop
    rw [Load_nat, Clear_nat]
    cases hload : s.CallerInterproc[i]?.getD none with
    | none =>
      simp only []
      constructor
      · intro h; simp at h
      · rintro ⟨h, -⟩
        obtain ⟨op, hop, -⟩ := h 0 (by simp)
        rw [Nat.add_zero, hload] at hop
        cases hop
    | some op =>
      simp only []
      by_cases hty : ret = op.type
      · simp only [hty, ne_eq, not_true_eq_false, if_false]
        rw [ih]
        simp only [clearFrom, List.length_cons]
        constructor
        · rintro ⟨h, hs⟩
          refine ⟨?_, hs⟩
          intro k hk
          cases k with
          | zero => exact ⟨op, by simpa using hload, by simp [hty]⟩
          | succ k =>
            obtain ⟨op', h1, h2⟩ := h k (by simpa using hk)
            refine ⟨op', ?_, by simpa using h2⟩
            have hne : i ≠ i + 1 + k := by omega
            have : i + (k + 1) = i + 1 + k := by omega
            rw [this]
            rw [getD_set_none, if_neg hne] at h1
            exact h1
        · rintro ⟨h, hs⟩
          refine ⟨?_, hs⟩
          intro k hk
          obtain ⟨op', h1, h2⟩ := h (k + 1) (by simpa using hk)
          refine ⟨op', ?_, by simpa using h2⟩
          have hne : i ≠ i + 1 + k := by omega
          have : i + (k + 1) = i + 1 + k := by omega
          rw [this] at h1
          rw [getD_set_none, if_neg hne]
          exact h1
      · simp only [ne_eq, hty, not_false_eq_true, if_true]
        constructor
        · intro h; simp at h
        · rintro ⟨h, -⟩
          obtain ⟨op', hop, hty'⟩ := h 0 (by simp)
          rw [Nat.add_zero, hload] at hop
          cases hop
          simp at hty'
          exact absurd hty'.symm hty

/-- C10: for a procedure with formal returns `p.Rets` and any regions, the MIR
`checkRet` returns `nil` iff every slot `caller-interproc[i]`, `i < m`, holds
an operand whose type is the `i`-th formal return type; on success those `m`
slots are empty afterwards, every other slot of caller-interproc and the two
other regions are as before. -/
theorem C10_checkRet_iff_slots_typed [DecidableEq τ] (s : state τ) (p : Proc τ) (hp : s.proc = some p) :
    ((∃ s', checkRet s = .ok (none, s')) ↔
        ∀ i (hi : i < p.Rets.length),
          ∃ op, s.CallerInterproc.Load (i : Int) = .ok (some op) ∧ op.type = p.Rets[i])
    ∧ ∀ s', checkRet s = .ok (none, s') →
        (∀ i, i < p.Rets.length → s'.CallerInterproc.Load (i : Int) = .ok none)
        ∧ (∀ i, p.Rets.length ≤ i →
            s'.CallerInterproc.Load (i : Int) = s.CallerInterproc.Load (i : Int))
        ∧ s'.CallerInterproc.length = s.CallerInterproc.length
        ∧ s'.CalleeInterproc = s.CalleeInterproc ∧ s'.Spill = s.Spill
        ∧ s'.proc = s.proc ∧ s'.bb = s.bb := by
  unfold checkRet
  rw [hp]
  simp only [checkRetLoop_ok, Load_nat, Nat.zero_add, Except.ok.injEq]
  refine ⟨⟨?_, ?_⟩, ?_⟩
  · rintro ⟨s', h, -⟩
    exact h
  · intro h
    exact ⟨_, h, rfl⟩
  · rintro s' ⟨-, rfl⟩
    refine ⟨?_, ?_, clearFrom_length _ _ _, rfl, rfl, hp, rfl⟩
    · intro i hi
      rw [clearFrom_getD]
      have : 0 ≤ i ∧ i < 0 + p.Rets.length := by omega
      rw [if_pos this]
    · intro i hi
      rw [clearFrom_getD]
      have : ¬ (0 ≤ i ∧ i < 0 + p.Rets.length) := by omega
      rw [if_neg this]

end mirchecker


namespace mirchecker
variable {τ : Type}


/-! ### `checkCall` -/

theorem storeRets_length (r : region τ) (i : Nat) (rets : List τ) :
    (storeRets r i rets).length = r.length := by
  induction rets generalizing r i with
  | nil => rfl
  | cons t rest ih => simp [storeRets, ih]

theorem storeRets_getD_lt (r : region τ) (i : Nat) (rets : List τ) (j : Nat) (hj : j < i) :
    (storeRets r i rets)[j]?.getD none = r[j]?.getD none := by
  induction rets generalizing r i with
  | nil => rfl
  | cons t rest ih =>
    simp only [storeRets]
    rw [ih _ _ (by omega)]
    by_cases hi : i < r.length
    · rw [getD_set _ _ _ _ hi, if_neg (by omega)]
    · rw [List.set_eq_of_length_le (by omega)]

theorem storeRets_getD_ge (r : region τ) (i : Nat) (rets : List τ) (j : Nat)
    (hj : i + rets.length ≤ j) :
    (storeRets r i rets)[j]?.getD none = r[j]?.getD none := by
  induction rets generalizing r i with
  | nil => rfl
  | cons t rest ih =>
    simp only [storeRets]
    simp only [List.length_cons] at hj
    rw [ih _ _ (by omega)]
    by_cases hi : i < r.length
    · rw [getD_set _ _ _ _ hi, if_neg (by omega)]
    · rw [List.set_eq_of_length_le (by omega)]

theorem storeRets_getD_mid (r : region τ) (i : Nat) (rets : List τ) (k : Nat)
    (hk : k < rets.length) (hlen : i + rets.length ≤ r.length) :
    (storeRets r i rets)[i + k]?.getD none = some (retOperand (i + k) rets[k]) := by
  induction rets generalizing r i k with
  | nil => simp at hk
  | cons t rest ih =>
    simp only [storeRets]
    simp only [List.length_cons] at hlen hk
    cases k with
    | zero =>
      rw [Nat.add_zero, storeRets_getD_lt _ _ _ _ (by omega), getD_set _ _ _ _ (by omega)]
      simp
    | succ k =>
      have h := ih (r.set i (some (retOperand i t))) (i + 1) k (by omega)
        (by simp only [List.length_set]; omega)
      have e : i + (k + 1) = i + 1 + k := by omega
      rw [e, h]
      simp

theorem checkCallArgs_ok [DecidableEq τ] (instr : Instr τ) (args : List τ) (i : Nat) (s s' : state τ) :
    checkCallArgs instr args i s = .ok (none, s') ↔
      (∀ k (hk : k < args.length), ∃ op, s.CalleeInterproc[i + k]?.getD none = some op
          ∧ op.type = args[k])
      ∧ s' = { s with CalleeInterproc := clearFrom s.CalleeInterproc i args.length } := by
  induction args generalizing i s with
  | nil => simp [checkCallArgs, clearFrom, eq_comm]
  | cons arg rest ih =>
    unfold checkCallArgs
    rw [Load_nat, Clear_nat]
    cases hload : s.CalleeInterproc[i]?.getD none with
    | none =>
      simp only []
      constructor
      · intro h; simp at h
      · rintro ⟨h, -⟩
        obtain ⟨op, hop, -⟩ := h 0 (by simp)
        rw [Nat.add_zero, hload] at hop
        cases hop
    | some op =>
      simp only []
      by_cases hty : arg = op.type
      · simp only [hty, ne_eq, not_true_eq_false, if_false]
        rw [ih]
        simp only [clearFrom, List.length_cons]
        constructor
        · rintro ⟨h, hs⟩
          refine ⟨?_, hs⟩
          intro k hk
          cases k with
          | zero => exact ⟨op, by simpa using hload, by simp [hty]⟩
          | succ k =>
            obtain ⟨op', h1, h2⟩ := h k (by simpa using hk)
            refine ⟨op', ?_, by simpa using h2⟩
            have hne : i ≠ i + 1 + k := by omega
            have : i + (k + 1) = i + 1 + k := by omega
            rw [this]
            rw [getD_set_none, if_neg hne] at h1
            exact h1
        · rintro ⟨h, hs⟩
          refine ⟨?_, hs⟩
          intro k hk
          obtain ⟨op', h1, h2⟩ := h (k + 1) (by simpa using hk)
          refine ⟨op', ?_, by simpa using h2⟩
          have hne : i ≠ i + 1 + k := by omega
          have : i + (k + 1) = i + 1 + k := by omega
          rw [this] at h1
          rw [getD_set_none, if_neg hne]
          exact h1
      · simp only [ne_eq, hty, not_false_eq_true, if_true]
        constructor
        · intro h; simp at h
        · rintro ⟨h, -⟩
          obtain ⟨op', hop, hty'⟩ := h 0 (by simp)
          rw [Nat.add_zero, hload] at hop
          cases hop
          simp at hty'
          exact absurd hty'.symm hty

theorem checkCallRets_ok (rets : List τ) (i : Nat) (s : state τ)
    (hlen : i + rets.length ≤ s.CalleeInterproc.length) :
    checkCallRets rets i s
      = .ok { s with CalleeInterproc := storeRets s.CalleeInterproc i rets } := by
  induction rets generalizing i s with
  | nil => rfl
  | cons t rest ih =>
    simp only [List.length_cons] at hlen
    unfold checkCallRets
    simp only []
    rw [Store_nat _ _ _ (by omega)]
    simp only []
    rw [ih]
    · rfl
    · simp only [List.length_set]; omega

/-- C9: for a MIR call instruction with one operand that has a resolved symbol
and no destination, whose callee signature has formal arguments `proc.Args`
and formal returns `proc.Rets` with no more returns than callee-interproc has
slots: `checkCall` returns `nil` iff every slot `callee-interproc[i]`,
`i < n`, holds an operand whose type is the `i`-th formal argument type; on
success slot `i < m` holds an operand of the `i`-th formal return type, the
slots `m ≤ i < n` are empty, and caller-interproc and spill are as before. -/
theorem C9_checkCall_consumes_args_stores_rets [DecidableEq τ] (E : Env τ) (s : state τ) (instr : Instr τ)
    (procOp : Operand τ) (sy : Symbol τ) (proc : Signature τ)
    (hops : instr.Operands = [some procOp]) (hdst : instr.Destination = [])
    (hsym : procOp.Symbol = some sy) (hproc : E.ProcOf procOp.type = some proc)
    (hm : proc.Rets.length ≤ s.CalleeInterproc.length) :
    ((∃ s', checkCall E s instr = .ok (none, s')) ↔
        ∀ i (hi : i < proc.Args.length),
          ∃ op, s.CalleeInterproc.Load (i : Int) = .ok (some op) ∧ op.type = proc.Args[i])
    ∧ ∀ s', checkCall E s instr = .ok (none, s') →
        (∀ i (hi : i < proc.Rets.length),
          ∃ op, s'.CalleeInterproc.Load (i : Int) = .ok (some op) ∧ op.type = proc.Rets[i])
        ∧ (∀ i, proc.Rets.length ≤ i → i < proc.Args.length →
            s'.CalleeInterproc.Load (i : Int) = .ok none)
        ∧ s'.CallerInterproc = s.CallerInterproc ∧ s'.Spill = s.Spill := by
  have hform : checkForm instr 1 0 = none := by
    simp [checkForm, hops, hdst]
  have hop0 : opAt instr.Operands 0 = .ok procOp := by
    simp [opAt, hops]
  have hcall : ∀ s', checkCall E s instr = .ok (none, s') ↔
      (∀ k (hk : k < proc.Args.length), ∃ op, s.CalleeInterproc[k]?.getD none = some op
          ∧ op.type = proc.Args[k])
      ∧ s' = { s with CalleeInterproc :=
                 storeRets (clearFrom s.CalleeInterproc 0 proc.Args.length) 0 proc.Rets } := by
    intro s'
    unfold checkCall
    simp only [hform, hop0, hsym, hproc]
    cases hargs : checkCallArgs instr proc.Args 0 s with
    | error e =>
      simp only []
      constructor
      · intro h; cases h
      · rintro ⟨h, -⟩
        have := (checkCallArgs_ok instr proc.Args 0 s _).2 ⟨by simpa using h, rfl⟩
        rw [hargs] at this
        cases this
    | ok v =>
      obtain ⟨r, s1⟩ := v
      cases r with
      | some err =>
        simp only []
        constructor
        · intro h; cases h
        · rintro ⟨h, -⟩
          have := (checkCallArgs_ok instr proc.Args 0 s _).2 ⟨by simpa using h, rfl⟩
          rw [hargs] at this
          cases this
      | none =>
        simp only []
        obtain ⟨h1, rfl⟩ := (checkCallArgs_ok instr proc.Args 0 s s1).1 hargs
        rw [checkCallRets_ok _ _ _ (by simp only [clearFrom_length]; omega)]
        simp only [Except.ok.injEq, Prod.mk.injEq, true_and]
        constructor
        · intro h
          exact ⟨by simpa using h1, h.symm⟩
        · rintro ⟨-, h⟩
          exact h.symm
  simp only [hcall, Load_nat, Except.ok.injEq]
  refine ⟨⟨?_, ?_⟩, ?_⟩
  · rintro ⟨s', h, -⟩
    exact h
  · intro h
    exact ⟨_, h, rfl⟩
  · rintro s' ⟨-, rfl⟩
    refine ⟨?_, ?_, rfl, rfl⟩
    · intro i hi
      have := storeRets_getD_mid (clearFrom s.CalleeInterproc 0 proc.Args.length) 0 proc.Rets i hi
        (by simp only [clearFrom_length]; omega)
      rw [Nat.zero_add] at this
      exact ⟨_, by rw [this], rfl⟩
    · intro i h1 h2
      simp only []
      rw [storeRets_getD_ge _ _ _ _ (by omega), clearFrom_getD, if_pos (by omega)]

end mirchecker


/-! ### Scenarios evaluated -/

/-- C10, at a concrete state: `g() -> i64` with an `i64` staged in
`caller-interproc[0]`. -/
theorem C10_checkRet_iff_slots_typed_witness :
    stateBeforeRet.proc = some procRetOnly
    ∧ (((∃ s', mirchecker.checkRet stateBeforeRet = .ok (none, s')) ↔
        ∀ i (hi : i < procRetOnly.Rets.length),
          ∃ op, stateBeforeRet.CallerInterproc.Load (i : Int) = .ok (some op)
            ∧ op.type = procRetOnly.Rets[i])
      ∧ ∀ s', mirchecker.checkRet stateBeforeRet = .ok (none, s') →
        (∀ i, i < procRetOnly.Rets.length → s'.CallerInterproc.Load (i : Int) = .ok none)
        ∧ (∀ i, procRetOnly.Rets.length ≤ i →
            s'.CallerInterproc.Load (i : Int) = stateBeforeRet.CallerInterproc.Load (i : Int))
        ∧ s'.CallerInterproc.length = stateBeforeRet.CallerInterproc.length
        ∧ s'.CalleeInterproc = stateBeforeRet.CalleeInterproc ∧ s'.Spill = stateBeforeRet.Spill
        ∧ s'.proc = stateBeforeRet.proc ∧ s'.bb = stateBeforeRet.bb) :=
  ⟨rfl, mirchecker.C10_checkRet_iff_slots_typed stateBeforeRet procRetOnly rfl⟩

/-- C9, at scenario S3: `f(i32, i32) -> i32` called with two `i32` operands
stored in `callee-interproc[0]` and `[1]`. -/
theorem C9_checkCall_consumes_args_stores_rets_witness :
    callF.Operands = [some procOpF] ∧ callF.Destination = []
    ∧ procOpF.Symbol = some symF ∧ callEnv.ProcOf procOpF.type = some sigF
    ∧ sigF.Rets.length ≤ stateBeforeCall.CalleeInterproc.length
    ∧ (((∃ s', mirchecker.checkCall callEnv stateBeforeCall callF = .ok (none, s')) ↔
        ∀ i (hi : i < sigF.Args.length),
          ∃ op, stateBeforeCall.CalleeInterproc.Load (i : Int) = .ok (some op)
            ∧ op.type = sigF.Args[i])
      ∧ ∀ s', mirchecker.checkCall callEnv stateBeforeCall callF = .ok (none, s') →
        (∀ i (hi : i < sigF.Rets.length),
          ∃ op, s'.CalleeInterproc.Load (i : Int) = .ok (some op) ∧ op.type = sigF.Rets[i])
        ∧ (∀ i, sigF.Rets.length ≤ i → i < sigF.Args.length →
            s'.CalleeInterproc.Load (i : Int) = .ok none)
        ∧ s'.CallerInterproc = stateBeforeCall.CallerInterproc
        ∧ s'.Spill = stateBeforeCall.Spill) :=
  ⟨rfl, rfl, rfl, rfl, by decide,
    mirchecker.C9_checkCall_consumes_args_stores_rets callEnv stateBeforeCall callF procOpF symF
      sigF rfl rfl rfl rfl (by decide)⟩

/-- C1 (the code departs from it): the block of scenario S2 passes the HIR
check; allocated with three registers (no spill) it passes the MIR check,
but allocated with one register the MIR check of the result aborts at the
first store-spill instruction; for every predicate table, MIR `checkInstr`
never returns `nil` on a store-spill or load-spill instruction. -/
theorem C1_mir_check_aborts_on_spill_instructions :
    (hirchecker.Check specEnv (oneProcModule (oneBlockProc s2Code))).map Prod.fst = .ok none
    ∧ (pipelines.Mir specEnv id (oneProcModule (oneBlockProc s2Code)) 3).map Prod.fst
        = .ok none
    ∧ pipelines.Mir specEnv id (oneProcModule (oneBlockProc s2Code)) 1
        = .error .sumthinWentWong
    ∧ ∀ (E : Env Ty) (s : mirchecker.state Ty) (t : Ty)
        (ops dests : List (Option (Operand Ty))) (e : Bool) (r : mirchecker.state Ty),
        mirchecker.checkInstr E s (some ⟨.StoreSpill, t, ops, dests, e⟩) ≠ .ok (none, r)
        ∧ mirchecker.checkInstr E s (some ⟨.LoadSpill, t, ops, dests, e⟩) ≠ .ok (none, r) := by
  refine ⟨rfl, rfl, rfl, ?_⟩
  intro E s t ops dests e r
  constructor
  · intro hc
    simp only [mirchecker.checkInstr] at hc
    split at hc <;> simp at hc
  · intro hc
    simp only [mirchecker.checkInstr] at hc
    split at hc <;> simp at hc

/-- C5 (the code departs from it): a procedure whose only block is empty, so
that nothing is spilled, gets `SpillRegionSize` 15 for every register count;
the block of scenario S2 with one register, which takes three spill slots,
gets 12. -/
theorem C5_spill_region_size_is_free_stack_top
    (ord : GoMap regalloc.useInfo → GoMap regalloc.useInfo) (R : Nat) :
    (regalloc.allocProc ord (oneBlockProc []) (R : Int)).map (fun p => p.SpillRegionSize)
      = .ok 15
    ∧ (regalloc.allocProc id (oneBlockProc s2Code) 1).map (fun p => p.SpillRegionSize)
      = .ok 12 := by
  refine ⟨?_, rfl⟩
  have hR : ¬ ((R : Int) < 0) := by omega
  have h : (regalloc.newState (R : Int) : Except Panic (regalloc.state Ty))
      = .ok { AvailableRegs :=
                { items := (List.range (R : Int).toNat).map (fun (i : Nat) => (R : Int) - (i : Int) - 1),
                  top := (R : Int) - 1 },
              UsedRegs := [],
              AvailableAddr :=
                { items := (List.range 16).map (fun (i : Nat) => (16 : Int) - (i : Int) - 1),
                  top := 15 },
              UsedAddr := [], LiveValues := [], queuedInstr := [] } := by
    unfold regalloc.newState regalloc.newStack
    rw [if_neg hR]
    rfl
  show (regalloc.allocProcLoop ord (R : Int) [0] _).map (fun p => p.SpillRegionSize) = .ok 15
  unfold regalloc.allocProcLoop
  simp only [oneBlockProc, List.getElem?_cons_zero, h]
  rfl

/-- C6 (the code departs from it): for every predicate table, the first run of
the HIR `Check` on the two-block procedure reports `unequal types` for the
instruction of the second block and leaves the entry block flagged `Checked`;
the second run, on the module as the first run left it, returns `nil`. -/
theorem C6_hir_check_second_run_differs (E : Env Ty) :
    hirchecker.Check E (oneProcModule (twoBlockProc false false))
      = .ok (some (.malformedEqualTypes badAdd), oneProcModule (twoBlockProc true false))
    ∧ hirchecker.Check E (oneProcModule (twoBlockProc true false))
      = .ok (none, oneProcModule (twoBlockProc true false)) :=
  ⟨rfl, rfl⟩

/-- C7 (the code departs from it): the regions live across procedures.  For
every predicate table, `B() -> i64` with an empty body is rejected when
checked alone and accepted when checked after `A(x : i64)`, whose argument is
still in `caller-interproc[0]`; and a load from `spill[3]` is rejected as
loading garbage when its procedure is checked alone and accepted when an
earlier procedure stored to `spill[3]`. -/
theorem C7_regions_survive_across_procedures (E : Env Ty) :
    (mirchecker.Check E (oneProcModule procRetOnly)).map Prod.fst
      = .ok (some .returnStackEmpty)
    ∧ (mirchecker.Check E (twoProcModule procOneArg procRetOnly)).map Prod.fst = .ok none
    ∧ (mirchecker.Check specEnv (oneProcModule procLoads)).map Prod.fst
      = .ok (some (.errorLoadingGarbage (loadSlot 3)))
    ∧ (mirchecker.Check specEnv (twoProcModule procStores procLoads)).map Prod.fst
      = .ok none :=
  ⟨rfl, rfl, rfl, rfl⟩

/-- C8 (the code departs from it): for every region, `Store` at an index at or
past the current length aborts instead of growing the region. -/
theorem C8_store_past_the_end_aborts {τ : Type} (r : mirchecker.region τ) (k : Nat)
    (op : Option (Operand τ)) :
    ∃ e, r.Store ((r.length : Int) + (k : Int)) op = .error e := by
  unfold mirchecker.region.Store mirchecker.newRegion
  rcases Nat.eq_zero_or_pos k with rfl | hk
  · simp
  · have h1 : (r.length : Int) ≤ (r.length : Int) + k := by omega
    have h2 : ¬ ((r.length : Int) + k - ((r.length : Int) + 1) < 0) := by omega
    simp only [h1, h2, if_true, if_false]
    refine ⟨.indexOutOfRange, ?_⟩
    simp



/-! ### Go maps -/

namespace GoMap

variable {β : Type}

theorem get?_set (m : GoMap β) (k k' : Int) (v : β) :
    (m.set k v).get? k' = if k = k' then some v else m.get? k' := by
  induction m with
  | nil =>
    by_cases h : k = k' <;> simp [set, get?, h]
  | cons hd tl ih =>
    obtain ⟨a, b⟩ := hd
    by_cases h1 : a = k
    · subst h1
      by_cases h : a = k' <;> simp [set, get?, h]
    · by_cases h : k = k'
      · subst h
        simp [set, get?, h1, ih]
      · by_cases h2 : a = k'
        · subst h2
          simp [set, get?, h1, h]
        · simp [set, get?, h1, h, h2, ih]

theorem get?_delete (m : GoMap β) (k k' : Int) :
    (m.delete k).get? k' = if k = k' then none else m.get? k' := by
  induction m with
  | nil => by_cases h : k = k' <;> simp [delete, get?, h]
  | cons hd tl ih =>
    obtain ⟨a, b⟩ := hd
    by_cases h1 : a = k
    · subst h1
      by_cases h : a = k'
      · subst h
        simpa [delete, get?] using ih
      · simp [delete, get?, h, ih]
    · by_cases h : k = k'
      · subst h
        simp [delete, get?, h1, ih]
      · by_cases h2 : a = k'
        · subst h2
          simp [delete, get?, h1, h]
        · simp [delete, get?, h1, h, h2, ih]

end GoMap

/-! ### The register budget of the allocator -/

namespace regalloc

variable {τ : Type}

theorem Pop_inRange (R : Int) (st st1 : stack) (x : Int) (h : stackInRange R st)
    (hp : st.Pop = .ok (x, st1)) :
    stackInRange R st1 ∧ (0 ≤ st.top → 0 ≤ x ∧ x < R) := by
  unfold stack.Pop at hp
  split at hp
  · rename_i hneg
    split at hp
    · cases hp
    · cases hp
      exact ⟨h, fun h0 => absurd h0 (by omega)⟩
  · rename_i hpos
    split at hp
    · cases hp
    · rename_i item hitem
      cases hp
      refine ⟨?_, fun _ => ?_⟩
      · intro j hj
        exact h j (by simp only at hj; omega)
      · obtain ⟨y, hy, hr⟩ := h st.top.toNat (by omega)
        have : idx? st.items st.top = st.items[st.top.toNat]? := by
          simp [idx?, hpos]
        rw [this, hy] at hitem
        cases hitem
        exact hr

theorem Push_inRange (R : Int) (st st1 : stack) (i : Int) (h : stackInRange R st)
    (hi : 0 ≤ i ∧ i < R) (hp : st.Push i = .ok st1) :
    stackInRange R st1 := by
  unfold stack.Push at hp
  simp only at hp
  generalize hitems :
    (if (st.items.length : Int) ≤ st.top + 1 then st.items ++ [0, 0] else st.items) = items at hp
  by_cases hc : st.top + 1 < 0 ∨ (items.length : Int) ≤ st.top + 1
  · rw [if_pos hc] at hp
    cases hp
  · rw [if_neg hc] at hp
    cases hp
    have hc1 : ¬ (st.top + 1 < 0) := fun hx => hc (Or.inl hx)
    have hc2 : ¬ ((items.length : Int) ≤ st.top + 1) := fun hx => hc (Or.inr hx)
    intro j hj
    simp only at hj ⊢
    by_cases hjt : (j : Int) = st.top + 1
    · refine ⟨i, ?_, hi⟩
      have : (st.top + 1).toNat = j := by omega
      rw [this, List.getElem?_set]
      have : j < items.length := by omega
      simp [this]
    · obtain ⟨y, hy, hr⟩ := h j (by omega)
      refine ⟨y, ?_, hr⟩
      have hne : (st.top + 1).toNat ≠ j := by omega
      rw [List.getElem?_set, if_neg hne, ← hitems]
      split
      · rw [List.getElem?_append_left]
        · exact hy
        · exact (List.getElem?_eq_some_iff.1 hy).1
      · exact hy

theorem FreeReg_inv (R : Int) (s s1 : state τ) (r : Int) (h : RegInv R s)
    (hf : s.FreeReg r = .ok s1) : RegInv R s1 ∧ 0 ≤ r ∧ r < R := by
  unfold state.FreeReg at hf
  split at hf
  · rename_i v hv
    have hr := h.used r v hv
    split at hf
    · cases hf
    · rename_i st hst
      cases hf
      refine ⟨⟨Push_inRange R _ _ r h.avail hr hst, ?_, h.live, h.queued⟩, hr⟩
      intro k v' hk
      simp only [GoMap.get?_delete] at hk
      split at hk
      · cases hk
      · exact h.used k v' hk
  · cases hf

theorem FreeAddr_inv (R : Int) (s s1 : state τ) (a : Int) (h : RegInv R s)
    (hf : s.FreeAddr a = .ok s1) : RegInv R s1 := by
  unfold state.FreeAddr at hf
  split at hf
  · split at hf
    · cases hf
    · cases hf
      exact ⟨h.avail, h.used, h.live, h.queued⟩
  · cases hf

theorem Free_inv (R : Int) (s s1 : state τ) (v : Int) (h : RegInv R s)
    (hf : s.Free v = .ok s1) : RegInv R s1 := by
  unfold state.Free at hf
  split at hf
  · cases hf
  · rename_i loc hloc
    have h1 : RegInv R ({ s with LiveValues := s.LiveValues.delete v } : state τ) := by
      refine ⟨h.avail, h.used, ?_, h.queued⟩
      intro v' info hk hreg
      simp only [GoMap.get?_delete] at hk
      split at hk
      · cases hk
      · exact h.live v' info hk hreg
    simp only at hf
    split at hf
    · exact (FreeReg_inv R _ _ _ h1 hf).1
    · exact FreeAddr_inv R _ _ _ h1 hf

theorem AllocReg_inv (R : Int) (s s1 : state τ) (v r : Int) (h : RegInv R s)
    (ha : s.AllocReg v = .ok (r, s1))
    (hr : 0 ≤ s.AvailableRegs.top ∨ (0 ≤ r ∧ r < R)) : RegInv R s1 ∧ 0 ≤ r ∧ r < R := by
  unfold state.AllocReg at ha
  split at ha
  · cases ha
  · rename_i r' st hpop
    cases ha
    obtain ⟨hst, hx⟩ := Pop_inRange R _ _ _ h.avail hpop
    have hr' : 0 ≤ r ∧ r < R := by
      rcases hr with h0 | h0
      · exact hx h0
      · exact h0
    refine ⟨⟨hst, ?_, ?_, h.queued⟩, hr'⟩
    · intro k v' hk
      simp only [GoMap.get?_set] at hk
      split at hk
      · rename_i e; subst e; exact hr'
      · exact h.used k v' hk
    · intro v' info hk hreg
      simp only [GoMap.get?_set] at hk
      split at hk
      · cases hk; exact hr'
      · exact h.live v' info hk hreg

theorem Spill_inv (R : Int) (s s1 : state τ) (r a : Int) (h : RegInv R s)
    (hs : s.Spill r = .ok (a, s1)) : RegInv R s1 ∧ 0 ≤ r ∧ r < R := by
  unfold state.Spill at hs
  split at hs
  · cases hs
  · rename_i v hv
    split at hs
    · cases hs
    · rename_i s2 hfree
      obtain ⟨h2, hr⟩ := FreeReg_inv R _ _ _ h hfree
      split at hs
      · cases hs
      · rename_i a' st hpop
        cases hs
        refine ⟨⟨h2.avail, h2.used, ?_, h2.queued⟩, hr⟩
        intro v' info hk hreg
        simp only [GoMap.get?_set] at hk
        split at hk
        · cases hk; cases hreg
        · exact h2.live v' info hk hreg

theorem isNeeded_inv (R : Int) (s s1 : state τ) (bb : List (Option (Instr τ))) (v : Int)
    (index : Nat) (b : Bool) (h : RegInv R s) (hn : isNeeded s bb v index = .ok (b, s1)) :
    RegInv R s1 := by
  unfold isNeeded at hn
  split at hn
  · cases hn; exact h
  · split at hn
    · cases hn
    · rename_i info hinfo
      split at hn
      · cases hn; exact h
      · split at hn
        · cases hn
        · cases hn
          refine ⟨h.avail, h.used, ?_, h.queued⟩
          intro v' info' hk hreg
          simp only [GoMap.get?_set] at hk
          split at hk
          · cases hk
            exact h.live v info hinfo hreg
          · exact h.live v' info' hk hreg
        · cases hn; exact h

theorem calcNextUseLoop_inv (R : Int) (bb : List (Option (Instr τ))) (index : Nat)
    (vs : List Int) (s s1 : state τ) (h : RegInv R s)
    (hc : calcNextUseLoop bb index vs s = .ok s1) : RegInv R s1 := by
  induction vs generalizing s with
  | nil => cases hc; exact h
  | cons v rest ih =>
    unfold calcNextUseLoop at hc
    split at hc
    · cases hc
    · rename_i b s2 hn
      exact ih s2 (isNeeded_inv R _ _ _ _ _ _ h hn) hc

theorem freeIfNotNeeded_inv (R : Int) (s s1 : state τ) (bb : List (Option (Instr τ)))
    (v : Int) (index : Nat) (h : RegInv R s) (hf : freeIfNotNeeded s bb v index = .ok s1) :
    RegInv R s1 := by
  unfold freeIfNotNeeded at hf
  split at hf
  · cases hf
  · rename_i s2 hn
    cases hf
    exact isNeeded_inv R _ _ _ _ _ _ h hn
  · rename_i s2 hn
    exact Free_inv R _ _ _ (isNeeded_inv R _ _ _ _ _ _ h hn) hf

theorem queueInstr_inv (R : Int) (s : state τ) (index : Int) (instr : Instr τ)
    (h : RegInv R s) (hi : GoodInstr R instr) : RegInv R (queueInstr s index instr) := by
  refine ⟨h.avail, h.used, h.live, ?_⟩
  intro di hdi
  simp only [queueInstr, List.mem_append, List.mem_singleton] at hdi
  rcases hdi with hdi | rfl
  · exact h.queued di hdi
  · exact hi

theorem spillRegister_inv [Inhabited τ] (R : Int) (ord : GoMap useInfo → GoMap useInfo) (s s1 : state τ)
    (bb : List (Option (Instr τ))) (op res : Operand τ) (index : Nat) (h : RegInv R s)
    (hs : spillRegister ord s bb op index = .ok (res, s1)) :
    RegInv R s1 ∧ ∃ r, res = newRegOp r op.type ∧ 0 ≤ r ∧ r < R := by
  unfold spillRegister at hs
  split at hs
  · cases hs
  · rename_i s2 hcalc
    have h2 := calcNextUseLoop_inv R _ _ _ _ _ h hcalc
    simp only at hs
    split at hs
    · cases hs
    · rename_i sNum s3 hspill
      obtain ⟨h3, hr⟩ := Spill_inv R _ _ _ _ h2 hspill
      split at hs
      · cases hs
      · rename_i r2 s4 halloc
        split at hs
        · cases hs
        · rename_i hne
          cases hs
          have hrr : s2.FurthestUse ord = r2 := by
            by_contra hc; exact hne hc
          have hq : RegInv R (queueInstr s3 ((index : Int) - 1)
              { T := .StoreSpill, type := default,
                Operands := [some (newRegOp (s2.FurthestUse ord) op.type)],
                Destination := [some (newSpillOperand sNum op.type)] }) := by
            apply queueInstr_inv R _ _ _ h3
            intro o ho hcls
            simp only [List.cons_append, List.nil_append, List.mem_cons, Option.some.injEq,
              List.mem_nil_iff, or_false] at ho
            rcases ho with rfl | rfl
            · exact hr
            · simp [newSpillOperand] at hcls
          obtain ⟨h4, -⟩ := AllocReg_inv R _ _ _ _ hq halloc (Or.inr (hrr ▸ hr))
          exact ⟨h4, _, rfl, hr⟩

theorem allocTemp_inv [Inhabited τ] (R : Int) (ord : GoMap useInfo → GoMap useInfo) (s s1 : state τ)
    (bb : List (Option (Instr τ))) (op res : Operand τ) (index : Nat) (h : RegInv R s)
    (ha : allocTemp ord s bb op index = .ok (res, s1)) :
    RegInv R s1 ∧ ∃ r, res = newRegOp r op.type ∧ 0 ≤ r ∧ r < R := by
  unfold allocTemp at ha
  split at ha
  · rename_i hfree
    split at ha
    · cases ha
    · rename_i r s2 halloc
      cases ha
      have htop : 0 ≤ s.AvailableRegs.top := by
        simpa [state.HasFreeRegs, stack.HasItems] using hfree
      obtain ⟨h2, hr⟩ := AllocReg_inv R _ _ _ _ h halloc (Or.inl htop)
      exact ⟨h2, _, rfl, hr⟩
  · exact spillRegister_inv R ord _ _ _ _ _ _ h ha

theorem loadSpill_inv [Inhabited τ] (R : Int) (ord : GoMap useInfo → GoMap useInfo) (s s1 : state τ)
    (bb : List (Option (Instr τ))) (op res : Operand τ) (index : Nat) (a : Int)
    (h : RegInv R s) (hl : loadSpill ord s bb op index a = .ok (res, s1)) :
    RegInv R s1 ∧ ∃ r, res = newRegOp r op.type ∧ 0 ≤ r ∧ r < R := by
  unfold loadSpill at hl
  split at hl
  · cases hl
  · rename_i rOp s2 halloc
    cases hl
    obtain ⟨h2, r, rfl, hr⟩ := allocTemp_inv R ord _ _ _ _ _ _ h halloc
    refine ⟨?_, r, rfl, hr⟩
    apply queueInstr_inv R _ _ _ h2
    intro o ho hcls
    simp only [List.cons_append, List.nil_append, List.mem_cons, Option.some.injEq,
      List.mem_nil_iff, or_false] at ho
    rcases ho with rfl | rfl
    · simp [newSpillOperand] at hcls
    · exact hr

theorem ensure_inv [Inhabited τ] (R : Int) (ord : GoMap useInfo → GoMap useInfo) (s s1 : state τ)
    (bb : List (Option (Instr τ))) (op res : Operand τ) (index : Nat) (h : RegInv R s)
    (he : ensure ord s bb op index = .ok (res, s1)) :
    RegInv R s1 ∧ ∃ r, res = newRegOp r op.type ∧ 0 ≤ r ∧ r < R := by
  unfold ensure at he
  split at he
  · exact allocTemp_inv R ord _ _ _ _ _ _ h he
  · rename_i loc hloc
    split at he
    · rename_i hreg
      cases he
      exact ⟨h, _, rfl, h.live _ _ hloc hreg⟩
    · exact loadSpill_inv R ord _ _ _ _ _ _ _ h he

/-! ### What `allocBlock` does to the instructions -/

theorem set_append_length {α : Type} (pre rest : List α) (x y : α) :
    (pre ++ x :: rest).set pre.length y = pre ++ y :: rest := by
  induction pre with
  | nil => rfl
  | cons a pre ih => simp [ih]

theorem allocOperands_rel [Inhabited τ] (Inv : state τ → Prop) (Good : Int → Prop)
    (ord : GoMap useInfo → GoMap useInfo) (i : Nat)
    (hens : ∀ s bb op idx res s1, Inv s → ensure ord s bb op idx = .ok (res, s1) →
      Inv s1 ∧ ∃ r, res = newRegOp r op.type ∧ Good r)
    (hfree : ∀ s bb v idx s1, Inv s → freeIfNotNeeded s bb v idx = .ok s1 → Inv s1)
    (rest suf : List (Option (Operand τ))) :
    ∀ (opIndex : Nat) (s s' : state τ) (bb bb' : List (Option (Instr τ))) (instr : Instr τ)
      (pre : List (Option (Operand τ))),
      Inv s → bb[i]? = some (some instr) → instr.Operands = pre ++ (rest ++ suf) →
      pre.length = opIndex →
      allocOperands ord i rest opIndex s bb = .ok (s', bb') →
      Inv s' ∧ ∃ rest', List.Forall₂ (OpRel Good) rest rest'
        ∧ bb' = bb.set i (some { instr with Operands := pre ++ (rest' ++ suf) }) := by
  induction rest with
  | nil =>
    intro opIndex s s' bb bb' instr pre hinv hbb hops hlen h
    simp only [allocOperands] at h
    cases h
    refine ⟨hinv, [], List.Forall₂.nil, ?_⟩
    have : ({ instr with Operands := pre ++ ([] ++ suf) } : Instr τ) = instr := by
      rw [← hops]
    rw [this]
    have hi : i < bb.length := (List.getElem?_eq_some_iff.1 hbb).1
    apply List.ext_getElem?
    intro j
    rw [List.getElem?_set]
    split
    · rename_i e; subst e; simp [hi, hbb]
    · rfl
  | cons o rest ih =>
    intro opIndex s s' bb bb' instr pre hinv hbb hops hlen h
    have hi : i < bb.length := (List.getElem?_eq_some_iff.1 hbb).1
    cases o with
    | none => simp only [allocOperands] at h; cases h
    | some op =>
      simp only [allocOperands] at h
      split at h
      · rename_i hcls
        split at h
        · cases h
        · rename_i newOp s1 hens1
          obtain ⟨hinv1, r, rfl, hr⟩ := hens _ _ _ _ _ _ hinv hens1
          split at h
          · cases h
          · rename_i s2 hfree1
            have hinv2 := hfree _ _ _ _ _ hinv1 hfree1
            have hset : setOperand bb i opIndex (newRegOp r op.type)
                = bb.set i (some { instr with
                    Operands := (pre ++ [some (newRegOp r op.type)]) ++ (rest ++ suf) }) := by
              unfold setOperand
              rw [hbb]
              simp only [hops, ← hlen, List.cons_append, set_append_length, List.append_assoc,
                List.singleton_append, List.nil_append]
            rw [hset] at h
            have hbb1 : (bb.set i (some { instr with
                Operands := (pre ++ [some (newRegOp r op.type)]) ++ (rest ++ suf) }))[i]?
                = some (some { instr with
                    Operands := (pre ++ [some (newRegOp r op.type)]) ++ (rest ++ suf) }) := by
              rw [List.getElem?_set]; simp [hi]
            obtain ⟨hinv', rest', hrel, hbb'⟩ :=
              ih (opIndex + 1) s2 s' _ bb' _ (pre ++ [some (newRegOp r op.type)]) hinv2 hbb1 rfl
                (by simp [hlen]) h
            refine ⟨hinv', some (newRegOp r op.type) :: rest', ?_, ?_⟩
            · exact List.Forall₂.cons ⟨op, rfl, Or.inr ⟨hcls, r, rfl, hr⟩⟩ hrel
            · rw [hbb', List.set_set]
              simp
      · rename_i hcls
        obtain ⟨hinv', rest', hrel, hbb'⟩ :=
          ih (opIndex + 1) s s' bb bb' instr (pre ++ [some op]) hinv hbb
            (by simp [hops]) (by simp [hlen]) h
        refine ⟨hinv', some op :: rest', ?_, ?_⟩
        · exact List.Forall₂.cons ⟨op, rfl, Or.inl ⟨hcls, rfl⟩⟩ hrel
        · rw [hbb']
          simp

theorem allocDestinations_rel [Inhabited τ] (Inv : state τ → Prop) (Good : Int → Prop)
    (ord : GoMap useInfo → GoMap useInfo) (i : Nat)
    (halloc : ∀ s bb op idx res s1, Inv s → allocTemp ord s bb op idx = .ok (res, s1) →
      Inv s1 ∧ ∃ r, res = newRegOp r op.type ∧ Good r)
    (rest : List (Option (Operand τ))) :
    ∀ (destIndex : Nat) (s s' : state τ) (bb bb' : List (Option (Instr τ))) (instr : Instr τ)
      (pre : List (Option (Operand τ))),
      Inv s → bb[i]? = some (some instr) → instr.Destination = pre ++ rest →
      pre.length = destIndex →
      allocDestinations ord i rest destIndex s bb = .ok (s', bb') →
      Inv s' ∧ ∃ rest', List.Forall₂ (OpRel Good) rest rest'
        ∧ bb' = bb.set i (some { instr with Destination := pre ++ rest' }) := by
  induction rest with
  | nil =>
    intro destIndex s s' bb bb' instr pre hinv hbb hops hlen h
    simp only [allocDestinations] at h
    cases h
    refine ⟨hinv, [], List.Forall₂.nil, ?_⟩
    have : ({ instr with Destination := pre ++ [] } : Instr τ) = instr := by
      rw [← hops]
    rw [this]
    have hi : i < bb.length := (List.getElem?_eq_some_iff.1 hbb).1
    apply List.ext_getElem?
    intro j
    rw [List.getElem?_set]
    split
    · rename_i e; subst e; simp [hi, hbb]
    · rfl
  | cons o rest ih =>
    intro destIndex s s' bb bb' instr pre hinv hbb hops hlen h
    have hi : i < bb.length := (List.getElem?_eq_some_iff.1 hbb).1
    cases o with
    | none => simp only [allocDestinations] at h; cases h
    | some op =>
      simp only [allocDestinations] at h
      split at h
      · rename_i hcls
        split at h
        · cases h
        · rename_i newOp s1 halloc1
          obtain ⟨hinv1, r, rfl, hr⟩ := halloc _ _ _ _ _ _ hinv halloc1
          have hset : setDestination bb i destIndex (newRegOp r op.type)
              = bb.set i (some { instr with
                  Destination := (pre ++ [some (newRegOp r op.type)]) ++ rest }) := by
            unfold setDestination
            rw [hbb]
            simp only [hops, ← hlen, set_append_length, List.append_assoc,
              List.singleton_append]
          rw [hset] at h
          have hbb1 : (bb.set i (some { instr with
              Destination := (pre ++ [some (newRegOp r op.type)]) ++ rest }))[i]?
              = some (some { instr with
                  Destination := (pre ++ [some (newRegOp r op.type)]) ++ rest }) := by
            rw [List.getElem?_set]; simp [hi]
          obtain ⟨hinv', rest', hrel, hbb'⟩ :=
            ih (destIndex + 1) s1 s' _ bb' _ (pre ++ [some (newRegOp r op.type)]) hinv1 hbb1
              rfl (by simp [hlen]) h
          refine ⟨hinv', some (newRegOp r op.type) :: rest', ?_, ?_⟩
          · exact List.Forall₂.cons ⟨op, rfl, Or.inr ⟨hcls, r, rfl, hr⟩⟩ hrel
          · rw [hbb', List.set_set]
            simp
      · rename_i hcls
        obtain ⟨hinv', rest', hrel, hbb'⟩ :=
          ih (destIndex + 1) s s' bb bb' instr (pre ++ [some op]) hinv hbb
            (by simp [hops]) (by simp [hlen]) h
        refine ⟨hinv', some op :: rest', ?_, ?_⟩
        · exact List.Forall₂.cons ⟨op, rfl, Or.inl ⟨hcls, rfl⟩⟩ hrel
        · rw [hbb']
          simp

theorem allocInstr_rel [Inhabited τ] (Inv : state τ → Prop) (Good : Int → Prop)
    (ord : GoMap useInfo → GoMap useInfo) (i : Nat)
    (hens : ∀ s bb op idx res s1, Inv s → ensure ord s bb op idx = .ok (res, s1) →
      Inv s1 ∧ ∃ r, res = newRegOp r op.type ∧ Good r)
    (hfree : ∀ s bb v idx s1, Inv s → freeIfNotNeeded s bb v idx = .ok s1 → Inv s1)
    (halloc : ∀ s bb op idx res s1, Inv s → allocTemp ord s bb op idx = .ok (res, s1) →
      Inv s1 ∧ ∃ r, res = newRegOp r op.type ∧ Good r)
    (s s' : state τ) (bb bb' : List (Option (Instr τ))) (hinv : Inv s)
    (h : allocInstr ord i s bb = .ok (s', bb')) :
    Inv s' ∧ ∃ instr instr', bb[i]? = some (some instr) ∧ InstrRel Good instr instr'
      ∧ bb' = bb.set i (some instr') := by
  unfold allocInstr at h
  split at h
  · rename_i instr hbb
    have hi : i < bb.length := (List.getElem?_eq_some_iff.1 hbb).1
    split at h
    · cases h
    · rename_i s1 bb1 hops
      obtain ⟨hinv1, ops', hrel1, hbb1⟩ :=
        allocOperands_rel Inv Good ord i hens hfree instr.Operands [] 0 s s1 bb bb1 instr []
          hinv hbb (by simp) rfl hops
      simp only [List.nil_append, List.append_nil] at hbb1
      have hbb1i : bb1[i]? = some (some { instr with Operands := ops' }) := by
        rw [hbb1, List.getElem?_set]; simp [hi]
      obtain ⟨hinv2, dests', hrel2, hbb2⟩ :=
        allocDestinations_rel Inv Good ord i halloc instr.Destination 0 s1 s' bb1 bb'
          { instr with Operands := ops' } [] hinv1 hbb1i rfl rfl h
      simp only [List.nil_append] at hbb2
      refine ⟨hinv2, instr, { instr with Operands := ops', Destination := dests' }, hbb,
        ⟨rfl, rfl, hrel1, hrel2⟩, ?_⟩
      rw [hbb2, hbb1, List.set_set]
  · cases h

theorem allocLoop_rel [Inhabited τ] (Inv : state τ → Prop) (Good : Int → Prop)
    (ord : GoMap useInfo → GoMap useInfo)
    (hens : ∀ s bb op idx res s1, Inv s → ensure ord s bb op idx = .ok (res, s1) →
      Inv s1 ∧ ∃ r, res = newRegOp r op.type ∧ Good r)
    (hfree : ∀ s bb v idx s1, Inv s → freeIfNotNeeded s bb v idx = .ok s1 → Inv s1)
    (halloc : ∀ s bb op idx res s1, Inv s → allocTemp ord s bb op idx = .ok (res, s1) →
      Inv s1 ∧ ∃ r, res = newRegOp r op.type ∧ Good r)
    (n : Nat) :
    ∀ (i : Nat) (s s' : state τ) (bb bb' : List (Option (Instr τ))), Inv s →
      allocLoop ord n i s bb = .ok (s', bb') →
      Inv s' ∧ bb'.length = bb.length
        ∧ (∀ j, j < i ∨ i + n ≤ j → bb'[j]? = bb[j]?)
        ∧ (∀ j, i ≤ j → j < i + n → ∃ instr instr', bb[j]? = some (some instr)
            ∧ bb'[j]? = some (some instr') ∧ InstrRel Good instr instr') := by
  induction n with
  | zero =>
    intro i s s' bb bb' hinv h
    simp only [allocLoop] at h
    cases h
    exact ⟨hinv, rfl, fun _ _ => rfl, fun j h1 h2 => absurd h2 (by omega)⟩
  | succ n ih =>
    intro i s s' bb bb' hinv h
    simp only [allocLoop] at h
    split at h
    · cases h
    · rename_i s1 bb1 hinstr
      obtain ⟨hinv1, instr, instr', hbb, hrel, hbb1⟩ :=
        allocInstr_rel Inv Good ord i hens hfree halloc s s1 bb bb1 hinv hinstr
      have hi : i < bb.length := (List.getElem?_eq_some_iff.1 hbb).1
      obtain ⟨hinv', hlen, hout, hin⟩ := ih (i + 1) s1 s' bb1 bb' hinv1 h
      refine ⟨hinv', by rw [hlen, hbb1, List.length_set], ?_, ?_⟩
      · intro j hj
        rw [hout j (by omega), hbb1, List.getElem?_set, if_neg (by omega)]
      · intro j h1 h2
        by_cases hji : j = i
        · subst hji
          refine ⟨instr, instr', hbb, ?_, hrel⟩
          rw [hout j (by omega), hbb1, List.getElem?_set]
          simp [hi]
        · obtain ⟨a, a', ha, ha', hr⟩ := hin j (by omega) (by omega)
          refine ⟨a, a', ?_, ha', hr⟩
          rw [hbb1, List.getElem?_set, if_neg (by omega)] at ha
          exact ha

end regalloc


namespace regalloc

variable {τ : Type}

/-! ### Types and positions are kept (C3) -/

theorem spillRegister_shape [Inhabited τ] (ord : GoMap useInfo → GoMap useInfo)
    (s s1 : state τ) (bb : List (Option (Instr τ))) (op res : Operand τ) (index : Nat)
    (hs : spillRegister ord s bb op index = .ok (res, s1)) :
    ∃ r, res = newRegOp r op.type := by
  unfold spillRegister at hs
  split at hs
  · cases hs
  · simp only at hs
    split at hs
    · cases hs
    · split at hs
      · cases hs
      · split at hs
        · cases hs
        · cases hs
          exact ⟨_, rfl⟩

theorem allocTemp_shape [Inhabited τ] (ord : GoMap useInfo → GoMap useInfo)
    (s s1 : state τ) (bb : List (Option (Instr τ))) (op res : Operand τ) (index : Nat)
    (ha : allocTemp ord s bb op index = .ok (res, s1)) :
    ∃ r, res = newRegOp r op.type := by
  unfold allocTemp at ha
  split at ha
  · split at ha
    · cases ha
    · cases ha
      exact ⟨_, rfl⟩
  · exact spillRegister_shape ord _ _ _ _ _ _ ha

theorem ensure_shape [Inhabited τ] (ord : GoMap useInfo → GoMap useInfo)
    (s s1 : state τ) (bb : List (Option (Instr τ))) (op res : Operand τ) (index : Nat)
    (he : ensure ord s bb op index = .ok (res, s1)) :
    ∃ r, res = newRegOp r op.type := by
  unfold ensure at he
  split at he
  · exact allocTemp_shape ord _ _ _ _ _ _ he
  · split at he
    · cases he
      exact ⟨_, rfl⟩
    · unfold loadSpill at he
      split at he
      · cases he
      · rename_i rOp s2 halloc
        cases he
        exact allocTemp_shape ord _ _ _ _ _ _ halloc

theorem forall₂_getElem? {α : Type} {R : α → α → Prop} {l l' : List α}
    (h : List.Forall₂ R l l') (k : Nat) (o : α) (hk : l[k]? = some o) :
    ∃ o', l'[k]? = some o' ∧ R o o' := by
  induction h generalizing k with
  | nil => simp at hk
  | cons hr _ ih =>
    cases k with
    | zero =>
      simp only [List.getElem?_cons_zero, Option.some.injEq] at hk
      subst hk
      exact ⟨_, by simp, hr⟩
    | succ k =>
      simp only [List.getElem?_cons_succ] at hk
      obtain ⟨o', h1, h2⟩ := ih k hk
      exact ⟨o', by simpa using h1, h2⟩

theorem OpRel_at {Good : Int → Prop} {l l' : List (Option (Operand τ))}
    (h : List.Forall₂ (OpRel Good) l l') (k : Nat) (o : Option (Operand τ))
    (hk : l[k]? = some o) :
    ∃ op op', o = some op ∧ l'[k]? = some (some op') ∧ op'.type = op.type
      ∧ (op.cls ≠ .Temp → op' = op) := by
  obtain ⟨o', h1, op, rfl, hrel⟩ := forall₂_getElem? h k o hk
  rcases hrel with ⟨-, rfl⟩ | ⟨hcls, r, rfl, -⟩
  · exact ⟨op, op, rfl, h1, rfl, fun _ => rfl⟩
  · exact ⟨op, newRegOp r op.type, rfl, h1, rfl, fun hc => absurd hcls hc⟩

/-- C3: when `allocBlock` completes, the block keeps its length, and every
instruction keeps its opcode, its instruction type and its numbers of
operands and destinations; the operand (destination) at each position has the
type of the operand that stood there before, and an operand that is not a
temporary is exactly the one that stood there before. -/
theorem C3_allocBlock_keeps_shape_and_types [Inhabited τ]
    (ord : GoMap useInfo → GoMap useInfo) (s s' : state τ)
    (bb bb' : List (Option (Instr τ))) (h : allocBlock ord s bb = .ok (s', bb')) :
    bb'.length = bb.length
    ∧ ∀ i, i < bb.length →
      ∃ instr instr', bb[i]? = some (some instr) ∧ bb'[i]? = some (some instr')
        ∧ instr'.T = instr.T ∧ instr'.type = instr.type
        ∧ instr'.Operands.length = instr.Operands.length
        ∧ instr'.Destination.length = instr.Destination.length
        ∧ (∀ (k : Nat) (o : Option (Operand τ)), instr.Operands[k]? = some o →
            ∃ op op' : Operand τ, o = some op ∧ instr'.Operands[k]? = some (some op')
              ∧ op'.type = op.type ∧ (op.cls ≠ .Temp → op' = op))
        ∧ (∀ (k : Nat) (o : Option (Operand τ)), instr.Destination[k]? = some o →
            ∃ op op' : Operand τ, o = some op ∧ instr'.Destination[k]? = some (some op')
              ∧ op'.type = op.type ∧ (op.cls ≠ .Temp → op' = op)) := by
  obtain ⟨-, hlen, -, hin⟩ :=
    allocLoop_rel (fun _ => True) (fun _ => True) ord
      (fun s bb op idx res s1 _ he => by
        obtain ⟨r, hr⟩ := ensure_shape ord s s1 bb op res idx he
        exact ⟨trivial, r, hr, trivial⟩)
      (fun _ _ _ _ _ _ _ => trivial)
      (fun s bb op idx res s1 _ ha => by
        obtain ⟨r, hr⟩ := allocTemp_shape ord s s1 bb op res idx ha
        exact ⟨trivial, r, hr, trivial⟩)
      bb.length 0 s s' bb bb' trivial h
  refine ⟨hlen, ?_⟩
  intro i hi
  obtain ⟨instr, instr', h1, h2, hT, hty, hops, hdst⟩ := hin i (Nat.zero_le _) (by omega)
  exact ⟨instr, instr', h1, h2, hT, hty, hops.length_eq.symm, hdst.length_eq.symm,
    fun k o hk => OpRel_at hops k o hk, fun k o hk => OpRel_at hdst k o hk⟩

/-! ### No register number reaches `R` (C2) -/

theorem newStack_inRange (R : Int) (st : stack) (h : newStack R = .ok st) :
    stackInRange R st := by
  unfold newStack at h
  split at h
  · cases h
  · rename_i hR
    cases h
    intro j hj
    simp only at hj
    have hj' : j < R.toNat := by omega
    refine ⟨R - (j : Int) - 1, ?_, by omega, by omega⟩
    rw [List.getElem?_map, List.getElem?_range hj']
    rfl

theorem newState_inv (R : Int) (s : state τ) (h : newState R = .ok s) : RegInv R s := by
  unfold newState at h
  split at h
  · cases h
  · rename_i regs hregs
    split at h
    · cases h
    · cases h
      exact ⟨newStack_inRange R regs hregs, fun k v hk => by simp [GoMap.get?] at hk,
        fun v info hk => by simp [GoMap.get?] at hk, fun di hdi => by simp at hdi⟩

theorem GoodInstr_of_rel {R : Int} {instr instr' : Instr τ} (h : GoodInstr R instr)
    (hrel : InstrRel (fun r => 0 ≤ r ∧ r < R) instr instr') : GoodInstr R instr' := by
  obtain ⟨-, -, hops, hdst⟩ := hrel
  have key : ∀ (l l' : List (Option (Operand τ))),
      List.Forall₂ (OpRel (fun r => 0 ≤ r ∧ r < R)) l l' →
      (∀ o, some o ∈ l → o.cls = .Register → 0 ≤ o.Num ∧ o.Num < R) →
      ∀ o, some o ∈ l' → o.cls = .Register → 0 ≤ o.Num ∧ o.Num < R := by
    intro l l' hl
    induction hl with
    | nil => intro _ o ho; simp at ho
    | cons hr _ ih =>
      rename_i a b l1 l2
      intro hgood o ho hcls
      simp only [List.mem_cons] at ho
      rcases ho with ho | ho
      · obtain ⟨op, rfl, hcase⟩ := hr
        rcases hcase with ⟨-, hb⟩ | ⟨-, r, hb, hgr⟩
        · rw [hb] at ho
          cases ho
          exact hgood o (by simp) hcls
        · rw [hb] at ho
          cases ho
          exact hgr
      · exact ih (fun o ho => hgood o (by simp [ho])) o ho hcls
  intro o ho hcls
  simp only [List.mem_append] at ho
  rcases ho with ho | ho
  · exact key _ _ hops (fun o ho => h o (by simp [ho])) o ho hcls
  · exact key _ _ hdst (fun o ho => h o (by simp [ho])) o ho hcls

/-- C2: for a register count `R` and a block on which `allocBlock`, started
from `newState(R)`, completes: every register operand of the rewritten
instructions and of the queued store-spill and load-spill instructions has a
number `r` with `0 ≤ r < R` (given that a register operand already present in
the input, of which a HIR block has none, is in that range). -/
theorem C2_register_numbers_below_R [Inhabited τ] (ord : GoMap useInfo → GoMap useInfo)
    (R : Int) (s s' : state τ) (bb bb' : List (Option (Instr τ)))
    (hs : newState R = .ok s)
    (hin : ∀ instr, some instr ∈ bb → GoodInstr R instr)
    (h : allocBlock ord s bb = .ok (s', bb')) :
    (∀ instr, some instr ∈ bb' →
      ∀ o, some o ∈ instr.Operands ++ instr.Destination → o.cls = .Register →
        0 ≤ o.Num ∧ o.Num < R)
    ∧ (∀ di ∈ s'.queuedInstr,
      ∀ o, some o ∈ di.instr.Operands ++ di.instr.Destination → o.cls = .Register →
        0 ≤ o.Num ∧ o.Num < R) := by
  obtain ⟨hinv, hlen, -, hrel⟩ :=
    allocLoop_rel (RegInv R) (fun r => 0 ≤ r ∧ r < R) ord
      (fun s bb op idx res s1 hi he => ensure_inv R ord s s1 bb op res idx hi he)
      (fun s bb v idx s1 hi hf => freeIfNotNeeded_inv R s s1 bb v idx hi hf)
      (fun s bb op idx res s1 hi ha => allocTemp_inv R ord s s1 bb op res idx hi ha)
      bb.length 0 s s' bb bb' (newState_inv R s hs) h
  refine ⟨?_, hinv.queued⟩
  intro instr' hmem
  obtain ⟨i, hget⟩ := List.getElem?_of_mem hmem
  have hi : i < bb'.length := (List.getElem?_eq_some_iff.1 hget).1
  rw [hlen] at hi
  obtain ⟨a, a', ha, ha', hr⟩ := hrel i (Nat.zero_le _) (by omega)
  rw [hget] at ha'
  cases ha'
  exact GoodInstr_of_rel (hin a (List.getElem?_mem ha)) hr

end regalloc


/-- C3, at the block of scenario S2 allocated with one register. -/
theorem C3_allocBlock_keeps_shape_and_types_witness :
    regalloc.allocBlock id oneRegState s2Code = .ok (s2Allocated.1, s2Allocated.2)
    ∧ (s2Allocated.2.length = s2Code.length
      ∧ ∀ i, i < s2Code.length →
        ∃ instr instr', s2Code[i]? = some (some instr) ∧ s2Allocated.2[i]? = some (some instr')
          ∧ instr'.T = instr.T ∧ instr'.type = instr.type
          ∧ instr'.Operands.length = instr.Operands.length
          ∧ instr'.Destination.length = instr.Destination.length
          ∧ (∀ (k : Nat) (o : Option (Operand Ty)), instr.Operands[k]? = some o →
              ∃ op op' : Operand Ty, o = some op ∧ instr'.Operands[k]? = some (some op')
                ∧ op'.type = op.type ∧ (op.cls ≠ .Temp → op' = op))
          ∧ (∀ (k : Nat) (o : Option (Operand Ty)), instr.Destination[k]? = some o →
              ∃ op op' : Operand Ty, o = some op ∧ instr'.Destination[k]? = some (some op')
                ∧ op'.type = op.type ∧ (op.cls ≠ .Temp → op' = op))) :=
  ⟨rfl, regalloc.C3_allocBlock_keeps_shape_and_types id oneRegState s2Allocated.1 s2Code
    s2Allocated.2 rfl⟩

/-- C2, at the block of scenario S2 allocated with one register: three
store-spills and three load-spills are queued, all on register 0. -/
theorem C2_register_numbers_below_R_witness :
    regalloc.newState 1 = .ok oneRegState
    ∧ (∀ instr, some instr ∈ s2Code → regalloc.GoodInstr 1 instr)
    ∧ regalloc.allocBlock id oneRegState s2Code = .ok (s2Allocated.1, s2Allocated.2)
    ∧ ((∀ instr, some instr ∈ s2Allocated.2 →
        ∀ o, some o ∈ instr.Operands ++ instr.Destination → o.cls = .Register →
          0 ≤ o.Num ∧ o.Num < 1)
      ∧ (∀ di ∈ s2Allocated.1.queuedInstr,
        ∀ o, some o ∈ di.instr.Operands ++ di.instr.Destination → o.cls = .Register →
          0 ≤ o.Num ∧ o.Num < 1)) := by
  have hin : ∀ instr, some instr ∈ s2Code → regalloc.GoodInstr 1 instr := by
    intro instr hmem o ho hcls
    simp only [s2Code, defTemp, useTemp, List.mem_cons, Option.some.injEq,
      List.mem_nil_iff, or_false] at hmem
    rcases hmem with rfl | rfl | rfl | rfl | rfl | rfl <;>
      simp only [List.cons_append, List.nil_append, List.mem_cons, Option.some.injEq,
        List.mem_nil_iff, or_false] at ho <;>
      rcases ho with rfl | rfl <;> simp [localOp, tempOp] at hcls
  exact ⟨rfl, hin, rfl,
    regalloc.C2_register_numbers_below_R id 1 oneRegState s2Allocated.1 s2Code s2Allocated.2
      rfl hin rfl⟩


namespace regalloc

variable {τ : Type}

/-! ### Splicing the deferred instructions -/

theorem insertInstr_append (M T : List (Option (Instr τ))) (index : Int) (instr : Instr τ)
    (out : List (Option (Instr τ))) (h : insertInstr (M ++ T) index instr = .ok out)
    (hM : (M.length : Int) ≤ index + 1) :
    (index + 1 - (M.length : Int)).toNat ≤ T.length
    ∧ out = M ++ (T.take (index + 1 - (M.length : Int)).toNat ++ some instr ::
        T.drop (index + 1 - (M.length : Int)).toNat) := by
  unfold insertInstr at h
  split at h
  · cases h
  · rename_i hc
    cases h
    have h1 : ¬ index < 0 := fun hx => hc (Or.inl hx)
    have h2 : ¬ (((M ++ T).length : Nat) : Int) ≤ index := fun hx => hc (Or.inr hx)
    simp only [List.length_append, Nat.cast_add] at h2
    have hk : index.toNat + 1 = M.length + (index + 1 - (M.length : Int)).toNat := by omega
    refine ⟨by omega, ?_⟩
    rw [hk, List.take_append, List.drop_append, List.append_assoc]

theorem insertQueuedLoop_spec (q : List (deferredInstr τ)) :
    ∀ (i m : Nat) (M T out : List (Option (Instr τ))),
      M.length = m + i →
      List.Pairwise (fun a b : deferredInstr τ => a.index ≤ b.index) q →
      (∀ d ∈ q, (m : Int) ≤ d.index + 1) →
      insertQueuedLoop q i (M ++ T) = .ok out →
      out = M ++ spliceSpec q m T := by
  induction q with
  | nil =>
    intro i m M T out _ _ _ h
    simp only [insertQueuedLoop] at h
    cases h
    rfl
  | cons d rest ih =>
    intro i m M T out hM hsort hlow h
    simp only [insertQueuedLoop] at h
    split at h
    · cases h
    · rename_i code1 hins
      have hd := hlow d (by simp)
      obtain ⟨hk, hcode1⟩ := insertInstr_append M T _ _ _ hins (by omega)
      have hkeq : d.index + (i : Int) + 1 - (M.length : Int) = d.index + 1 - (m : Int) := by
        omega
      rw [hkeq] at hk hcode1
      have hre : code1 = (M ++ (T.take (d.index + 1 - (m : Int)).toNat ++ [some d.instr]))
          ++ T.drop (d.index + 1 - (m : Int)).toNat := by
        rw [hcode1]; simp
      rw [hre] at h
      have := ih (i + 1) (m + (d.index + 1 - (m : Int)).toNat) _ _ out
        (by simp [hM, List.length_take]; omega)
        (List.Pairwise.of_cons hsort)
        (fun d' hd' => by
          have := (List.pairwise_cons.1 hsort).1 d' hd'
          omega)
        h
      rw [this]
      simp [spliceSpec]

/-! ### The queue of deferred instructions only grows -/

theorem FreeReg_queue (s s1 : state τ) (r : Int) (hf : s.FreeReg r = .ok s1) :
    s1.queuedInstr = s.queuedInstr ∧ s1.LiveValues = s.LiveValues := by
  unfold state.FreeReg at hf
  split at hf
  · split at hf
    · cases hf
    · cases hf; exact ⟨rfl, rfl⟩
  · cases hf

theorem FreeAddr_queue (s s1 : state τ) (a : Int) (hf : s.FreeAddr a = .ok s1) :
    s1.queuedInstr = s.queuedInstr := by
  unfold state.FreeAddr at hf
  split at hf
  · split at hf
    · cases hf
    · cases hf; rfl
  · cases hf

theorem Free_queue (s s1 : state τ) (v : Int) (hf : s.Free v = .ok s1) :
    s1.queuedInstr = s.queuedInstr := by
  unfold state.Free at hf
  split at hf
  · cases hf
  · simp only at hf
    split at hf
    · have := (FreeReg_queue _ _ _ hf).1
      exact this
    · have := FreeAddr_queue _ _ _ hf
      exact this

theorem AllocReg_queue (s s1 : state τ) (v r : Int) (ha : s.AllocReg v = .ok (r, s1)) :
    s1.queuedInstr = s.queuedInstr
    ∧ s1.LiveValues.get? v = some { IsReg := true, Num := r, NextUse := -1 } := by
  unfold state.AllocReg at ha
  split at ha
  · cases ha
  · cases ha
    exact ⟨rfl, by simp [GoMap.get?_set]⟩

theorem Spill_queue (s s1 : state τ) (r a : Int) (hs : s.Spill r = .ok (a, s1)) :
    s1.queuedInstr = s.queuedInstr := by
  unfold state.Spill at hs
  split at hs
  · cases hs
  · split at hs
    · cases hs
    · rename_i s2 hfree
      split at hs
      · cases hs
      · cases hs
        exact (FreeReg_queue _ _ _ hfree).1

theorem isNeeded_queue (s s1 : state τ) (bb : List (Option (Instr τ))) (v : Int)
    (index : Nat) (b : Bool) (hn : isNeeded s bb v index = .ok (b, s1)) :
    s1.queuedInstr = s.queuedInstr := by
  unfold isNeeded at hn
  split at hn
  · cases hn; rfl
  · split at hn
    · cases hn
    · split at hn
      · cases hn; rfl
      · split at hn
        · cases hn
        · cases hn; rfl
        · cases hn; rfl

theorem calcNextUseLoop_queue (bb : List (Option (Instr τ))) (index : Nat)
    (vs : List Int) (s s1 : state τ) (hc : calcNextUseLoop bb index vs s = .ok s1) :
    s1.queuedInstr = s.queuedInstr := by
  induction vs generalizing s with
  | nil => cases hc; rfl
  | cons v rest ih =>
    unfold calcNextUseLoop at hc
    split at hc
    · cases hc
    · rename_i b s2 hn
      rw [ih s2 hc, isNeeded_queue _ _ _ _ _ _ hn]

theorem freeIfNotNeeded_queue (s s1 : state τ) (bb : List (Option (Instr τ)))
    (v : Int) (index : Nat) (hf : freeIfNotNeeded s bb v index = .ok s1) :
    s1.queuedInstr = s.queuedInstr := by
  unfold freeIfNotNeeded at hf
  split at hf
  · cases hf
  · rename_i s2 hn
    cases hf
    exact isNeeded_queue _ _ _ _ _ _ hn
  · rename_i s2 hn
    rw [Free_queue _ _ _ hf, isNeeded_queue _ _ _ _ _ _ hn]

theorem spillRegister_queue [Inhabited τ] (ord : GoMap useInfo → GoMap useInfo)
    (s s1 : state τ) (bb : List (Option (Instr τ))) (op res : Operand τ) (index : Nat)
    (hs : spillRegister ord s bb op index = .ok (res, s1)) :
    ∃ r q, res = newRegOp r op.type
      ∧ s1.queuedInstr = s.queuedInstr ++ q ∧ (∀ d ∈ q, d.index = (index : Int) - 1)
      ∧ s1.LiveValues.get? op.Num = some { IsReg := true, Num := r, NextUse := -1 } := by
  unfold spillRegister at hs
  split at hs
  · cases hs
  · rename_i s2 hcalc
    simp only at hs
    split at hs
    · cases hs
    · rename_i sNum s3 hspill
      split at hs
      · cases hs
      · rename_i r2 s4 halloc
        split at hs
        · cases hs
        · rename_i hne
          cases hs
          have hrr : s2.FurthestUse ord = r2 := by
            by_contra hc; exact hne hc
          obtain ⟨hq4, hl4⟩ := AllocReg_queue _ _ _ _ halloc
          refine ⟨_, [{ index := (index : Int) - 1,
                        instr := { T := .StoreSpill, type := default,
                                   Operands := [some (newRegOp (s2.FurthestUse ord) op.type)],
                                   Destination := [some (newSpillOperand sNum op.type)] } }],
            rfl, ?_, ?_, ?_⟩
          · rw [hq4]
            simp only [queueInstr]
            rw [Spill_queue _ _ _ _ hspill, calcNextUseLoop_queue _ _ _ _ _ hcalc]
          · intro d hd
            simp only [List.mem_singleton] at hd
            subst hd
            rfl
          · rw [hrr]; exact hl4

theorem allocTemp_queue [Inhabited τ] (ord : GoMap useInfo → GoMap useInfo)
    (s s1 : state τ) (bb : List (Option (Instr τ))) (op res : Operand τ) (index : Nat)
    (ha : allocTemp ord s bb op index = .ok (res, s1)) :
    ∃ r q, res = newRegOp r op.type
      ∧ s1.queuedInstr = s.queuedInstr ++ q ∧ (∀ d ∈ q, d.index = (index : Int) - 1)
      ∧ s1.LiveValues.get? op.Num = some { IsReg := true, Num := r, NextUse := -1 } := by
  unfold allocTemp at ha
  split at ha
  · split at ha
    · cases ha
    · rename_i r s2 halloc
      cases ha
      obtain ⟨hq, hl⟩ := AllocReg_queue _ _ _ _ halloc
      exact ⟨r, [], rfl, by simp [hq], by simp, hl⟩
  · exact spillRegister_queue ord _ _ _ _ _ _ ha

theorem ensure_spilled_queue [Inhabited τ] (ord : GoMap useInfo → GoMap useInfo)
    (s s1 : state τ) (bb : List (Option (Instr τ))) (op res : Operand τ) (index : Nat)
    (loc : useInfo) (hloc : s.LiveValues.get? op.Num = some loc) (hspill : loc.IsReg = false)
    (he : ensure ord s bb op index = .ok (res, s1)) :
    ∃ r q, res = newRegOp r op.type
      ∧ s1.queuedInstr = s.queuedInstr ++ q
          ++ [{ index := (index : Int) - 1, instr := loadSpillInstr loc.Num r op.type }]
      ∧ (∀ d ∈ q, d.index = (index : Int) - 1)
      ∧ s1.LiveValues.get? op.Num = some { IsReg := true, Num := r, NextUse := -1 } := by
  unfold ensure at he
  rw [hloc] at he
  simp only [hspill, Bool.false_eq_true, if_false] at he
  unfold loadSpill at he
  split at he
  · cases he
  · rename_i rOp s2 halloc
    cases he
    obtain ⟨r, q, rfl, hq, hidx, hl⟩ := allocTemp_queue ord _ _ _ _ _ _ halloc
    exact ⟨r, q, rfl, by simp [queueInstr, hq, loadSpillInstr], hidx, hl⟩

theorem ensure_queue [Inhabited τ] (ord : GoMap useInfo → GoMap useInfo)
    (s s1 : state τ) (bb : List (Option (Instr τ))) (op res : Operand τ) (index : Nat)
    (he : ensure ord s bb op index = .ok (res, s1)) :
    ∃ q, s1.queuedInstr = s.queuedInstr ++ q ∧ (∀ d ∈ q, d.index = (index : Int) - 1) := by
  cases hloc : s.LiveValues.get? op.Num with
  | none =>
    unfold ensure at he
    rw [hloc] at he
    obtain ⟨r, q, -, hq, hidx, -⟩ := allocTemp_queue ord _ _ _ _ _ _ he
    exact ⟨q, hq, hidx⟩
  | some loc =>
    cases hreg : loc.IsReg with
    | true =>
      unfold ensure at he
      rw [hloc] at he
      simp only [hreg, if_true] at he
      cases he
      exact ⟨[], by simp, by simp⟩
    | false =>
      obtain ⟨r, q, -, hq, hidx, -⟩ := ensure_spilled_queue ord _ _ _ _ _ _ loc hloc hreg he
      refine ⟨q ++ [_], by rw [hq, List.append_assoc], ?_⟩
      intro d hd
      simp only [List.mem_append, List.mem_singleton] at hd
      rcases hd with hd | rfl
      · exact hidx d hd
      · rfl

theorem allocOperands_queue [Inhabited τ] (ord : GoMap useInfo → GoMap useInfo) (i : Nat)
    (rest : List (Option (Operand τ))) :
    ∀ (opIndex : Nat) (s s' : state τ) (bb bb' : List (Option (Instr τ))),
      allocOperands ord i rest opIndex s bb = .ok (s', bb') →
      ∃ q, s'.queuedInstr = s.queuedInstr ++ q ∧ (∀ d ∈ q, d.index = (i : Int) - 1) := by
  induction rest with
  | nil =>
    intro opIndex s s' bb bb' h
    simp only [allocOperands] at h
    cases h
    exact ⟨[], by simp, by simp⟩
  | cons o rest ih =>
    intro opIndex s s' bb bb' h
    cases o with
    | none => simp only [allocOperands] at h; cases h
    | some op =>
      simp only [allocOperands] at h
      split at h
      · split at h
        · cases h
        · rename_i newOp s1 hens
          split at h
          · cases h
          · rename_i s2 hfree
            obtain ⟨q1, hq1, hi1⟩ := ensure_queue ord _ _ _ _ _ _ hens
            obtain ⟨q2, hq2, hi2⟩ := ih _ _ _ _ _ h
            refine ⟨q1 ++ q2, ?_, ?_⟩
            · rw [hq2, freeIfNotNeeded_queue _ _ _ _ _ hfree, hq1, List.append_assoc]
            · intro d hd
              simp only [List.mem_append] at hd
              rcases hd with hd | hd
              · exact hi1 d hd
              · exact hi2 d hd
      · exact ih _ _ _ _ _ h

theorem allocDestinations_queue [Inhabited τ] (ord : GoMap useInfo → GoMap useInfo) (i : Nat)
    (rest : List (Option (Operand τ))) :
    ∀ (destIndex : Nat) (s s' : state τ) (bb bb' : List (Option (Instr τ))),
      allocDestinations ord i rest destIndex s bb = .ok (s', bb') →
      ∃ q, s'.queuedInstr = s.queuedInstr ++ q ∧ (∀ d ∈ q, d.index = (i : Int) - 1) := by
  induction rest with
  | nil =>
    intro destIndex s s' bb bb' h
    simp only [allocDestinations] at h
    cases h
    exact ⟨[], by simp, by simp⟩
  | cons o rest ih =>
    intro destIndex s s' bb bb' h
    cases o with
    | none => simp only [allocDestinations] at h; cases h
    | some op =>
      simp only [allocDestinations] at h
      split at h
      · split at h
        · cases h
        · rename_i newOp s1 halloc
          obtain ⟨r, q1, -, hq1, hi1, -⟩ := allocTemp_queue ord _ _ _ _ _ _ halloc
          obtain ⟨q2, hq2, hi2⟩ := ih _ _ _ _ _ h
          refine ⟨q1 ++ q2, ?_, ?_⟩
          · rw [hq2, hq1, List.append_assoc]
          · intro d hd
            simp only [List.mem_append] at hd
            rcases hd with hd | hd
            · exact hi1 d hd
            · exact hi2 d hd
      · exact ih _ _ _ _ _ h

theorem allocInstr_queue [Inhabited τ] (ord : GoMap useInfo → GoMap useInfo) (i : Nat)
    (s s' : state τ) (bb bb' : List (Option (Instr τ)))
    (h : allocInstr ord i s bb = .ok (s', bb')) :
    ∃ q, s'.queuedInstr = s.queuedInstr ++ q ∧ (∀ d ∈ q, d.index = (i : Int) - 1) := by
  unfold allocInstr at h
  split at h
  · split at h
    · cases h
    · rename_i s1 bb1 hops
      obtain ⟨q1, hq1, hi1⟩ := allocOperands_queue ord i _ _ _ _ _ _ hops
      obtain ⟨q2, hq2, hi2⟩ := allocDestinations_queue ord i _ _ _ _ _ _ h
      refine ⟨q1 ++ q2, ?_, ?_⟩
      · rw [hq2, hq1, List.append_assoc]
      · intro d hd
        simp only [List.mem_append] at hd
        rcases hd with hd | hd
        · exact hi1 d hd
        · exact hi2 d hd
  · cases h

theorem allocLoop_queue [Inhabited τ] (ord : GoMap useInfo → GoMap useInfo) (n : Nat) :
    ∀ (i : Nat) (s s' : state τ) (bb bb' : List (Option (Instr τ))),
      allocLoop ord n i s bb = .ok (s', bb') →
      ∃ q, s'.queuedInstr = s.queuedInstr ++ q
        ∧ List.Pairwise (fun a b : deferredInstr τ => a.index ≤ b.index) q
        ∧ (∀ d ∈ q, (i : Int) - 1 ≤ d.index ∧ d.index < (i : Int) + (n : Int) - 1) := by
  induction n with
  | zero =>
    intro i s s' bb bb' h
    simp only [allocLoop] at h
    cases h
    exact ⟨[], by simp, List.Pairwise.nil, by simp⟩
  | succ n ih =>
    intro i s s' bb bb' h
    simp only [allocLoop] at h
    split at h
    · cases h
    · rename_i s1 bb1 hinstr
      obtain ⟨q1, hq1, hi1⟩ := allocInstr_queue ord i _ _ _ _ hinstr
      obtain ⟨q2, hq2, hs2, hi2⟩ := ih _ _ _ _ _ h
      refine ⟨q1 ++ q2, ?_, ?_, ?_⟩
      · rw [hq2, hq1, List.append_assoc]
      · rw [List.pairwise_append]
        refine ⟨?_, hs2, ?_⟩
        · rw [List.pairwise_iff_forall_sublist]
          intro a b hab
          have ha := hi1 a (hab.subset (by simp))
          have hb := hi1 b (hab.subset (by simp))
          omega
        · intro a ha b hb
          have := hi1 a ha
          have := (hi2 b hb).1
          push_cast at this
          omega
      · intro d hd
        simp only [List.mem_append] at hd
        rcases hd with hd | hd
        · have := hi1 d hd
          push_cast
          omega
        · have := hi2 d hd
          push_cast at this ⊢
          omega

end regalloc


namespace regalloc

variable {τ : Type}

/-! ### Where a deferred instruction lands -/

theorem spliceSpec_head (qb : List (deferredInstr τ)) (m : Nat) (x : Option (Instr τ))
    (T : List (Option (Instr τ)))
    (hlow : ∀ d ∈ qb, (m : Int) ≤ d.index + 1) :
    ∃ mid post, spliceSpec qb m (x :: T) = mid ++ x :: post
      ∧ ∀ y ∈ mid, ∃ d ∈ qb, y = some d.instr ∧ d.index + 1 = (m : Int) := by
  induction qb with
  | nil => exact ⟨[], T, rfl, by simp⟩
  | cons d rest ih =>
    have hd := hlow d (by simp)
    by_cases hk : d.index + 1 = (m : Int)
    · obtain ⟨mid, post, heq, hmid⟩ := ih (fun e he => hlow e (by simp [he]))
      refine ⟨some d.instr :: mid, post, ?_, ?_⟩
      · have h0 : (d.index + 1 - (m : Int)).toNat = 0 := by omega
        simp only [spliceSpec, h0, List.take_zero, List.drop_zero, Nat.add_zero,
          List.nil_append, heq, List.cons_append]
      · intro y hy
        simp only [List.mem_cons] at hy
        rcases hy with rfl | hy
        · exact ⟨d, by simp, rfl, hk⟩
        · obtain ⟨e, he, h1, h2⟩ := hmid y hy
          exact ⟨e, by simp [he], h1, h2⟩
    · obtain ⟨k, hkk⟩ : ∃ k, (d.index + 1 - (m : Int)).toNat = k + 1 :=
        ⟨(d.index + 1 - (m : Int)).toNat - 1, by omega⟩
      refine ⟨[], T.take k ++ some d.instr :: spliceSpec rest (m + (k + 1)) (T.drop k), ?_,
        by simp⟩
      simp only [spliceSpec, hkk, List.take_succ_cons, List.drop_succ_cons, List.nil_append,
        List.cons_append]

theorem spliceSpec_split (qa : List (deferredInstr τ)) :
    ∀ (d : deferredInstr τ) (qb : List (deferredInstr τ)) (m : Nat)
      (T : List (Option (Instr τ))),
      List.Pairwise (fun a b : deferredInstr τ => a.index ≤ b.index) (qa ++ d :: qb) →
      (∀ e ∈ qa ++ d :: qb, (m : Int) ≤ e.index + 1) →
      ∃ pre, spliceSpec (qa ++ d :: qb) m T
        = pre ++ some d.instr ::
            spliceSpec qb (d.index + 1).toNat (T.drop (d.index + 1 - (m : Int)).toNat) := by
  induction qa with
  | nil =>
    intro d qb m T _ hlow
    have hd := hlow d (by simp)
    refine ⟨T.take (d.index + 1 - (m : Int)).toNat, ?_⟩
    have : m + (d.index + 1 - (m : Int)).toNat = (d.index + 1).toNat := by omega
    simp only [List.nil_append, spliceSpec, this]
  | cons e qa ih =>
    intro d qb m T hsort hlow
    have he := hlow e (by simp)
    have hed : e.index ≤ d.index := by
      have := (List.pairwise_cons.1 hsort).1 d (by simp)
      exact this
    obtain ⟨pre, hpre⟩ := ih d qb (m + (e.index + 1 - (m : Int)).toNat)
      (T.drop (e.index + 1 - (m : Int)).toNat) (List.Pairwise.of_cons hsort)
      (fun e' he' => by
        have := (List.pairwise_cons.1 hsort).1 e' he'
        omega)
    refine ⟨T.take (e.index + 1 - (m : Int)).toNat ++ some e.instr :: pre, ?_⟩
    have hsum : (e.index + 1 - (m : Int)).toNat
        + (d.index + 1 - ((m + (e.index + 1 - (m : Int)).toNat : Nat) : Int)).toNat
        = (d.index + 1 - (m : Int)).toNat := by omega
    rw [List.drop_drop, hsum] at hpre
    rw [List.cons_append]
    simp only [spliceSpec]
    rw [hpre]
    simp

/-! ### Running `allocBlock` in pieces -/

theorem allocOperands_append [Inhabited τ] (ord : GoMap useInfo → GoMap useInfo) (i : Nat)
    (l1 l2 : List (Option (Operand τ))) :
    ∀ (k : Nat) (s : state τ) (bb : List (Option (Instr τ))),
      allocOperands ord i (l1 ++ l2) k s bb
        = match allocOperands ord i l1 k s bb with
          | .error e => .error e
          | .ok (s1, bb1) => allocOperands ord i l2 (k + l1.length) s1 bb1 := by
  induction l1 with
  | nil => intro k s bb; simp [allocOperands]
  | cons o l1 ih =>
    intro k s bb
    cases o with
    | none => simp [allocOperands]
    | some op =>
      simp only [List.cons_append, allocOperands, List.length_cons]
      have e : k + (l1.length + 1) = k + 1 + l1.length := by omega
      by_cases hc : op.cls = .Temp
      · simp only [hc, if_true]
        cases ensure ord s bb op i with
        | error x => rfl
        | ok v =>
          obtain ⟨newOp, s1⟩ := v
          simp only []
          cases freeIfNotNeeded s1 (setOperand bb i k newOp) op.Num i with
          | error x => rfl
          | ok s2 =>
            simp only []
            rw [e]
            exact ih _ _ _
      · simp only [hc, if_false]
        rw [e]
        exact ih _ _ _

theorem allocLoop_add [Inhabited τ] (ord : GoMap useInfo → GoMap useInfo) (m n : Nat) :
    ∀ (i : Nat) (s : state τ) (bb : List (Option (Instr τ))),
      allocLoop ord (m + n) i s bb
        = match allocLoop ord m i s bb with
          | .error e => .error e
          | .ok (s1, bb1) => allocLoop ord n (i + m) s1 bb1 := by
  induction m with
  | zero => intro i s bb; simp [allocLoop]
  | succ m ih =>
    intro i s bb
    have e : m + 1 + n = (m + n) + 1 := by omega
    rw [e]
    simp only [allocLoop]
    cases allocInstr ord i s bb with
    | error x => rfl
    | ok v =>
      obtain ⟨s1, bb1⟩ := v
      simp only []
      rw [ih]
      have e2 : i + 1 + m = i + (m + 1) := by omega
      rw [e2]

end regalloc


namespace regalloc

variable {τ : Type}

/-! ### A use of a spilled value is preceded by its reload (C4) -/

/-- C4 (amended): when `allocBlock`, started with an empty queue, reaches
operand `k` of instruction `j`, a temporary whose value then resides in spill
slot `loc.Num`, `ensure` replaces it by a register `r` and records the value
as residing in `r` from then on; and when allocation and splicing complete,
the final stream holds the load-spill from that slot into `r` before
instruction `j` (whose operand `k` is `r`), with only instructions spliced
for `j` (recorded index `j - 1`) between the load-spill and instruction `j`. -/
theorem C4_reload_precedes_use_of_spilled_value [Inhabited τ]
    (ord : GoMap useInfo → GoMap useInfo) (s0 sj sjk s' : state τ)
    (bb bbj bbjk bb' out : List (Option (Instr τ))) (j k : Nat) (instr : Instr τ)
    (op : Operand τ) (loc : useInfo)
    (h0 : s0.queuedInstr = [])
    (hinstr : bb[j]? = some (some instr))
    (hop : instr.Operands[k]? = some (some op)) (hcls : op.cls = .Temp)
    (hj : allocLoop ord j 0 s0 bb = .ok (sj, bbj))
    (hk : allocOperands ord j (instr.Operands.take k) 0 sj bbj = .ok (sjk, bbjk))
    (hloc : sjk.LiveValues.get? op.Num = some loc) (hspill : loc.IsReg = false)
    (hall : allocBlock ord s0 bb = .ok (s', bb'))
    (hout : insertQueuedInstrs s' bb' = .ok out) :
    ∃ (r : Int) (s1 : state τ) (instr' : Instr τ) (pre mid post : List (Option (Instr τ))),
      ensure ord sjk bbjk op j = .ok (newRegOp r op.type, s1)
      ∧ s1.LiveValues.get? op.Num = some { IsReg := true, Num := r, NextUse := -1 }
      ∧ bb'[j]? = some (some instr')
      ∧ instr'.Operands[k]? = some (some (newRegOp r op.type))
      ∧ out = pre ++ some (loadSpillInstr loc.Num r op.type) :: (mid ++ some instr' :: post)
      ∧ ∀ x ∈ mid, ∃ d ∈ s'.queuedInstr, x = some d.instr ∧ d.index = (j : Int) - 1 := by
  have hjn : j < bb.length := (List.getElem?_eq_some_iff.1 hinstr).1
  have hkn : k < instr.Operands.length := (List.getElem?_eq_some_iff.1 hop).1
  have htriv_ens : ∀ (s : state τ) bb op idx res s1, True → ensure ord s bb op idx = .ok (res, s1) →
      True ∧ ∃ r, res = newRegOp r op.type ∧ True := fun s bb op idx res s1 _ he => by
    obtain ⟨r, hr⟩ := ensure_shape ord s s1 bb op res idx he
    exact ⟨trivial, r, hr, trivial⟩
  have htriv_alloc : ∀ (s : state τ) bb op idx res s1, True →
      allocTemp ord s bb op idx = .ok (res, s1) →
      True ∧ ∃ r, res = newRegOp r op.type ∧ True := fun s bb op idx res s1 _ he => by
    obtain ⟨r, hr⟩ := allocTemp_shape ord s s1 bb op res idx he
    exact ⟨trivial, r, hr, trivial⟩
  have htriv_free : ∀ (s : state τ) (bb : List (Option (Instr τ))) (v : Int) (idx : Nat)
      (s1 : state τ), True → freeIfNotNeeded s bb v idx = .ok s1 → True :=
    fun _ _ _ _ _ _ _ => trivial
  -- the run up to instruction j leaves instruction j alone
  obtain ⟨-, hlenj, hsamej, -⟩ := allocLoop_rel (fun _ => True) (fun _ => True) ord
    htriv_ens htriv_free htriv_alloc j 0 s0 sj bb bbj trivial hj
  have hbbj : bbj[j]? = some (some instr) := by
    rw [hsamej j (Or.inr (by omega))]; exact hinstr
  have hjn' : j < bbj.length := by omega
  -- split the whole run at instruction j
  have hsplit : bb.length = j + ((bb.length - j - 1) + 1) := by omega
  have hall' := hall
  unfold allocBlock at hall'
  rw [hsplit, allocLoop_add, hj] at hall'
  simp only [Nat.zero_add, allocLoop] at hall'
  cases hA : allocInstr ord j sj bbj with
  | error e => rw [hA] at hall'; cases hall'
  | ok vA =>
    obtain ⟨sA, bbA⟩ := vA
    rw [hA] at hall'
    simp only [] at hall'
    -- split instruction j at operand k
    have hA' := hA
    unfold allocInstr at hA'
    rw [hbbj] at hA'
    simp only [] at hA'
    cases hO : allocOperands ord j instr.Operands 0 sj bbj with
    | error e => rw [hO] at hA'; cases hA'
    | ok vO =>
      obtain ⟨sO, bbO⟩ := vO
      rw [hO] at hA'
      simp only [] at hA'
      have hopsplit : instr.Operands
          = instr.Operands.take k ++ (some op :: instr.Operands.drop (k + 1)) := by
        have h1 : instr.Operands.drop k = some op :: instr.Operands.drop (k + 1) := by
          rw [List.drop_eq_getElem_cons hkn]
          congr 1
          have := List.getElem?_eq_getElem hkn
          rw [hop] at this
          exact (Option.some.inj this).symm
        rw [← h1, List.take_append_drop]
      have hO' := hO
      rw [hopsplit, allocOperands_append, hk] at hO'
      simp only [List.length_take, Nat.zero_add, Nat.min_eq_left (Nat.le_of_lt hkn),
        allocOperands, hcls, if_true] at hO'
      cases hE : ensure ord sjk bbjk op j with
      | error e => rw [hE] at hO'; cases hO'
      | ok vE =>
        obtain ⟨res, s1⟩ := vE
        rw [hE] at hO'
        simp only [] at hO'
        cases hF : freeIfNotNeeded s1 (setOperand bbjk j k res) op.Num j with
        | error e => rw [hF] at hO'; cases hO'
        | ok s2 =>
          rw [hF] at hO'
          simp only [] at hO'
          obtain ⟨r, q0, hres, hq1, hq0idx, hlive⟩ :=
            ensure_spilled_queue ord sjk s1 bbjk op res j loc hloc hspill hE
          subst hres
          -- the instruction as the remaining steps leave it
          obtain ⟨-, restK, hrelK, hbbjk⟩ := allocOperands_rel (fun _ => True) (fun _ => True)
            ord j htriv_ens htriv_free (instr.Operands.take k)
            (some op :: instr.Operands.drop (k + 1)) 0 sj sjk bbj bbjk instr [] trivial hbbj
            (by simpa using hopsplit) rfl hk
          have hKlen : restK.length = k := by
            rw [← hrelK.length_eq, List.length_take, Nat.min_eq_left (Nat.le_of_lt hkn)]
          simp only [List.nil_append] at hbbjk
          have hbbjk_j : bbjk[j]? = some (some { instr with
              Operands := restK ++ (some op :: instr.Operands.drop (k + 1)) }) := by
            rw [hbbjk, List.getElem?_set]; simp [hjn']
          have hset : setOperand bbjk j k (newRegOp r op.type)
              = bbjk.set j (some { instr with
                  Operands := (restK ++ [some (newRegOp r op.type)])
                    ++ (instr.Operands.drop (k + 1) ++ []) }) := by
            unfold setOperand
            rw [hbbjk_j]
            simp only [← hKlen, set_append_length, List.append_assoc, List.singleton_append,
              List.append_nil]
          have hjk : j < bbjk.length := by rw [hbbjk, List.length_set]; exact hjn'
          have hbb1_j : (setOperand bbjk j k (newRegOp r op.type))[j]?
              = some (some { instr with
                  Operands := (restK ++ [some (newRegOp r op.type)])
                    ++ (instr.Operands.drop (k + 1) ++ []) }) := by
            rw [hset, List.getElem?_set]; simp [hjk]
          obtain ⟨-, rest3, -, hbbO⟩ := allocOperands_rel (fun _ => True) (fun _ => True)
            ord j htriv_ens htriv_free (instr.Operands.drop (k + 1)) [] (k + 1) s2 sO _ bbO _
            (restK ++ [some (newRegOp r op.type)]) trivial hbb1_j rfl (by simp [hKlen]) hO'
          have hj1 : j < (setOperand bbjk j k (newRegOp r op.type)).length := by
            rw [hset, List.length_set]; exact hjk
          have hbbO_j : bbO[j]? = some (some { instr with
              Operands := (restK ++ [some (newRegOp r op.type)]) ++ (rest3 ++ []) }) := by
            rw [hbbO, List.getElem?_set]; simp [hj1]
          obtain ⟨-, dests', -, hbbA⟩ := allocDestinations_rel (fun _ => True) (fun _ => True)
            ord j htriv_alloc instr.Destination 0 sO sA bbO bbA _ [] trivial hbbO_j rfl rfl hA'
          have hjO : j < bbO.length := by rw [hbbO, List.length_set]; exact hj1
          obtain ⟨-, -, hsameA, -⟩ := allocLoop_rel (fun _ => True) (fun _ => True) ord
            htriv_ens htriv_free htriv_alloc (bb.length - j - 1) (j + 1) sA s' bbA bb' trivial
            hall'
          have hbb'_j : bb'[j]? = some (some { instr with
              Operands := (restK ++ [some (newRegOp r op.type)]) ++ (rest3 ++ []),
              Destination := [] ++ dests' }) := by
            rw [hsameA j (Or.inl (by omega)), hbbA, List.getElem?_set]; simp [hjO]
          -- the queue
          obtain ⟨qF, hqall, hsort, hlow⟩ := allocLoop_queue ord bb.length 0 s0 s' bb bb' hall
          rw [h0, List.nil_append] at hqall
          obtain ⟨qO, hqO, hqOidx⟩ := allocOperands_queue ord j _ _ _ _ _ _ hO'
          obtain ⟨qD, hqD, hqDidx⟩ := allocDestinations_queue ord j _ _ _ _ _ _ hA'
          obtain ⟨qR, hqR, -, hqRidx⟩ := allocLoop_queue ord _ _ _ _ _ _ hall'
          have hqF2 := freeIfNotNeeded_queue _ _ _ _ _ hF
          have hqueue : s'.queuedInstr = (sjk.queuedInstr ++ q0)
              ++ { index := (j : Int) - 1, instr := loadSpillInstr loc.Num r op.type }
                :: (qO ++ qD ++ qR) := by
            rw [hqR, hqD, hqO, hqF2, hq1]
            simp
          have hsort' : List.Pairwise (fun a b : deferredInstr τ => a.index ≤ b.index)
              s'.queuedInstr := by rw [hqall]; exact hsort
          have hlow' : ∀ e ∈ s'.queuedInstr, ((0 : Nat) : Int) ≤ e.index + 1 := by
            intro e he
            rw [hqall] at he
            have := (hlow e he).1
            push_cast at this ⊢
            omega
          -- the final stream
          have hspec := insertQueuedLoop_spec s'.queuedInstr 0 0 [] bb' out rfl hsort' hlow'
            (by simpa [insertQueuedInstrs] using hout)
          rw [List.nil_append] at hspec
          rw [hqueue] at hsort' hlow' hspec
          obtain ⟨pre, hpre⟩ := spliceSpec_split _ _ _ 0 bb' hsort' hlow'
          have hjb' : j < bb'.length := (List.getElem?_eq_some_iff.1 hbb'_j).1
          have hdrop : bb'.drop j = some { instr with
              Operands := (restK ++ [some (newRegOp r op.type)]) ++ (rest3 ++ []),
              Destination := [] ++ dests' } :: bb'.drop (j + 1) := by
            rw [List.drop_eq_getElem_cons hjb']
            congr 1
            have := List.getElem?_eq_getElem hjb'
            rw [hbb'_j] at this
            exact (Option.some.inj this).symm
          have hidx1 : ((j : Int) - 1 + 1).toNat = j := by omega
          have hidx2 : ((j : Int) - 1 + 1 - ((0 : Nat) : Int)).toNat = j := by
            push_cast; omega
          simp only [hidx1, hidx2, hdrop] at hpre
          obtain ⟨mid, post, hmidpost, hmid⟩ := spliceSpec_head (qO ++ qD ++ qR) j
            (some { instr with
              Operands := (restK ++ [some (newRegOp r op.type)]) ++ (rest3 ++ []),
              Destination := [] ++ dests' }) (bb'.drop (j + 1))
            (by
              intro d hd
              simp only [List.mem_append] at hd
              rcases hd with (hd | hd) | hd
              · have := hqOidx d hd; omega
              · have := hqDidx d hd; omega
              · have := (hqRidx d hd).1
                push_cast at this
                omega)
          refine ⟨r, s1, _, pre, mid, post, rfl, hlive, hbb'_j, ?_, ?_, ?_⟩
          · simp only [List.append_nil, List.append_assoc, List.singleton_append]
            rw [List.getElem?_append_right (by omega)]
            simp [hKlen]
          · rw [hspec, hpre, hmidpost]
          · intro x hx
            obtain ⟨d, hd, hxd, hdi⟩ := hmid x hx
            refine ⟨d, ?_, hxd, by omega⟩
            rw [hqueue]
            simp only [List.mem_append, List.mem_cons]
            simp only [List.mem_append] at hd
            tauto

end regalloc

/-- C4, at `c4Code` with one register: `t0` resides in spill slot 0 when
instruction 3, its first use after the spill, is reached. -/
theorem C4_reload_precedes_use_of_spilled_value_witness :
    oneRegState.queuedInstr = []
    ∧ c4Code[3]? = some (useTemp 0 0)
    ∧ [some (tempOp 0)][0]? = some (some (tempOp 0)) ∧ (tempOp 0).cls = .Temp
    ∧ regalloc.allocLoop id 3 0 oneRegState c4Code = .ok (c4AtThree.1, c4AtThree.2)
    ∧ regalloc.allocOperands id 3 ([some (tempOp 0)].take 0) 0 c4AtThree.1 c4AtThree.2
        = .ok (c4AtThree.1, c4AtThree.2)
    ∧ c4AtThree.1.LiveValues.get? (tempOp 0).Num
        = some { IsReg := false, Num := 0, NextUse := -1 }
    ∧ regalloc.allocBlock id oneRegState c4Code = .ok (c4Allocated.1, c4Allocated.2)
    ∧ regalloc.insertQueuedInstrs c4Allocated.1 c4Allocated.2 = .ok c4Final
    ∧ ∃ (r : Int) (s1 : regalloc.state Ty) (instr' : Instr Ty)
        (pre mid post : List (Option (Instr Ty))),
        regalloc.ensure id c4AtThree.1 c4AtThree.2 (tempOp 0) 3
          = .ok (regalloc.newRegOp r (tempOp 0).type, s1)
        ∧ s1.LiveValues.get? (tempOp 0).Num = some { IsReg := true, Num := r, NextUse := -1 }
        ∧ c4Allocated.2[3]? = some (some instr')
        ∧ instr'.Operands[0]? = some (some (regalloc.newRegOp r (tempOp 0).type))
        ∧ c4Final = pre ++ some (regalloc.loadSpillInstr 0 r (tempOp 0).type)
            :: (mid ++ some instr' :: post)
        ∧ ∀ x ∈ mid, ∃ d ∈ c4Allocated.1.queuedInstr,
            x = some d.instr ∧ d.index = ((3 : Nat) : Int) - 1 :=
  ⟨rfl, rfl, rfl, rfl, rfl, rfl, rfl, rfl, rfl,
    regalloc.C4_reload_precedes_use_of_spilled_value id oneRegState c4AtThree.1 c4AtThree.1
      c4Allocated.1 c4Code c4AtThree.2 c4AtThree.2 c4Allocated.2 c4Final 3 0
      { T := .Store, type := .I64, Operands := [some (tempOp 0)],
        Destination := [some (localOp 0)] }
      (tempOp 0) { IsReg := false, Num := 0, NextUse := -1 }
      rfl rfl rfl rfl rfl rfl rfl rfl rfl rfl⟩

/-- C4 (the claim as stated fails): with one register, `t0` is spilled to
slot 0 while instruction 1 of `c4Code` is processed and is neither redefined
nor freed before its last use; its first later use (`store t0 -> x0`) comes
right after the load-spill from slot 0, but its second later use
(`store t0 -> x2`, the last instruction of the final stream) is preceded by
`store r0 -> x0`, not by a load-spill: the value is read from the register the
reload left it in. -/
theorem C4_counterexample_second_use_without_reload :
    (regalloc.allocProc id (oneBlockProc c4Code) 1).map
        (fun p => p.Blocks.map (fun b => b.Code))
      = .ok [[
        some { T := .Load, type := .I64, Operands := [some (localOp 0)],
               Destination := [some (regOp 0)] },
        some { T := .StoreSpill, type := .Invalid, Operands := [some (regOp 0)],
               Destination := [some (spillOp 0)] },
        some { T := .Load, type := .I64, Operands := [some (localOp 1)],
               Destination := [some (regOp 0)] },
        some { T := .Store, type := .I64, Operands := [some (regOp 0)],
               Destination := [some (localOp 1)] },
        some { T := .LoadSpill, type := .I64, Operands := [some (spillOp 0)],
               Destination := [some (regOp 0)] },
        some { T := .Store, type := .I64, Operands := [some (regOp 0)],
               Destination := [some (localOp 0)] },
        some { T := .Store, type := .I64, Operands := [some (regOp 0)],
               Destination := [some (localOp 2)] }]] :=
  rfl

namespace hirchecker
variable {τ : Type}

/-! ### The HIR checker on single instructions -/

theorem checkEqual_none [DecidableEq τ] (instr : Instr τ) (first : τ) (rest : List τ) :
    checkEqual instr (first :: rest) = none ↔ ∀ t ∈ rest, first = t := by
  simp [checkEqual]

theorem checkEqual_some [DecidableEq τ] (instr : Instr τ) (first : τ) (rest : List τ)
    (h : ¬ ∀ t ∈ rest, first = t) :
    checkEqual instr (first :: rest) = some (.malformedEqualTypes instr) := by
  simp only [checkEqual]
  rw [if_neg]
  simpa using h

/-- C13: for every predicate table, a HIR arithmetic instruction with two
non-nil operands and a non-nil first destination whose instruction type,
operand types and destination type are not all equal gets the `unequal types`
diagnostic; no class or type predicate takes part in the verdict. -/
theorem C13_arith_unequal_types [DecidableEq τ] (E : Env τ) (instr : Instr τ)
    (a b dest : Operand τ) (rest : List (Option (Operand τ)))
    (hT : instr.T = .Add ∨ instr.T = .Sub ∨ instr.T = .Mult ∨ instr.T = .Div
      ∨ instr.T = .Rem)
    (hops : instr.Operands = [some a, some b])
    (hdst : instr.Destination = some dest :: rest)
    (hne : ¬ (instr.type = a.type ∧ a.type = b.type ∧ b.type = dest.type)) :
    checkInstr E (some instr) = .ok (some (.malformedEqualTypes instr)) := by
  have hform : checkForm instr 2 true = none := by
    simp [checkForm, Instr.destIsNil, hops, hdst]
  have heq : checkEqual instr [instr.type, a.type, b.type, dest.type]
      = some (.malformedEqualTypes instr) := by
    apply checkEqual_some
    intro hall
    apply hne
    have h1 := hall a.type (by simp)
    have h2 := hall b.type (by simp)
    have h3 := hall dest.type (by simp)
    exact ⟨h1, h1.symm.trans h2, h2.symm.trans h3⟩
  have harith : checkArith E instr = .ok (some (.malformedEqualTypes instr)) := by
    simp [checkArith, checkBinaryAll, hform, opAt, hops, hdst, heq]
  rcases hT with h | h | h | h | h <;> simp only [checkInstr, h, harith]

/-- C12 (amended): a HIR comparison with two non-nil operands of the
instruction type and a non-nil first destination whose type the `bool`
predicate rejects gets the `malformed type or class` diagnostic. -/
theorem C12_compare_non_bool_destination [DecidableEq τ] (E : Env τ) (instr : Instr τ)
    (a b dest : Operand τ) (rest : List (Option (Operand τ)))
    (hT : instr.T = .Eq ∨ instr.T = .Diff ∨ instr.T = .Less ∨ instr.T = .More
      ∨ instr.T = .LessEq ∨ instr.T = .MoreEq)
    (hops : instr.Operands = [some a, some b])
    (hdst : instr.Destination = some dest :: rest)
    (ha : a.type = instr.type) (hb : b.type = instr.type)
    (hbool : E.IsBool dest.type = false) :
    checkInstr E (some instr) = .ok (some (.malformedTypeOrClass instr)) := by
  have hform : checkForm instr 2 true = none := by
    simp [checkForm, Instr.destIsNil, hops, hdst]
  have heq : checkEqual instr [instr.type, a.type, b.type] = none := by
    rw [checkEqual_none]
    intro t ht
    simp only [List.mem_cons, List.mem_nil_iff, or_false] at ht
    rcases ht with rfl | rfl
    · exact ha.symm
    · exact hb.symm
  have hcomp : checkComp E instr = .ok (some (.malformedTypeOrClass instr)) := by
    have hC : (bool_res E).Check dest = false := by
      simp [Checker.Check, bool_res, hbool]
    simp only [checkComp, hform, opAt, hops, hdst, heq, checkBinary, List.getElem?_cons_zero,
      List.getElem?_cons_succ, hC, Checker.CheckPtr]
    cases (any_oper E).Check a <;> cases (any_oper E).Check b <;> rfl
  rcases hT with h | h | h | h | h | h <;> simp only [checkInstr, h, hcomp]

end hirchecker

namespace hirchecker
variable {τ : Type}

/-! ### The HIR call and return rules -/

theorem checkCallArgs_types [DecidableEq τ] (instr : Instr τ) (formals : List τ) :
    ∀ (reals : List (Option (Operand τ))), reals.length = formals.length →
      (checkCallArgs instr formals reals = .ok none
        ↔ reals.map (Option.map (fun op => op.type)) = formals.map some) := by
  induction formals with
  | nil =>
    intro reals hlen
    cases reals with
    | nil => simp [checkCallArgs]
    | cons _ _ => simp at hlen
  | cons f formals ih =>
    intro reals hlen
    cases reals with
    | nil => simp at hlen
    | cons o reals =>
      simp only [List.length_cons, Nat.add_right_cancel_iff] at hlen
      cases o with
      | none => simp [checkCallArgs]
      | some real_arg =>
        simp only [checkCallArgs, List.map_cons, Option.map_some', List.cons.injEq,
          Option.some.injEq]
        by_cases hty : f = real_arg.type
        · simp only [hty, ne_eq, not_true_eq_false, if_false, true_and]
          exact ih reals hlen
        · simp only [ne_eq, hty, not_false_eq_true, if_true]
          constructor
          · intro h; simp at h
          · rintro ⟨h, -⟩; exact absurd h.symm hty

theorem checkCallRets_types [DecidableEq τ] (instr : Instr τ) (formals : List τ) :
    ∀ (reals : List (Option (Operand τ))), reals.length = formals.length →
      (checkCallRets instr formals reals = .ok none
        ↔ reals.map (Option.map (fun op => op.type)) = formals.map some) := by
  induction formals with
  | nil =>
    intro reals hlen
    cases reals with
    | nil => simp [checkCallRets]
    | cons _ _ => simp at hlen
  | cons f formals ih =>
    intro reals hlen
    cases reals with
    | nil => simp at hlen
    | cons o reals =>
      simp only [List.length_cons, Nat.add_right_cancel_iff] at hlen
      cases o with
      | none => simp [checkCallRets]
      | some real_ret =>
        simp only [checkCallRets, List.map_cons, Option.map_some', List.cons.injEq,
          Option.some.injEq]
        by_cases hty : real_ret.type = f
        · simp only [hty, ne_eq, not_true_eq_false, if_false, true_and]
          exact ih reals hlen
        · simp only [ne_eq, hty, not_false_eq_true, if_true, false_and, iff_false]
          intro h; simp at h

theorem map_type_length {formals : List τ} {reals : List (Option (Operand τ))}
    (h : reals.map (Option.map (fun op => op.type)) = formals.map some) :
    reals.length = formals.length := by
  have := congrArg List.length h
  simpa using this

/-- C14 (amended): the HIR `checkCall` returns `nil` iff operand 0 is non-nil
and has a resolved symbol with a procedure behind it, the remaining operands
are non-nil and as many as the callee's formal arguments, with the same types
in order, and the destinations are non-nil and as many as the formal returns,
with the same types in order.  The value type of operand 0 takes no part. -/
theorem C14_hir_checkCall_iff [DecidableEq τ] (instr : Instr τ) :
    checkCall instr = .ok none ↔
      ∃ (procOp : Operand τ) (realArgs : List (Option (Operand τ))) (sy : Symbol τ)
        (proc : Signature τ),
        instr.Operands = some procOp :: realArgs
        ∧ procOp.Symbol = some sy ∧ sy.Proc = some proc
        ∧ realArgs.map (Option.map (fun op => op.type)) = proc.Args.map some
        ∧ instr.Destination.map (Option.map (fun op => op.type)) = proc.Rets.map some := by
  constructor
  · intro h
    unfold checkCall at h
    split at h
    · cases h
    · cases h
    · rename_i procOp realArgs hops
      split at h
      · cases h
      · rename_i sy hsy
        split at h
        · cases h
        · rename_i proc hproc
          split at h
          · cases h
          · rename_i hlenA
            split at h
            · cases h
            · rename_i hlenR
              have hlenA' : realArgs.length = proc.Args.length := by
                by_contra hc; exact hlenA hc
              have hlenR' : instr.Destination.length = proc.Rets.length := by
                by_contra hc; exact hlenR hc
              split at h
              · cases h
              · cases h
              · rename_i hargs
                exact ⟨procOp, realArgs, sy, proc, hops, hsy, hproc,
                  (checkCallArgs_types instr _ _ hlenA').1 hargs,
                  (checkCallRets_types instr _ _ hlenR').1 h⟩
  · rintro ⟨procOp, realArgs, sy, proc, hops, hsy, hproc, hargs, hrets⟩
    have hlenA := map_type_length hargs
    have hlenR := map_type_length hrets
    unfold checkCall
    rw [hops]
    simp only [hsy, hproc, hlenA, hlenR, ne_eq, not_true_eq_false, if_false]
    rw [(checkCallArgs_types instr _ _ hlenA).2 hargs]
    exact (checkCallRets_types instr _ _ hlenR).2 hrets

theorem checkRetLoop_types [DecidableEq τ] (wanted : List τ) :
    ∀ (rets : List (Operand τ)), rets.length = wanted.length →
      ((checkRetLoop wanted (rets.map some) = .ok none ↔ rets.map (fun op => op.type) = wanted)
        ∧ ∃ r, checkRetLoop wanted (rets.map some) = .ok r) := by
  induction wanted with
  | nil =>
    intro rets hlen
    cases rets with
    | nil => simp [checkRetLoop]
    | cons _ _ => simp at hlen
  | cons w wanted ih =>
    intro rets hlen
    cases rets with
    | nil => simp at hlen
    | cons r rets =>
      simp only [List.length_cons, Nat.add_right_cancel_iff] at hlen
      simp only [List.map_cons, checkRetLoop, List.cons.injEq]
      by_cases hty : w = r.type
      · simp only [hty, ne_eq, not_true_eq_false, if_false, true_and]
        exact ih rets hlen
      · simp only [ne_eq, hty, not_false_eq_true, if_true]
        refine ⟨⟨fun h => by simp at h, fun h => absurd h.1.symm hty⟩, _, rfl⟩

/-- C15: for every procedure and every list `rets` of (non-nil) returned
operands, the HIR `checkRet` returns `nil` iff `rets` has as many operands as
the procedure has formal returns and the type of `rets[i]` is the `i`-th
formal return type for every `i`; in every other case it returns a
diagnostic. -/
theorem C15_hir_checkRet_iff [DecidableEq τ] (s : state τ) (rets : List (Operand τ)) :
    (checkRet s (rets.map some) = .ok none ↔
        rets.length = s.proc.Rets.length
        ∧ ∀ i (h1 : i < rets.length) (h2 : i < s.proc.Rets.length),
            rets[i].type = s.proc.Rets[i])
    ∧ (checkRet s (rets.map some) = .ok none
        ∨ ∃ err, checkRet s (rets.map some) = .ok (some err)) := by
  have hmap : ∀ (l : List (Operand τ)) (w : List τ), l.map (fun op => op.type) = w ↔
      l.length = w.length ∧ ∀ i (h1 : i < l.length) (h2 : i < w.length), l[i].type = w[i] := by
    intro l w
    constructor
    · rintro rfl
      exact ⟨by simp, fun i h1 h2 => by simp⟩
    · rintro ⟨hl, hi⟩
      apply List.ext_getElem
      · simpa using hl
      · intro i h1 h2
        simp only [List.getElem_map]
        exact hi i (by simpa using h1) h2
  unfold checkRet
  by_cases hlen : s.proc.Rets.length = rets.length
  · have hif : ¬ (s.proc.Rets.length ≠ (rets.map some).length) := by simp [hlen]
    rw [if_neg hif]
    obtain ⟨h1, r, hr⟩ := checkRetLoop_types s.proc.Rets rets hlen.symm
    refine ⟨?_, ?_⟩
    · rw [h1, hmap]
    · rw [hr]
      cases r with
      | none => exact Or.inl rfl
      | some err => exact Or.inr ⟨err, rfl⟩
  · have hif : s.proc.Rets.length ≠ (rets.map some).length := by simpa using hlen
    rw [if_pos hif]
    refine ⟨⟨fun h => by simp at h, fun h => absurd h.1.symm hlen⟩, Or.inr ⟨_, rfl⟩⟩

end hirchecker

namespace mirchecker
variable {τ : Type}

/-! ### The invalid class and the form of MIR instructions -/

theorem anyInvalidClass_true (l : List (Option (Operand τ)))
    (hnn : ∀ o ∈ l, o ≠ none) (h : ∃ op, some op ∈ l ∧ op.cls = .Invalid) :
    anyInvalidClass l = .ok true := by
  induction l with
  | nil => obtain ⟨op, hm, -⟩ := h; simp at hm
  | cons o l ih =>
    cases o with
    | none => exact absurd rfl (hnn none (by simp))
    | some x =>
      simp only [anyInvalidClass]
      by_cases hx : x.cls = .Invalid
      · simp [hx]
      · simp only [hx, if_false]
        apply ih (fun o ho => hnn o (by simp [ho]))
        obtain ⟨op, hm, hc⟩ := h
        simp only [List.mem_cons, Option.some.injEq] at hm
        rcases hm with rfl | hm
        · exact absurd hc hx
        · exact ⟨op, hm, hc⟩

theorem anyInvalidClass_false (l : List (Option (Operand τ))) :
    anyInvalidClass l = .ok false ↔ ∀ o ∈ l, ∃ op, o = some op ∧ op.cls ≠ .Invalid := by
  induction l with
  | nil => simp [anyInvalidClass]
  | cons o l ih =>
    cases o with
    | none =>
      simp only [anyInvalidClass, List.mem_cons, forall_eq_or_imp]
      constructor
      · intro h; cases h
      · rintro ⟨⟨op, h, -⟩, -⟩; cases h
    | some x =>
      simp only [anyInvalidClass, List.mem_cons, forall_eq_or_imp]
      by_cases hx : x.cls = .Invalid
      · simp [hx]
      · simp only [hx, if_false, ih]
        constructor
        · intro h; exact ⟨⟨x, rfl, hx⟩, h⟩
        · rintro ⟨-, h⟩; exact h

theorem checkInvalidClass_none (instr : Instr τ) :
    checkInvalidClass instr = .ok none ↔
      ∀ o ∈ instr.Operands ++ instr.Destination, ∃ op, o = some op ∧ op.cls ≠ .Invalid := by
  unfold checkInvalidClass
  cases h1 : anyInvalidClass instr.Operands with
  | error e =>
    simp only []
    constructor
    · intro h; cases h
    · intro h
      have := (anyInvalidClass_false instr.Operands).2 (fun o ho => h o (by simp [ho]))
      rw [h1] at this; cases this
  | ok b1 =>
    cases b1 with
    | true =>
      simp only []
      constructor
      · intro h; cases h
      · intro h
        have := (anyInvalidClass_false instr.Operands).2 (fun o ho => h o (by simp [ho]))
        rw [h1] at this; cases this
    | false =>
      simp only []
      have hops := (anyInvalidClass_false instr.Operands).1 h1
      cases h2 : anyInvalidClass instr.Destination with
      | error e =>
        simp only []
        constructor
        · intro h; cases h
        · intro h
          have := (anyInvalidClass_false instr.Destination).2 (fun o ho => h o (by simp [ho]))
          rw [h2] at this; cases this
      | ok b2 =>
        cases b2 with
        | true =>
          simp only []
          constructor
          · intro h; cases h
          · intro h
            have := (anyInvalidClass_false instr.Destination).2
              (fun o ho => h o (by simp [ho]))
            rw [h2] at this; cases this
        | false =>
          simp only [true_iff]
          have hdst := (anyInvalidClass_false instr.Destination).1 h2
          intro o ho
          simp only [List.mem_append] at ho
          rcases ho with ho | ho
          · exact hops o ho
          · exact hdst o ho

/-- C17: for every MIR instruction, of any opcode, whose operands and
destinations are all non-nil: if one of them has class `invalid`, `checkInstr`
returns the `invalid class` diagnostic, whatever the arity, the types and the
other classes; and an instruction on which `checkInstr` returns `nil` has no
operand or destination of class `invalid`. -/
theorem C17_invalid_class_rejected [DecidableEq τ] (E : Env τ) (s : state τ)
    (instr : Instr τ) :
    ((∀ o ∈ instr.Operands ++ instr.Destination, o ≠ none) →
      (∃ op, some op ∈ instr.Operands ++ instr.Destination ∧ op.cls = .Invalid) →
      checkInstr E s (some instr) = .ok (some (.invalidClass instr), s))
    ∧ ∀ s', checkInstr E s (some instr) = .ok (none, s') →
        ∀ op, some op ∈ instr.Operands ++ instr.Destination → op.cls ≠ .Invalid := by
  constructor
  · intro hnn hinv
    have hcheck : checkInvalidClass instr = .ok (some (.invalidClass instr)) := by
      unfold checkInvalidClass
      by_cases h1 : ∃ op, some op ∈ instr.Operands ∧ op.cls = .Invalid
      · rw [anyInvalidClass_true _ (fun o ho => hnn o (by simp [ho])) h1]
      · have hf : anyInvalidClass instr.Operands = .ok false := by
          rw [anyInvalidClass_false]
          intro o ho
          cases o with
          | none => exact absurd rfl (hnn none (by simp [ho]))
          | some x => exact ⟨x, rfl, fun hc => h1 ⟨x, ho, hc⟩⟩
        rw [hf]
        simp only []
        have h2 : ∃ op, some op ∈ instr.Destination ∧ op.cls = .Invalid := by
          obtain ⟨op, hm, hc⟩ := hinv
          simp only [List.mem_append] at hm
          rcases hm with hm | hm
          · exact absurd ⟨op, hm, hc⟩ h1
          · exact ⟨op, hm, hc⟩
        rw [anyInvalidClass_true _ (fun o ho => hnn o (by simp [ho])) h2]
    simp only [checkInstr, hcheck]
  · intro s' h op hm
    have hcheck : checkInvalidClass instr = .ok none := by
      simp only [checkInstr] at h
      split at h
      · cases h
      · cases h
      · assumption
    obtain ⟨op', h1, h2⟩ := (checkInvalidClass_none instr).1 hcheck (some op) hm
    cases h1
    exact h2

/-- The wrong-arity half of C16: for every MIR instruction of an opcode
`checkInstr` dispatches on, whose operands and destinations are all non-nil
and none of class `invalid`: if the operand count or the destination count
differs from the opcode's arity, `checkInstr` returns the `malformed
instruction` diagnostic and leaves the state as it was. -/
theorem checkInstr_wrong_arity [DecidableEq τ] (E : Env τ) (s : state τ)
    (instr : Instr τ) (n m : Nat) (har : arity instr.T = some (n, m))
    (hok : ∀ o ∈ instr.Operands ++ instr.Destination, ∃ op, o = some op ∧ op.cls ≠ .Invalid)
    (hbad : instr.Operands.length ≠ n ∨ instr.Destination.length ≠ m) :
    checkInstr E s (some instr) = .ok (some (.malformedInstr instr), s) := by
  have hcheck := (checkInvalidClass_none instr).2 hok
  have hform : checkForm instr n m = some (.malformedInstr instr) := by
    simp only [checkForm]
    rw [if_pos hbad]
  cases hT : instr.T <;> rw [hT] at har <;> simp only [arity] at har <;>
    first
    | (cases har
       simp [checkInstr, hcheck, hT, pureCheck, checkArith, checkComp, checkLogical,
         checkNot, checkUnaryArith, checkConvert, checkLoadPtr, checkStorePtr, checkStore,
         checkLoad, checkCopy, checkCall, checkBinaryAll, checkUnaryAll, checkUnaryDest,
         checkBinary, checkUnary, hform])
    | cases har

end mirchecker

namespace mirchecker
variable {τ : Type}

/-! ### Loads from the regions -/

/-- C11: for every MIR load instruction that passes the form, type-equality
and class checks of `checkLoad` and whose operand names slot `a.Num` of the
spill, callee-interproc or caller-interproc region `r`: if the slot holds no
operand, `checkLoad` returns `loading garbage`; if it holds the operand `src`,
`checkLoad` succeeds iff the type of `src` equals the destination's type, and
returns `unequal types` otherwise. -/
theorem C11_load_checks_region_slot [DecidableEq τ] (E : Env τ) (s : state τ)
    (instr : Instr τ) (a dest : Operand τ) (r : region τ)
    (hchk : checkUnaryAll instr (basicOrProc_addr E) (basicOrProc_reg E) = .ok none)
    (hops : instr.Operands = [some a]) (hdst : instr.Destination = [some dest])
    (hr : (a.cls = .Spill ∧ r = s.Spill) ∨ (a.cls = .CalleeInterproc ∧ r = s.CalleeInterproc)
      ∨ (a.cls = .CallerInterproc ∧ r = s.CallerInterproc)) :
    (r.Load a.Num = .ok none →
      checkLoad E s instr = .ok (some (.errorLoadingGarbage instr)))
    ∧ ∀ src, r.Load a.Num = .ok (some src) →
        (checkLoad E s instr = .ok none ↔ src.type = dest.type)
        ∧ (src.type ≠ dest.type →
            checkLoad E s instr = .ok (some (.malformedEqualTypes instr))) := by
  have h0 : opAt instr.Operands 0 = .ok a := by rw [hops]; rfl
  have h1 : opAt instr.Destination 0 = .ok dest := by rw [hdst]; rfl
  constructor
  · intro hl
    rcases hr with ⟨hc, rfl⟩ | ⟨hc, rfl⟩ | ⟨hc, rfl⟩ <;>
      simp only [checkLoad, hchk, checkLoadState, h0, h1, hc, hl]
  · intro src hl
    have hres : checkLoad E s instr = .ok (checkEqual instr [dest.type, src.type]) := by
      rcases hr with ⟨hc, rfl⟩ | ⟨hc, rfl⟩ | ⟨hc, rfl⟩ <;>
        simp only [checkLoad, hchk, checkLoadState, h0, h1, hc, hl]
    rw [hres]
    by_cases hty : src.type = dest.type
    · simp [checkEqual, hty]
    · have hty' : ¬ dest.type = src.type := fun h => hty h.symm
      simp [checkEqual, hty, hty']

/-! ### The state handed to the successors of a branch -/

theorem checkStoreState_frame (s s' : state τ) (instr : Instr τ)
    (r : Option (CompilerError τ)) (h : checkStoreState s instr = .ok (r, s')) :
    s'.proc = s.proc ∧ s'.bb = s.bb := by
  unfold checkStoreState at h
  split at h
  · cases h
  · split at h
    · cases h
    · split at h
      · split at h
        · cases h
        · cases h; exact ⟨rfl, rfl⟩
      · split at h
        · cases h
        · cases h; exact ⟨rfl, rfl⟩
      · split at h
        · cases h
        · cases h; exact ⟨rfl, rfl⟩
      · cases h; exact ⟨rfl, rfl⟩

theorem checkCallArgs_frame [DecidableEq τ] (instr : Instr τ) (args : List τ) :
    ∀ (i : Nat) (s s' : state τ) (r : Option (CompilerError τ)),
      checkCallArgs instr args i s = .ok (r, s') → s'.proc = s.proc ∧ s'.bb = s.bb := by
  induction args with
  | nil => intro i s s' r h; simp only [checkCallArgs] at h; cases h; exact ⟨rfl, rfl⟩
  | cons a rest ih =>
    intro i s s' r h
    simp only [checkCallArgs] at h
    split at h
    · cases h
    · cases h; exact ⟨rfl, rfl⟩
    · split at h
      · cases h; exact ⟨rfl, rfl⟩
      · split at h
        · cases h
        · have f := ih _ _ _ _ h
          exact f

theorem checkCallRets_frame (rets : List τ) :
    ∀ (i : Nat) (s s' : state τ),
      checkCallRets rets i s = .ok s' → s'.proc = s.proc ∧ s'.bb = s.bb := by
  induction rets with
  | nil => intro i s s' h; simp only [checkCallRets] at h; cases h; exact ⟨rfl, rfl⟩
  | cons a rest ih =>
    intro i s s' h
    simp only [checkCallRets] at h
    split at h
    · cases h
    · have f := ih _ _ _ h
      exact f

theorem checkCall_frame [DecidableEq τ] (E : Env τ) (s s' : state τ) (instr : Instr τ)
    (r : Option (CompilerError τ)) (h : checkCall E s instr = .ok (r, s')) :
    s'.proc = s.proc ∧ s'.bb = s.bb := by
  unfold checkCall at h
  split at h
  · cases h; exact ⟨rfl, rfl⟩
  · split at h
    · cases h
    · split at h
      · cases h; exact ⟨rfl, rfl⟩
      · split at h
        · cases h
        · split at h
          · cases h
          · rename_i h1
            cases h
            exact checkCallArgs_frame _ _ _ _ _ _ h1
          · rename_i s1 h1
            split at h
            · cases h
            · rename_i s2 h2
              cases h
              have f1 := checkCallArgs_frame _ _ _ _ _ _ h1
              have f2 := checkCallRets_frame _ _ _ _ h2
              exact ⟨f2.1.trans f1.1, f2.2.trans f1.2⟩

theorem pureCheck_frame (s s' : state τ) (c : Except Panic (Option (CompilerError τ)))
    (r : Option (CompilerError τ)) (h : pureCheck s c = .ok (r, s')) : s' = s := by
  unfold pureCheck at h
  split at h
  · cases h
  · cases h; rfl

theorem checkInstr_frame [DecidableEq τ] (E : Env τ) (s s' : state τ)
    (instr : Option (Instr τ)) (r : Option (CompilerError τ))
    (h : checkInstr E s instr = .ok (r, s')) : s'.proc = s.proc ∧ s'.bb = s.bb := by
  cases instr with
  | none =>
    simp only [checkInstr] at h
    split at h
    · cases h; exact ⟨rfl, rfl⟩
    · cases h
  | some instr =>
    simp only [checkInstr] at h
    split at h
    · cases h
    · cases h; exact ⟨rfl, rfl⟩
    · split at h <;>
        first
        | (cases pureCheck_frame _ _ _ _ h; exact ⟨rfl, rfl⟩)
        | (unfold checkStore at h
           split at h
           · cases h
           · cases h; exact ⟨rfl, rfl⟩
           · exact checkStoreState_frame _ _ _ _ h)
        | exact checkCall_frame _ _ _ _ _ h
        | cases h

theorem checkInstrs_frame [DecidableEq τ] (E : Env τ) (code : List (Option (Instr τ))) :
    ∀ (s s' : state τ) (r : Option (CompilerError τ)),
      checkInstrs E code s = .ok (r, s') → s'.proc = s.proc ∧ s'.bb = s.bb := by
  induction code with
  | nil => intro s s' r h; simp only [checkInstrs] at h; cases h; exact ⟨rfl, rfl⟩
  | cons i rest ih =>
    intro s s' r h
    simp only [checkInstrs] at h
    split at h
    · cases h
    · rename_i h1
      cases h
      exact checkInstr_frame _ _ _ _ _ h1
    · rename_i s1 h1
      have f1 := checkInstr_frame _ _ _ _ _ h1
      have f2 := ih _ _ _ h
      exact ⟨f2.1.trans f1.1, f2.2.trans f1.2⟩

/-- C18 (amended): for every block `b` of the current procedure that is not
yet visited, ends in a conditional branch and whose instructions pass, leaving
the state `s1`: the true successor is checked from `s1` (with `b` marked
visited); a failure or abort there is the result; and when the traversal from
the true successor succeeds leaving the state `s3`, the false successor is
checked from `s3`, so the region effects of the true successor's subtree are
in force when the false successor is checked. -/
theorem C18_false_successor_inherits_true_subtree_state [DecidableEq τ] (E : Env τ)
    (fuel : Nat) (s s1 : state τ) (p : Proc τ) (b : Nat) (bb : BasicBlock τ)
    (hp : s.proc = some p) (hb : p.Blocks[b]? = some bb) (hv : bb.Visited = false)
    (hif : bb.Out.T = .If)
    (hcode : checkInstrs E bb.Code { s with bb := some b } = .ok (none, s1)) :
    s1.proc = some p ∧ s1.bb = some b
    ∧ (∀ e, checkCode E fuel { s1 with proc := some (setVisited p b) } bb.Out.True = .error e →
        checkCode E (fuel + 1) s (some b) = .error e)
    ∧ (∀ err s3,
        checkCode E fuel { s1 with proc := some (setVisited p b) } bb.Out.True
          = .ok (some err, s3) →
        checkCode E (fuel + 1) s (some b) = .ok (some err, s3))
    ∧ ∀ s3, checkCode E fuel { s1 with proc := some (setVisited p b) } bb.Out.True
          = .ok (none, s3) →
        checkCode E (fuel + 1) s (some b) = checkCode E fuel s3 bb.Out.False := by
  have hf := checkInstrs_frame E _ _ _ _ hcode
  have hp1 : s1.proc = some p := hf.1.trans hp
  have hb1 : s1.bb = some b := hf.2
  have hb2 : (setVisited p b).Blocks[b]? = some { bb with Visited := true } := by
    have hlt : b < p.Blocks.length := by
      rcases Nat.lt_or_ge b p.Blocks.length with h | h
      · exact h
      · rw [List.getElem?_eq_none h] at hb; cases hb
    simp [setVisited, hb, hlt]
  have hunf : checkCode E (fuel + 1) s (some b) =
      match checkCode E fuel { s1 with proc := some (setVisited p b) } bb.Out.True with
      | .error e => .error e
      | .ok (some err, s3) => .ok (some err, s3)
      | .ok (none, s3) => checkCode E fuel s3 bb.Out.False := by
    obtain ⟨sp, sb, c1, c2, c3⟩ := s
    simp only at hp
    subst hp
    simp only [checkCode, hb, hv, hcode, checkJump, hp1, hb1, Option.map_some', hb2, hif]
    rfl
  refine ⟨hp1, hb1, ?_, ?_, ?_⟩
  · intro e h; rw [hunf, h]
  · intro err s3 h; rw [hunf, h]
  · intro s3 h; rw [hunf, h]

end mirchecker

namespace regalloc
variable {τ : Type}

/-! ### The spliced block, instruction by instruction -/

theorem insertQueuedLoop_total (q : List (deferredInstr τ)) :
    ∀ (i m : Nat) (M T : List (Option (Instr τ))),
      M.length = m + i →
      List.Pairwise (fun a b : deferredInstr τ => a.index ≤ b.index) q →
      (∀ d ∈ q, 0 ≤ d.index ∧ (m : Int) ≤ d.index + 1 ∧ d.index < (m : Int) + T.length) →
      insertQueuedLoop q i (M ++ T) = .ok (M ++ spliceSpec q m T) := by
  induction q with
  | nil => intro i m M T _ _ _; rfl
  | cons d rest ih =>
    intro i m M T hM hsort hr
    obtain ⟨hd0, hd1, hd2⟩ := hr d (by simp)
    have hk : (d.index + 1 - (m : Int)).toNat ≤ T.length := by omega
    have hins : insertInstr (M ++ T) (d.index + (i : Int)) d.instr
        = .ok ((M ++ (T.take (d.index + 1 - (m : Int)).toNat ++ [some d.instr]))
            ++ T.drop (d.index + 1 - (m : Int)).toNat) := by
      unfold insertInstr
      have hc : ¬ (d.index + (i : Int) < 0 ∨ (((M ++ T).length : Nat) : Int) ≤ d.index + (i : Int)) := by
        simp only [List.length_append, Nat.cast_add, hM]
        omega
      rw [if_neg hc]
      have hidx : (d.index + (i : Int)).toNat + 1
          = M.length + (d.index + 1 - (m : Int)).toNat := by omega
      rw [hidx, List.take_append, List.drop_append]
      simp
    simp only [insertQueuedLoop, hins]
    rw [ih (i + 1) (m + (d.index + 1 - (m : Int)).toNat) _ _
      (by simp [hM, List.length_take]; omega)
      (List.Pairwise.of_cons hsort)
      (fun e he => by
        obtain ⟨he0, he1, he2⟩ := hr e (by simp [he])
        have hde := (List.pairwise_cons.1 hsort).1 e he
        refine ⟨he0, by omega, ?_⟩
        simp only [List.length_drop]
        omega)]
    simp [spliceSpec]

theorem spliceSpec_length (q : List (deferredInstr τ)) :
    ∀ (m : Nat) (T : List (Option (Instr τ))),
      (spliceSpec q m T).length = T.length + q.length := by
  induction q with
  | nil => intro m T; simp [spliceSpec]
  | cons d rest ih =>
    intro m T
    simp only [spliceSpec, List.length_append, List.length_cons, ih, List.length_take,
      List.length_drop]
    omega

theorem mergedFrom_nil (T : List (Option (Instr τ))) :
    ∀ m : Nat, mergedFrom ([] : List (deferredInstr τ)) m T = T := by
  induction T with
  | nil => intro m; rfl
  | cons x T ih => intro m; simp [mergedFrom, ih]

theorem mergedFrom_skip (d : deferredInstr τ) (r : List (deferredInstr τ))
    (T : List (Option (Instr τ))) :
    ∀ m : Nat, d.index < (m : Int) → mergedFrom (d :: r) m T = mergedFrom r m T := by
  induction T with
  | nil => intro m _; rfl
  | cons x T ih =>
    intro m hm
    have hne : ¬ d.index = (m : Int) := by omega
    simp only [mergedFrom, List.filter_cons, hne, decide_False, Bool.false_eq_true, if_false]
    rw [ih (m + 1) (by push_cast; omega)]

theorem mergedFrom_first (d : deferredInstr τ) (r : List (deferredInstr τ))
    (hr : ∀ e ∈ r, d.index ≤ e.index) (T : List (Option (Instr τ))) :
    ∀ m : Nat, (m : Int) ≤ d.index → d.index < (m : Int) + T.length →
      mergedFrom (d :: r) m T
        = T.take (d.index + 1 - (m : Int)).toNat ++ some d.instr ::
            ((r.filter (fun e => e.index = d.index)).map (fun e => some e.instr)
              ++ mergedFrom r (m + (d.index + 1 - (m : Int)).toNat)
                  (T.drop (d.index + 1 - (m : Int)).toNat)) := by
  induction T with
  | nil => intro m h1 h2; simp at h2; omega
  | cons x T ih =>
    intro m h1 h2
    by_cases hm : d.index = (m : Int)
    · have hk : (d.index + 1 - (m : Int)).toNat = 1 := by omega
      rw [hk]
      simp only [mergedFrom, List.filter_cons, hm, decide_True, if_true, List.map_cons,
        List.take_succ_cons, List.take_zero, List.drop_succ_cons, List.drop_zero,
        List.cons_append, List.nil_append]
      rw [mergedFrom_skip d r T (m + 1) (by push_cast; omega)]
    · obtain ⟨k, hk⟩ : ∃ k, (d.index + 1 - (m : Int)).toNat = k + 1 :=
        ⟨(d.index + 1 - (m : Int)).toNat - 1, by omega⟩
      have hk' : (d.index + 1 - ((m + 1 : Nat) : Int)).toNat = k := by push_cast; omega
      have hfil : (d :: r).filter (fun e => e.index = (m : Int)) = [] := by
        rw [List.filter_eq_nil_iff]
        intro e he
        simp only [List.mem_cons] at he
        rcases he with rfl | he
        · simpa using hm
        · have := hr e he
          simp only [decide_eq_true_eq]
          omega
      have h2' : d.index < ((m + 1 : Nat) : Int) + T.length := by
        simp only [List.length_cons] at h2
        push_cast at h2 ⊢
        omega
      have := ih (m + 1) (by push_cast; omega) h2'
      rw [hk'] at this
      rw [hk]
      simp only [mergedFrom, hfil, List.map_nil, List.nil_append, List.take_succ_cons,
        List.drop_succ_cons, List.cons_append]
      rw [this]
      have hmk : m + 1 + k = m + (k + 1) := by omega
      rw [hmk]

theorem spliceSpec_eq_mergedFrom (q : List (deferredInstr τ)) :
    ∀ (m : Nat) (T : List (Option (Instr τ))),
      List.Pairwise (fun a b : deferredInstr τ => a.index ≤ b.index) q →
      (∀ d ∈ q, (m : Int) ≤ d.index + 1 ∧ d.index < (m : Int) + T.length) →
      spliceSpec q m T
        = (q.filter (fun d => d.index = (m : Int) - 1)).map (fun d => some d.instr)
            ++ mergedFrom q m T := by
  induction q with
  | nil => intro m T _ _; simp [spliceSpec, mergedFrom_nil]
  | cons d r ih =>
    intro m T hsort hr
    obtain ⟨hd1, hd2⟩ := hr d (by simp)
    have hle : ∀ e ∈ r, d.index ≤ e.index := (List.pairwise_cons.1 hsort).1
    have hmk : ((m + (d.index + 1 - (m : Int)).toNat : Nat) : Int) - 1 = d.index := by
      push_cast; omega
    have hih := ih (m + (d.index + 1 - (m : Int)).toNat)
      (T.drop (d.index + 1 - (m : Int)).toNat) (List.Pairwise.of_cons hsort)
      (fun e he => by
        obtain ⟨he1, he2⟩ := hr e (by simp [he])
        have := hle e he
        simp only [List.length_drop]
        constructor
        · omega
        · omega)
    rw [hmk] at hih
    simp only [spliceSpec]
    rw [hih]
    by_cases hk : d.index = (m : Int) - 1
    · have h0 : (d.index + 1 - (m : Int)).toNat = 0 := by omega
      have hdec : decide (d.index = (m : Int) - 1) = true := by simpa using hk
      rw [mergedFrom_skip d r T m (by omega), h0]
      simp only [List.take_zero, List.drop_zero, Nat.add_zero, List.nil_append,
        List.filter_cons, hdec, if_true, List.map_cons, List.cons_append]
      rw [hk]
    · have hfil : (d :: r).filter (fun e => e.index = (m : Int) - 1) = [] := by
        rw [List.filter_eq_nil_iff]
        intro e he
        simp only [List.mem_cons] at he
        simp only [decide_eq_true_eq]
        rcases he with rfl | he
        · exact hk
        · have := hle e he
          omega
      rw [hfil, mergedFrom_first d r hle T m (by omega) hd2]
      simp

theorem mergedFrom_sublist (q : List (deferredInstr τ)) (T : List (Option (Instr τ))) :
    ∀ m : Nat, List.Sublist T (mergedFrom q m T) := by
  induction T with
  | nil => intro m; exact List.Sublist.slnil
  | cons x T ih =>
    intro m
    simp only [mergedFrom]
    exact List.Sublist.cons₂ x (List.sublist_append_of_sublist_right (ih (m + 1)))

/-- C19: for every block `code` of `n` instructions and every queue whose
recorded indices are non-decreasing and lie in `[0, n)`, `insertQueuedInstrs`
returns the block in which each original instruction, in the original order,
is followed by the deferred instructions recorded at its index, in queue
order; that block has `n + q` instructions and the original instructions are
a subsequence of it. -/
theorem C19_insertQueuedInstrs_merges (s : state τ) (code : List (Option (Instr τ)))
    (hsort : List.Pairwise (fun a b : deferredInstr τ => a.index ≤ b.index) s.queuedInstr)
    (hrange : ∀ d ∈ s.queuedInstr, 0 ≤ d.index ∧ d.index < (code.length : Int)) :
    insertQueuedInstrs s code = .ok (mergedFrom s.queuedInstr 0 code)
    ∧ (mergedFrom s.queuedInstr 0 code).length = code.length + s.queuedInstr.length
    ∧ List.Sublist code (mergedFrom s.queuedInstr 0 code) := by
  have hspec : spliceSpec s.queuedInstr 0 code = mergedFrom s.queuedInstr 0 code := by
    rw [spliceSpec_eq_mergedFrom s.queuedInstr 0 code hsort
      (fun d hd => by
        obtain ⟨h1, h2⟩ := hrange d hd
        constructor
        · push_cast; omega
        · push_cast; omega)]
    have hfil : s.queuedInstr.filter (fun d => d.index = ((0 : Nat) : Int) - 1) = [] := by
      rw [List.filter_eq_nil_iff]
      intro e he
      have := (hrange e he).1
      simp only [decide_eq_true_eq]
      push_cast
      omega
    rw [hfil]
    rfl
  refine ⟨?_, ?_, mergedFrom_sublist _ _ _⟩
  · have := insertQueuedLoop_total s.queuedInstr 0 0 [] code rfl hsort
      (fun d hd => by
        obtain ⟨h1, h2⟩ := hrange d hd
        refine ⟨h1, ?_, ?_⟩
        · push_cast; omega
        · push_cast; omega)
    simp only [List.nil_append] at this
    rw [insertQueuedInstrs, this, hspec]
  · rw [← hspec, spliceSpec_length]

end regalloc

namespace regalloc
variable {τ : Type}

/-! ### The register `FurthestUse` picks -/

theorem FurthestUseLoop_pick (l : List (Int × useInfo)) :
    ∀ (biggestIndex bestReg : Int),
      FurthestUseLoop l biggestIndex bestReg = bestReg
      ∨ ∃ e ∈ l, e.2.IsReg = true ∧ biggestIndex < e.2.NextUse
          ∧ FurthestUseLoop l biggestIndex bestReg = e.2.Num := by
  induction l with
  | nil => intro b r; exact Or.inl rfl
  | cons x rest ih =>
    intro b r
    obtain ⟨v, info⟩ := x
    simp only [FurthestUseLoop]
    by_cases hc : info.IsReg = true ∧ b < info.NextUse
    · rw [if_pos hc]
      rcases ih info.NextUse info.Num with h | ⟨e, he, h1, h2, h3⟩
      · exact Or.inr ⟨(v, info), by simp, hc.1, hc.2, h⟩
      · exact Or.inr ⟨e, by simp [he], h1, by omega, h3⟩
    · rw [if_neg hc]
      rcases ih b r with h | ⟨e, he, h1, h2, h3⟩
      · exact Or.inl h
      · exact Or.inr ⟨e, by simp [he], h1, h2, h3⟩

end regalloc

/-! ### Scenarios of the checkers and of the splicing -/

/-- C12, refuted on `eq i64 a b -> d` with `d` typed `i64`: the HIR checker
returns `malformed type or class`, not `unequal types`. -/
theorem C12_counterexample_non_bool_destination :
    hirchecker.checkInstr specEnv (some badEq) = .ok (some (.malformedTypeOrClass badEq))
    ∧ hirchecker.checkInstr specEnv (some badEq)
        ≠ .ok (some (.malformedEqualTypes badEq)) :=
  ⟨rfl, fun h => by
    have h2 : hirchecker.checkInstr specEnv (some badEq)
        = .ok (some (.malformedTypeOrClass badEq)) := rfl
    rw [h2] at h
    cases h⟩

/-- C12 (amended), at `eq i64 a b -> d` with `d` typed `i64`. -/
theorem C12_compare_non_bool_destination_witness :
    specEnv.IsBool (tempOp 2).type = false
    ∧ hirchecker.checkInstr specEnv (some badEq)
        = .ok (some (.malformedTypeOrClass badEq)) :=
  ⟨rfl, hirchecker.C12_compare_non_bool_destination specEnv badEq (tempOp 0) (tempOp 1)
    (tempOp 2) [] (Or.inl rfl) rfl rfl rfl rfl rfl⟩

/-- C13, at `add i32 a b -> d` with `b` typed `i64`. -/
theorem C13_arith_unequal_types_witness :
    hirchecker.checkInstr specEnv (some badAdd) = .ok (some (.malformedEqualTypes badAdd)) :=
  hirchecker.C13_arith_unequal_types specEnv badAdd
    { cls := .Temp, Num := 0, type := .I32, Symbol := none }
    { cls := .Temp, Num := 1, type := .I64, Symbol := none }
    { cls := .Temp, Num := 2, type := .I32, Symbol := none } [] (Or.inl rfl) rfl rfl
    (by decide)

/-- C14, refuted on `call x` with `x` typed `i64`: the instruction is
accepted. -/
theorem C14_counterexample_operand_not_procedure_typed :
    callNonProc.Operands.map (Option.map (fun op => op.type)) = [some Ty.I64]
    ∧ hirchecker.checkCall callNonProc = .ok none
    ∧ hirchecker.checkInstr specEnv (some callNonProc) = .ok none :=
  ⟨rfl, rfl, rfl⟩

/-- C15, at a procedure returning one `i64` and a return of one `i64`
temporary. -/
theorem C15_hir_checkRet_iff_witness :
    hirchecker.checkRet { proc := procRetOnly, bb := none } [some (tempOp 0)] = .ok none :=
  (hirchecker.C15_hir_checkRet_iff { proc := procRetOnly, bb := none } [tempOp 0]).1.2
    ⟨rfl, fun i h1 _ => by
      have hi : i = 0 := by simpa using h1
      subst hi
      rfl⟩

/-- C17, at `add r0 r0 -> <invalid>`. -/
theorem C17_invalid_class_rejected_witness :
    mirchecker.checkInstr specEnv mirchecker.newState (some invalidDestAdd)
      = .ok (some (.invalidClass invalidDestAdd), mirchecker.newState) :=
  (mirchecker.C17_invalid_class_rejected specEnv mirchecker.newState invalidDestAdd).1
    (fun o ho => by
      simp only [invalidDestAdd, List.cons_append, List.nil_append, List.mem_cons,
        List.mem_singleton, List.not_mem_nil, or_false] at ho
      rcases ho with rfl | rfl | rfl <;> simp)
    ⟨invalidOp, by simp [invalidDestAdd], rfl⟩

/-- C19, at a block of five instructions and a queue with two instructions
recorded at index 0 and one at index 2. -/
theorem C19_insertQueuedInstrs_merges_witness :
    regalloc.insertQueuedInstrs queuedState c4Code
      = .ok [defTemp 0 0, some (storeSlot 0), some (loadSlot 0), defTemp 1 1, useTemp 1 1,
             some (storeSlot 1), useTemp 0 0, useTemp 0 2] :=
  (regalloc.C19_insertQueuedInstrs_merges queuedState c4Code
    (by simp [queuedState])
    (fun d hd => by
      simp only [queuedState, List.mem_cons, List.mem_singleton, List.not_mem_nil,
        or_false] at hd
      rcases hd with rfl | rfl | rfl <;> simp [c4Code])).1

/-- C11, at the load of `spill[3]` in a fresh checker state: the slot is empty
and the load is rejected as loading garbage. -/
theorem C11_load_checks_region_slot_witness :
    mirchecker.checkUnaryAll (loadSlot 3) (mirchecker.basicOrProc_addr specEnv)
        (mirchecker.basicOrProc_reg specEnv) = .ok none
    ∧ (mirchecker.newState : mirchecker.state Ty).Spill.Load (spillOp 3).Num = .ok none
    ∧ mirchecker.checkLoad specEnv mirchecker.newState (loadSlot 3)
        = .ok (some (.errorLoadingGarbage (loadSlot 3))) :=
  ⟨rfl, rfl,
    (mirchecker.C11_load_checks_region_slot specEnv mirchecker.newState (loadSlot 3)
      (spillOp 3) (regOp 0) (mirchecker.newState : mirchecker.state Ty).Spill (by rfl) rfl rfl
      (Or.inl ⟨rfl, rfl⟩)).1 rfl⟩

/-- C18, refuted on `procBranch`: the procedure is accepted, the load of
`spill[3]` in the false successor being checked after the store of the true
successor, while the same block checked from the state at the end of the
branching block is rejected as loading garbage. -/
theorem C18_counterexample_false_successor_sees_true_store :
    (mirchecker.Check specEnv (oneProcModule procBranch)).map Prod.fst = .ok none
    ∧ (mirchecker.checkCode specEnv 3 stateAtBranch (some 2)).map Prod.fst
        = .ok (some (.errorLoadingGarbage (loadSlot 3))) :=
  ⟨rfl, rfl⟩

/-- C18 (amended), at block 0 of `procBranch`: the false successor is checked
from the state the true successor left, which holds the store to `spill[3]`. -/
theorem C18_false_successor_inherits_true_subtree_state_witness :
    ∃ s3, mirchecker.checkCode specEnv 3 stateAtBranch (some 1) = .ok (none, s3)
      ∧ s3.Spill.Load 3 = .ok (some (regOp 0))
      ∧ mirchecker.checkCode specEnv 4
          { (mirchecker.newState : mirchecker.state Ty) with
            proc := some (mirchecker.ResetVisited procBranch) } (some 0)
        = mirchecker.checkCode specEnv 3 s3 (some 2) :=
  ⟨_, rfl, rfl,
    (mirchecker.C18_false_successor_inherits_true_subtree_state specEnv 3
      { (mirchecker.newState : mirchecker.state Ty) with
        proc := some (mirchecker.ResetVisited procBranch) }
      { (mirchecker.newState : mirchecker.state Ty) with
        proc := some (mirchecker.ResetVisited procBranch), bb := some 0 }
      (mirchecker.ResetVisited procBranch) 0 (ifBlock 1 2) rfl rfl rfl rfl (by rfl)).2.2.2.2 _ (by rfl)⟩

/-- C20 (the code departs from it): with two registers, at instruction 2 of
`c20Code` register 0 holds `t0`, which is never read, and register 1 holds
`t1`, read at instruction 3; `calcNextUse` leaves the next use of `t0` at -1
and `spillRegister` evicts register 1.  Whatever the order in which the live
values are visited, `FurthestUse` does not return register 0 there. -/
theorem C20_value_without_later_use_is_not_evicted :
    (regalloc.newState 2 : Except Panic (regalloc.state Ty)) = .ok twoRegState
    ∧ regalloc.allocLoop id 2 0 twoRegState c20Code = .ok c20AtTwo
    ∧ c20AtTwo.1.HasFreeRegs = false
    ∧ c20AtTwo.1.LiveValues
        = [(0, { IsReg := true, Num := 0, NextUse := -1 }),
           (1, { IsReg := true, Num := 1, NextUse := -1 })]
    ∧ (regalloc.calcNextUse c20AtTwo.1 c20AtTwo.2 2).map (fun s => s.LiveValues)
        = .ok [(0, { IsReg := true, Num := 0, NextUse := -1 }),
               (1, { IsReg := true, Num := 1, NextUse := 3 })]
    ∧ (regalloc.spillRegister id c20AtTwo.1 c20AtTwo.2 (tempOp 2) 2).map Prod.fst
        = .ok (regOp 1)
    ∧ ∀ (ord : GoMap regalloc.useInfo → GoMap regalloc.useInfo) (s1 : regalloc.state Ty),
        regalloc.calcNextUse c20AtTwo.1 c20AtTwo.2 2 = .ok s1 →
        (∀ e ∈ ord s1.LiveValues, e ∈ s1.LiveValues) →
        s1.FurthestUse ord ≠ 0 := by
  refine ⟨rfl, rfl, rfl, rfl, rfl, rfl, ?_⟩
  intro ord s1 hs1 hord
  have hlv : s1.LiveValues = [(0, { IsReg := true, Num := 0, NextUse := -1 }),
      (1, { IsReg := true, Num := 1, NextUse := 3 })] := by
    have h : (regalloc.calcNextUse c20AtTwo.1 c20AtTwo.2 2).map (fun s => s.LiveValues)
        = .ok [(0, { IsReg := true, Num := 0, NextUse := -1 }),
               (1, { IsReg := true, Num := 1, NextUse := 3 })] := rfl
    rw [hs1] at h
    injection h
  unfold regalloc.state.FurthestUse
  rcases regalloc.FurthestUseLoop_pick (ord s1.LiveValues) 0 (-1) with h | ⟨e, he, h1, h2, h3⟩
  · rw [h]; decide
  · have hmem := hord e he
    rw [hlv] at hmem
    simp only [List.mem_cons, List.mem_singleton, List.not_mem_nil, or_false] at hmem
    rcases hmem with rfl | rfl
    · simp at h2
    · rw [h3]; decide

namespace regalloc
variable {τ : Type}

/-! ### The free-register stack of a fresh state (C24) -/

theorem newStack_nat (R : Nat) :
    newStack (R : Int)
      = .ok { items := (List.range R).map (fun (i : Nat) => (R : Int) - (i : Int) - 1),
              top := (R : Int) - 1 } := by
  unfold newStack
  have h : ¬ ((R : Int) < 0) := by omega
  rw [if_neg h]
  simp

theorem popN_newStack (R : Nat) :
    ∀ k : Nat, k ≤ R →
      popN k { items := (List.range R).map (fun (i : Nat) => (R : Int) - (i : Int) - 1),
               top := (k : Int) - 1 }
        = .ok ((List.range k).map (fun (j : Nat) => (R : Int) - (k : Int) + (j : Int)),
            { items := (List.range R).map (fun (i : Nat) => (R : Int) - (i : Int) - 1),
              top := -1 }) := by
  intro k
  induction k with
  | zero => intro _; simp [popN]
  | succ k ih =>
    intro hk
    have hpop : stack.Pop
        { items := (List.range R).map (fun (i : Nat) => (R : Int) - (i : Int) - 1),
          top := ((k + 1 : Nat) : Int) - 1 }
        = .ok ((R : Int) - (k : Int) - 1,
            { items := (List.range R).map (fun (i : Nat) => (R : Int) - (i : Int) - 1),
              top := (k : Int) - 1 }) := by
      unfold stack.Pop
      have h0 : ¬ (((k + 1 : Nat) : Int) - 1 < 0) := by push_cast; omega
      simp only [h0, if_false, idx?]
      have hidx : (((k + 1 : Nat) : Int) - 1).toNat = k := by push_cast; omega
      have hk' : k < R := by omega
      simp only [hidx, List.getElem?_map, List.getElem?_range hk', Option.map_some']
      have : ((k + 1 : Nat) : Int) - 1 - 1 = (k : Int) - 1 := by push_cast; omega
      rw [this]
    simp only [popN, hpop, ih (by omega)]
    congr 2
    rw [List.range_succ_eq_map]
    simp only [List.map_cons, List.map_map]
    congr 1
    · push_cast; omega
    · apply List.map_congr_left
      intro j _
      simp only [Function.comp]
      push_cast
      omega

theorem allocOperands_noTemps [Inhabited τ] (ord : GoMap useInfo → GoMap useInfo) (i : Nat)
    (rest : List (Option (Operand τ))) :
    ∀ (opIndex : Nat) (s : state τ) (bb : List (Option (Instr τ))),
      (∀ o ∈ rest, ∃ op, o = some op ∧ op.cls ≠ .Temp) →
      allocOperands ord i rest opIndex s bb = .ok (s, bb) := by
  induction rest with
  | nil => intro _ _ _ _; rfl
  | cons o rest ih =>
    intro opIndex s bb h
    obtain ⟨op, rfl, hc⟩ := h o (by simp)
    simp only [allocOperands, hc, if_false]
    exact ih _ _ _ (fun o ho => h o (by simp [ho]))

theorem allocDestinations_noTemps [Inhabited τ] (ord : GoMap useInfo → GoMap useInfo)
    (i : Nat) (rest : List (Option (Operand τ))) :
    ∀ (destIndex : Nat) (s : state τ) (bb : List (Option (Instr τ))),
      (∀ o ∈ rest, ∃ op, o = some op ∧ op.cls ≠ .Temp) →
      allocDestinations ord i rest destIndex s bb = .ok (s, bb) := by
  induction rest with
  | nil => intro _ _ _ _; rfl
  | cons o rest ih =>
    intro destIndex s bb h
    obtain ⟨op, rfl, hc⟩ := h o (by simp)
    simp only [allocDestinations, hc, if_false]
    exact ih _ _ _ (fun o ho => h o (by simp [ho]))

theorem allocLoop_noTemps [Inhabited τ] (ord : GoMap useInfo → GoMap useInfo)
    (s : state τ) (bb : List (Option (Instr τ))) (n : Nat) :
    ∀ i : Nat,
      (∀ j, i ≤ j → j < i + n → ∃ instr, bb[j]? = some (some instr)
        ∧ ∀ o ∈ instr.Operands ++ instr.Destination, ∃ op, o = some op ∧ op.cls ≠ .Temp) →
      allocLoop ord n i s bb = .ok (s, bb) := by
  induction n with
  | zero => intro _ _; rfl
  | succ n ih =>
    intro i h
    obtain ⟨instr, hbb, hno⟩ := h i (Nat.le_refl i) (by omega)
    have hstep : allocInstr ord i s bb = .ok (s, bb) := by
      simp only [allocInstr, hbb]
      rw [allocOperands_noTemps ord i _ _ _ _ (fun o ho => hno o (by simp [ho]))]
      exact allocDestinations_noTemps ord i _ _ _ _ (fun o ho => hno o (by simp [ho]))
    simp only [allocLoop, hstep]
    exact ih (i + 1) (fun j h1 h2 => h j (by omega) (by omega))

/-- C24: for every `R ≥ 1`, `R` successive `Pop` calls on `newStack(R)`
return `0, 1, ..., R-1` in that order and leave a stack on which `HasItems` is
false; `allocBlock` leaves the state `newState(R)` untouched as long as the
instructions hold no temporary, and on that state `AllocReg`, `allocTemp` and
`ensure` (for every operand, block and index) give register 0. -/
theorem C24_fresh_stack_pops_ascending [Inhabited τ] (R : Nat) (hR : 1 ≤ R) :
    ∃ (st st' : stack) (s : state τ),
      newStack (R : Int) = .ok st
      ∧ popN R st = .ok ((List.range R).map (fun (j : Nat) => (j : Int)), st')
      ∧ st'.HasItems = false
      ∧ newState (R : Int) = .ok s
      ∧ (∀ v, (s.AllocReg v).map Prod.fst = .ok 0)
      ∧ ∀ (ord : GoMap useInfo → GoMap useInfo) (bb : List (Option (Instr τ))),
          (∀ k : Nat,
            (∀ j, j < k → ∃ instr, bb[j]? = some (some instr)
              ∧ ∀ o ∈ instr.Operands ++ instr.Destination, ∃ op, o = some op ∧ op.cls ≠ .Temp) →
            allocLoop ord k 0 s bb = .ok (s, bb))
          ∧ ∀ (op : Operand τ) (i : Nat),
            (allocTemp ord s bb op i).map Prod.fst = .ok (newRegOp 0 op.type)
            ∧ (ensure ord s bb op i).map Prod.fst = .ok (newRegOp 0 op.type) := by
  have hpopN := popN_newStack R R (Nat.le_refl R)
  have hmap : (List.range R).map (fun (j : Nat) => (R : Int) - (R : Int) + (j : Int))
      = (List.range R).map (fun (j : Nat) => (j : Int)) := by
    apply List.map_congr_left
    intro j _
    omega
  rw [hmap] at hpopN
  have hst := newStack_nat R
  have h16 : newStack 16 = .ok { items := (List.range 16).map (fun (i : Nat) => (16 : Int) - (i : Int) - 1),
                                 top := 15 } := by
    have := newStack_nat 16
    simpa using this
  have hpop1 : stack.Pop
      { items := (List.range R).map (fun (i : Nat) => (R : Int) - (i : Int) - 1),
        top := (R : Int) - 1 }
      = .ok (0, { items := (List.range R).map (fun (i : Nat) => (R : Int) - (i : Int) - 1),
                  top := (R : Int) - 1 - 1 }) := by
    unfold stack.Pop
    have h0 : ¬ ((R : Int) - 1 < 0) := by omega
    simp only [h0, if_false, idx?]
    have hidx : ((R : Int) - 1).toNat = R - 1 := by omega
    have hk' : R - 1 < R := by omega
    simp only [hidx, List.getElem?_map, List.getElem?_range hk', Option.map_some']
    have : (R : Int) - ((R - 1 : Nat) : Int) - 1 = 0 := by omega
    rw [this]
  have hfree : (state.HasFreeRegs
      ({ AvailableRegs := { items := (List.range R).map (fun (i : Nat) => (R : Int) - (i : Int) - 1),
                            top := (R : Int) - 1 },
         UsedRegs := [],
         AvailableAddr := { items := (List.range 16).map (fun (i : Nat) => (16 : Int) - (i : Int) - 1),
                            top := 15 },
         UsedAddr := [], LiveValues := [], queuedInstr := [] } : state τ)) = true := by
    simp only [state.HasFreeRegs, stack.HasItems, decide_eq_true_eq]
    omega
  refine ⟨_, _,
    ({ AvailableRegs := { items := (List.range R).map (fun (i : Nat) => (R : Int) - (i : Int) - 1),
                          top := (R : Int) - 1 },
       UsedRegs := [],
       AvailableAddr := { items := (List.range 16).map (fun (i : Nat) => (16 : Int) - (i : Int) - 1),
                          top := 15 },
       UsedAddr := [], LiveValues := [], queuedInstr := [] } : state τ),
    hst, hpopN, by simp [stack.HasItems], ?_, ?_, ?_⟩
  · simp only [newState, hst, h16]
  · intro v
    simp only [state.AllocReg, hpop1, Except.map]
  · intro ord bb
    refine ⟨fun k hk => allocLoop_noTemps ord _ bb k 0
      (fun j _ h2 => hk j (by omega)), fun op i => ⟨?_, ?_⟩⟩
    · simp only [allocTemp, hfree, if_true, state.AllocReg, hpop1, Except.map]
    · simp only [ensure, GoMap.get?, allocTemp, hfree, if_true, state.AllocReg, hpop1,
        Except.map]

end regalloc

/-- C24, with three registers. -/
theorem C24_fresh_stack_pops_ascending_witness :
    ∃ (st st' : regalloc.stack) (s : regalloc.state Ty),
      regalloc.newStack ((3 : Nat) : Int) = .ok st
      ∧ regalloc.popN 3 st = .ok ((List.range 3).map (fun (j : Nat) => (j : Int)), st')
      ∧ st'.HasItems = false
      ∧ regalloc.newState ((3 : Nat) : Int) = .ok s
      ∧ (∀ v, (s.AllocReg v).map Prod.fst = .ok 0)
      ∧ ∀ (ord : GoMap regalloc.useInfo → GoMap regalloc.useInfo)
          (bb : List (Option (Instr Ty))),
          (∀ k : Nat,
            (∀ j, j < k → ∃ instr, bb[j]? = some (some instr)
              ∧ ∀ o ∈ instr.Operands ++ instr.Destination, ∃ op, o = some op ∧ op.cls ≠ .Temp) →
            regalloc.allocLoop ord k 0 s bb = .ok (s, bb))
          ∧ ∀ (op : Operand Ty) (i : Nat),
            (regalloc.allocTemp ord s bb op i).map Prod.fst
              = .ok (regalloc.newRegOp 0 op.type)
            ∧ (regalloc.ensure ord s bb op i).map Prod.fst
              = .ok (regalloc.newRegOp 0 op.type) :=
  regalloc.C24_fresh_stack_pops_ascending 3 (by decide)

namespace regalloc
variable {τ : Type}

/-! ### `UsedAddr` is never written (C22) -/

theorem FreeReg_usedAddr (s s1 : state τ) (r : Int) (hf : s.FreeReg r = .ok s1) :
    s1.UsedAddr = s.UsedAddr := by
  unfold state.FreeReg at hf
  split at hf
  · split at hf
    · cases hf
    · cases hf; rfl
  · cases hf

theorem Free_usedAddr (s s1 : state τ) (v : Int) (h : s.UsedAddr = [])
    (hf : s.Free v = .ok s1) : s1.UsedAddr = [] := by
  unfold state.Free at hf
  split at hf
  · cases hf
  · simp only at hf
    split at hf
    · rw [FreeReg_usedAddr _ _ _ hf]; exact h
    · unfold state.FreeAddr at hf
      simp only [h, GoMap.get?] at hf
      cases hf

theorem AllocReg_usedAddr (s s1 : state τ) (v r : Int) (ha : s.AllocReg v = .ok (r, s1)) :
    s1.UsedAddr = s.UsedAddr := by
  unfold state.AllocReg at ha
  split at ha
  · cases ha
  · cases ha; rfl

theorem Spill_usedAddr (s s1 : state τ) (r a : Int) (hs : s.Spill r = .ok (a, s1)) :
    s1.UsedAddr = s.UsedAddr := by
  unfold state.Spill at hs
  split at hs
  · cases hs
  · split at hs
    · cases hs
    · rename_i s2 hfree
      split at hs
      · cases hs
      · cases hs
        have := FreeReg_usedAddr _ _ _ hfree
        exact this

theorem isNeeded_usedAddr (s s1 : state τ) (bb : List (Option (Instr τ))) (v : Int)
    (index : Nat) (b : Bool) (hn : isNeeded s bb v index = .ok (b, s1)) :
    s1.UsedAddr = s.UsedAddr := by
  unfold isNeeded at hn
  split at hn
  · cases hn; rfl
  · split at hn
    · cases hn
    · split at hn
      · cases hn; rfl
      · split at hn
        · cases hn
        · cases hn; rfl
        · cases hn; rfl

theorem isNeeded_false (s s1 : state τ) (bb : List (Option (Instr τ))) (v : Int)
    (index : Nat) (hn : isNeeded s bb v index = .ok (false, s1)) : s1 = s := by
  unfold isNeeded at hn
  split at hn
  · cases hn; rfl
  · split at hn
    · cases hn
    · split at hn
      · cases hn
      · split at hn
        · cases hn
        · cases hn
        · cases hn; rfl

theorem calcNextUseLoop_usedAddr (bb : List (Option (Instr τ))) (index : Nat)
    (vs : List Int) (s s1 : state τ) (hc : calcNextUseLoop bb index vs s = .ok s1) :
    s1.UsedAddr = s.UsedAddr := by
  induction vs generalizing s with
  | nil => cases hc; rfl
  | cons v rest ih =>
    unfold calcNextUseLoop at hc
    split at hc
    · cases hc
    · rename_i b s2 hn
      rw [ih s2 hc, isNeeded_usedAddr _ _ _ _ _ _ hn]

theorem freeIfNotNeeded_usedAddr (s s1 : state τ) (bb : List (Option (Instr τ)))
    (v : Int) (index : Nat) (h : s.UsedAddr = [])
    (hf : freeIfNotNeeded s bb v index = .ok s1) : s1.UsedAddr = [] := by
  unfold freeIfNotNeeded at hf
  split at hf
  · cases hf
  · rename_i s2 hn
    cases hf
    rw [isNeeded_usedAddr _ _ _ _ _ _ hn]; exact h
  · rename_i s2 hn
    exact Free_usedAddr _ _ _ (by rw [isNeeded_usedAddr _ _ _ _ _ _ hn]; exact h) hf

theorem spillRegister_usedAddr [Inhabited τ] (ord : GoMap useInfo → GoMap useInfo)
    (s s1 : state τ) (bb : List (Option (Instr τ))) (op res : Operand τ) (index : Nat)
    (hs : spillRegister ord s bb op index = .ok (res, s1)) :
    s1.UsedAddr = s.UsedAddr := by
  unfold spillRegister at hs
  split at hs
  · cases hs
  · rename_i s2 hcalc
    simp only at hs
    split at hs
    · cases hs
    · rename_i sNum s3 hspill
      split at hs
      · cases hs
      · rename_i r2 s4 halloc
        split at hs
        · cases hs
        · cases hs
          rw [AllocReg_usedAddr _ _ _ _ halloc]
          simp only [queueInstr]
          rw [Spill_usedAddr _ _ _ _ hspill, calcNextUseLoop_usedAddr _ _ _ _ _ hcalc]

theorem allocTemp_usedAddr [Inhabited τ] (ord : GoMap useInfo → GoMap useInfo)
    (s s1 : state τ) (bb : List (Option (Instr τ))) (op res : Operand τ) (index : Nat)
    (ha : allocTemp ord s bb op index = .ok (res, s1)) :
    s1.UsedAddr = s.UsedAddr := by
  unfold allocTemp at ha
  split at ha
  · split at ha
    · cases ha
    · rename_i r s2 halloc
      cases ha
      exact AllocReg_usedAddr _ _ _ _ halloc
  · exact spillRegister_usedAddr ord _ _ _ _ _ _ ha

theorem ensure_usedAddr [Inhabited τ] (ord : GoMap useInfo → GoMap useInfo)
    (s s1 : state τ) (bb : List (Option (Instr τ))) (op res : Operand τ) (index : Nat)
    (he : ensure ord s bb op index = .ok (res, s1)) :
    s1.UsedAddr = s.UsedAddr := by
  unfold ensure at he
  split at he
  · exact allocTemp_usedAddr ord _ _ _ _ _ _ he
  · split at he
    · cases he; rfl
    · unfold loadSpill at he
      split at he
      · cases he
      · rename_i rOp s2 halloc
        cases he
        simp only [queueInstr]
        exact allocTemp_usedAddr ord _ _ _ _ _ _ halloc

/-- In every state `allocBlock` reaches from `newState(R)`, `UsedAddr` is
empty: nothing writes it. -/
theorem reached_usedAddr_nil [Inhabited τ]
    (ord : GoMap useInfo → GoMap useInfo) (R : Int) (k : Nat) (s0 s : state τ)
    (bb bb' : List (Option (Instr τ)))
    (hs0 : newState R = .ok s0)
    (hreach : allocLoop ord k 0 s0 bb = .ok (s, bb')) :
    s.UsedAddr = [] := by
  have h0 : s0.UsedAddr = [] := by
    unfold newState at hs0
    split at hs0
    · cases hs0
    · split at hs0
      · cases hs0
      · cases hs0; rfl
  obtain ⟨hinv, -, -, -⟩ :=
    allocLoop_rel (fun t : state τ => t.UsedAddr = []) (fun _ => True) ord
      (fun t bb op idx res t1 hi he =>
        ⟨(ensure_usedAddr ord t t1 bb op res idx he).trans hi,
          (ensure_shape ord t t1 bb op res idx he).imp (fun _ h => ⟨h, trivial⟩)⟩)
      (fun t bb v idx t1 hi hf => freeIfNotNeeded_usedAddr t t1 bb v idx hi hf)
      (fun t bb op idx res t1 hi ha =>
        ⟨(allocTemp_usedAddr ord t t1 bb op res idx ha).trans hi,
          (allocTemp_shape ord t t1 bb op res idx ha).imp (fun _ h => ⟨h, trivial⟩)⟩)
      k 0 s0 s bb bb' h0 hreach
  exact hinv

end regalloc

namespace regalloc
variable {τ : Type}

/-! ### The types written on spill and reload instructions (C27) -/

/-- C27 (the code departs from it): when `spillRegister` succeeds for the
incoming temporary `op`, it queues exactly one store-spill instruction, at
`index - 1`, whose register operand (the register `r` picked by
`FurthestUse`) and spill-slot destination both carry `op.type`, the type of
the incoming temporary and not that of the evicted value, which is the one
`UsedRegs` records for `r`; the instruction's own type is left at the zero
value.  Its sibling `loadSpill`, when it succeeds for `op`, queues last a
load-spill instruction whose type, slot operand and register destination all
carry `op.type`, the type of the value it moves. -/
theorem C27_spill_instructions_typed_by_incoming_operand [Inhabited τ]
    (ord : GoMap useInfo → GoMap useInfo) (s s1 : state τ) (bb : List (Option (Instr τ)))
    (op res : Operand τ) (index : Nat)
    (h : spillRegister ord s bb op index = .ok (res, s1)) :
    (∃ (s0 : state τ) (v a : Int),
      calcNextUse s bb index = .ok s0
      ∧ s0.UsedRegs.get? (s0.FurthestUse ord) = some v
      ∧ res = newRegOp (s0.FurthestUse ord) op.type
      ∧ s1.queuedInstr = s.queuedInstr ++
          [{ index := (index : Int) - 1,
             instr := { T := .StoreSpill, type := default,
                        Operands := [some (newRegOp (s0.FurthestUse ord) op.type)],
                        Destination := [some (newSpillOperand a op.type)] } }]
      ∧ (v ≠ op.Num →
          s1.LiveValues.get? v = some { IsReg := false, Num := a, NextUse := -1 }))
    ∧ ∀ (t : state τ) (t1 : state τ) (code : List (Option (Instr τ))) (o rOp : Operand τ)
        (i : Nat) (a : Int),
        loadSpill ord t code o i a = .ok (rOp, t1) →
        ∃ (t0 : state τ) (r : Int), allocTemp ord t code o i = .ok (rOp, t0)
          ∧ rOp = newRegOp r o.type
          ∧ t1.queuedInstr = t0.queuedInstr ++
              [{ index := (i : Int) - 1,
                 instr := { T := .LoadSpill, type := o.type,
                            Operands := [some (newSpillOperand a o.type)],
                            Destination := [some (newRegOp r o.type)] } }] := by
  constructor
  · unfold spillRegister at h
    split at h
    · cases h
    · rename_i s0 hcalc
      simp only at h
      split at h
      · cases h
      · rename_i sNum s2 hspill
        split at h
        · cases h
        · rename_i r2 s4 halloc
          split at h
          · cases h
          · cases h
            have hq0 := calcNextUseLoop_queue _ _ _ _ _ hcalc
            have hq2 := Spill_queue _ _ _ _ hspill
            -- the evicted value and what `Spill` records for it
            have hsp : ∃ v, s0.UsedRegs.get? (s0.FurthestUse ord) = some v
                ∧ s2.LiveValues.get? v = some { IsReg := false, Num := sNum, NextUse := -1 } := by
              unfold state.Spill at hspill
              split at hspill
              · cases hspill
              · rename_i v hv
                split at hspill
                · cases hspill
                · split at hspill
                  · cases hspill
                  · cases hspill
                    exact ⟨v, hv, by simp [GoMap.get?_set]⟩
            obtain ⟨v, hv, hlv⟩ := hsp
            refine ⟨s0, v, sNum, hcalc, hv, rfl, ?_, ?_⟩
            · unfold state.AllocReg at halloc
              split at halloc
              · cases halloc
              · cases halloc
                simp only [queueInstr, hq2, hq0]
            · intro hne
              unfold state.AllocReg at halloc
              split at halloc
              · cases halloc
              · cases halloc
                simp only [queueInstr]
                rw [GoMap.get?_set]
                have hne' : ¬ op.Num = v := fun e => hne e.symm
                simp only [hne', if_false]
                exact hlv
  · intro t t1 code o rOp i a hl
    unfold loadSpill at hl
    split at hl
    · cases hl
    · rename_i rOp' t0 halloc
      cases hl
      obtain ⟨r, q, hr, -, -, -⟩ := allocTemp_queue ord _ _ _ _ _ _ halloc
      refine ⟨t0, r, halloc, hr, ?_⟩
      simp only [queueInstr, hr]

end regalloc

/-- C27, on `c27Code` with one register: `t0 : i64` is evicted at the
definition of `t1 : i32`.  The store-spill of `t0` into slot 0 is typed `i32`
(its own type is the zero value) and the later load-spill of `t0` from slot 0
is typed `i64`. -/
theorem C27_spill_instructions_typed_by_incoming_operand_witness :
    regalloc.spillRegister id c27AtOne.1 c27AtOne.2 (tempOp32 1) 1 = .ok c27Spilled
    ∧ c27Spilled.1 = regalloc.newRegOp 0 Ty.I32
    ∧ c27AtOne.1.UsedRegs = [(0, 0)]
    ∧ regalloc.allocBlock id oneRegState c27Code = .ok c27Allocated
    ∧ c27Allocated.1.queuedInstr
      = [{ index := 0,
           instr := { T := .StoreSpill, type := .Invalid,
                      Operands := [some { cls := .Register, Num := 0, type := .I32,
                                          Symbol := none }],
                      Destination := [some { cls := .Spill, Num := 0, type := .I32,
                                             Symbol := none }] } },
         { index := 2,
           instr := { T := .LoadSpill, type := .I64,
                      Operands := [some { cls := .Spill, Num := 0, type := .I64,
                                          Symbol := none }],
                      Destination := [some { cls := .Register, Num := 0, type := .I64,
                                             Symbol := none }] } }]
    ∧ ∃ (s0 : regalloc.state Ty) (v a : Int),
        regalloc.calcNextUse c27AtOne.1 c27AtOne.2 1 = .ok s0
        ∧ s0.UsedRegs.get? (s0.FurthestUse id) = some v
        ∧ c27Spilled.1 = regalloc.newRegOp (s0.FurthestUse id) (tempOp32 1).type
        ∧ c27Spilled.2.queuedInstr = c27AtOne.1.queuedInstr ++
            [{ index := ((1 : Nat) : Int) - 1,
               instr := { T := .StoreSpill, type := default,
                          Operands := [some (regalloc.newRegOp (s0.FurthestUse id)
                            (tempOp32 1).type)],
                          Destination := [some (regalloc.newSpillOperand a
                            (tempOp32 1).type)] } }]
        ∧ (v ≠ (tempOp32 1).Num →
            c27Spilled.2.LiveValues.get? v
              = some { IsReg := false, Num := a, NextUse := -1 }) :=
  ⟨rfl, rfl, rfl, rfl, rfl,
    (regalloc.C27_spill_instructions_typed_by_incoming_operand id c27AtOne.1 c27Spilled.2
      c27AtOne.2 (tempOp32 1) c27Spilled.1 1 rfl).1⟩

namespace regalloc
variable {τ : Type}

/-! ### The register picked when one value has the furthest next use -/

theorem FurthestUseLoop_keep (l : List (Int × useInfo)) :
    ∀ (biggestIndex bestReg : Int),
      (∀ e ∈ l, e.2.IsReg = true → biggestIndex < e.2.NextUse → e.2.Num = bestReg) →
      FurthestUseLoop l biggestIndex bestReg = bestReg := by
  induction l with
  | nil => intro _ _ _; rfl
  | cons x rest ih =>
    intro b r h
    obtain ⟨v, info⟩ := x
    simp only [FurthestUseLoop]
    by_cases hc : info.IsReg = true ∧ b < info.NextUse
    · rw [if_pos hc]
      have hr : info.Num = r := h (v, info) (by simp) hc.1 hc.2
      rw [hr]
      apply ih
      intro e he h1 h2
      exact h e (by simp [he]) h1 (by omega)
    · rw [if_neg hc]
      exact ih b r (fun e he h1 h2 => h e (by simp [he]) h1 h2)

theorem FurthestUseLoop_max (l : List (Int × useInfo)) (r : Int) (n : Int)
    (hmax : ∀ e ∈ l, e.2.IsReg = true → e.2.NextUse ≤ n ∧ (e.2.NextUse = n → e.2.Num = r)) :
    ∀ (biggestIndex bestReg : Int), biggestIndex < n →
      (∃ e ∈ l, e.2.IsReg = true ∧ e.2.NextUse = n) →
      FurthestUseLoop l biggestIndex bestReg = r := by
  induction l with
  | nil => intro _ _ _ h; obtain ⟨e, he, _⟩ := h; simp at he
  | cons x rest ih =>
    intro b r0 hb hex
    obtain ⟨v, info⟩ := x
    have hrest : ∀ e ∈ rest, e.2.IsReg = true →
        e.2.NextUse ≤ n ∧ (e.2.NextUse = n → e.2.Num = r) :=
      fun e he => hmax e (by simp [he])
    simp only [FurthestUseLoop]
    by_cases hc : info.IsReg = true ∧ b < info.NextUse
    · rw [if_pos hc]
      obtain ⟨hle, heq⟩ := hmax (v, info) (by simp) hc.1
      by_cases hn : info.NextUse = n
      · rw [heq hn]
        apply FurthestUseLoop_keep
        intro e he h1 h2
        have := (hrest e he h1).1
        omega
      · apply ih hrest _ _ (by simp only at hle hn; omega)
        obtain ⟨e, he, h1, h2⟩ := hex
        simp only [List.mem_cons] at he
        rcases he with rfl | he
        · exact absurd h2 hn
        · exact ⟨e, he, h1, h2⟩
    · rw [if_neg hc]
      apply ih hrest _ _ hb
      obtain ⟨e, he, h1, h2⟩ := hex
      simp only [List.mem_cons] at he
      rcases he with rfl | he
      · exact absurd ⟨h1, by simp only at h2; omega⟩ hc
      · exact ⟨e, he, h1, h2⟩

theorem spillRegister_congr [Inhabited τ] (ord ord' : GoMap useInfo → GoMap useInfo)
    (s : state τ) (bb : List (Option (Instr τ))) (op : Operand τ) (index : Nat)
    (h : ∀ s1, calcNextUse s bb index = .ok s1 → s1.FurthestUse ord = s1.FurthestUse ord') :
    spillRegister ord s bb op index = spillRegister ord' s bb op index := by
  unfold spillRegister
  cases hc : calcNextUse s bb index with
  | error e => rfl
  | ok s1 => simp only [h s1 hc]

theorem allocTemp_congr [Inhabited τ] (ord ord' : GoMap useInfo → GoMap useInfo)
    (s : state τ) (bb : List (Option (Instr τ))) (op : Operand τ) (index : Nat)
    (h : ∀ s1, calcNextUse s bb index = .ok s1 → s1.FurthestUse ord = s1.FurthestUse ord') :
    allocTemp ord s bb op index = allocTemp ord' s bb op index := by
  unfold allocTemp
  rw [spillRegister_congr ord ord' s bb op index h]

end regalloc

/-- C25 (the code departs from it): with two registers, whatever the order
in which the live values are visited, `allocBlock` rewrites the last
instruction of `c25Code`, `add t1 t0`, into `add r1 r1`.  `t0` was evicted at
the definition of `t2`; at the `add`, `t1` is in register 1 and is freed right
after it is handled, being dead afterwards, so the reload of `t0` takes
register 1; the load-spill into register 1 is spliced in right before the
`add`. -/
theorem C25_two_operands_get_the_same_register
    (ord : GoMap regalloc.useInfo → GoMap regalloc.useInfo)
    (hord : ∀ m e, e ∈ ord m ↔ e ∈ m) :
    (regalloc.newState 2 : Except Panic (regalloc.state Ty)) = .ok twoRegState
    ∧ regalloc.allocBlock ord twoRegState c25Code = .ok c25Allocated
    ∧ c25Allocated.2[4]?
        = some (some { T := .Add, type := .I64, Operands := [some (regOp 1), some (regOp 1)],
                       Destination := [some (localOp 4)] })
    ∧ regalloc.insertQueuedInstrs c25Allocated.1 c25Allocated.2 = .ok c25Final
    ∧ c25Final.drop 4
        = [some { T := .Add, type := .I64, Operands := [some (regOp 1), some (regOp 0)],
                  Destination := [some (localOp 3)] },
           some { T := .LoadSpill, type := .I64, Operands := [some (spillOp 0)],
                  Destination := [some (regOp 1)] },
           some { T := .Add, type := .I64, Operands := [some (regOp 1), some (regOp 1)],
                  Destination := [some (localOp 4)] }] := by
  have h2 : regalloc.allocLoop ord 2 0 twoRegState c25Code = .ok c25AtTwo := rfl
  have hcalc : regalloc.calcNextUse c25AtTwo.1 c25AtTwo.2 2
      = .ok { c25AtTwo.1 with
              LiveValues := [(0, { IsReg := true, Num := 0, NextUse := 4 }),
                             (1, { IsReg := true, Num := 1, NextUse := 3 })] } := rfl
  have hF : ∀ o : GoMap regalloc.useInfo → GoMap regalloc.useInfo,
      (∀ m e, e ∈ o m ↔ e ∈ m) →
      ({ c25AtTwo.1 with
         LiveValues := [(0, { IsReg := true, Num := 0, NextUse := 4 }),
                        (1, { IsReg := true, Num := 1, NextUse := 3 })] }
        : regalloc.state Ty).FurthestUse o = 0 := by
    intro o ho
    unfold regalloc.state.FurthestUse
    apply regalloc.FurthestUseLoop_max _ 0 4
    · intro e he _
      have hmem := (ho _ e).1 he
      simp only [List.mem_cons, List.mem_singleton, List.not_mem_nil, or_false] at hmem
      rcases hmem with rfl | rfl
      · simp
      · simp
    · decide
    · exact ⟨(0, { IsReg := true, Num := 0, NextUse := 4 }), (ho _ _).2 (by simp), rfl, rfl⟩
  have htemp : regalloc.allocTemp ord c25AtTwo.1 c25AtTwo.2 (tempOp 2) 2
      = regalloc.allocTemp id c25AtTwo.1 c25AtTwo.2 (tempOp 2) 2 := by
    apply regalloc.allocTemp_congr
    intro s1 hs1
    rw [hcalc] at hs1
    cases hs1
    rw [hF ord hord, hF id (fun _ _ => Iff.rfl)]
  have hbb : c25AtTwo.2[2]? = some (defTemp 2 2) := rfl
  have hops : ∀ o : GoMap regalloc.useInfo → GoMap regalloc.useInfo,
      regalloc.allocOperands o 2 [some (localOp 2)] 0 c25AtTwo.1 c25AtTwo.2
        = .ok (c25AtTwo.1, c25AtTwo.2) :=
    fun o => regalloc.allocOperands_noTemps o 2 _ _ _ _ (fun x hx => by
      simp only [List.mem_singleton] at hx
      subst hx
      exact ⟨_, rfl, by decide⟩)
  have hcls : (tempOp 2).cls = Class.Temp := rfl
  have hinstr : regalloc.allocInstr ord 2 c25AtTwo.1 c25AtTwo.2
      = regalloc.allocInstr id 2 c25AtTwo.1 c25AtTwo.2 := by
    unfold regalloc.allocInstr
    rw [hbb]
    simp only [defTemp, hops, regalloc.allocDestinations, hcls, if_true, htemp]
  have h3 : regalloc.allocInstr id 2 c25AtTwo.1 c25AtTwo.2 = .ok c25AtThree := rfl
  have h5 : regalloc.allocLoop ord 2 3 c25AtThree.1 c25AtThree.2 = .ok c25Allocated := rfl
  refine ⟨rfl, ?_, rfl, rfl, rfl⟩
  show regalloc.allocLoop ord (2 + (1 + 2)) 0 twoRegState c25Code = _
  rw [regalloc.allocLoop_add, h2]
  simp only [Nat.zero_add]
  rw [regalloc.allocLoop_add]
  simp only [regalloc.allocLoop, hinstr, h3]
  exact h5

/-- C25, with the live values visited in the order of the map. -/
theorem C25_two_operands_get_the_same_register_witness :
    regalloc.allocBlock id twoRegState c25Code = .ok c25Allocated
    ∧ c25Allocated.2[4]?
        = some (some { T := .Add, type := .I64, Operands := [some (regOp 1), some (regOp 1)],
                       Destination := [some (localOp 4)] }) :=
  ⟨(C25_two_operands_get_the_same_register id (fun _ _ => Iff.rfl)).2.1,
    (C25_two_operands_get_the_same_register id (fun _ _ => Iff.rfl)).2.2.1⟩

/-! ### Scenarios of the allocator: eviction without a candidate, spill slots -/

/-- C26 (the code departs from it): with one register, on the block
`[load x0 -> t0; load x1 -> t1]`, in which `t0` is defined and never read,
`allocTemp` finds no free register at the definition of `t1`; whatever the
order in which the live values are visited, `FurthestUse` returns -1 and
`Spill` aborts with `spilling unused register`. -/
theorem C26_eviction_without_later_use_aborts
    (ord : GoMap regalloc.useInfo → GoMap regalloc.useInfo)
    (hord : ∀ m e, e ∈ ord m → e ∈ m) :
    (regalloc.newState 1 : Except Panic (regalloc.state Ty)) = .ok oneRegState
    ∧ regalloc.allocLoop ord 1 0 oneRegState c26Code = .ok c26AtOne
    ∧ c26AtOne.1.HasFreeRegs = false
    ∧ c26AtOne.1.UsedRegs = [(0, 0)]
    ∧ (∀ s1, regalloc.calcNextUse c26AtOne.1 c26AtOne.2 1 = .ok s1 → s1.FurthestUse ord = -1)
    ∧ regalloc.allocTemp ord c26AtOne.1 c26AtOne.2 (tempOp 1) 1
        = .error .spillingUnusedRegister
    ∧ regalloc.allocBlock ord oneRegState c26Code = .error .spillingUnusedRegister := by
  have hcalc : regalloc.calcNextUse c26AtOne.1 c26AtOne.2 1 = .ok c26AtOne.1 := rfl
  have hF : c26AtOne.1.FurthestUse ord = -1 := by
    unfold regalloc.state.FurthestUse
    rcases regalloc.FurthestUseLoop_pick (ord c26AtOne.1.LiveValues) 0 (-1) with
      h | ⟨e, he, _, h2, _⟩
    · exact h
    · have hmem := hord _ e he
      have hlv : c26AtOne.1.LiveValues = [(0, { IsReg := true, Num := 0, NextUse := -1 })] :=
        rfl
      rw [hlv] at hmem
      simp only [List.mem_singleton] at hmem
      subst hmem
      simp at h2
  have hspill : regalloc.spillRegister ord c26AtOne.1 c26AtOne.2 (tempOp 1) 1
      = .error .spillingUnusedRegister := by
    unfold regalloc.spillRegister
    simp only [hcalc, hF]
    rfl
  have htemp : regalloc.allocTemp ord c26AtOne.1 c26AtOne.2 (tempOp 1) 1
      = .error .spillingUnusedRegister := by
    unfold regalloc.allocTemp
    have hfree : c26AtOne.1.HasFreeRegs = false := rfl
    simp only [hfree, hspill]
    rfl
  have h1 : regalloc.allocLoop ord 1 0 oneRegState c26Code = .ok c26AtOne := rfl
  have hbb : c26AtOne.2[1]? = some (defTemp 1 1) := rfl
  have hinstr : regalloc.allocInstr ord 1 c26AtOne.1 c26AtOne.2
      = .error .spillingUnusedRegister := by
    unfold regalloc.allocInstr
    rw [hbb]
    have hops : regalloc.allocOperands ord 1 [some (localOp 1)] 0 c26AtOne.1 c26AtOne.2
        = .ok (c26AtOne.1, c26AtOne.2) :=
      regalloc.allocOperands_noTemps ord 1 _ _ _ _ (fun o ho => by
        simp only [List.mem_singleton] at ho
        subst ho
        exact ⟨_, rfl, by decide⟩)
    have hcls : (tempOp 1).cls = Class.Temp := rfl
    simp only [defTemp, hops, regalloc.allocDestinations, hcls, if_true, htemp]
  refine ⟨rfl, h1, rfl, rfl, ?_, htemp, ?_⟩
  · intro s1 hs1
    rw [hcalc] at hs1
    cases hs1
    exact hF
  · show regalloc.allocLoop ord (1 + 1) 0 oneRegState c26Code = _
    rw [regalloc.allocLoop_add, h1]
    simp only [regalloc.allocLoop, hinstr]

/-- C26, with the live values visited in the order of the map. -/
theorem C26_eviction_without_later_use_aborts_witness :
    regalloc.allocBlock id oneRegState c26Code = .error .spillingUnusedRegister :=
  (C26_eviction_without_later_use_aborts id (fun _ _ h => h)).2.2.2.2.2.2

/-- C28 (the code departs from it): with one register, after the eighteen
definitions of `c28Code` the values `t0`, ..., `t16` reside in spill slots at
the same time, the free-slot stack is empty, and `t15` and `t16` are both
recorded in slot 15: the seventeenth `Pop` of the slot stack found it empty
and returned `items[0]`; one more `Spill` on that state hands out slot 15
again. -/
theorem C28_seventeenth_spill_reuses_slot_15 :
    regalloc.allocLoop id 18 0 oneRegState c28Code = .ok c28AtEighteen
    ∧ c28AtEighteen.1.LiveValues.get? 15 = some { IsReg := false, Num := 15, NextUse := 33 }
    ∧ c28AtEighteen.1.LiveValues.get? 16 = some { IsReg := false, Num := 15, NextUse := -1 }
    ∧ c28AtEighteen.1.AvailableAddr.HasItems = false
    ∧ (c28AtEighteen.1.Spill 0).map Prod.fst = .ok 15 :=
  ⟨rfl, rfl, rfl, rfl, rfl⟩

namespace regalloc
variable {τ : Type}

/-! ### The next use of a value (C21) -/

theorem usesTemp_any (ops : List (Option (Operand τ))) (v : Int)
    (h : ops.all (fun p => p.isSome) = true) :
    usesTemp ops v = .ok (ops.any (isTempOperand v)) := by
  induction ops with
  | nil => rfl
  | cons o rest ih =>
    simp only [List.all_cons, Bool.and_eq_true] at h
    cases o with
    | none => simp at h
    | some op =>
      simp only [usesTemp, List.any_cons, isTempOperand]
      by_cases hc : op.cls = .Temp ∧ op.Num = v
      · simp [hc]
      · simp only [hc, if_false, decide_False, Bool.false_or]
        exact ih h.2

theorem usedAt_cons (x : Option (Instr τ)) (rest : List (Option (Instr τ))) (j : Nat)
    (v : Int) : usedAt (x :: rest) (j + 1) v = usedAt rest j v := by
  simp [usedAt]

theorem scanUses_none (code : List (Option (Instr τ))) (v : Int)
    (hnil : nilFree code = true) :
    ∀ i : Nat, (∀ j, j < code.length → usedAt code j v = false) →
      scanUses code v i = .ok none := by
  induction code with
  | nil => intro _ _; rfl
  | cons x rest ih =>
    intro i h
    simp only [nilFree, List.all_cons, Bool.and_eq_true] at hnil
    cases x with
    | none => simp at hnil
    | some instr =>
      have h0 := h 0 (by simp)
      simp only [usedAt, List.getElem?_cons_zero] at h0
      simp only [scanUses, usesTemp_any _ v hnil.1, h0]
      apply ih hnil.2
      intro j hj
      rw [← usedAt_cons (some instr) rest j v]
      exact h (j + 1) (by simp; omega)

theorem scanUses_some (code : List (Option (Instr τ))) (v : Int)
    (hnil : nilFree code = true) :
    ∀ (i k : Nat), usedAt code k v = true → (∀ j, j < k → usedAt code j v = false) →
      scanUses code v i = .ok (some (i + k)) := by
  induction code with
  | nil => intro i k h _; simp [usedAt] at h
  | cons x rest ih =>
    intro i k hk hlt
    simp only [nilFree, List.all_cons, Bool.and_eq_true] at hnil
    cases x with
    | none => simp at hnil
    | some instr =>
      cases k with
      | zero =>
        simp only [usedAt, List.getElem?_cons_zero] at hk
        simp only [scanUses, usesTemp_any _ v hnil.1, hk, Nat.add_zero]
      | succ k =>
        have h0 := hlt 0 (by omega)
        simp only [usedAt, List.getElem?_cons_zero] at h0
        simp only [scanUses, usesTemp_any _ v hnil.1, h0]
        rw [usedAt_cons] at hk
        have := ih hnil.2 (i + 1) k hk (fun j hj => by
          rw [← usedAt_cons (some instr) rest j v]
          exact hlt (j + 1) (by omega))
        rw [this]
        congr 2
        omega

theorem usedAt_drop (bb : List (Option (Instr τ))) (n j : Nat) (v : Int) :
    usedAt (bb.drop n) j v = usedAt bb (n + j) v := by
  simp [usedAt, List.getElem?_drop]

theorem nilFree_drop (bb : List (Option (Instr τ))) (n : Nat) (h : nilFree bb = true) :
    nilFree (bb.drop n) = true := by
  simp only [nilFree, List.all_eq_true] at h ⊢
  intro o ho
  exact h o (List.mem_of_mem_drop ho)

theorem usedAt_lt_length (bb : List (Option (Instr τ))) (j : Nat) (v : Int)
    (h : usedAt bb j v = true) : j < bb.length := by
  rcases Nat.lt_or_ge j bb.length with hlt | hge
  · exact hlt
  · simp [usedAt, List.getElem?_eq_none hge] at h

theorem isNeeded_spec (s : state τ) (bb : List (Option (Instr τ)))
    (v : Int) (info : useInfo) (i : Nat)
    (hnil : nilFree bb = true)
    (hlive : s.LiveValues.get? v = some info)
    (hcache : info.NextUse = -1
      ∨ ∃ j : Nat, info.NextUse = (j : Int) ∧ usedAt bb j v = true) :
    ∃ (b : Bool) (s' : state τ), isNeeded s bb v i = .ok (b, s')
      ∧ (b = true ↔ ∃ j, i < j ∧ usedAt bb j v = true)
      ∧ ((b = true ∧ ¬ (info.NextUse ≠ -1 ∧ (i : Int) < info.NextUse)) →
          ∃ j, i < j ∧ usedAt bb j v = true
            ∧ (∀ j', i < j' → j' < j → usedAt bb j' v = false)
            ∧ s' = { s with LiveValues := s.LiveValues.set v { info with NextUse := (j : Int) } })
      ∧ ((b = false ∨ (info.NextUse ≠ -1 ∧ (i : Int) < info.NextUse)) → s' = s) := by
  by_cases hlen : bb.length ≤ i + 1
  · refine ⟨false, s, by simp [isNeeded, hlen], ?_, ?_, fun _ => rfl⟩
    · constructor
      · intro h; cases h
      · rintro ⟨j, hj, hu⟩
        have := usedAt_lt_length bb j v hu
        omega
    · rintro ⟨h, -⟩; cases h
  · by_cases hc : info.NextUse ≠ -1 ∧ (i : Int) < info.NextUse
    · have hres : isNeeded s bb v i = .ok (true, s) := by
        unfold isNeeded
        rw [if_neg hlen]
        simp only [hlive]
        rw [if_pos hc]
      refine ⟨true, s, hres, ?_, ?_, fun _ => rfl⟩
      · constructor
        · intro _
          rcases hcache with h | ⟨j, hj, hu⟩
          · exact absurd h hc.1
          · exact ⟨j, by omega, hu⟩
        · intro _; rfl
      · rintro ⟨-, h⟩; exact absurd hc h
    · -- the scan of `bb.Code[index+1:]`
      by_cases hex : ∃ k, usedAt (bb.drop (i + 1)) k v = true
      · -- the first use
        obtain ⟨k, hk, hmin⟩ : ∃ k, usedAt (bb.drop (i + 1)) k v = true
            ∧ ∀ j, j < k → usedAt (bb.drop (i + 1)) j v = false := by
          classical
          refine ⟨Nat.find hex, Nat.find_spec hex, fun j hj => ?_⟩
          have := Nat.find_min hex hj
          simpa using this
        have hscan := scanUses_some (bb.drop (i + 1)) v (nilFree_drop bb _ hnil) (i + 1) k hk
          hmin
        have hres : isNeeded s bb v i = .ok (true,
            ({ s with LiveValues :=
                s.LiveValues.set v ({ info with NextUse := ((i + 1 + k : Nat) : Int) }) }
              : state τ)) := by
          unfold isNeeded
          rw [if_neg hlen]
          simp only [hlive]
          rw [if_neg hc]
          simp only [hscan]
        refine ⟨true, _, hres, ?_, ?_, ?_⟩
        · constructor
          · intro _
            exact ⟨i + 1 + k, by omega, by rw [← usedAt_drop]; exact hk⟩
          · intro _; rfl
        · intro _
          refine ⟨i + 1 + k, by omega, by rw [← usedAt_drop]; exact hk, ?_, rfl⟩
          intro j' h1 h2
          have := hmin (j' - (i + 1)) (by omega)
          rw [usedAt_drop] at this
          have e : i + 1 + (j' - (i + 1)) = j' := by omega
          rw [e] at this
          exact this
        · rintro (h | h)
          · cases h
          · exact absurd h hc
      · have hnone : ∀ j, j < (bb.drop (i + 1)).length →
            usedAt (bb.drop (i + 1)) j v = false := by
          intro j _
          by_contra hj
          exact hex ⟨j, by simpa using hj⟩
        have hscan := scanUses_none (bb.drop (i + 1)) v (nilFree_drop bb _ hnil) (i + 1) hnone
        have hres : isNeeded s bb v i = .ok (false, s) := by
          unfold isNeeded
          rw [if_neg hlen]
          simp only [hlive]
          rw [if_neg hc]
          simp only [hscan]
        refine ⟨false, s, hres, ?_, ?_, fun _ => rfl⟩
        · constructor
          · intro h; cases h
          · rintro ⟨j, hj, hu⟩
            exfalso
            apply hex
            refine ⟨j - (i + 1), ?_⟩
            rw [usedAt_drop]
            have e : i + 1 + (j - (i + 1)) = j := by omega
            rw [e]
            exact hu
        · rintro ⟨h, -⟩; cases h


/-- C21: for every block without `nil` entries, every live value `v` and
every index `i`, provided the cached `NextUse` of `v` is -1 or the index of an
instruction that has `v` among its temporary operands: `isNeeded` returns, and
it returns true iff some instruction at an index greater than `i` has `v`
among its temporary operands; when it does not answer from the cache and
returns true, the `NextUse` it records for `v` is the smallest such index, and
in every other case the state is left as it was. -/
theorem C21_isNeeded_iff_later_use (s : state τ) (bb : List (Option (Instr τ)))
    (v : Int) (info : useInfo) (i : Nat)
    (hnil : nilFree bb = true)
    (hlive : s.LiveValues.get? v = some info)
    (hcache : info.NextUse = -1
      ∨ ∃ j : Nat, info.NextUse = (j : Int) ∧ usedAt bb j v = true) :
    ∃ (b : Bool) (s' : state τ), isNeeded s bb v i = .ok (b, s')
      ∧ (b = true ↔ ∃ j, i < j ∧ usedAt bb j v = true)
      ∧ ((b = true ∧ ¬ (info.NextUse ≠ -1 ∧ (i : Int) < info.NextUse)) →
          ∃ j, i < j ∧ usedAt bb j v = true
            ∧ (∀ j', i < j' → j' < j → usedAt bb j' v = false)
            ∧ s' = { s with LiveValues := s.LiveValues.set v { info with NextUse := (j : Int) } })
      ∧ ((b = false ∨ (info.NextUse ≠ -1 ∧ (i : Int) < info.NextUse)) → s' = s) :=
  isNeeded_spec s bb v info i hnil hlive hcache

end regalloc

/-- C21, at `t1` after two instructions of `c20Code`: it is read next at
instruction 3. -/
theorem C21_isNeeded_iff_later_use_witness :
    regalloc.nilFree c20AtTwo.2 = true
    ∧ c20AtTwo.1.LiveValues.get? 1 = some { IsReg := true, Num := 1, NextUse := -1 }
    ∧ regalloc.isNeeded c20AtTwo.1 c20AtTwo.2 1 2
        = .ok (true, { c20AtTwo.1 with
            LiveValues := c20AtTwo.1.LiveValues.set 1 { IsReg := true, Num := 1, NextUse := 3 } })
    ∧ ∃ (b : Bool) (s' : regalloc.state Ty),
        regalloc.isNeeded c20AtTwo.1 c20AtTwo.2 1 2 = .ok (b, s')
        ∧ (b = true ↔ ∃ j, 2 < j ∧ regalloc.usedAt c20AtTwo.2 j 1 = true)
        ∧ ((b = true ∧ ¬ ((-1 : Int) ≠ -1 ∧ ((2 : Nat) : Int) < -1)) →
            ∃ j, 2 < j ∧ regalloc.usedAt c20AtTwo.2 j 1 = true
              ∧ (∀ j', 2 < j' → j' < j → regalloc.usedAt c20AtTwo.2 j' 1 = false)
              ∧ s' = { c20AtTwo.1 with
                  LiveValues := c20AtTwo.1.LiveValues.set 1
                    { IsReg := true, Num := 1, NextUse := (j : Int) } })
        ∧ ((b = false ∨ ((-1 : Int) ≠ -1 ∧ ((2 : Nat) : Int) < -1)) → s' = c20AtTwo.1) :=
  ⟨rfl, rfl, rfl,
    regalloc.C21_isNeeded_iff_later_use c20AtTwo.1 c20AtTwo.2 1
      { IsReg := true, Num := 1, NextUse := -1 } 2 rfl rfl (Or.inl rfl)⟩

/-! ### No check reports an exhausted bound -/

@[simp]
theorem opAt_fuel {α : Type} (l : List (Option α)) (i : Nat) :
    opAt l i ≠ .error .outOfFuel := by
  intro h
  unfold opAt at h
  repeat' (split at h)
  all_goals cases h

@[simp]
theorem CheckPtr_fuel {τ : Type} (c : Checker τ) (o : Option (Operand τ)) :
    c.CheckPtr o ≠ .error .outOfFuel := by
  intro h
  cases o <;> simp [Checker.CheckPtr] at h

namespace hirchecker
variable {τ : Type}

@[simp]
theorem hir_checkBinary_fuel [DecidableEq τ] (instr : Instr τ) (a b c : Checker τ) :
    checkBinary instr a b c ≠ .error .outOfFuel := by
  intro h
  unfold checkBinary at h
  repeat' (split at h)
  all_goals first | (cases h; done) | simp_all

@[simp]
theorem hir_checkUnary_fuel [DecidableEq τ] (instr : Instr τ) (a c : Checker τ) :
    checkUnary instr a c ≠ .error .outOfFuel := by
  intro h
  unfold checkUnary at h
  repeat' (split at h)
  all_goals first | (cases h; done) | simp_all

@[simp]
theorem hir_checkBinaryAll_fuel [DecidableEq τ] (instr : Instr τ) (a b c : Checker τ) :
    checkBinaryAll instr a b c ≠ .error .outOfFuel := by
  intro h
  unfold checkBinaryAll at h
  repeat' (split at h)
  all_goals first | (cases h; done) | simp_all

@[simp]
theorem hir_checkArith_fuel [DecidableEq τ] (E : Env τ) (instr : Instr τ) :
    checkArith E instr ≠ .error .outOfFuel := by
  intro h
  unfold checkArith at h
  repeat' (split at h)
  all_goals first | (cases h; done) | simp_all

@[simp]
theorem hir_checkLogical_fuel [DecidableEq τ] (E : Env τ) (instr : Instr τ) :
    checkLogical E instr ≠ .error .outOfFuel := by
  intro h
  unfold checkLogical at h
  repeat' (split at h)
  all_goals first | (cases h; done) | simp_all

@[simp]
theorem hir_checkComp_fuel [DecidableEq τ] (E : Env τ) (instr : Instr τ) :
    checkComp E instr ≠ .error .outOfFuel := by
  intro h
  unfold checkComp at h
  repeat' (split at h)
  all_goals first | (cases h; done) | simp_all

@[simp]
theorem hir_checkUnaryAll_fuel [DecidableEq τ] (instr : Instr τ) (a c : Checker τ) :
    checkUnaryAll instr a c ≠ .error .outOfFuel := by
  intro h
  unfold checkUnaryAll at h
  repeat' (split at h)
  all_goals first | (cases h; done) | simp_all

@[simp]
theorem hir_checkUnaryArith_fuel [DecidableEq τ] (E : Env τ) (instr : Instr τ) :
    checkUnaryArith E instr ≠ .error .outOfFuel := by
  intro h
  unfold checkUnaryArith at h
  repeat' (split at h)
  all_goals first | (cases h; done) | simp_all

@[simp]
theorem hir_checkNot_fuel [DecidableEq τ] (E : Env τ) (instr : Instr τ) :
    checkNot E instr ≠ .error .outOfFuel := by
  intro h
  unfold checkNot at h
  repeat' (split at h)
  all_goals first | (cases h; done) | simp_all

@[simp]
theorem hir_checkLoad_fuel [DecidableEq τ] (E : Env τ) (instr : Instr τ) :
    checkLoad E instr ≠ .error .outOfFuel := by
  intro h
  unfold checkLoad at h
  repeat' (split at h)
  all_goals first | (cases h; done) | simp_all

@[simp]
theorem hir_checkStore_fuel [DecidableEq τ] (E : Env τ) (instr : Instr τ) :
    checkStore E instr ≠ .error .outOfFuel := by
  intro h
  unfold checkStore at h
  repeat' (split at h)
  all_goals first | (cases h; done) | simp_all

@[simp]
theorem hir_checkUnaryDest_fuel [DecidableEq τ] (instr : Instr τ) (a c : Checker τ) :
    checkUnaryDest instr a c ≠ .error .outOfFuel := by
  intro h
  unfold checkUnaryDest at h
  repeat' (split at h)
  all_goals first | (cases h; done) | simp_all

@[simp]
theorem hir_checkConvert_fuel [DecidableEq τ] (E : Env τ) (instr : Instr τ) :
    checkConvert E instr ≠ .error .outOfFuel := by
  intro h
  unfold checkConvert at h
  repeat' (split at h)
  all_goals first | (cases h; done) | simp_all

@[simp]
theorem hir_checkLoadPtr_fuel [DecidableEq τ] (E : Env τ) (instr : Instr τ) :
    checkLoadPtr E instr ≠ .error .outOfFuel := by
  intro h
  unfold checkLoadPtr at h
  repeat' (split at h)
  all_goals first | (cases h; done) | simp_all

@[simp]
theorem hir_checkOffset_fuel [DecidableEq τ] (E : Env τ) (instr : Instr τ) :
    checkOffset E instr ≠ .error .outOfFuel := by
  intro h
  unfold checkOffset at h
  repeat' (split at h)
  all_goals first | (cases h; done) | simp_all

@[simp]
theorem hir_checkStorePtr_fuel [DecidableEq τ] (E : Env τ) (instr : Instr τ) :
    checkStorePtr E instr ≠ .error .outOfFuel := by
  intro h
  unfold checkStorePtr at h
  repeat' (split at h)
  all_goals first | (cases h; done) | simp_all

@[simp]
theorem hir_checkCallArgs_fuel [DecidableEq τ] (instr : Instr τ) (formals : List τ) :
    ∀ reals, checkCallArgs instr formals reals ≠ .error .outOfFuel := by
  induction formals with
  | nil => intro reals h; simp [checkCallArgs] at h
  | cons f formals ih =>
    intro reals h
    unfold checkCallArgs at h
    repeat' (split at h)
    all_goals first | (cases h; done) | simp_all

@[simp]
theorem hir_checkCallRets_fuel [DecidableEq τ] (instr : Instr τ) (formals : List τ) :
    ∀ reals, checkCallRets instr formals reals ≠ .error .outOfFuel := by
  induction formals with
  | nil => intro reals h; simp [checkCallRets] at h
  | cons f formals ih =>
    intro reals h
    unfold checkCallRets at h
    repeat' (split at h)
    all_goals first | (cases h; done) | simp_all

@[simp]
theorem hir_checkCall_fuel [DecidableEq τ] (instr : Instr τ) :
    checkCall instr ≠ .error .outOfFuel := by
  intro h
  unfold checkCall at h
  repeat' (split at h)
  all_goals first | (cases h; done) | simp_all

@[simp]
theorem hir_checkInstr_fuel [DecidableEq τ] (E : Env τ) (o : Option (Instr τ)) :
    checkInstr E o ≠ .error .outOfFuel := by
  intro h
  unfold checkInstr at h
  repeat' (split at h)
  all_goals first | (cases h; done) | simp_all

@[simp]
theorem hir_checkInstrs_fuel [DecidableEq τ] (E : Env τ) (code : List (Option (Instr τ))) :
    checkInstrs E code ≠ .error .outOfFuel := by
  induction code with
  | nil => intro h; simp [checkInstrs] at h
  | cons o rest ih =>
    intro h
    unfold checkInstrs at h
    repeat' (split at h)
    all_goals first | (cases h; done) | simp_all

@[simp]
theorem hir_checkRetLoop_fuel [DecidableEq τ] (wanted : List τ) :
    ∀ rets, checkRetLoop wanted rets ≠ .error .outOfFuel := by
  induction wanted with
  | nil => intro rets h; simp [checkRetLoop] at h
  | cons w wanted ih =>
    intro rets h
    unfold checkRetLoop at h
    repeat' (split at h)
    all_goals first | (cases h; done) | simp_all

@[simp]
theorem hir_checkRet_fuel [DecidableEq τ] (s : state τ) (rets : List (Option (Operand τ))) :
    checkRet s rets ≠ .error .outOfFuel := by
  intro h
  unfold checkRet at h
  repeat' (split at h)
  all_goals first | (cases h; done) | simp_all

end hirchecker

namespace mirchecker
variable {τ : Type}

@[simp]
theorem mir_newRegion_fuel (size : Int) :
    (newRegion size : Except Panic (region τ)) ≠ .error .outOfFuel := by
  intro h
  unfold newRegion at h
  repeat' (split at h)
  all_goals first | (cases h; done) | simp_all

@[simp]
theorem mir_region_Load_fuel (r : region τ) (i : Int) :
    r.Load i ≠ .error .outOfFuel := by
  intro h
  unfold region.Load at h
  repeat' (split at h)
  all_goals first | (cases h; done) | simp_all

@[simp]
theorem mir_region_Clear_fuel (r : region τ) (i : Int) :
    r.Clear i ≠ .error .outOfFuel := by
  intro h
  unfold region.Clear at h
  repeat' (split at h)
  all_goals first | (cases h; done) | simp_all

@[simp]
theorem mir_region_Store_fuel (r : region τ) (i : Int) (op : Option (Operand τ)) :
    r.Store i op ≠ .error .outOfFuel := by
  intro h
  unfold region.Store at h
  repeat' (split at h)
  all_goals try simp_all
  all_goals (repeat' (split at h))
  all_goals first | (cases h; done) | simp_all

@[simp]
theorem mir_newLocalOperand_fuel (arg : Option (Symbol τ)) :
    newLocalOperand arg ≠ .error .outOfFuel := by
  intro h
  unfold newLocalOperand at h
  repeat' (split at h)
  all_goals first | (cases h; done) | simp_all

@[simp]
theorem mir_checkRetLoop_fuel [DecidableEq τ] (rets : List τ) :
    ∀ (i : Nat) (s : state τ), checkRetLoop rets i s ≠ .error .outOfFuel := by
  induction rets with
  | nil => intro i s h; simp [checkRetLoop] at h
  | cons r rets ih =>
    intro i s h
    unfold checkRetLoop at h
    repeat' (split at h)
    all_goals first | (cases h; done) | simp_all

@[simp]
theorem mir_checkRet_fuel [DecidableEq τ] (s : state τ) :
    checkRet s ≠ .error .outOfFuel := by
  intro h
  unfold checkRet at h
  repeat' (split at h)
  all_goals first | (cases h; done) | simp_all

@[simp]
theorem mir_checkBinary_fuel [DecidableEq τ] (instr : Instr τ) (a b c : Checker τ) :
    checkBinary instr a b c ≠ .error .outOfFuel := by
  intro h
  unfold checkBinary at h
  repeat' (split at h)
  all_goals first | (cases h; done) | simp_all

@[simp]
theorem mir_checkUnary_fuel [DecidableEq τ] (instr : Instr τ) (a c : Checker τ) :
    checkUnary instr a c ≠ .error .outOfFuel := by
  intro h
  unfold checkUnary at h
  repeat' (split at h)
  all_goals first | (cases h; done) | simp_all

@[simp]
theorem mir_checkBinaryAll_fuel [DecidableEq τ] (instr : Instr τ) (a b c : Checker τ) :
    checkBinaryAll instr a b c ≠ .error .outOfFuel := by
  intro h
  unfold checkBinaryAll at h
  repeat' (split at h)
  all_goals first | (cases h; done) | simp_all

@[simp]
theorem mir_checkArith_fuel [DecidableEq τ] (E : Env τ) (instr : Instr τ) :
    checkArith E instr ≠ .error .outOfFuel := by
  intro h
  unfold checkArith at h
  repeat' (split at h)
  all_goals first | (cases h; done) | simp_all

@[simp]
theorem mir_checkLogical_fuel [DecidableEq τ] (E : Env τ) (instr : Instr τ) :
    checkLogical E instr ≠ .error .outOfFuel := by
  intro h
  unfold checkLogical at h
  repeat' (split at h)
  all_goals first | (cases h; done) | simp_all

@[simp]
theorem mir_checkComp_fuel [DecidableEq τ] (E : Env τ) (instr : Instr τ) :
    checkComp E instr ≠ .error .outOfFuel := by
  intro h
  unfold checkComp at h
  repeat' (split at h)
  all_goals first | (cases h; done) | simp_all

@[simp]
theorem mir_checkUnaryAll_fuel [DecidableEq τ] (instr : Instr τ) (a c : Checker τ) :
    checkUnaryAll instr a c ≠ .error .outOfFuel := by
  intro h
  unfold checkUnaryAll at h
  repeat' (split at h)
  all_goals first | (cases h; done) | simp_all

@[simp]
theorem mir_checkUnaryArith_fuel [DecidableEq τ] (E : Env τ) (instr : Instr τ) :
    checkUnaryArith E instr ≠ .error .outOfFuel := by
  intro h
  unfold checkUnaryArith at h
  repeat' (split at h)
  all_goals first | (cases h; done) | simp_all

@[simp]
theorem mir_checkNot_fuel [DecidableEq τ] (E : Env τ) (instr : Instr τ) :
    checkNot E instr ≠ .error .outOfFuel := by
  intro h
  unfold checkNot at h
  repeat' (split at h)
  all_goals first | (cases h; done) | simp_all

@[simp]
theorem mir_checkCopy_fuel [DecidableEq τ] (E : Env τ) (instr : Instr τ) :
    checkCopy E instr ≠ .error .outOfFuel := by
  intro h
  unfold checkCopy at h
  repeat' (split at h)
  all_goals first | (cases h; done) | simp_all

@[simp]
theorem mir_checkUnaryDest_fuel [DecidableEq τ] (instr : Instr τ) (a c : Checker τ) :
    checkUnaryDest instr a c ≠ .error .outOfFuel := by
  intro h
  unfold checkUnaryDest at h
  repeat' (split at h)
  all_goals first | (cases h; done) | simp_all

@[simp]
theorem mir_checkConvert_fuel [DecidableEq τ] (E : Env τ) (instr : Instr τ) :
    checkConvert E instr ≠ .error .outOfFuel := by
  intro h
  unfold checkConvert at h
  repeat' (split at h)
  all_goals first | (cases h; done) | simp_all

@[simp]
theorem mir_checkLoadPtr_fuel [DecidableEq τ] (E : Env τ) (instr : Instr τ) :
    checkLoadPtr E instr ≠ .error .outOfFuel := by
  intro h
  unfold checkLoadPtr at h
  repeat' (split at h)
  all_goals first | (cases h; done) | simp_all

@[simp]
theorem mir_checkStorePtr_fuel [DecidableEq τ] (E : Env τ) (instr : Instr τ) :
    checkStorePtr E instr ≠ .error .outOfFuel := by
  intro h
  unfold checkStorePtr at h
  repeat' (split at h)
  all_goals first | (cases h; done) | simp_all

@[simp]
theorem mir_checkLoadState_fuel [DecidableEq τ] (s : state τ) (instr : Instr τ) :
    checkLoadState s instr ≠ .error .outOfFuel := by
  intro h
  unfold checkLoadState at h
  repeat' (split at h)
  all_goals try simp_all
  all_goals (repeat' (split at h))
  all_goals first | (cases h; done) | simp_all

@[simp]
theorem mir_checkStoreState_fuel [DecidableEq τ] (s : state τ) (instr : Instr τ) :
    checkStoreState s instr ≠ .error .outOfFuel := by
  intro h
  unfold checkStoreState at h
  repeat' (split at h)
  all_goals first | (cases h; done) | simp_all

@[simp]
theorem mir_checkLoad_fuel [DecidableEq τ] (E : Env τ) (s : state τ) (instr : Instr τ) :
    checkLoad E s instr ≠ .error .outOfFuel := by
  intro h
  unfold checkLoad at h
  repeat' (split at h)
  all_goals first | (cases h; done) | simp_all

@[simp]
theorem mir_checkStore_fuel [DecidableEq τ] (E : Env τ) (s : state τ) (instr : Instr τ) :
    checkStore E s instr ≠ .error .outOfFuel := by
  intro h
  unfold checkStore at h
  repeat' (split at h)
  all_goals first | (cases h; done) | simp_all

@[simp]
theorem mir_checkCallArgs_fuel [DecidableEq τ] (instr : Instr τ) (args : List τ) :
    ∀ (i : Nat) (s : state τ), checkCallArgs instr args i s ≠ .error .outOfFuel := by
  induction args with
  | nil => intro i s h; simp [checkCallArgs] at h
  | cons a args ih =>
    intro i s h
    unfold checkCallArgs at h
    repeat' (split at h)
    all_goals first | (cases h; done) | simp_all

@[simp]
theorem mir_checkCallRets_fuel (rets : List τ) :
    ∀ (i : Nat) (s : state τ), checkCallRets rets i s ≠ .error .outOfFuel := by
  induction rets with
  | nil => intro i s h; simp [checkCallRets] at h
  | cons r rets ih =>
    intro i s h
    unfold checkCallRets at h
    repeat' (split at h)
    all_goals try simp_all
    all_goals (repeat' (split at h))
    all_goals first | (cases h; done) | simp_all

@[simp]
theorem mir_checkCall_fuel [DecidableEq τ] (E : Env τ) (s : state τ) (instr : Instr τ) :
    checkCall E s instr ≠ .error .outOfFuel := by
  intro h
  unfold checkCall at h
  repeat' (split at h)
  all_goals first | (cases h; done) | simp_all

@[simp]
theorem mir_anyInvalidClass_fuel (l : List (Option (Operand τ))) :
    anyInvalidClass l ≠ .error .outOfFuel := by
  induction l with
  | nil => intro h; simp [anyInvalidClass] at h
  | cons o rest ih =>
    intro h
    unfold anyInvalidClass at h
    repeat' (split at h)
    all_goals first | (cases h; done) | simp_all

@[simp]
theorem mir_checkInvalidClass_fuel (instr : Instr τ) :
    checkInvalidClass instr ≠ .error .outOfFuel := by
  intro h
  unfold checkInvalidClass at h
  repeat' (split at h)
  all_goals first | (cases h; done) | simp_all

@[simp]
theorem mir_pureCheck_fuel (s : state τ) (r : Except Panic (Option (CompilerError τ)))
    (hr : r ≠ .error .outOfFuel) : pureCheck s r ≠ .error .outOfFuel := by
  intro h
  unfold pureCheck at h
  repeat' (split at h)
  all_goals first | (cases h; done) | simp_all

@[simp]
theorem mir_checkInstr_fuel [DecidableEq τ] (E : Env τ) (s : state τ) (o : Option (Instr τ)) :
    checkInstr E s o ≠ .error .outOfFuel := by
  intro h
  unfold checkInstr at h
  repeat' (split at h)
  all_goals first | (cases h; done) | simp_all

@[simp]
theorem mir_checkInstrs_fuel [DecidableEq τ] (E : Env τ) (code : List (Option (Instr τ))) :
    ∀ s : state τ, checkInstrs E code s ≠ .error .outOfFuel := by
  induction code with
  | nil => intro s h; simp [checkInstrs] at h
  | cons o rest ih =>
    intro s h
    unfold checkInstrs at h
    repeat' (split at h)
    all_goals first | (cases h; done) | simp_all

end mirchecker

/-! ### Counting the blocks whose flag is unset (C23) -/

theorem countP_set_flag {α : Type} (q : α → Bool) (l : List α) :
    ∀ (i : Nat) (x y : α), l[i]? = some x → q x = true → q y = false →
      (l.set i y).countP q + 1 = l.countP q := by
  induction l with
  | nil => intro i x y h; simp at h
  | cons a rest ih =>
    intro i x y h hx hy
    cases i with
    | zero =>
      simp only [List.getElem?_cons_zero, Option.some.injEq] at h
      subst h
      simp [List.countP_cons, hx, hy]
    | succ i =>
      simp only [List.getElem?_cons_succ] at h
      simp only [List.set_cons_succ, List.countP_cons]
      have := ih i x y h hx hy
      omega

namespace hirchecker
variable {τ : Type}

/-! ### The HIR traversal ends, and runs the instructions of a block once -/

theorem unchecked_le (p : Proc τ) : unchecked p ≤ p.Blocks.length :=
  List.countP_le_length _

theorem setChecked_unchecked (p : Proc τ) (b : Nat) (bb : BasicBlock τ)
    (hb : p.Blocks[b]? = some bb) (hc : bb.Checked = false) :
    unchecked (setChecked p b) + 1 = unchecked p := by
  simp only [unchecked, setChecked, hb]
  exact countP_set_flag _ _ b bb _ hb (by simp [hc]) (by simp)

theorem setChecked_flagged (p : Proc τ) (b k : Nat) (h : flagged p k) :
    flagged (setChecked p b) k := by
  obtain ⟨bb, hk, hc⟩ := h
  unfold setChecked
  cases hb : p.Blocks[b]? with
  | none => exact ⟨bb, hk, hc⟩
  | some blk =>
    simp only [flagged, List.getElem?_set]
    by_cases e : b = k
    · subst e
      have hlt : b < p.Blocks.length := (List.getElem?_eq_some_iff.1 hb).1
      simp [hlt]
    · simp only [e, if_false]
      exact ⟨bb, hk, hc⟩

theorem setChecked_flagged_self (p : Proc τ) (b : Nat) (bb : BasicBlock τ)
    (hb : p.Blocks[b]? = some bb) : flagged (setChecked p b) b := by
  have hlt : b < p.Blocks.length := (List.getElem?_eq_some_iff.1 hb).1
  simp [flagged, setChecked, hb, hlt]

theorem hir_checkJumpLog_erase [DecidableEq τ]
    (codeL : state τ → List Nat → Option Nat → Checked τ (state τ × List Nat))
    (code : state τ → Option Nat → Checked τ (state τ))
    (h : ∀ s log b, (codeL s log b).map (fun r => (r.1, r.2.1)) = code s b)
    (s : state τ) (log : List Nat) :
    (checkJumpLog codeL s log).map (fun r => (r.1, r.2.1)) = checkJump code s := by
  unfold checkJumpLog checkJump
  cases s.bb with
  | none => rfl
  | some b =>
    simp only
    cases s.proc.Blocks[b]? with
    | none => rfl
    | some bb =>
      simp only
      cases bb.Out.T with
      | Jmp => exact h _ _ _
      | If =>
        simp only
        have h1 := h s log bb.Out.True
        cases hc : codeL s log bb.Out.True with
        | error e =>
          rw [hc] at h1
          rw [← h1]; rfl
        | ok r =>
          obtain ⟨r1, s1, log1⟩ := r
          rw [hc] at h1
          rw [← h1]
          cases r1 with
          | none => exact h _ _ _
          | some err => rfl
      | Return =>
        simp only
        cases checkRet s bb.Out.V <;> rfl
      | Exit => rfl

theorem hir_checkCodeLog_erase [DecidableEq τ] (E : Env τ) (fuel : Nat) :
    ∀ (s : state τ) (log : List Nat) (b : Option Nat),
      (checkCodeLog E fuel s log b).map (fun r => (r.1, r.2.1)) = checkCode E fuel s b := by
  induction fuel with
  | zero => intro s log b; rfl
  | succ fuel ih =>
    intro s log b
    unfold checkCodeLog checkCode
    cases b with
    | none => rfl
    | some b =>
      simp only
      cases s.proc.Blocks[b]? with
      | none => rfl
      | some bb =>
        simp only
        by_cases hc : bb.Checked = true
        · simp only [hc, if_true]; rfl
        · simp only [hc, if_false, Bool.false_eq_true]
          cases checkInstrs E bb.Code with
          | error e => rfl
          | ok r =>
            cases r with
            | some err => rfl
            | none => exact hir_checkJumpLog_erase _ _ ih _ _

theorem LogSpec_refl (s : state τ) (log : List Nat) (r : Option (CompilerError τ)) :
    LogSpec s log (r, s, log) :=
  ⟨Nat.le_refl _, fun _ h => h, [], by simp, List.nodup_nil, by simp, by simp⟩

theorem hir_LogSpec_trans (s s1 : state τ) (log log1 : List Nat)
    (res : Option (CompilerError τ) × state τ × List Nat)
    (h1 : LogSpec s log (none, s1, log1)) (h2 : LogSpec s1 log1 res) :
    LogSpec s log res := by
  obtain ⟨hu1, hf1, new1, hl1, hn1, hnf1, hfl1⟩ := h1
  obtain ⟨hu2, hf2, new2, hl2, hn2, hnf2, hfl2⟩ := h2
  simp only at hu1 hf1 hl1
  refine ⟨Nat.le_trans hu2 hu1, fun k hk => hf2 k (hf1 k hk), new1 ++ new2, ?_, ?_, ?_, ?_⟩
  · rw [hl2, hl1, List.append_assoc]
  · rw [List.nodup_append]
    refine ⟨hn1, hn2, ?_⟩
    intro k hk1 hk2
    exact hnf2 k hk2 (hfl1 rfl k hk1)
  · intro k hk
    simp only [List.mem_append] at hk
    rcases hk with hk | hk
    · exact hnf1 k hk
    · exact fun hfk => hnf2 k hk (hf1 k hfk)
  · intro hr k hk
    simp only [List.mem_append] at hk
    rcases hk with hk | hk
    · exact hf2 k (hfl1 rfl k hk)
    · exact hfl2 hr k hk

theorem hir_checkJumpLog_main [DecidableEq τ] (E : Env τ) (fuel : Nat)
    (ih : ∀ (s : state τ) (log : List Nat) (b : Option Nat), unchecked s.proc < fuel →
      checkCodeLog E fuel s log b ≠ .error .outOfFuel
      ∧ checkCodeLog E (fuel + 1) s log b = checkCodeLog E fuel s log b
      ∧ ∀ res, checkCodeLog E fuel s log b = .ok res → LogSpec s log res)
    (s : state τ) (log : List Nat) (hfuel : unchecked s.proc < fuel) :
    checkJumpLog (checkCodeLog E fuel) s log ≠ .error .outOfFuel
    ∧ checkJumpLog (checkCodeLog E (fuel + 1)) s log = checkJumpLog (checkCodeLog E fuel) s log
    ∧ ∀ res, checkJumpLog (checkCodeLog E fuel) s log = .ok res → LogSpec s log res := by
  unfold checkJumpLog
  cases s.bb with
  | none => exact ⟨by simp, rfl, by simp⟩
  | some b =>
    simp only
    cases s.proc.Blocks[b]? with
    | none => exact ⟨by simp, rfl, by simp⟩
    | some bb =>
      simp only
      cases bb.Out.T with
      | Jmp => exact ih s log bb.Out.True hfuel
      | If =>
        simp only
        obtain ⟨hne1, hst1, hsp1⟩ := ih s log bb.Out.True hfuel
        rw [hst1]
        cases hc : checkCodeLog E fuel s log bb.Out.True with
        | error e =>
          refine ⟨?_, rfl, by simp⟩
          intro h
          simp only at h
          rw [h] at hc
          exact hne1 hc
        | ok r =>
          obtain ⟨r1, s1, log1⟩ := r
          have hspec1 := hsp1 _ hc
          cases r1 with
          | some err =>
            refine ⟨by simp, rfl, ?_⟩
            intro res hres
            simp only at hres
            cases hres
            exact hspec1
          | none =>
            simp only
            have hfuel1 : unchecked s1.proc < fuel := Nat.lt_of_le_of_lt hspec1.1 hfuel
            obtain ⟨hne2, hst2, hsp2⟩ := ih s1 log1 bb.Out.False hfuel1
            refine ⟨hne2, hst2, ?_⟩
            intro res hres
            exact hir_LogSpec_trans s s1 log log1 res hspec1 (hsp2 res hres)
      | Return =>
        simp only
        cases hr : checkRet s bb.Out.V with
        | error e =>
          refine ⟨?_, by first | rfl | trivial, by simp⟩
          intro h
          cases h
          exact hir_checkRet_fuel _ _ hr
        | ok r =>
          refine ⟨by simp, by first | rfl | trivial, ?_⟩
          intro res hres
          simp only at hres
          cases hres
          exact LogSpec_refl s log r
      | Exit =>
        refine ⟨by simp, rfl, ?_⟩
        intro res hres
        simp only at hres
        cases hres
        exact LogSpec_refl s log none

theorem hir_checkCodeLog_main [DecidableEq τ] (E : Env τ) (fuel : Nat) :
    ∀ (s : state τ) (log : List Nat) (b : Option Nat), unchecked s.proc < fuel →
      checkCodeLog E fuel s log b ≠ .error .outOfFuel
      ∧ checkCodeLog E (fuel + 1) s log b = checkCodeLog E fuel s log b
      ∧ ∀ res, checkCodeLog E fuel s log b = .ok res → LogSpec s log res := by
  induction fuel with
  | zero => intro s log b h; omega
  | succ fuel ih =>
    intro s log b hfuel
    cases b with
    | none => exact ⟨by simp [checkCodeLog], by simp [checkCodeLog], by simp [checkCodeLog]⟩
    | some b =>
      cases hb : s.proc.Blocks[b]? with
      | none =>
        exact ⟨by simp [checkCodeLog, hb], by simp [checkCodeLog, hb],
          by simp [checkCodeLog, hb]⟩
      | some bb =>
        by_cases hc : bb.Checked = true
        · refine ⟨by simp [checkCodeLog, hb, hc], by simp [checkCodeLog, hb, hc], ?_⟩
          intro res hres
          simp only [checkCodeLog, hb, hc, if_true] at hres
          cases hres
          exact LogSpec_refl s log none
        · have hcf : bb.Checked = false := by simpa using hc
          have hnb : ¬ flagged s.proc b := by
            rintro ⟨bb', h1, h2⟩
            rw [hb] at h1
            cases h1
            rw [hcf] at h2
            cases h2
          cases hin : checkInstrs E bb.Code with
          | error e =>
            refine ⟨?_, by simp [checkCodeLog, hb, hc, hin], by simp [checkCodeLog, hb, hc, hin]⟩
            intro h
            simp only [checkCodeLog, hb, hc, hin, if_false, Bool.false_eq_true] at h
            cases h
            exact hir_checkInstrs_fuel _ _ hin
          | ok r =>
            cases r with
            | some err =>
              refine ⟨by simp [checkCodeLog, hb, hc, hin], by simp [checkCodeLog, hb, hc, hin],
                ?_⟩
              intro res hres
              simp only [checkCodeLog, hb, hc, hin, if_false, Bool.false_eq_true] at hres
              cases hres
              exact ⟨Nat.le_refl _, fun _ h => h, [b], rfl, List.nodup_singleton b,
                by simpa using hnb, by simp⟩
            | none =>
              have hcount := setChecked_unchecked s.proc b bb hb hcf
              have hfuel2 : unchecked
                  ({ s with bb := some b, proc := setChecked s.proc b } : state τ).proc < fuel := by
                simp only
                omega
              obtain ⟨hne, hst, hsp⟩ := hir_checkJumpLog_main E fuel ih
                ({ s with bb := some b, proc := setChecked s.proc b } : state τ)
                (log ++ [b]) hfuel2
              have hunf : ∀ n, checkCodeLog E (n + 1) s log (some b)
                  = checkJumpLog (checkCodeLog E n)
                      ({ s with bb := some b, proc := setChecked s.proc b } : state τ)
                      (log ++ [b]) := by
                intro n
                simp only [checkCodeLog, hb, hc, hin, if_false, Bool.false_eq_true]
              rw [hunf fuel, hunf (fuel + 1)]
              refine ⟨hne, hst, ?_⟩
              intro res hres
              have hspec := hsp res hres
              have hstep : LogSpec s log
                  (none, ({ s with bb := some b, proc := setChecked s.proc b } : state τ),
                    log ++ [b]) := by
                refine ⟨by simp only; omega, fun k hk => setChecked_flagged _ _ _ hk, [b], rfl,
                  List.nodup_singleton b, by simpa using hnb, ?_⟩
                intro _ k hk
                simp only [List.mem_singleton] at hk
                subst hk
                exact setChecked_flagged_self _ _ bb hb
              exact hir_LogSpec_trans s _ log _ res hstep hspec

theorem hir_checkCodeLog_stable [DecidableEq τ] (E : Env τ) (s : state τ) (log : List Nat)
    (b : Option Nat) (fuel : Nat) (hfuel : unchecked s.proc < fuel) :
    ∀ n, checkCodeLog E (fuel + n) s log b = checkCodeLog E fuel s log b := by
  intro n
  induction n with
  | zero => rfl
  | succ n ih =>
    have := (hir_checkCodeLog_main E (fuel + n) s log b (by omega)).2.1
    rw [← ih, ← this]
    rfl

end hirchecker

namespace mirchecker
variable {τ : Type}

/-! ### The MIR traversal ends, and runs the instructions of a block once -/

theorem checkRetLoop_frame [DecidableEq τ] (rets : List τ) :
    ∀ (i : Nat) (s s' : state τ) (r : Option (CompilerError τ)),
      checkRetLoop rets i s = .ok (r, s') → s'.proc = s.proc ∧ s'.bb = s.bb := by
  induction rets with
  | nil => intro i s s' r h; simp only [checkRetLoop] at h; cases h; exact ⟨rfl, rfl⟩
  | cons a rest ih =>
    intro i s s' r h
    simp only [checkRetLoop] at h
    split at h
    · cases h
    · cases h; exact ⟨rfl, rfl⟩
    · split at h
      · cases h; exact ⟨rfl, rfl⟩
      · split at h
        · cases h
        · have f := ih _ _ _ _ h
          exact f

theorem checkRet_frame [DecidableEq τ] (s s' : state τ) (r : Option (CompilerError τ))
    (h : checkRet s = .ok (r, s')) : s'.proc = s.proc ∧ s'.bb = s.bb := by
  unfold checkRet at h
  split at h
  · cases h
  · exact checkRetLoop_frame _ _ _ _ _ h

theorem blocksOf_frame (s s' : state τ) (h : s'.proc = s.proc) : blocksOf s' = blocksOf s := by
  simp only [blocksOf, h]

theorem LogSpec_frame (s s' : state τ) (log : List Nat) (r : Option (CompilerError τ))
    (h : s'.proc = s.proc) : LogSpec s log (r, s', log) := by
  have hb := blocksOf_frame s s' h
  refine ⟨by simp only [unvisited, hb]; exact Nat.le_refl _,
    fun k hk => by simpa only [flagged, hb] using hk, [], by simp, List.nodup_nil, by simp,
    by simp⟩

theorem mir_LogSpec_trans (s s1 : state τ) (log log1 : List Nat)
    (res : Option (CompilerError τ) × state τ × List Nat)
    (h1 : LogSpec s log (none, s1, log1)) (h2 : LogSpec s1 log1 res) :
    LogSpec s log res := by
  obtain ⟨hu1, hf1, new1, hl1, hn1, hnf1, hfl1⟩ := h1
  obtain ⟨hu2, hf2, new2, hl2, hn2, hnf2, hfl2⟩ := h2
  simp only at hu1 hf1 hl1
  refine ⟨Nat.le_trans hu2 hu1, fun k hk => hf2 k (hf1 k hk), new1 ++ new2, ?_, ?_, ?_, ?_⟩
  · rw [hl2, hl1, List.append_assoc]
  · rw [List.nodup_append]
    refine ⟨hn1, hn2, ?_⟩
    intro k hk1 hk2
    exact hnf2 k hk2 (hfl1 rfl k hk1)
  · intro k hk
    simp only [List.mem_append] at hk
    rcases hk with hk | hk
    · exact hnf1 k hk
    · exact fun hfk => hnf2 k hk (hf1 k hfk)
  · intro hr k hk
    simp only [List.mem_append] at hk
    rcases hk with hk | hk
    · exact hf2 k (hfl1 rfl k hk)
    · exact hfl2 hr k hk

theorem unvisited_le (s : state τ) : unvisited s ≤ (blocksOf s).length :=
  List.countP_le_length _

/-- The step `bb.Visited = true` on an unflagged block `b`, after the
instructions of the block passed from `s` to `s1`. -/
theorem LogSpec_visit (s s1 : state τ) (log : List Nat) (p : Proc τ) (b : Nat)
    (bb : BasicBlock τ) (hp : s.proc = some p) (hp1 : s1.proc = some p)
    (hb : p.Blocks[b]? = some bb) (hv : bb.Visited = false) :
    unvisited ({ s1 with proc := s1.proc.map (fun q => setVisited q b) } : state τ) + 1
      = unvisited s
    ∧ LogSpec s log
        (none, ({ s1 with proc := s1.proc.map (fun q => setVisited q b) } : state τ),
          log ++ [b]) := by
  have hlt : b < p.Blocks.length := (List.getElem?_eq_some_iff.1 hb).1
  have hbl : blocksOf ({ s1 with proc := s1.proc.map (fun q => setVisited q b) } : state τ)
      = p.Blocks.set b { bb with Visited := true } := by
    simp [blocksOf, hp1, setVisited, hb]
  have hbs : blocksOf s = p.Blocks := by simp [blocksOf, hp]
  have hcount : unvisited ({ s1 with proc := s1.proc.map (fun q => setVisited q b) } : state τ)
      + 1 = unvisited s := by
    simp only [unvisited, hbl, hbs]
    exact countP_set_flag _ _ b bb _ hb (by simp [hv]) (by simp)
  refine ⟨hcount, by simp only; omega, ?_, [b], rfl, List.nodup_singleton b, ?_, ?_⟩
  · rintro k ⟨bk, hk, hc⟩
    simp only [flagged, hbl, List.getElem?_set]
    rw [hbs] at hk
    by_cases e : b = k
    · subst e
      simp [hlt]
    · simp only [e, if_false]
      exact ⟨bk, hk, hc⟩
  · intro k hk
    simp only [List.mem_singleton] at hk
    subst hk
    rintro ⟨bk, h1, h2⟩
    rw [hbs, hb] at h1
    cases h1
    rw [hv] at h2
    cases h2
  · intro _ k hk
    simp only [List.mem_singleton] at hk
    subst hk
    simp [flagged, hbl, hlt]

theorem mir_checkJumpLog_erase [DecidableEq τ]
    (codeL : state τ → List Nat → Option Nat → Checked τ (state τ × List Nat))
    (code : state τ → Option Nat → Checked τ (state τ))
    (h : ∀ s log b, (codeL s log b).map (fun r => (r.1, r.2.1)) = code s b)
    (s : state τ) (log : List Nat) :
    (checkJumpLog codeL s log).map (fun r => (r.1, r.2.1)) = checkJump code s := by
  unfold checkJumpLog checkJump
  cases s.proc with
  | none => rfl
  | some p =>
    cases s.bb with
    | none => rfl
    | some b =>
      simp only
      cases p.Blocks[b]? with
      | none => rfl
      | some bb =>
        simp only
        cases bb.Out.T with
        | Jmp => exact h _ _ _
        | If =>
          simp only
          have h1 := h s log bb.Out.True
          cases hc : codeL s log bb.Out.True with
          | error e =>
            rw [hc] at h1
            rw [← h1]; rfl
          | ok r =>
            obtain ⟨r1, s1, log1⟩ := r
            rw [hc] at h1
            rw [← h1]
            cases r1 with
            | none => exact h _ _ _
            | some err => rfl
        | Return =>
          simp only
          cases checkRet s with
          | error e => rfl
          | ok r => obtain ⟨r1, s1⟩ := r; rfl
        | Exit => rfl

theorem mir_checkCodeLog_erase [DecidableEq τ] (E : Env τ) (fuel : Nat) :
    ∀ (s : state τ) (log : List Nat) (b : Option Nat),
      (checkCodeLog E fuel s log b).map (fun r => (r.1, r.2.1)) = checkCode E fuel s b := by
  induction fuel with
  | zero => intro s log b; rfl
  | succ fuel ih =>
    intro s log b
    unfold checkCodeLog checkCode
    cases s.proc with
    | none => rfl
    | some p =>
      cases b with
      | none => rfl
      | some b =>
        simp only
        cases p.Blocks[b]? with
        | none => rfl
        | some bb =>
          simp only
          by_cases hc : bb.Visited = true
          · simp only [hc, if_true]; rfl
          · simp only [hc, if_false, Bool.false_eq_true]
            generalize checkInstrs E bb.Code _ = X
            cases X with
            | error e => rfl
            | ok r =>
              obtain ⟨r1, s1⟩ := r
              cases r1 with
              | some err => rfl
              | none => exact mir_checkJumpLog_erase _ _ ih _ _

theorem mir_checkJumpLog_main [DecidableEq τ] (E : Env τ) (fuel : Nat)
    (ih : ∀ (s : state τ) (log : List Nat) (b : Option Nat), unvisited s < fuel →
      checkCodeLog E fuel s log b ≠ .error .outOfFuel
      ∧ checkCodeLog E (fuel + 1) s log b = checkCodeLog E fuel s log b
      ∧ ∀ res, checkCodeLog E fuel s log b = .ok res → LogSpec s log res)
    (s : state τ) (log : List Nat) (hfuel : unvisited s < fuel) :
    checkJumpLog (checkCodeLog E fuel) s log ≠ .error .outOfFuel
    ∧ checkJumpLog (checkCodeLog E (fuel + 1)) s log = checkJumpLog (checkCodeLog E fuel) s log
    ∧ ∀ res, checkJumpLog (checkCodeLog E fuel) s log = .ok res → LogSpec s log res := by
  unfold checkJumpLog
  cases s.proc with
  | none => exact ⟨by simp, rfl, by simp⟩
  | some p =>
    cases s.bb with
    | none => exact ⟨by simp, rfl, by simp⟩
    | some b =>
      simp only
      cases p.Blocks[b]? with
      | none => exact ⟨by simp, rfl, by simp⟩
      | some bb =>
        simp only
        cases bb.Out.T with
        | Jmp => exact ih s log bb.Out.True hfuel
        | If =>
          simp only
          obtain ⟨hne1, hst1, hsp1⟩ := ih s log bb.Out.True hfuel
          rw [hst1]
          cases hc : checkCodeLog E fuel s log bb.Out.True with
          | error e =>
            refine ⟨?_, by first | rfl | trivial, by simp⟩
            intro h
            cases h
            exact hne1 hc
          | ok r =>
            obtain ⟨r1, s1, log1⟩ := r
            have hspec1 := hsp1 _ hc
            cases r1 with
            | some err =>
              refine ⟨by simp, by first | rfl | trivial, ?_⟩
              intro res hres
              simp only at hres
              cases hres
              exact hspec1
            | none =>
              simp only
              have hfuel1 : unvisited s1 < fuel := Nat.lt_of_le_of_lt hspec1.1 hfuel
              obtain ⟨hne2, hst2, hsp2⟩ := ih s1 log1 bb.Out.False hfuel1
              refine ⟨hne2, hst2, ?_⟩
              intro res hres
              exact mir_LogSpec_trans s s1 log log1 res hspec1 (hsp2 res hres)
        | Return =>
          simp only
          cases hr : checkRet s with
          | error e =>
            refine ⟨?_, by first | rfl | trivial, by simp⟩
            intro h
            cases h
            exact mir_checkRet_fuel _ hr
          | ok r =>
            obtain ⟨r1, s1⟩ := r
            refine ⟨by simp, by first | rfl | trivial, ?_⟩
            intro res hres
            simp only at hres
            cases hres
            exact LogSpec_frame s s1 log r1 (checkRet_frame _ _ _ hr).1
        | Exit =>
          refine ⟨by simp, by first | rfl | trivial, ?_⟩
          intro res hres
          simp only at hres
          cases hres
          exact LogSpec_frame s s log none rfl

theorem mir_checkCodeLog_main [DecidableEq τ] (E : Env τ) (fuel : Nat) :
    ∀ (s : state τ) (log : List Nat) (b : Option Nat), unvisited s < fuel →
      checkCodeLog E fuel s log b ≠ .error .outOfFuel
      ∧ checkCodeLog E (fuel + 1) s log b = checkCodeLog E fuel s log b
      ∧ ∀ res, checkCodeLog E fuel s log b = .ok res → LogSpec s log res := by
  induction fuel with
  | zero => intro s log b h; omega
  | succ fuel ih =>
    intro s log b hfuel
    obtain ⟨sp, sb, c1, c2, c3⟩ := s
    cases sp with
    | none =>
      exact ⟨by simp [checkCodeLog], by simp [checkCodeLog], by simp [checkCodeLog]⟩
    | some p =>
      cases b with
      | none =>
        exact ⟨by simp [checkCodeLog], by simp [checkCodeLog], by simp [checkCodeLog]⟩
      | some b =>
        cases hb : p.Blocks[b]? with
        | none =>
          exact ⟨by simp [checkCodeLog, hb], by simp [checkCodeLog, hb],
            by simp [checkCodeLog, hb]⟩
        | some bb =>
          by_cases hc : bb.Visited = true
          · refine ⟨by simp [checkCodeLog, hb, hc], by simp [checkCodeLog, hb, hc], ?_⟩
            intro res hres
            simp only [checkCodeLog, hb, hc, if_true] at hres
            cases hres
            exact LogSpec_frame _ _ log none rfl
          · have hcf : bb.Visited = false := by simpa using hc
            have hnb : ¬ flagged ({ proc := some p, bb := sb, CalleeInterproc := c1, CallerInterproc := c2, Spill := c3 } : state τ) b := by
              rintro ⟨bb', h1, h2⟩
              simp only [blocksOf] at h1
              rw [hb] at h1
              cases h1
              rw [hcf] at h2
              cases h2
            cases hin : checkInstrs E bb.Code
                ({ proc := some p, bb := some b, CalleeInterproc := c1, CallerInterproc := c2, Spill := c3 } : state τ) with
            | error e =>
              refine ⟨?_, by simp [checkCodeLog, hb, hc, hin],
                by simp [checkCodeLog, hb, hc, hin]⟩
              intro h
              simp only [checkCodeLog, hb, hc, hin, if_false, Bool.false_eq_true] at h
              cases h
              exact mir_checkInstrs_fuel _ _ _ hin
            | ok r =>
              obtain ⟨r1, s1⟩ := r
              have hfr := checkInstrs_frame E _ _ _ _ hin
              have hp1 : s1.proc = some p := hfr.1
              cases r1 with
              | some err =>
                refine ⟨by simp [checkCodeLog, hb, hc, hin],
                  by simp [checkCodeLog, hb, hc, hin], ?_⟩
                intro res hres
                simp only [checkCodeLog, hb, hc, hin, if_false, Bool.false_eq_true] at hres
                cases hres
                have hbl := blocksOf_frame ({ proc := some p, bb := sb, CalleeInterproc := c1, CallerInterproc := c2, Spill := c3 } : state τ) s1 hp1
                exact ⟨by simp only [unvisited, hbl]; exact Nat.le_refl _,
                  fun k hk => by simpa only [flagged, hbl] using hk, [b], rfl,
                  List.nodup_singleton b, by simpa using hnb, by simp⟩
              | none =>
                obtain ⟨hcount, hstep⟩ := LogSpec_visit
                  ({ proc := some p, bb := sb, CalleeInterproc := c1, CallerInterproc := c2, Spill := c3 } : state τ) s1 log p b bb rfl hp1 hb hcf
                have hfuel2 : unvisited
                    ({ s1 with proc := s1.proc.map (fun q => setVisited q b) } : state τ)
                    < fuel := by omega
                obtain ⟨hne, hst, hsp⟩ := mir_checkJumpLog_main E fuel ih _ (log ++ [b]) hfuel2
                have hunf : ∀ n, checkCodeLog E (n + 1)
                    ({ proc := some p, bb := sb, CalleeInterproc := c1, CallerInterproc := c2, Spill := c3 } : state τ) log (some b)
                    = checkJumpLog (checkCodeLog E n)
                        ({ s1 with proc := s1.proc.map (fun q => setVisited q b) } : state τ)
                        (log ++ [b]) := by
                  intro n
                  simp only [checkCodeLog, hb, hc, hin, if_false, Bool.false_eq_true]
                rw [hunf fuel, hunf (fuel + 1)]
                refine ⟨hne, hst, ?_⟩
                intro res hres
                exact mir_LogSpec_trans _ _ log _ res hstep (hsp res hres)

theorem mir_checkCodeLog_stable [DecidableEq τ] (E : Env τ) (s : state τ) (log : List Nat)
    (b : Option Nat) (fuel : Nat) (hfuel : unvisited s < fuel) :
    ∀ n, checkCodeLog E (fuel + n) s log b = checkCodeLog E fuel s log b := by
  intro n
  induction n with
  | zero => rfl
  | succ n ih =>
    have := (mir_checkCodeLog_main E (fuel + n) s log b (by omega)).2.1
    rw [← ih, ← this]
    rfl

end mirchecker

/-! ### Termination of the two traversals (C23) -/

theorem map_ne_outOfFuel {α β : Type} (f : α → β) (x : Except Panic α)
    (h : x ≠ .error .outOfFuel) : x.map f ≠ .error .outOfFuel := by
  cases x with
  | error e =>
    intro h2
    apply h
    simp only [Except.map] at h2
    cases h2
    rfl
  | ok a => intro h2; simp [Except.map] at h2

/-- C23: for every predicate table, every procedure (any finite arena of
blocks, cyclic or not, whatever the flags at the start) and every entry
pointer, `checkCode` of the HIR checker and of the MIR checker end: with the
bound `len(Blocks) + 1` that `Check` passes, or any larger one, the result is
not the exhausted bound and does not depend on the bound.  The run with the
ghost log has the same result, and its log, which lists the blocks whose
instructions were run, has no duplicates and only holds blocks whose flag was
unset at the start. -/
theorem C23_checkCode_terminates_each_block_once {τ : Type} [DecidableEq τ] (E : Env τ) :
    (∀ (s : hirchecker.state τ) (b : Option Nat) (n : Nat),
      hirchecker.checkCode E (s.proc.Blocks.length + 1 + n) s b ≠ .error .outOfFuel
      ∧ hirchecker.checkCode E (s.proc.Blocks.length + 1 + n) s b
          = hirchecker.checkCode E (s.proc.Blocks.length + 1) s b
      ∧ (hirchecker.checkCodeLog E (s.proc.Blocks.length + 1 + n) s [] b).map
            (fun r => (r.1, r.2.1))
          = hirchecker.checkCode E (s.proc.Blocks.length + 1 + n) s b
      ∧ ∀ r s' log,
          hirchecker.checkCodeLog E (s.proc.Blocks.length + 1 + n) s [] b = .ok (r, s', log) →
          log.Nodup ∧ ∀ k ∈ log, ¬ hirchecker.flagged s.proc k)
    ∧ (∀ (s : mirchecker.state τ) (b : Option Nat) (n : Nat),
      mirchecker.checkCode E ((mirchecker.blocksOf s).length + 1 + n) s b ≠ .error .outOfFuel
      ∧ mirchecker.checkCode E ((mirchecker.blocksOf s).length + 1 + n) s b
          = mirchecker.checkCode E ((mirchecker.blocksOf s).length + 1) s b
      ∧ (mirchecker.checkCodeLog E ((mirchecker.blocksOf s).length + 1 + n) s [] b).map
            (fun r => (r.1, r.2.1))
          = mirchecker.checkCode E ((mirchecker.blocksOf s).length + 1 + n) s b
      ∧ ∀ r s' log,
          mirchecker.checkCodeLog E ((mirchecker.blocksOf s).length + 1 + n) s [] b
            = .ok (r, s', log) →
          log.Nodup ∧ ∀ k ∈ log, ¬ mirchecker.flagged s k) := by
  constructor
  · intro s b n
    have hlt : hirchecker.unchecked s.proc < s.proc.Blocks.length + 1 :=
      Nat.lt_succ_of_le (hirchecker.unchecked_le s.proc)
    have hlt' : hirchecker.unchecked s.proc < s.proc.Blocks.length + 1 + n := by omega
    obtain ⟨hne, -, hsp⟩ := hirchecker.hir_checkCodeLog_main E _ s [] b hlt'
    refine ⟨?_, ?_, hirchecker.hir_checkCodeLog_erase E _ s [] b, ?_⟩
    · rw [← hirchecker.hir_checkCodeLog_erase E _ s [] b]
      exact map_ne_outOfFuel _ _ hne
    · rw [← hirchecker.hir_checkCodeLog_erase E _ s [] b,
        ← hirchecker.hir_checkCodeLog_erase E (s.proc.Blocks.length + 1) s [] b,
        hirchecker.hir_checkCodeLog_stable E s [] b _ hlt n]
    · intro r s' log h
      obtain ⟨-, -, new, hnew, hnd, hnf, -⟩ := hsp _ h
      simp only [List.nil_append] at hnew
      subst hnew
      exact ⟨hnd, hnf⟩
  · intro s b n
    have hlt : mirchecker.unvisited s < (mirchecker.blocksOf s).length + 1 :=
      Nat.lt_succ_of_le (mirchecker.unvisited_le s)
    have hlt' : mirchecker.unvisited s < (mirchecker.blocksOf s).length + 1 + n := by omega
    obtain ⟨hne, -, hsp⟩ := mirchecker.mir_checkCodeLog_main E _ s [] b hlt'
    refine ⟨?_, ?_, mirchecker.mir_checkCodeLog_erase E _ s [] b, ?_⟩
    · rw [← mirchecker.mir_checkCodeLog_erase E _ s [] b]
      exact map_ne_outOfFuel _ _ hne
    · rw [← mirchecker.mir_checkCodeLog_erase E _ s [] b,
        ← mirchecker.mir_checkCodeLog_erase E ((mirchecker.blocksOf s).length + 1) s [] b,
        mirchecker.mir_checkCodeLog_stable E s [] b _ hlt n]
    · intro r s' log h
      obtain ⟨-, -, new, hnew, hnd, hnf, -⟩ := hsp _ h
      simp only [List.nil_append] at hnew
      subst hnew
      exact ⟨hnd, hnf⟩

/-- C23, on a block that jumps to itself and on a cycle through a branch:
both traversals return `nil`, and the instructions of each block are run
once. -/
theorem C23_checkCode_terminates_each_block_once_witness :
    (hirchecker.checkCodeLog specEnv 2 { proc := selfLoopProc, bb := none } [] (some 0)).map
        (fun r => (r.1, r.2.2)) = .ok (none, [0])
    ∧ (hirchecker.checkCodeLog specEnv 4 { proc := cycleProc, bb := none } [] (some 0)).map
        (fun r => (r.1, r.2.2)) = .ok (none, [0, 1, 2])
    ∧ (mirchecker.checkCodeLog specEnv 2
          { (mirchecker.newState : mirchecker.state Ty) with proc := some selfLoopProc } []
          (some 0)).map (fun r => (r.1, r.2.2)) = .ok (none, [0])
    ∧ (mirchecker.checkCodeLog specEnv 4
          { (mirchecker.newState : mirchecker.state Ty) with proc := some cycleProc } []
          (some 0)).map (fun r => (r.1, r.2.2)) = .ok (none, [0, 1, 2])
    ∧ hirchecker.checkCode specEnv (cycleProc.Blocks.length + 1 + 0)
          { proc := cycleProc, bb := none } (some 0) ≠ .error .outOfFuel :=
  ⟨rfl, rfl, rfl, rfl,
    ((C23_checkCode_terminates_each_block_once specEnv).1
      { proc := cycleProc, bb := none } (some 0) 0).1⟩

/-! ### The keys of a Go map -/

namespace GoMap

variable {β : Type}

theorem mem_keys (m : GoMap β) (k : Int) : k ∈ m.keys ↔ m.get? k ≠ none := by
  induction m with
  | nil => simp [keys, get?]
  | cons hd tl ih =>
    obtain ⟨a, b⟩ := hd
    by_cases h : a = k
    · subst h
      simp [keys, get?]
    · have h' : ¬ k = a := fun e => h e.symm
      simp only [keys, List.map_cons, List.mem_cons, get?, if_neg h, h', false_or]
      exact ih

theorem keys_set_nodup (m : GoMap β) (k : Int) (v : β) (h : m.keys.Nodup) :
    (m.set k v).keys.Nodup := by
  induction m with
  | nil => simp [set, keys]
  | cons hd tl ih =>
    obtain ⟨a, b⟩ := hd
    have h1 : a ∉ keys tl ∧ (keys tl).Nodup := by
      simpa [keys] using h
    by_cases e : a = k
    · subst e
      simp only [set, if_true]
      exact h
    · simp only [set, if_neg e]
      have : (keys ((a, b) :: set tl k v)) = a :: keys (set tl k v) := rfl
      rw [this, List.nodup_cons]
      refine ⟨?_, ih h1.2⟩
      rw [mem_keys, get?_set, if_neg (fun e' => e e'.symm), ← mem_keys]
      exact h1.1

theorem keys_delete_nodup (m : GoMap β) (k : Int) (h : m.keys.Nodup) :
    (m.delete k).keys.Nodup := by
  induction m with
  | nil => simp [delete, keys]
  | cons hd tl ih =>
    obtain ⟨a, b⟩ := hd
    have h1 : a ∉ keys tl ∧ (keys tl).Nodup := by
      simpa [keys] using h
    by_cases e : a = k
    · subst e
      simp only [delete, if_true]
      exact ih h1.2
    · simp only [delete, if_neg e]
      have : (keys ((a, b) :: delete tl k)) = a :: keys (delete tl k) := rfl
      rw [this, List.nodup_cons]
      refine ⟨?_, ih h1.2⟩
      rw [mem_keys, get?_delete, if_neg (fun e' => e e'.symm), ← mem_keys]
      exact h1.1

end GoMap

namespace regalloc

variable {τ : Type}

/-! ### The free stack as a list -/

theorem Pop_elems (st st1 : stack) (x : Int) (hwf : st.WF) (h0 : 0 ≤ st.top)
    (hp : st.Pop = .ok (x, st1)) : st.elems = st1.elems ++ [x] ∧ st1.WF := by
  unfold stack.WF at hwf
  obtain ⟨h1, h2⟩ := hwf
  unfold stack.Pop at hp
  rw [if_neg (by omega)] at hp
  split at hp
  · cases hp
  · rename_i item hitem
    cases hp
    have hneg : ¬ st.top < 0 := by omega
    have hidx : idx? st.items st.top = st.items[st.top.toNat]? := by
      simp [idx?, hneg]
    rw [hidx] at hitem
    refine ⟨?_, ?_⟩
    · simp only [stack.elems]
      have e1 : (st.top + 1).toNat = st.top.toNat + 1 := by omega
      have e2 : (st.top - 1 + 1).toNat = st.top.toNat := by omega
      rw [e1, e2, List.take_succ, hitem]
      rfl
    · unfold stack.WF
      constructor <;> simp only <;> omega

theorem Push_elems (st st1 : stack) (i : Int) (hwf : st.WF) (hp : st.Push i = .ok st1) :
    st1.elems = st.elems ++ [i] ∧ st1.WF := by
  unfold stack.WF at hwf
  obtain ⟨h1, h2⟩ := hwf
  unfold stack.Push at hp
  simp only at hp
  generalize hitems :
    (if (st.items.length : Int) ≤ st.top + 1 then st.items ++ [0, 0] else st.items) = items at hp
  by_cases hc : st.top + 1 < 0 ∨ (items.length : Int) ≤ st.top + 1
  · rw [if_pos hc] at hp
    cases hp
  · rw [if_neg hc] at hp
    cases hp
    have hc2 : ¬ ((items.length : Int) ≤ st.top + 1) := fun hx => hc (Or.inr hx)
    have htake : items.take (st.top + 1).toNat = st.items.take (st.top + 1).toNat := by
      rw [← hitems]
      split
      · rw [List.take_append_of_le_length (by omega)]
      · rfl
    refine ⟨?_, ?_⟩
    · simp only [stack.elems]
      have e1 : (st.top + 1 + 1).toNat = (st.top + 1).toNat + 1 := by omega
      have hlt : (st.top + 1).toNat < items.length := by omega
      rw [e1, List.take_succ, List.getElem?_set_self (by simpa using hlt), List.set_take,
        List.set_eq_of_length_le (by simp), htake]
      rfl
    · unfold stack.WF
      simp only [List.length_set]
      constructor <;> omega

end regalloc

namespace regalloc

variable {τ : Type}

/-! ### The registers recorded in `LiveValues` -/

theorem regOf_set (s s1 : state τ) (v : Int) (info : useInfo)
    (h : s1.LiveValues = s.LiveValues.set v info) (w : Int) :
    regOf s1 w = if v = w then (if info.IsReg then some info.Num else none) else regOf s w := by
  unfold regOf
  rw [h, GoMap.get?_set]
  by_cases e : v = w
  · simp only [if_pos e]
  · simp only [if_neg e]

theorem regOf_delete (s s1 : state τ) (v : Int)
    (h : s1.LiveValues = s.LiveValues.delete v) (w : Int) :
    regOf s1 w = if v = w then none else regOf s w := by
  unfold regOf
  rw [h, GoMap.get?_delete]
  by_cases e : v = w
  · simp only [if_pos e]
  · simp only [if_neg e]

theorem regOf_some (s : state τ) (v : Int) (info : useInfo)
    (h : s.LiveValues.get? v = some info) :
    regOf s v = if info.IsReg then some info.Num else none := by
  simp only [regOf, h]

theorem regOf_none (s : state τ) (v : Int) (h : s.LiveValues.get? v = none) :
    regOf s v = none := by
  simp only [regOf, h]

theorem regOf_live (s : state τ) (v r : Int) (h : regOf s v = some r) :
    s.LiveValues.get? v ≠ none := by
  unfold regOf at h
  intro hn
  rw [hn] at h
  cases h

theorem SameLoc_refl (s : state τ) : SameLoc s s := ⟨rfl, rfl, fun _ => rfl, fun _ h => h⟩

theorem SameLoc_trans (s s1 s2 : state τ) (h1 : SameLoc s s1) (h2 : SameLoc s1 s2) :
    SameLoc s s2 :=
  ⟨h2.1.trans h1.1, h2.2.1.trans h1.2.1, fun w => (h2.2.2.1 w).trans (h1.2.2.1 w),
    fun w h => h1.2.2.2 w (h2.2.2.2 w h)⟩

theorem AllocInv_sameLoc (R : Int) (s s1 : state τ) (h : SameLoc s s1) (hi : AllocInv R s) :
    AllocInv R s1 := by
  obtain ⟨ha, hu, hr, -⟩ := h
  refine ⟨?_, ?_, ?_, ?_, ?_, ?_⟩
  · rw [ha]; exact hi.wf
  · rw [ha]; exact hi.nodup
  · rw [ha, hu]; exact hi.avail
  · rw [hu]; exact hi.keysNodup
  · rw [hu]; exact hi.range
  · intro r v
    rw [hu, hr]
    exact hi.agree r v

theorem queueInstr_sameLoc (s : state τ) (index : Int) (instr : Instr τ) :
    SameLoc s (queueInstr s index instr) := ⟨rfl, rfl, fun _ => rfl, fun _ h => h⟩

theorem elems_top (st : stack) (x : Int) (l : List Int) (h : st.elems = l ++ [x]) :
    0 ≤ st.top := by
  by_contra hneg
  have : (st.top + 1).toNat = 0 := by omega
  simp only [stack.elems, this, List.take_zero] at h
  simp at h

/-! ### The steps of the allocator keep the invariant -/

/-- A register is released: pushed on the free stack and deleted from
`UsedRegs`, while its value stops being recorded in a register. -/
theorem release_inv (R : Int) (s s1 : state τ) (r v : Int) (hi : AllocInv R s)
    (hr : s.UsedRegs.get? r = some v)
    (hpush : s.AvailableRegs.Push r = .ok s1.AvailableRegs)
    (hused : s1.UsedRegs = s.UsedRegs.delete r)
    (hreg : ∀ w, regOf s1 w = if v = w then none else regOf s w) :
    AllocInv R s1 ∧ 0 ≤ s1.AvailableRegs.top := by
  obtain ⟨hel, hwf⟩ := Push_elems _ _ _ hi.wf hpush
  have hrng := hi.range r v hr
  have hnotin : r ∉ s.AvailableRegs.elems := by
    intro hm
    have := ((hi.avail r).1 hm).2.2
    rw [hr] at this
    cases this
  refine ⟨⟨hwf, ?_, ?_, ?_, ?_, ?_⟩, elems_top _ _ _ hel⟩
  · rw [hel]
    refine List.Nodup.append hi.nodup (List.nodup_singleton r) ?_
    intro x hx hx'
    simp only [List.mem_singleton] at hx'
    subst hx'
    exact hnotin hx
  · intro r'
    rw [hel, hused, GoMap.get?_delete, List.mem_append, List.mem_singleton]
    constructor
    · rintro (hm | rfl)
      · obtain ⟨h1, h2, h3⟩ := (hi.avail r').1 hm
        refine ⟨h1, h2, ?_⟩
        split
        · rfl
        · exact h3
      · exact ⟨hrng.1, hrng.2, by simp⟩
    · rintro ⟨h1, h2, h3⟩
      by_cases e : r = r'
      · exact Or.inr e.symm
      · rw [if_neg e] at h3
        exact Or.inl ((hi.avail r').2 ⟨h1, h2, h3⟩)
  · rw [hused]
    exact GoMap.keys_delete_nodup _ _ hi.keysNodup
  · intro r' v' h
    rw [hused, GoMap.get?_delete] at h
    split at h
    · cases h
    · exact hi.range r' v' h
  · intro r' v'
    rw [hused, GoMap.get?_delete, hreg]
    by_cases e : r = r'
    · subst e
      rw [if_pos rfl]
      constructor
      · intro h; cases h
      · intro h
        split at h
        · cases h
        · have := (hi.agree r v').2 h
          rw [hr] at this
          cases this
          rename_i hne
          exact absurd rfl hne
    · rw [if_neg e]
      by_cases e' : v = v'
      · subst e'
        rw [if_pos rfl]
        constructor
        · intro h
          have h2 := (hi.agree r' v).1 h
          have h3 := (hi.agree r v).1 hr
          rw [h2] at h3
          cases h3
          exact absurd rfl e
        · intro h; cases h
      · rw [if_neg e']
        exact hi.agree r' v'

theorem FreeReg_fields (s s1 : state τ) (r : Int) (hf : s.FreeReg r = .ok s1) :
    s.AvailableRegs.Push r = .ok s1.AvailableRegs ∧ s1.UsedRegs = s.UsedRegs.delete r
      ∧ s1.LiveValues = s.LiveValues := by
  unfold state.FreeReg at hf
  split at hf
  · split at hf
    · cases hf
    · rename_i st hst
      cases hf
      exact ⟨hst, rfl, rfl⟩
  · cases hf

theorem FreeAddr_fields (s s1 : state τ) (a : Int) (hf : s.FreeAddr a = .ok s1) :
    s1.AvailableRegs = s.AvailableRegs ∧ s1.UsedRegs = s.UsedRegs
      ∧ s1.LiveValues = s.LiveValues := by
  unfold state.FreeAddr at hf
  split at hf
  · split at hf
    · cases hf
    · cases hf
      exact ⟨rfl, rfl, rfl⟩
  · cases hf

theorem Free_c29 (R : Int) (s s1 : state τ) (v : Int) (hi : AllocInv R s)
    (hf : s.Free v = .ok s1) :
    AllocInv R s1 ∧ ∀ w, s1.LiveValues.get? w ≠ none → s.LiveValues.get? w ≠ none := by
  unfold state.Free at hf
  split at hf
  · cases hf
  · rename_i loc hloc
    simp only at hf
    have hlive : ∀ (s2 : state τ), s2.LiveValues = s.LiveValues.delete v →
        ∀ w, s2.LiveValues.get? w ≠ none → s.LiveValues.get? w ≠ none := by
      intro s2 h2 w hw
      rw [h2, GoMap.get?_delete] at hw
      split at hw
      · exact absurd rfl hw
      · exact hw
    split at hf
    · rename_i hreg
      obtain ⟨hpush, hused, hl⟩ := FreeReg_fields _ _ _ hf
      have hr : s.UsedRegs.get? loc.Num = some v := by
        rw [hi.agree, regOf_some s v loc hloc, if_pos hreg]
      refine ⟨(release_inv R s s1 loc.Num v hi hr hpush hused ?_).1, hlive s1 hl⟩
      intro w
      exact regOf_delete s s1 v hl w
    · rename_i hreg
      obtain ⟨ha, hu, hl⟩ := FreeAddr_fields _ _ _ hf
      refine ⟨AllocInv_sameLoc R s s1 ⟨ha, hu, ?_, hlive s1 hl⟩ hi, hlive s1 hl⟩
      intro w
      rw [regOf_delete s s1 v hl w]
      split
      · rename_i e
        subst e
        rw [regOf_some s v loc hloc, if_neg hreg]
      · rfl

theorem AllocReg_c29 (R : Int) (s s1 : state τ) (v r : Int) (hi : AllocInv R s)
    (h0 : 0 ≤ s.AvailableRegs.top) (hn : regOf s v = none)
    (ha : s.AllocReg v = .ok (r, s1)) :
    AllocInv R s1 ∧ ∀ w, s1.LiveValues.get? w ≠ none → s.LiveValues.get? w ≠ none ∨ w = v := by
  unfold state.AllocReg at ha
  split at ha
  · cases ha
  · rename_i r' st hpop
    cases ha
    obtain ⟨hel, hwf⟩ := Pop_elems _ _ _ hi.wf h0 hpop
    have hnd := hi.nodup
    rw [hel] at hnd
    have hnd' := List.nodup_append.1 hnd
    have hnotin : r ∉ st.elems := by
      intro hm
      exact hnd'.2.2 hm (List.mem_singleton.2 rfl)
    have hrav : 0 ≤ r ∧ r < R ∧ s.UsedRegs.get? r = none :=
      (hi.avail r).1 (by rw [hel]; simp)
    refine ⟨⟨hwf, hnd'.1, ?_, ?_, ?_, ?_⟩, ?_⟩
    · intro r'
      simp only [GoMap.get?_set]
      constructor
      · intro hm
        have hne : ¬ r = r' := fun e => hnotin (e ▸ hm)
        obtain ⟨h1, h2, h3⟩ := (hi.avail r').1 (by rw [hel]; simp [hm])
        exact ⟨h1, h2, by rw [if_neg hne]; exact h3⟩
      · rintro ⟨h1, h2, h3⟩
        by_cases e : r = r'
        · rw [if_pos e] at h3; cases h3
        · rw [if_neg e] at h3
          have := (hi.avail r').2 ⟨h1, h2, h3⟩
          rw [hel, List.mem_append, List.mem_singleton] at this
          rcases this with h | h
          · exact h
          · exact absurd h.symm e
    · exact GoMap.keys_set_nodup _ _ _ hi.keysNodup
    · intro r' v' h
      simp only [GoMap.get?_set] at h
      split at h
      · rename_i e; subst e; exact ⟨hrav.1, hrav.2.1⟩
      · exact hi.range r' v' h
    · intro r' v'
      simp only [GoMap.get?_set]
      rw [regOf_set s _ v { IsReg := true, Num := r, NextUse := -1 } rfl v']
      simp only [if_true]
      by_cases e : r = r'
      · subst e
        rw [if_pos rfl]
        by_cases e' : v = v'
        · subst e'
          simp
        · rw [if_neg e']
          constructor
          · intro h; cases h; exact absurd rfl e'
          · intro h
            have := (hi.agree r v').2 h
            rw [hrav.2.2] at this
            cases this
      · rw [if_neg e]
        by_cases e' : v = v'
        · subst e'
          rw [if_pos rfl]
          constructor
          · intro h
            have := (hi.agree r' v).1 h
            rw [hn] at this
            cases this
          · intro h; cases h; exact absurd rfl e
        · rw [if_neg e']
          exact hi.agree r' v'
    · intro w hw
      simp only [GoMap.get?_set] at hw
      by_cases e : v = w
      · exact Or.inr e.symm
      · rw [if_neg e] at hw
        exact Or.inl hw

theorem Spill_fields (s s1 : state τ) (r a : Int) (hs : s.Spill r = .ok (a, s1)) :
    ∃ v, s.UsedRegs.get? r = some v ∧ s.AvailableRegs.Push r = .ok s1.AvailableRegs
      ∧ s1.UsedRegs = s.UsedRegs.delete r
      ∧ s1.LiveValues = s.LiveValues.set v { IsReg := false, Num := a, NextUse := -1 } := by
  unfold state.Spill at hs
  split at hs
  · cases hs
  · rename_i v hv
    split at hs
    · cases hs
    · rename_i s2 hfree
      obtain ⟨hpush, hused, hl⟩ := FreeReg_fields _ _ _ hfree
      split at hs
      · cases hs
      · rename_i a' st hpop
        cases hs
        exact ⟨v, hv, hpush, hused, by simp only [hl]⟩

theorem Spill_c29 (R : Int) (s s1 : state τ) (r a : Int) (hi : AllocInv R s)
    (hs : s.Spill r = .ok (a, s1)) :
    AllocInv R s1 ∧ 0 ≤ s1.AvailableRegs.top
      ∧ (∀ w, regOf s w = none → regOf s1 w = none)
      ∧ ∀ w, s1.LiveValues.get? w ≠ none → s.LiveValues.get? w ≠ none := by
  obtain ⟨v, hv, hpush, hused, hl⟩ := Spill_fields _ _ _ _ hs
  have hreg : ∀ w, regOf s1 w = if v = w then none else regOf s w := by
    intro w
    rw [regOf_set s s1 v _ hl w]
    simp
  obtain ⟨hinv, htop⟩ := release_inv R s _ r v hi hv hpush hused hreg
  refine ⟨hinv, htop, ?_, ?_⟩
  · intro w hw
    rw [hreg w]
    split
    · rfl
    · exact hw
  · intro w hw
    rw [hl, GoMap.get?_set] at hw
    by_cases e : v = w
    · subst e
      exact regOf_live s v r ((hi.agree r v).1 hv)
    · rw [if_neg e] at hw
      exact hw

theorem isNeeded_sameLoc (s s1 : state τ) (bb : List (Option (Instr τ))) (v : Int)
    (index : Nat) (b : Bool) (hn : isNeeded s bb v index = .ok (b, s1)) : SameLoc s s1 := by
  unfold isNeeded at hn
  split at hn
  · cases hn; exact SameLoc_refl s
  · split at hn
    · cases hn
    · rename_i info hinfo
      split at hn
      · cases hn; exact SameLoc_refl s
      · split at hn
        · cases hn
        · rename_i j hj
          cases hn
          refine ⟨rfl, rfl, ?_, ?_⟩
          · intro w
            rw [regOf_set s _ v { info with NextUse := (j : Int) } rfl w]
            split
            · rename_i e
              subst e
              rw [regOf_some s v info hinfo]
            · rfl
          · intro w hw
            simp only [GoMap.get?_set] at hw
            by_cases e : v = w
            · subst e
              rw [hinfo]
              simp
            · rw [if_neg e] at hw
              exact hw
        · cases hn; exact SameLoc_refl s

theorem calcNextUseLoop_sameLoc (bb : List (Option (Instr τ))) (index : Nat)
    (vs : List Int) : ∀ (s s1 : state τ), calcNextUseLoop bb index vs s = .ok s1 →
      SameLoc s s1 := by
  induction vs with
  | nil =>
    intro s s1 h
    simp only [calcNextUseLoop] at h
    cases h
    exact SameLoc_refl s
  | cons v rest ih =>
    intro s s1 h
    simp only [calcNextUseLoop] at h
    split at h
    · cases h
    · rename_i b s2 hn
      exact SameLoc_trans _ _ _ (isNeeded_sameLoc _ _ _ _ _ _ hn) (ih _ _ h)

theorem freeIfNotNeeded_c29 (R : Int) (s s1 : state τ) (bb : List (Option (Instr τ)))
    (v : Int) (index : Nat) (hi : AllocInv R s)
    (hf : freeIfNotNeeded s bb v index = .ok s1) :
    AllocInv R s1 ∧ ∀ w, s1.LiveValues.get? w ≠ none → s.LiveValues.get? w ≠ none := by
  unfold freeIfNotNeeded at hf
  split at hf
  · cases hf
  · rename_i s2 hn
    cases hf
    have hs := isNeeded_sameLoc _ _ _ _ _ _ hn
    exact ⟨AllocInv_sameLoc R _ _ hs hi, hs.2.2.2⟩
  · rename_i s2 hn
    have hs := isNeeded_sameLoc _ _ _ _ _ _ hn
    obtain ⟨h1, h2⟩ := Free_c29 R _ _ _ (AllocInv_sameLoc R _ _ hs hi) hf
    exact ⟨h1, fun w hw => hs.2.2.2 w (h2 w hw)⟩

theorem spillRegister_c29 [Inhabited τ] (R : Int) (ord : GoMap useInfo → GoMap useInfo)
    (s s1 : state τ) (bb : List (Option (Instr τ))) (op res : Operand τ) (index : Nat)
    (hi : AllocInv R s) (hn : regOf s op.Num = none)
    (hs : spillRegister ord s bb op index = .ok (res, s1)) :
    AllocInv R s1
      ∧ ∀ w, s1.LiveValues.get? w ≠ none → s.LiveValues.get? w ≠ none ∨ w = op.Num := by
  unfold spillRegister at hs
  split at hs
  · cases hs
  · rename_i s2 hcalc
    have hsl := calcNextUseLoop_sameLoc _ _ _ _ _ hcalc
    simp only at hs
    split at hs
    · cases hs
    · rename_i sNum s3 hspill
      obtain ⟨hi3, htop, hreg3, hlive3⟩ :=
        Spill_c29 R _ _ _ _ (AllocInv_sameLoc R _ _ hsl hi) hspill
      split at hs
      · cases hs
      · rename_i r2 s4 halloc
        split at hs
        · cases hs
        · cases hs
          have hq := queueInstr_sameLoc s3 ((index : Int) - 1)
            ({ T := .StoreSpill, type := default,
               Operands := [some (newRegOp (s2.FurthestUse ord) op.type)],
               Destination := [some (newSpillOperand sNum op.type)] } : Instr τ)
          have hn3 : regOf s3 op.Num = none := hreg3 _ (by rw [hsl.2.2.1]; exact hn)
          obtain ⟨hi4, hlive4⟩ := AllocReg_c29 R _ _ _ _ (AllocInv_sameLoc R _ _ hq hi3)
            (by rw [hq.1]; exact htop) (by rw [hq.2.2.1]; exact hn3) halloc
          refine ⟨hi4, ?_⟩
          intro w hw
          rcases hlive4 w hw with h | h
          · exact Or.inl (hsl.2.2.2 w (hlive3 w (hq.2.2.2 w h)))
          · exact Or.inr h

theorem allocTemp_c29 [Inhabited τ] (R : Int) (ord : GoMap useInfo → GoMap useInfo)
    (s s1 : state τ) (bb : List (Option (Instr τ))) (op res : Operand τ) (index : Nat)
    (hi : AllocInv R s) (hn : regOf s op.Num = none)
    (ha : allocTemp ord s bb op index = .ok (res, s1)) :
    AllocInv R s1
      ∧ ∀ w, s1.LiveValues.get? w ≠ none → s.LiveValues.get? w ≠ none ∨ w = op.Num := by
  unfold allocTemp at ha
  split at ha
  · rename_i hfree
    split at ha
    · cases ha
    · rename_i r s2 halloc
      cases ha
      have h0 : 0 ≤ s.AvailableRegs.top := by
        simpa [state.HasFreeRegs, stack.HasItems] using hfree
      exact AllocReg_c29 R _ _ _ _ hi h0 hn halloc
  · exact spillRegister_c29 R ord _ _ _ _ _ _ hi hn ha

theorem ensure_c29 [Inhabited τ] (R : Int) (ord : GoMap useInfo → GoMap useInfo)
    (s s1 : state τ) (bb : List (Option (Instr τ))) (op res : Operand τ) (index : Nat)
    (hi : AllocInv R s) (he : ensure ord s bb op index = .ok (res, s1)) :
    AllocInv R s1
      ∧ ∀ w, s1.LiveValues.get? w ≠ none → s.LiveValues.get? w ≠ none ∨ w = op.Num := by
  unfold ensure at he
  split at he
  · rename_i hnone
    exact allocTemp_c29 R ord _ _ _ _ _ _ hi (regOf_none s _ hnone) he
  · rename_i loc hloc
    split at he
    · cases he
      exact ⟨hi, fun w hw => Or.inl hw⟩
    · rename_i hreg
      unfold loadSpill at he
      split at he
      · cases he
      · rename_i rOp s2 halloc
        cases he
        have hn : regOf s op.Num = none := by
          rw [regOf_some s _ loc hloc, if_neg hreg]
        obtain ⟨h1, h2⟩ := allocTemp_c29 R ord _ _ _ _ _ _ hi hn halloc
        exact ⟨AllocInv_sameLoc R _ _ (queueInstr_sameLoc _ _ _) h1, h2⟩

end regalloc

namespace regalloc

variable {τ : Type}

/-! ### The invariant along `allocBlock` (C29) -/

theorem temps_cons_temp (op : Operand τ) (rest : List (Option (Operand τ)))
    (h : op.cls = .Temp) : temps (some op :: rest) = op.Num :: temps rest := by
  simp [temps, h]

theorem temps_cons_other (op : Operand τ) (rest : List (Option (Operand τ)))
    (h : ¬ op.cls = .Temp) : temps (some op :: rest) = temps rest := by
  simp [temps, h]

theorem destsFresh_take (dests : List (Option (Operand τ))) :
    ∀ (seen : List Int) (d : Nat), destsFresh dests seen = true →
      destsFresh (dests.take d) seen = true := by
  induction dests with
  | nil => intro seen d h; simpa using h
  | cons o rest ih =>
    intro seen d h
    cases d with
    | zero => simp [destsFresh]
    | succ d =>
      cases o with
      | none =>
        simp only [List.take_succ_cons, destsFresh] at h ⊢
        exact ih seen d h
      | some op =>
        simp only [List.take_succ_cons, destsFresh] at h ⊢
        split at h
        · rename_i hc
          rw [if_pos hc]
          simp only [Bool.and_eq_true] at h ⊢
          exact ⟨h.1, ih _ d h.2⟩
        · rename_i hc
          rw [if_neg hc]
          exact ih seen d h

theorem allocOperands_c29 [Inhabited τ] (R : Int) (ord : GoMap useInfo → GoMap useInfo)
    (i : Nat) (ops : List (Option (Operand τ))) :
    ∀ (opIndex : Nat) (s s' : state τ) (bb bb' : List (Option (Instr τ))) (seen : List Int),
      AllocInv R s → LiveIn seen s →
      allocOperands ord i ops opIndex s bb = .ok (s', bb') →
      AllocInv R s' ∧ LiveIn (temps ops ++ seen) s' := by
  induction ops with
  | nil =>
    intro opIndex s s' bb bb' seen hi hl h
    simp only [allocOperands] at h
    cases h
    exact ⟨hi, by simpa [temps] using hl⟩
  | cons o rest ih =>
    intro opIndex s s' bb bb' seen hi hl h
    cases o with
    | none => simp only [allocOperands] at h; cases h
    | some op =>
      simp only [allocOperands] at h
      split at h
      · rename_i hc
        split at h
        · cases h
        · rename_i newOp s1 hens
          split at h
          · cases h
          · rename_i s2 hfree
            obtain ⟨hi1, hl1⟩ := ensure_c29 R ord _ _ _ _ _ _ hi hens
            obtain ⟨hi2, hl2⟩ := freeIfNotNeeded_c29 R _ _ _ _ _ hi1 hfree
            have hlive : LiveIn (op.Num :: seen) s2 := by
              intro w hw
              rcases hl1 w (hl2 w hw) with h' | h'
              · exact List.mem_cons_of_mem _ (hl w h')
              · rw [h']; exact List.mem_cons_self _ _
            obtain ⟨hi', hl'⟩ := ih _ _ _ _ _ _ hi2 hlive h
            refine ⟨hi', ?_⟩
            intro w hw
            have := hl' w hw
            rw [temps_cons_temp op rest hc]
            simp only [List.mem_append, List.mem_cons] at this ⊢
            tauto
      · rename_i hc
        obtain ⟨hi', hl'⟩ := ih _ _ _ _ _ _ hi hl h
        rw [temps_cons_other op rest hc]
        exact ⟨hi', hl'⟩

theorem allocDestinations_c29 [Inhabited τ] (R : Int) (ord : GoMap useInfo → GoMap useInfo)
    (i : Nat) (dests : List (Option (Operand τ))) :
    ∀ (destIndex : Nat) (s s' : state τ) (bb bb' : List (Option (Instr τ)))
      (seen : List Int),
      AllocInv R s → LiveIn seen s → destsFresh dests seen = true →
      allocDestinations ord i dests destIndex s bb = .ok (s', bb') →
      AllocInv R s' ∧ LiveIn (temps dests ++ seen) s' := by
  induction dests with
  | nil =>
    intro destIndex s s' bb bb' seen hi hl _ h
    simp only [allocDestinations] at h
    cases h
    exact ⟨hi, by simpa [temps] using hl⟩
  | cons o rest ih =>
    intro destIndex s s' bb bb' seen hi hl hf h
    cases o with
    | none => simp only [allocDestinations] at h; cases h
    | some op =>
      simp only [allocDestinations] at h
      simp only [destsFresh] at hf
      split at h
      · rename_i hc
        rw [if_pos hc] at hf
        simp only [Bool.and_eq_true, Bool.not_eq_true', decide_eq_false_iff_not] at hf
        split at h
        · cases h
        · rename_i newOp s1 halloc
          have hn : regOf s op.Num = none := by
            apply regOf_none
            by_contra hne
            exact hf.1 (hl _ hne)
          obtain ⟨hi1, hl1⟩ := allocTemp_c29 R ord _ _ _ _ _ _ hi hn halloc
          have hlive : LiveIn (op.Num :: seen) s1 := by
            intro w hw
            rcases hl1 w hw with h' | h'
            · exact List.mem_cons_of_mem _ (hl w h')
            · rw [h']; exact List.mem_cons_self _ _
          obtain ⟨hi', hl'⟩ := ih _ _ _ _ _ _ hi1 hlive hf.2 h
          refine ⟨hi', ?_⟩
          intro w hw
          have := hl' w hw
          rw [temps_cons_temp op rest hc]
          simp only [List.mem_append, List.mem_cons] at this ⊢
          tauto
      · rename_i hc
        rw [if_neg hc] at hf
        obtain ⟨hi', hl'⟩ := ih _ _ _ _ _ _ hi hl hf h
        rw [temps_cons_other op rest hc]
        exact ⟨hi', hl'⟩

theorem allocInstr_frame [Inhabited τ] (ord : GoMap useInfo → GoMap useInfo) (i : Nat)
    (s s' : state τ) (bb bb' : List (Option (Instr τ)))
    (h : allocInstr ord i s bb = .ok (s', bb')) :
    ∃ instr, bb[i]? = some (some instr) ∧ bb'.drop (i + 1) = bb.drop (i + 1) := by
  obtain ⟨-, instr, instr', hbb, -, hset⟩ :=
    allocInstr_rel (fun _ => True) (fun _ => True) ord i
      (fun s bb op idx res s1 _ he => by
        obtain ⟨r, hr⟩ := ensure_shape ord s s1 bb op res idx he
        exact ⟨trivial, r, hr, trivial⟩)
      (fun _ _ _ _ _ _ _ => trivial)
      (fun s bb op idx res s1 _ ha => by
        obtain ⟨r, hr⟩ := allocTemp_shape ord s s1 bb op res idx ha
        exact ⟨trivial, r, hr, trivial⟩)
      s s' bb bb' trivial h
  exact ⟨instr, hbb, by rw [hset, List.drop_set_of_lt _ _ (Nat.lt_succ_self i)]⟩

theorem freshFrom_at (bb : List (Option (Instr τ))) (i : Nat) (instr : Instr τ)
    (seen : List Int) (hbb : bb[i]? = some (some instr))
    (hf : freshFrom (bb.drop i) seen = true) :
    destsFresh instr.Destination (temps instr.Operands ++ seen) = true
      ∧ freshFrom (bb.drop (i + 1))
          (temps instr.Destination ++ (temps instr.Operands ++ seen)) = true := by
  obtain ⟨hi, hget⟩ := List.getElem?_eq_some_iff.1 hbb
  rw [List.drop_eq_getElem_cons hi, hget] at hf
  simpa [freshFrom] using hf

theorem allocInstr_c29 [Inhabited τ] (R : Int) (ord : GoMap useInfo → GoMap useInfo)
    (i : Nat) (s s' : state τ) (bb bb' : List (Option (Instr τ))) (seen : List Int)
    (hi : AllocInv R s) (hl : LiveIn seen s) (hf : freshFrom (bb.drop i) seen = true)
    (h : allocInstr ord i s bb = .ok (s', bb')) :
    AllocInv R s' ∧ ∃ seen', LiveIn seen' s' ∧ freshFrom (bb'.drop (i + 1)) seen' = true := by
  obtain ⟨instr, hbb, hdrop⟩ := allocInstr_frame ord i s s' bb bb' h
  obtain ⟨hd, hrest⟩ := freshFrom_at bb i instr seen hbb hf
  unfold allocInstr at h
  rw [hbb] at h
  simp only at h
  split at h
  · cases h
  · rename_i s1 bb1 hops
    obtain ⟨hi1, hl1⟩ := allocOperands_c29 R ord i _ _ _ _ _ _ _ hi hl hops
    obtain ⟨hi2, hl2⟩ := allocDestinations_c29 R ord i _ _ _ _ _ _ _ hi1 hl1 hd h
    exact ⟨hi2, _, hl2, by rw [hdrop]; exact hrest⟩

theorem allocLoop_c29 [Inhabited τ] (R : Int) (ord : GoMap useInfo → GoMap useInfo)
    (n : Nat) :
    ∀ (i : Nat) (s s' : state τ) (bb bb' : List (Option (Instr τ))) (seen : List Int),
      AllocInv R s → LiveIn seen s → freshFrom (bb.drop i) seen = true →
      allocLoop ord n i s bb = .ok (s', bb') →
      AllocInv R s' ∧ ∃ seen', LiveIn seen' s' ∧ freshFrom (bb'.drop (i + n)) seen' = true := by
  induction n with
  | zero =>
    intro i s s' bb bb' seen hi hl hf h
    simp only [allocLoop] at h
    cases h
    exact ⟨hi, seen, hl, hf⟩
  | succ n ih =>
    intro i s s' bb bb' seen hi hl hf h
    simp only [allocLoop] at h
    split at h
    · cases h
    · rename_i s1 bb1 hinstr
      obtain ⟨hi1, seen1, hl1, hf1⟩ := allocInstr_c29 R ord i _ _ _ _ seen hi hl hf hinstr
      obtain ⟨hi', seen', hl', hf'⟩ := ih (i + 1) _ _ _ _ seen1 hi1 hl1 hf1 h
      refine ⟨hi', seen', hl', ?_⟩
      have : i + (n + 1) = i + 1 + n := by omega
      rw [this]
      exact hf'

theorem newState_c29 [Inhabited τ] (R : Int) (s : state τ) (h : newState R = .ok s) :
    AllocInv R s ∧ LiveIn [] s := by
  unfold newState at h
  split at h
  · cases h
  · rename_i regs hregs
    split at h
    · cases h
    · cases h
      unfold newStack at hregs
      split at hregs
      · cases hregs
      · rename_i hR
        cases hregs
        have hel : stack.elems
            ({ items := (List.range R.toNat).map (fun (i : Nat) => R - (i : Int) - 1),
               top := R - 1 } : stack)
            = (List.range R.toNat).map (fun (i : Nat) => R - (i : Int) - 1) := by
          simp only [stack.elems]
          rw [List.take_of_length_le]
          simp
        refine ⟨⟨?_, ?_, ?_, ?_, ?_, ?_⟩, ?_⟩
        · unfold stack.WF
          simp only [List.length_map, List.length_range]
          constructor <;> omega
        · simp only [hel]
          refine List.Nodup.map ?_ (List.nodup_range _)
          intro a b hab
          simp only at hab
          omega
        · intro r
          simp only [hel, List.mem_map, List.mem_range, GoMap.get?]
          constructor
          · rintro ⟨a, ha, rfl⟩
            refine ⟨by omega, by omega, trivial⟩
          · rintro ⟨h1, h2, -⟩
            exact ⟨(R - r - 1).toNat, by omega, by omega⟩
        · simp [GoMap.keys]
        · intro r v hv
          simp [GoMap.get?] at hv
        · intro r v
          simp [GoMap.get?, regOf]
        · intro w hw
          simp [GoMap.get?] at hw

/-! ### From the invariant to the three properties of C29 -/

theorem AllocInv_partitioned (R : Int) (s : state τ) (hi : AllocInv R s) :
    RegsPartitioned R s := by
  refine ⟨List.Nodup.append hi.nodup hi.keysNodup ?_, ?_⟩
  · intro x hx hx'
    have h1 := ((hi.avail x).1 hx).2.2
    exact (GoMap.mem_keys _ _).1 hx' h1
  · intro r
    rw [List.mem_append]
    constructor
    · rintro (h | h)
      · exact ⟨((hi.avail r).1 h).1, ((hi.avail r).1 h).2.1⟩
      · rw [GoMap.mem_keys] at h
        cases hget : s.UsedRegs.get? r with
        | none => exact absurd hget h
        | some v => exact hi.range r v hget
    · rintro ⟨h1, h2⟩
      cases hget : s.UsedRegs.get? r with
      | none => exact Or.inl ((hi.avail r).2 ⟨h1, h2, hget⟩)
      | some v =>
        refine Or.inr ((GoMap.mem_keys _ _).2 ?_)
        rw [hget]
        simp

theorem regOf_iff (s : state τ) (v r : Int) :
    regOf s v = some r ↔
      ∃ info, s.LiveValues.get? v = some info ∧ info.IsReg = true ∧ info.Num = r := by
  cases hget : s.LiveValues.get? v with
  | none => simp [regOf, hget]
  | some info =>
    rw [regOf_some s v info hget]
    by_cases hr : info.IsReg = true
    · simp [hr]
    · simp [hr]

theorem AllocInv_agrees (R : Int) (s : state τ) (hi : AllocInv R s) : UsedAgreesLive s := by
  intro r v
  rw [hi.agree, regOf_iff]

theorem AllocInv_noShare (R : Int) (s : state τ) (hi : AllocInv R s) : NoSharedReg s := by
  intro v v' info info' h1 h2 h3 h4 h5
  have e1 : s.UsedRegs.get? info.Num = some v :=
    (hi.agree _ _).2 ((regOf_iff s v _).2 ⟨info, h1, h3, rfl⟩)
  have e2 : s.UsedRegs.get? info.Num = some v' :=
    (hi.agree _ _).2 ((regOf_iff s v' _).2 ⟨info', h2, h4, h5.symm⟩)
  rw [e1] at e2
  cases e2
  rfl

end regalloc

namespace regalloc

variable {τ : Type}

/-- C29, amended: let every occurrence of a temporary as a destination be the
first occurrence of that temporary in the block (the operands of an
instruction coming before its destinations).  Then, for every number of
registers `R`, every iteration order of the maps and every state `allocBlock`
reaches from `newState(R)`: after `k` instructions, after `k` instructions
and the first `m` operands of the next one, and after `k` instructions, the
operands of the next one and its first `d` destinations, the registers on
the free stack and the keys of `UsedRegs` are disjoint, without duplicates
and together the numbers `0, ..., R-1`; `UsedRegs[r] = v` exactly when
`LiveValues[v]` records `v` in register `r`; and no two live values share a
register. -/
theorem C29_registers_partitioned_and_agree [Inhabited τ]
    (ord : GoMap useInfo → GoMap useInfo) (R : Int) (s0 : state τ)
    (bb : List (Option (Instr τ)))
    (hs0 : newState R = .ok s0) (hfirst : definedAtFirst bb = true) :
    (∀ (k : Nat) (s : state τ) (bb' : List (Option (Instr τ))),
      allocLoop ord k 0 s0 bb = .ok (s, bb') →
      RegsPartitioned R s ∧ UsedAgreesLive s ∧ NoSharedReg s)
    ∧ (∀ (k m : Nat) (s1 s2 : state τ) (bb1 bb2 : List (Option (Instr τ))) (instr : Instr τ),
      allocLoop ord k 0 s0 bb = .ok (s1, bb1) → bb1[k]? = some (some instr) →
      allocOperands ord k (instr.Operands.take m) 0 s1 bb1 = .ok (s2, bb2) →
      RegsPartitioned R s2 ∧ UsedAgreesLive s2 ∧ NoSharedReg s2)
    ∧ (∀ (k d : Nat) (s1 s2 s3 : state τ) (bb1 bb2 bb3 : List (Option (Instr τ)))
        (instr : Instr τ),
      allocLoop ord k 0 s0 bb = .ok (s1, bb1) → bb1[k]? = some (some instr) →
      allocOperands ord k instr.Operands 0 s1 bb1 = .ok (s2, bb2) →
      allocDestinations ord k (instr.Destination.take d) 0 s2 bb2 = .ok (s3, bb3) →
      RegsPartitioned R s3 ∧ UsedAgreesLive s3 ∧ NoSharedReg s3) := by
  obtain ⟨hi0, hl0⟩ := newState_c29 R s0 hs0
  have hf0 : freshFrom (bb.drop 0) [] = true := by simpa [definedAtFirst] using hfirst
  have hall : ∀ s : state τ, AllocInv R s →
      RegsPartitioned R s ∧ UsedAgreesLive s ∧ NoSharedReg s :=
    fun s hi => ⟨AllocInv_partitioned R s hi, AllocInv_agrees R s hi, AllocInv_noShare R s hi⟩
  refine ⟨?_, ?_, ?_⟩
  · intro k s bb' h
    exact hall s (allocLoop_c29 R ord k 0 s0 s bb bb' [] hi0 hl0 hf0 h).1
  · intro k m s1 s2 bb1 bb2 instr h hbb hops
    obtain ⟨hi1, seen, hl1, -⟩ := allocLoop_c29 R ord k 0 s0 s1 bb bb1 [] hi0 hl0 hf0 h
    exact hall s2 (allocOperands_c29 R ord k _ _ _ _ _ _ seen hi1 hl1 hops).1
  · intro k d s1 s2 s3 bb1 bb2 bb3 instr h hbb hops hdst
    obtain ⟨hi1, seen, hl1, hf1⟩ := allocLoop_c29 R ord k 0 s0 s1 bb bb1 [] hi0 hl0 hf0 h
    rw [Nat.zero_add] at hf1
    obtain ⟨hd, -⟩ := freshFrom_at bb1 k instr seen hbb hf1
    obtain ⟨hi2, hl2⟩ := allocOperands_c29 R ord k _ _ _ _ _ _ seen hi1 hl1 hops
    exact hall s3 (allocDestinations_c29 R ord k _ _ _ _ _ _ _ hi2 hl2
      (destsFresh_take _ _ d hd) hdst).1

end regalloc

/-- C29 as written fails: in `c29Code` the temporary `t0` is the destination
of one instruction only, but it is used before that instruction and again
after it.  With two registers, after the second instruction `UsedRegs` holds
`t0` under the registers 0 and 1 while `LiveValues[t0]` records register 1:
`UsedRegs[0] = t0` has no counterpart in `LiveValues`. -/
theorem C29_counterexample_temporary_used_before_its_definition :
    (regalloc.newState 2 : Except Panic (regalloc.state Ty)) = .ok twoRegState
    ∧ regalloc.singleDef c29Code = true
    ∧ regalloc.definedAtFirst c29Code = false
    ∧ regalloc.allocLoop id 2 0 twoRegState c29Code = .ok c29AtTwo
    ∧ c29AtTwo.1.UsedRegs = [(0, 0), (1, 0)]
    ∧ c29AtTwo.1.LiveValues = [(0, { IsReg := true, Num := 1, NextUse := -1 })]
    ∧ ¬ regalloc.UsedAgreesLive c29AtTwo.1 := by
  refine ⟨rfl, rfl, rfl, rfl, rfl, rfl, ?_⟩
  intro h
  obtain ⟨info, h1, -, h3⟩ := (h 0 0).1 rfl
  have h2 : c29AtTwo.1.LiveValues.get? 0
      = some { IsReg := true, Num := 1, NextUse := -1 } := rfl
  rw [h2] at h1
  cases h1
  cases h3

/-- C29, amended, on `c4Code` with one register, where `t0` is spilled at the
definition of `t1`: after two instructions `UsedRegs` is `{0: t1}`, the free
stack is empty, and the three properties hold. -/
theorem C29_registers_partitioned_and_agree_witness :
    (regalloc.newState 1 : Except Panic (regalloc.state Ty)) = .ok oneRegState
    ∧ regalloc.definedAtFirst c4Code = true
    ∧ regalloc.allocLoop id 2 0 oneRegState c4Code = .ok c4AtTwo
    ∧ c4AtTwo.1.UsedRegs = [(0, 1)]
    ∧ c4AtTwo.1.AvailableRegs.elems = []
    ∧ (regalloc.RegsPartitioned 1 c4AtTwo.1 ∧ regalloc.UsedAgreesLive c4AtTwo.1
        ∧ regalloc.NoSharedReg c4AtTwo.1) :=
  ⟨rfl, rfl, rfl, rfl, rfl,
    (regalloc.C29_registers_partitioned_and_agree id 1 oneRegState c4Code rfl rfl).1 2
      c4AtTwo.1 c4AtTwo.2 rfl⟩


namespace mirchecker
variable {τ : Type}

/-! ### A `nil` operand is dereferenced before `checkForm` looks at it (C16) -/

theorem anyInvalidClass_append (l1 l2 : List (Option (Operand τ))) :
    anyInvalidClass (l1 ++ l2)
      = match anyInvalidClass l1 with
        | .ok false => anyInvalidClass l2
        | r => r := by
  induction l1 with
  | nil => simp [anyInvalidClass]
  | cons o l ih =>
    cases o with
    | none => simp [anyInvalidClass]
    | some op =>
      simp only [List.cons_append, anyInvalidClass]
      split
      · rfl
      · exact ih

theorem checkInvalidClass_scan (instr : Instr τ) :
    checkInvalidClass instr
      = match anyInvalidClass (instr.Operands ++ instr.Destination) with
        | .error e => .error e
        | .ok true => .ok (some (.invalidClass instr))
        | .ok false => .ok none := by
  unfold checkInvalidClass
  rw [anyInvalidClass_append]
  cases h1 : anyInvalidClass instr.Operands with
  | error e => rfl
  | ok b => cases b <;> rfl

theorem anyInvalidClass_nil_first (pre post : List (Option (Operand τ)))
    (hpre : ∀ o ∈ pre, ∃ op, o = some op ∧ op.cls ≠ .Invalid) :
    anyInvalidClass (pre ++ none :: post) = .error .nilDeref := by
  rw [anyInvalidClass_append, (anyInvalidClass_false pre).2 hpre]
  rfl

theorem anyInvalidClass_mem_nil (l : List (Option (Operand τ))) (h : none ∈ l) :
    anyInvalidClass l = .error .nilDeref ∨ anyInvalidClass l = .ok true := by
  induction l with
  | nil => simp at h
  | cons o l ih =>
    cases o with
    | none => exact Or.inl rfl
    | some op =>
      simp only [anyInvalidClass]
      split
      · exact Or.inr rfl
      · exact ih (by simpa using h)

/-- C16 (the code departs from it): for every predicate table, every checker
state and every MIR instruction, of any opcode and any arity, that has a
`nil` among its operands and destinations, `checkInstr` never returns the
`malformed instruction` diagnostic: `checkInvalidClass` runs first and reads
the class of every operand without a `nil` test, so `checkInstr` aborts on the
`nil` operand, unless an operand of class `invalid` stands before it, in
which case it returns `invalid class`.  When every entry before the first
`nil` is an operand of a valid class, `checkInstr` aborts. -/
theorem C16_nil_operand_aborts [DecidableEq τ] (E : Env τ) (s : state τ) (instr : Instr τ)
    (hnil : none ∈ instr.Operands ++ instr.Destination) :
    (checkInstr E s (some instr) = .error .nilDeref
      ∨ checkInstr E s (some instr) = .ok (some (.invalidClass instr), s))
    ∧ ∀ pre post : List (Option (Operand τ)),
        instr.Operands ++ instr.Destination = pre ++ none :: post →
        (∀ o ∈ pre, ∃ op, o = some op ∧ op.cls ≠ .Invalid) →
        checkInstr E s (some instr) = .error .nilDeref := by
  constructor
  · rcases anyInvalidClass_mem_nil _ hnil with h | h
    · left
      simp only [checkInstr, checkInvalidClass_scan, h]
    · right
      simp only [checkInstr, checkInvalidClass_scan, h]
  · intro pre post hsplit hpre
    have h := anyInvalidClass_nil_first pre post hpre
    rw [← hsplit] at h
    simp only [checkInstr, checkInvalidClass_scan, h]

end mirchecker

/-- C16, at `add <nil> r0 -> r0`, which has the arity of `add`: `checkInstr`
aborts on the `nil` operand, while `checkForm`, had it been reached, would
have answered `malformed instruction`.  The wrong-arity `add r0 -> r0` gets
`malformed instruction`, and the wrong-arity `add <invalid> -> r0` gets
`invalid class`, by the order of the two checks. -/
theorem C16_nil_operand_aborts_witness :
    mirchecker.checkInstr specEnv mirchecker.newState (some nilAdd) = .error .nilDeref
    ∧ mirchecker.checkForm nilAdd 2 1 = some (.malformedInstr nilAdd)
    ∧ mirchecker.checkInstr specEnv mirchecker.newState (some shortAdd)
        = .ok (some (.malformedInstr shortAdd), mirchecker.newState)
    ∧ mirchecker.checkInstr specEnv mirchecker.newState (some invalidShortAdd)
        = .ok (some (.invalidClass invalidShortAdd), mirchecker.newState) :=
  ⟨(mirchecker.C16_nil_operand_aborts specEnv mirchecker.newState nilAdd
      (by simp [nilAdd])).2 [] [some (regOp 0), some (regOp 0)] rfl
      (fun o ho => by simp at ho),
    rfl, rfl, rfl⟩


namespace regalloc

variable {τ : Type}

/-! ### What `freeIfNotNeeded` releases (C22) -/

theorem Push_ok (st : stack) (i : Int) (hwf : st.WF) : ∃ st1, st.Push i = .ok st1 := by
  unfold stack.WF at hwf
  obtain ⟨h1, h2⟩ := hwf
  unfold stack.Push
  simp only
  by_cases hlen : (st.items.length : Int) ≤ st.top + 1
  · rw [if_pos hlen, if_neg]
    · exact ⟨_, rfl⟩
    · simp only [List.length_append, List.length_cons, List.length_nil]
      push_cast
      omega
  · rw [if_neg hlen, if_neg]
    · exact ⟨_, rfl⟩
    · omega

theorem AllocReg_isReg (s s1 : state τ) (v r : Int) (ha : s.AllocReg v = .ok (r, s1)) :
    ∃ info, s1.LiveValues.get? v = some info ∧ info.IsReg = true := by
  unfold state.AllocReg at ha
  split at ha
  · cases ha
  · cases ha
    exact ⟨{ IsReg := true, Num := r, NextUse := -1 },
      by simp only [GoMap.get?_set, if_true], rfl⟩

theorem allocTemp_isReg [Inhabited τ] (ord : GoMap useInfo → GoMap useInfo)
    (s s1 : state τ) (bb : List (Option (Instr τ))) (op res : Operand τ) (index : Nat)
    (ha : allocTemp ord s bb op index = .ok (res, s1)) :
    ∃ info, s1.LiveValues.get? op.Num = some info ∧ info.IsReg = true := by
  unfold allocTemp at ha
  split at ha
  · split at ha
    · cases ha
    · rename_i r s2 halloc
      cases ha
      exact AllocReg_isReg _ _ _ _ halloc
  · unfold spillRegister at ha
    split at ha
    · cases ha
    · simp only at ha
      split at ha
      · cases ha
      · split at ha
        · cases ha
        · rename_i r2 s4 halloc
          split at ha
          · cases ha
          · cases ha
            exact AllocReg_isReg _ _ _ _ halloc

/-- Whatever path `ensure` takes, it leaves the value recorded in a
register. -/
theorem ensure_isReg [Inhabited τ] (ord : GoMap useInfo → GoMap useInfo)
    (s s1 : state τ) (bb : List (Option (Instr τ))) (op res : Operand τ) (index : Nat)
    (he : ensure ord s bb op index = .ok (res, s1)) :
    ∃ info, s1.LiveValues.get? op.Num = some info ∧ info.IsReg = true := by
  unfold ensure at he
  split at he
  · exact allocTemp_isReg ord _ _ _ _ _ _ he
  · rename_i loc hloc
    split at he
    · rename_i hreg
      cases he
      exact ⟨loc, hloc, hreg⟩
    · unfold loadSpill at he
      split at he
      · cases he
      · rename_i rOp s2 halloc
        cases he
        exact allocTemp_isReg ord s s2 bb op _ index halloc

/-- C22, amended: for a block without `nil` entries, a live value `v` and an
index `i`, the cached `NextUse` of `v` being -1 or the index of a use of `v`.
If `v` is used after `i`, `freeIfNotNeeded` leaves the two free stacks,
`UsedRegs`, `UsedAddr` and the residence of every live value as they were.
If `v` is not used after `i`: when `v` resides in a register `r`, the call
aborts unless `UsedRegs` has an entry for `r`, and else deletes `v` from the
live values, deletes `UsedRegs[r]` and pushes `r` on the free-register stack;
when `v` resides in a spill slot `a`, the call aborts with `freeing unused
addr` unless `UsedAddr` has an entry for `a`, and else deletes `v` from the
live values, deletes `UsedAddr[a]` and pushes `a` on the free-slot stack.  In
every state `allocBlock` reaches `UsedAddr` is empty, and a state left by
`ensure` on `v`, where `allocBlock` makes its one call of `freeIfNotNeeded`,
records `v` in a register. -/
theorem C22_freeIfNotNeeded_releases_recorded_location [Inhabited τ]
    (s : state τ) (bb : List (Option (Instr τ))) (v : Int) (info : useInfo) (i : Nat)
    (hnil : nilFree bb = true)
    (hlive : s.LiveValues.get? v = some info)
    (hcache : info.NextUse = -1
      ∨ ∃ j : Nat, info.NextUse = (j : Int) ∧ usedAt bb j v = true) :
    ((∃ j, i < j ∧ usedAt bb j v = true) →
      ∃ s', freeIfNotNeeded s bb v i = .ok s'
        ∧ s'.AvailableRegs = s.AvailableRegs ∧ s'.AvailableAddr = s.AvailableAddr
        ∧ s'.UsedRegs = s.UsedRegs ∧ s'.UsedAddr = s.UsedAddr
        ∧ ∀ w, (s'.LiveValues.get? w).map (fun x => (x.IsReg, x.Num))
            = (s.LiveValues.get? w).map (fun x => (x.IsReg, x.Num)))
    ∧ ((¬ ∃ j, i < j ∧ usedAt bb j v = true) → info.IsReg = true →
      (s.UsedRegs.get? info.Num = none →
        freeIfNotNeeded s bb v i = .error .freeingUnusedRegister)
      ∧ (s.UsedRegs.get? info.Num ≠ none → s.AvailableRegs.WF →
        ∃ s', freeIfNotNeeded s bb v i = .ok s'
          ∧ s'.LiveValues = s.LiveValues.delete v
          ∧ s'.UsedRegs = s.UsedRegs.delete info.Num
          ∧ s'.AvailableRegs.elems = s.AvailableRegs.elems ++ [info.Num]
          ∧ s'.AvailableAddr = s.AvailableAddr ∧ s'.UsedAddr = s.UsedAddr))
    ∧ ((¬ ∃ j, i < j ∧ usedAt bb j v = true) → info.IsReg = false →
      (s.UsedAddr.get? info.Num = none →
        freeIfNotNeeded s bb v i = .error .freeingUnusedAddr)
      ∧ (s.UsedAddr.get? info.Num ≠ none → s.AvailableAddr.WF →
        ∃ s', freeIfNotNeeded s bb v i = .ok s'
          ∧ s'.LiveValues = s.LiveValues.delete v
          ∧ s'.UsedAddr = s.UsedAddr.delete info.Num
          ∧ s'.AvailableAddr.elems = s.AvailableAddr.elems ++ [info.Num]
          ∧ s'.AvailableRegs = s.AvailableRegs ∧ s'.UsedRegs = s.UsedRegs))
    ∧ (∀ (ord : GoMap useInfo → GoMap useInfo) (R : Int) (k : Nat) (s0 : state τ)
        (bb0 bb' : List (Option (Instr τ))),
        newState R = .ok s0 → allocLoop ord k 0 s0 bb0 = .ok (s, bb') → s.UsedAddr = [])
    ∧ (∀ (ord : GoMap useInfo → GoMap useInfo) (t : state τ)
        (code : List (Option (Instr τ))) (op res : Operand τ) (idx : Nat),
        ensure ord t code op idx = .ok (res, s) → op.Num = v → info.IsReg = true) := by
  obtain ⟨b, s1, hn, hiff, hscan, hsame⟩ := isNeeded_spec s bb v info i hnil hlive hcache
  have hdead : (¬ ∃ j, i < j ∧ usedAt bb j v = true) →
      freeIfNotNeeded s bb v i = s.Free v := by
    intro hno
    have hb : b = false := by
      cases b with
      | false => rfl
      | true => exact absurd (hiff.1 rfl) hno
    subst hb
    have hs1 : s1 = s := hsame (Or.inl rfl)
    subst hs1
    simp only [freeIfNotNeeded, hn]
  refine ⟨?_, ?_, ?_, ?_, ?_⟩
  · intro hex
    have hb : b = true := hiff.2 hex
    subst hb
    refine ⟨s1, by simp only [freeIfNotNeeded, hn], ?_⟩
    by_cases hc : info.NextUse ≠ -1 ∧ (i : Int) < info.NextUse
    · have hs1 : s1 = s := hsame (Or.inr hc)
      subst hs1
      exact ⟨rfl, rfl, rfl, rfl, fun _ => rfl⟩
    · obtain ⟨j, -, -, -, hs1⟩ := hscan ⟨rfl, hc⟩
      subst hs1
      refine ⟨rfl, rfl, rfl, rfl, ?_⟩
      intro w
      simp only [GoMap.get?_set]
      by_cases e : v = w
      · subst e
        rw [if_pos rfl, hlive]
        rfl
      · rw [if_neg e]
  · intro hno hreg
    rw [hdead hno]
    unfold state.Free
    simp only [hlive, hreg, if_true]
    unfold state.FreeReg
    constructor
    · intro hnone
      simp only [hnone]
    · intro hsome hwf
      cases hget : s.UsedRegs.get? info.Num with
      | none => exact absurd hget hsome
      | some x =>
        obtain ⟨st1, hpush⟩ := Push_ok s.AvailableRegs info.Num hwf
        simp only [hget, hpush]
        exact ⟨_, rfl, rfl, rfl, (Push_elems _ _ _ hwf hpush).1, rfl, rfl⟩
  · intro hno hreg
    rw [hdead hno]
    unfold state.Free
    simp only [hlive, hreg]
    unfold state.FreeAddr
    constructor
    · intro hnone
      simp [hnone]
    · intro hsome hwf
      cases hget : s.UsedAddr.get? info.Num with
      | none => exact absurd hget hsome
      | some x =>
        obtain ⟨st1, hpush⟩ := Push_ok s.AvailableAddr info.Num hwf
        simp [hget, hpush]
        exact (Push_elems _ _ _ hwf hpush).1
  · intro ord R k s0 bb0 bb' hs0 hreach
    exact reached_usedAddr_nil ord R k s0 s bb0 bb' hs0 hreach
  · intro ord t code op res idx he hop
    obtain ⟨info', h1, h2⟩ := ensure_isReg ord t s code op res idx he
    rw [hop, hlive] at h1
    cases h1
    exact h2

end regalloc

/-- C22 as written fails: with one register, after three instructions of
`c4Code` the value `t0` resides in spill slot 0 and the block has no
instruction after index 4, but `freeIfNotNeeded(t0, 4)` aborts with `freeing
unused addr` instead of pushing slot 0 on the free-slot stack: `UsedAddr` has
no entry for the slot. -/
theorem C22_counterexample_spilled_value_is_not_freed :
    (regalloc.newState 1 : Except Panic (regalloc.state Ty)) = .ok oneRegState
    ∧ regalloc.allocLoop id 3 0 oneRegState c4Code = .ok c4AtThree
    ∧ c4AtThree.1.LiveValues.get? 0 = some { IsReg := false, Num := 0, NextUse := -1 }
    ∧ c4AtThree.1.UsedAddr = []
    ∧ c4AtThree.2.length = 5
    ∧ regalloc.freeIfNotNeeded c4AtThree.1 c4AtThree.2 0 4 = .error .freeingUnusedAddr :=
  ⟨rfl, rfl, rfl, rfl, rfl, rfl⟩

/-- C22, amended, at the call `allocBlock` makes, with one register, for the
operand of the third instruction of `c4Code`: `t1` resides in register 0 and
is not used after index 2; `freeIfNotNeeded` deletes it from the live values,
deletes `UsedRegs[0]` and pushes register 0 on the free-register stack. -/
theorem C22_freeIfNotNeeded_releases_recorded_location_witness :
    regalloc.nilFree c4AtTwo.2 = true
    ∧ c4AtTwo.1.LiveValues.get? 1 = some { IsReg := true, Num := 0, NextUse := -1 }
    ∧ c4AtTwo.1.UsedRegs = [(0, 1)]
    ∧ c4AtTwo.1.AvailableRegs.elems = []
    ∧ ∃ s', regalloc.freeIfNotNeeded c4AtTwo.1 c4AtTwo.2 1 2 = .ok s'
        ∧ s'.LiveValues = c4AtTwo.1.LiveValues.delete 1
        ∧ s'.UsedRegs = c4AtTwo.1.UsedRegs.delete 0
        ∧ s'.AvailableRegs.elems = c4AtTwo.1.AvailableRegs.elems ++ [0]
        ∧ s'.AvailableAddr = c4AtTwo.1.AvailableAddr ∧ s'.UsedAddr = c4AtTwo.1.UsedAddr :=
  ⟨rfl, rfl, rfl, rfl,
    ((regalloc.C22_freeIfNotNeeded_releases_recorded_location c4AtTwo.1 c4AtTwo.2 1
        { IsReg := true, Num := 0, NextUse := -1 } 2 rfl rfl (Or.inl rfl)).2.1
      (by
        rintro ⟨j, hj, hu⟩
        have hlt : j < 5 := regalloc.usedAt_lt_length c4AtTwo.2 j 1 hu
        have h3 : regalloc.usedAt c4AtTwo.2 3 1 = false := rfl
        have h4 : regalloc.usedAt c4AtTwo.2 4 1 = false := rfl
        have hj' : j = 3 ∨ j = 4 := by omega
        rcases hj' with rfl | rfl
        · rw [h3] at hu; cases hu
        · rw [h4] at hu; cases hu)
      rfl).2
      (by
        have : c4AtTwo.1.UsedRegs.get? 0 = some 1 := rfl
        intro h
        rw [this] at h
        cases h)
      (by
        have ht : c4AtTwo.1.AvailableRegs.top = -1 := rfl
        have hl : c4AtTwo.1.AvailableRegs.items.length = 1 := rfl
        unfold regalloc.stack.WF
        rw [ht, hl]
        decide)⟩


/-! ### The checkers on `nil` and empty slices, `nil` operands and `nil` instructions -/

/-- The HIR `checkForm` tests `Destination == nil`: a `nil` destination slice
gets `malformed instruction`, an empty slice that is not `nil` passes it and
the read of `Destination[0]` aborts.  In `checkBinary` a `nil` destination is
dereferenced only when the predicates of both operands hold.  The MIR
`checkInstr` on a `nil` instruction aborts in `nilInstr` when the state has no
procedure, and returns the diagnostic when procedure and block are set. -/
theorem checkers_on_nil_and_empty :
    hirchecker.checkInstr specEnv (some addNilDest) = .ok (some (.malformedInstr addNilDest))
    ∧ hirchecker.checkInstr specEnv (some addEmptyDest) = .error .indexOutOfRange
    ∧ hirchecker.checkInstr specEnv (some eqNilDest) = .error .nilDeref
    ∧ hirchecker.checkInstr specEnv (some eqNilDestBadOperand)
        = .ok (some (.malformedTypeOrClass eqNilDestBadOperand))
    ∧ mirchecker.checkInstr specEnv (mirchecker.newState : mirchecker.state Ty) none
        = .error .nilDeref
    ∧ (mirchecker.checkInstr specEnv
          { (mirchecker.newState : mirchecker.state Ty) with
            proc := some selfLoopProc, bb := some 0 } none).map Prod.fst
        = .ok (some .nilInstr) :=
  ⟨rfl, rfl, rfl, rfl, rfl, rfl⟩

end Millipascal
